import Mathlib

/-!
# DRAM controller core: bank state machine and transaction bookkeeping

A shallow embedding of `src/bankstate.cc`, `src/bankstate.h`,
`src/channel_state.h`, `src/command_queue.cc`, `src/controller.cc` and the
two memory systems of `src/dram_system.cc`.

Conventions of the embedding.

* `uint64_t` cycle counters and addresses are natural numbers.  Cycle counters
  start at zero and advance by one per tick, so the wrap-around of the machine
  type is not reachable in a run and is not modelled.
* `int` fields are integers.
* A call that ends the process (`AbruptExit`, `exit(1)`) makes the embedded
  function return `none`.
* `std::vector` is a list; `v[i]` reads with `List.getD` and writes with
  `List.set`.  For an index outside the vector the code has no defined
  behaviour; the embedding then reads a default value and writes nothing (an
  `int` index is taken through `Int.toNat`).
* `int` arithmetic is exact: the overflow of a signed counter has no defined
  behaviour in the code and is not modelled.
-/

namespace dramsim3

/-! ## Types of `common.h` -/

/-- Modelled from the spec: `common.h` is not among the sources.  The command
kinds of the data model (section 3); the variant the spec calls INVALID is the
one the code names `CommandType::SIZE`, which is also the number of kinds. -/
inductive CommandType where
  | READ
  | WRITE
  | READ_PRECHARGE
  | WRITE_PRECHARGE
  | ACTIVATE
  | PRECHARGE
  | REFRESH
  | REFRESH_BANK
  | SREF_ENTER
  | SREF_EXIT
  | SIZE
  deriving DecidableEq, Repr

/-- The `static_cast<int>` of a command kind, used to index `cmd_timing_`. -/
def CommandType.toNat : CommandType → Nat
  | .READ => 0
  | .WRITE => 1
  | .READ_PRECHARGE => 2
  | .WRITE_PRECHARGE => 3
  | .ACTIVATE => 4
  | .PRECHARGE => 5
  | .REFRESH => 6
  | .REFRESH_BANK => 7
  | .SREF_ENTER => 8
  | .SREF_EXIT => 9
  | .SIZE => 10

/-- Modelled from the spec: `common.h` is not among the sources.  The address
tuple (channel, rank, bankgroup, bank, row, column) of the data model. -/
structure Address where
  channel : Int
  rank : Int
  bankgroup : Int
  bank : Int
  row : Int
  column : Int
  deriving DecidableEq, Repr

/-- Modelled from the spec: `common.h` is not among the sources.  The
default-constructed address; the sources only ever overwrite its rank before
use, so the value of the fields is a convention. -/
def Address.default : Address :=
  { channel := -1, rank := -1, bankgroup := -1, bank := -1, row := -1, column := -1 }

/-- Modelled from the spec: `common.h` is not among the sources.  A command is
(kind, Address, original hex address). -/
structure Command where
  cmd_type : CommandType
  addr : Address
  hex_addr : Nat
  deriving DecidableEq, Repr

namespace Command

/-- Modelled from the spec: `common.h` is not among the sources.  The
default-constructed command `Command()`, the invalid command that stands for
"no command". -/
def invalid : Command :=
  { cmd_type := CommandType.SIZE, addr := Address.default, hex_addr := 0 }

/-- Modelled from the spec: `common.h` is not among the sources.  A command is
valid when its kind is not the invalid kind. -/
def IsValid (c : Command) : Bool := c.cmd_type != CommandType.SIZE

/-- Modelled from the spec: `common.h` is not among the sources.  The READ
family: READ and its auto-precharge form. -/
def IsRead (c : Command) : Bool :=
  c.cmd_type == CommandType.READ || c.cmd_type == CommandType.READ_PRECHARGE

/-- Modelled from the spec: `common.h` is not among the sources.  The WRITE
family: WRITE and its auto-precharge form. -/
def IsWrite (c : Command) : Bool :=
  c.cmd_type == CommandType.WRITE || c.cmd_type == CommandType.WRITE_PRECHARGE

/-- Modelled from the spec: `common.h` is not among the sources.  A data
command is one of the READ/WRITE family. -/
def IsReadWrite (c : Command) : Bool := c.IsRead || c.IsWrite

/-- Modelled from the spec: `common.h` is not among the sources.  The two
refresh kinds. -/
def IsRefresh (c : Command) : Bool :=
  c.cmd_type == CommandType.REFRESH || c.cmd_type == CommandType.REFRESH_BANK

/-- Accessor `Rank()`. -/
def Rank (c : Command) : Int := c.addr.rank

/-- Accessor `Bankgroup()`. -/
def Bankgroup (c : Command) : Int := c.addr.bankgroup

/-- Accessor `Bank()`. -/
def Bank (c : Command) : Int := c.addr.bank

/-- Accessor `Row()`. -/
def Row (c : Command) : Int := c.addr.row

/-- Accessor `Column()`. -/
def Column (c : Command) : Int := c.addr.column

end Command

/-! ## `bankstate.h` / `bankstate.cc` -/

/-- The enumeration `BankState::State`. -/
inductive State where
  | OPEN
  | CLOSED
  | SREF
  | PD
  | SIZE
  deriving DecidableEq, Repr

/-- The data members of `class BankState`.  `cmd_timing_` is the vector of
earliest legal cycles, indexed by `CommandType.toNat`. -/
structure BankState where
  state_ : State
  cmd_timing_ : List Nat
  open_row_ : Int
  row_hit_count_ : Int
  in_serve : Bool
  serve_end_cycle : Nat
  precharge_by_refresh : Bool
  activate_by_who : Bool
  deriving DecidableEq, Repr

namespace BankState

/-- The constructor `BankState::BankState()`: the timing vector has one
value-initialised entry per command kind, and the explicit assignments of zero
leave it all zero. -/
def init : BankState :=
  { state_ := State.CLOSED
    cmd_timing_ := List.replicate CommandType.SIZE.toNat 0
    open_row_ := -1
    row_hit_count_ := 0
    in_serve := false
    serve_end_cycle := 0
    precharge_by_refresh := false
    activate_by_who := false }

/-- The read `cmd_timing_[static_cast<int>(k)]`. -/
def timing (b : BankState) (k : CommandType) : Nat := b.cmd_timing_.getD k.toNat 0

/-- The nested `switch` of `BankState::GetReadyCommand` (lines 30-99): the
required command kind together with the bank after the writes to the
statistics flags, or `none` where the code calls `AbruptExit`. -/
def requiredType (b : BankState) (cmd : Command) : Option (CommandType × BankState) :=
  match b.state_ with
  | State.CLOSED =>
    match cmd.cmd_type with
    | CommandType.READ | CommandType.READ_PRECHARGE =>
      some (CommandType.ACTIVATE, { b with activate_by_who := false })
    | CommandType.WRITE | CommandType.WRITE_PRECHARGE =>
      some (CommandType.ACTIVATE, { b with activate_by_who := true })
    | CommandType.REFRESH | CommandType.REFRESH_BANK | CommandType.SREF_ENTER =>
      some (cmd.cmd_type, b)
    | _ => none
  | State.OPEN =>
    match cmd.cmd_type with
    | CommandType.READ | CommandType.READ_PRECHARGE
    | CommandType.WRITE | CommandType.WRITE_PRECHARGE =>
      if cmd.Row = b.open_row_ then some (cmd.cmd_type, b)
      else some (CommandType.PRECHARGE, { b with precharge_by_refresh := true })
    | CommandType.REFRESH | CommandType.REFRESH_BANK | CommandType.SREF_ENTER =>
      some (CommandType.PRECHARGE, { b with precharge_by_refresh := false })
    | _ => none
  | State.SREF =>
    match cmd.cmd_type with
    | CommandType.READ | CommandType.READ_PRECHARGE
    | CommandType.WRITE | CommandType.WRITE_PRECHARGE =>
      some (CommandType.SREF_EXIT, b)
    | _ => none
  | State.PD | State.SIZE => none

/-- The method `BankState::GetReadyCommand`: the returned command and the bank
afterwards; `none` where the code calls `AbruptExit`. -/
def GetReadyCommand (b : BankState) (cmd : Command) (clk : Nat) :
    Option (Command × BankState) :=
  match b.requiredType cmd with
  | none => none
  | some (required_type, b1) =>
    if required_type ≠ CommandType.SIZE then
      if clk ≥ b1.timing required_type then
        some ({ cmd_type := required_type, addr := cmd.addr, hex_addr := cmd.hex_addr }, b1)
      else some (Command.invalid, b1)
    else some (Command.invalid, b1)

/-- The method `BankState::UpdateState`; `none` where the code calls
`AbruptExit`. -/
def UpdateState (b : BankState) (cmd : Command) : Option BankState :=
  match b.state_ with
  | State.OPEN =>
    match cmd.cmd_type with
    | CommandType.READ | CommandType.WRITE =>
      some { b with row_hit_count_ := b.row_hit_count_ + 1 }
    | CommandType.READ_PRECHARGE | CommandType.WRITE_PRECHARGE | CommandType.PRECHARGE =>
      some { b with state_ := State.CLOSED, open_row_ := -1, row_hit_count_ := 0 }
    | _ => none
  | State.CLOSED =>
    match cmd.cmd_type with
    | CommandType.REFRESH | CommandType.REFRESH_BANK => some b
    | CommandType.ACTIVATE => some { b with state_ := State.OPEN, open_row_ := cmd.Row }
    | CommandType.SREF_ENTER => some { b with state_ := State.SREF }
    | _ => none
  | State.SREF =>
    match cmd.cmd_type with
    | CommandType.SREF_EXIT => some { b with state_ := State.CLOSED }
    | _ => none
  | _ => none

/-- The method `BankState::UpdateTiming`. -/
def UpdateTiming (b : BankState) (cmd_type : CommandType) (time : Nat) : BankState :=
  { b with cmd_timing_ := b.cmd_timing_.set cmd_type.toNat (max (b.timing cmd_type) time) }

/-- The inline accessor `IsRowOpen`. -/
def IsRowOpen (b : BankState) : Bool := b.state_ == State.OPEN

/-- The inline accessor `IsRowClosed`. -/
def IsRowClosed (b : BankState) : Bool := b.state_ == State.CLOSED

/-- The inline accessor `OpenRow`. -/
def OpenRow (b : BankState) : Int := b.open_row_

/-- The inline accessor `RowHitCount`. -/
def RowHitCount (b : BankState) : Int := b.row_hit_count_

/-- The inline mutator `SetInServe`. -/
def SetInServe (b : BankState) (in_ : Bool) : BankState := { b with in_serve := in_ }

/-- The inline mutator `SetServeEndCycle`. -/
def SetServeEndCycle (b : BankState) (end_cycle : Nat) : BankState :=
  { b with serve_end_cycle := end_cycle }

end BankState

/-! ## Reference tables of the specification for the bank state machine -/

/-- The data commands of the dispatch table: READ, READ_PRECHARGE, WRITE and
WRITE_PRECHARGE. -/
def isDataKind (k : CommandType) : Bool :=
  k == CommandType.READ || k == CommandType.READ_PRECHARGE ||
    k == CommandType.WRITE || k == CommandType.WRITE_PRECHARGE

/-- The rank-maintenance requests of the dispatch table: REFRESH, REFRESH_BANK
and SREF_ENTER. -/
def isMaintenanceKind (k : CommandType) : Bool :=
  k == CommandType.REFRESH || k == CommandType.REFRESH_BANK || k == CommandType.SREF_ENTER

/-- The dispatch table of section 4.1, written from the words of the
specification: the prerequisite kind for a bank in state `s` with open row
`open_row` and a request of kind `k` for row `row`; `none` for a pair outside
the table. -/
def specPrerequisite (s : State) (open_row : Int) (k : CommandType) (row : Int) :
    Option CommandType :=
  if s = State.CLOSED ∧ isDataKind k then some CommandType.ACTIVATE
  else if s = State.CLOSED ∧ isMaintenanceKind k then some k
  else if s = State.OPEN ∧ isDataKind k ∧ row = open_row then some k
  else if s = State.OPEN ∧ isDataKind k ∧ row ≠ open_row then some CommandType.PRECHARGE
  else if s = State.OPEN ∧ isMaintenanceKind k then some CommandType.PRECHARGE
  else if s = State.SREF ∧ isDataKind k then some CommandType.SREF_EXIT
  else none

/-- The transition table of section 4.1 for `UpdateState`, written from the
words of the specification; `none` for a pair that is an invariant
violation. -/
def specUpdateState (b : BankState) (cmd : Command) : Option BankState :=
  let k := cmd.cmd_type
  if b.state_ = State.OPEN ∧ (k = CommandType.READ ∨ k = CommandType.WRITE) then
    some { b with row_hit_count_ := b.row_hit_count_ + 1 }
  else if b.state_ = State.OPEN ∧ (k = CommandType.READ_PRECHARGE ∨
      k = CommandType.WRITE_PRECHARGE ∨ k = CommandType.PRECHARGE) then
    some { b with state_ := State.CLOSED, open_row_ := -1, row_hit_count_ := 0 }
  else if b.state_ = State.CLOSED ∧ k = CommandType.ACTIVATE then
    some { b with state_ := State.OPEN, open_row_ := cmd.addr.row }
  else if b.state_ = State.CLOSED ∧ (k = CommandType.REFRESH ∨ k = CommandType.REFRESH_BANK) then
    some b
  else if b.state_ = State.CLOSED ∧ k = CommandType.SREF_ENTER then
    some { b with state_ := State.SREF }
  else if b.state_ = State.SREF ∧ k = CommandType.SREF_EXIT then
    some { b with state_ := State.CLOSED }
  else none

/-- The bank states a run can reach: a freshly constructed bank, and any
successful `UpdateState`, `UpdateTiming` or `GetReadyCommand` call on a
reachable bank, where every ACTIVATE applied carries a non-negative row. -/
inductive BankReachable : BankState → Prop where
  | fresh : BankReachable BankState.init
  | updateState (b b1 : BankState) (cmd : Command) :
      BankReachable b → (cmd.cmd_type = CommandType.ACTIVATE → 0 ≤ cmd.Row) →
      b.UpdateState cmd = some b1 → BankReachable b1
  | updateTiming (b : BankState) (k : CommandType) (t : Nat) :
      BankReachable b → BankReachable (b.UpdateTiming k t)
  | getReadyCommand (b b1 : BankState) (cmd out : Command) (clk : Nat) :
      BankReachable b → b.GetReadyCommand cmd clk = some (out, b1) → BankReachable b1

/-! ## Transactions and configuration -/

/-- Modelled from the spec: `common.h` is not among the sources.  A
transaction is (hex_addr, is_write, added_cycle, complete_cycle). -/
structure Transaction where
  addr : Nat
  added_cycle : Nat
  complete_cycle : Nat
  is_write : Bool
  deriving DecidableEq, Repr

/-- Modelled from the spec: `common.h` is not among the sources.  The
constructor `Transaction(hex_addr, is_write)` used by the system front end. -/
def Transaction.mk2 (hex_addr : Nat) (is_write : Bool) : Transaction :=
  { addr := hex_addr, added_cycle := 0, complete_cycle := 0, is_write := is_write }

/-- Modelled from the spec: `configuration.h` is not among the sources.  The
configuration fields the controller core consumes (section 6); counts, sizes
and delays are natural numbers, the two textual options are kept as text, and
`AddressMapping` is the external address decomposition. -/
structure Config where
  ranks : Nat
  bankgroups : Nat
  banks_per_group : Nat
  banks : Nat
  cmd_queue_size : Nat
  trans_queue_size : Nat
  unified_queue : Bool
  row_buf_policy : String
  queue_structure : String
  enable_hbm_dual_cmd : Bool
  enable_self_refresh : Bool
  sref_threshold : Nat
  read_delay : Nat
  write_delay : Nat
  AddressMapping : Nat → Address

/-! ## `std::multimap<uint64_t, Transaction>`

The pending queues are multimaps.  The controller only ever counts the entries
of a key, finds an entry of a key, inserts, and erases the entry it found, so
the map is embedded as the list of its (key, value) pairs in insertion order:
entries of equal keys keep their insertion order, as in the multimap, and
`find` yields the first entry of the key. -/

/-- The call `m.count(k)`. -/
def mmCount (m : List (Nat × Transaction)) (k : Nat) : Nat := m.countP (fun p => p.1 == k)

/-- The call `m.insert(std::make_pair(k, t))`. -/
def mmInsert (m : List (Nat × Transaction)) (k : Nat) (t : Transaction) :
    List (Nat × Transaction) := m ++ [(k, t)]

/-- The call `m.find(k)`; `none` stands for `m.end()`. -/
def mmFind (m : List (Nat × Transaction)) (k : Nat) : Option (Nat × Transaction) :=
  m.find? (fun p => p.1 == k)

/-- The call `m.erase(it)` for the iterator `it = m.find(k)`. -/
def mmErase (m : List (Nat × Transaction)) (k : Nat) : List (Nat × Transaction) :=
  m.eraseP (fun p => p.1 == k)

/-- The capacity of a `std::vector` after `push_back` on a vector of the given
size and capacity: unchanged while there is room, otherwise the reallocation
doubles it (at least one). -/
def pushBackCapacity (size cap : Nat) : Nat :=
  if size < cap then cap else size + max size 1

/-! ## `channel_state.h` -/

/-- The data members of `class ChannelState` (the references to the
configuration and the timing table are passed separately). -/
structure ChannelState where
  rank_idle_cycles : List Int
  rank_is_sref_ : List Bool
  bank_states_ : List (List (List BankState))
  refresh_q_ : List Command
  four_aw_ : List (List Nat)
  thirty_two_aw_ : List (List Nat)
  deriving DecidableEq, Repr

namespace ChannelState

/-- The element `bank_states_[rank][bankgroup][bank]`. -/
def bank (cs : ChannelState) (rank bankgroup bank : Int) : BankState :=
  (((cs.bank_states_.getD rank.toNat []).getD bankgroup.toNat []).getD bank.toNat
    BankState.init)

/-- An assignment through `bank_states_[rank][bankgroup][bank]`. -/
def setBank (cs : ChannelState) (rank bankgroup bank : Int) (b : BankState) : ChannelState :=
  let r := cs.bank_states_.getD rank.toNat []
  let g := r.getD bankgroup.toNat []
  { cs with bank_states_ :=
      cs.bank_states_.set rank.toNat (r.set bankgroup.toNat (g.set bank.toNat b)) }

/-- The inline `IsRowOpen`. -/
def IsRowOpen (cs : ChannelState) (rank bankgroup bank : Int) : Bool :=
  (cs.bank rank bankgroup bank).IsRowOpen

/-- The inline `SetInServeBank`. -/
def SetInServeBank (cs : ChannelState) (rank bankgroup bank : Int) (in_serve : Bool) :
    ChannelState :=
  cs.setBank rank bankgroup bank ((cs.bank rank bankgroup bank).SetInServe in_serve)

/-- The inline `SetServeEndCycleBank`. -/
def SetServeEndCycleBank (cs : ChannelState) (rank bankgroup bank : Int) (end_cycle : Nat) :
    ChannelState :=
  cs.setBank rank bankgroup bank ((cs.bank rank bankgroup bank).SetServeEndCycle end_cycle)

/-- The inline `GetInServeBank`. -/
def GetInServeBank (cs : ChannelState) (rank bankgroup bank : Int) : Bool :=
  (cs.bank rank bankgroup bank).in_serve

/-- The inline `GetServeEndCycleBank`. -/
def GetServeEndCycleBank (cs : ChannelState) (rank bankgroup bank : Int) : Nat :=
  (cs.bank rank bankgroup bank).serve_end_cycle

/-- The inline `IsRowClosed`. -/
def IsRowClosed (cs : ChannelState) (rank bankgroup bank : Int) : Bool :=
  (cs.bank rank bankgroup bank).IsRowClosed

/-- The inline `GetPrechargeByRefreshBank`. -/
def GetPrechargeByRefreshBank (cs : ChannelState) (rank bankgroup bank : Int) : Bool :=
  (cs.bank rank bankgroup bank).precharge_by_refresh

/-- The inline `GetActivateByWhoBank`. -/
def GetActivateByWhoBank (cs : ChannelState) (rank bankgroup bank : Int) : Bool :=
  (cs.bank rank bankgroup bank).activate_by_who

/-- The inline `IsRankSelfRefreshing`. -/
def IsRankSelfRefreshing (cs : ChannelState) (rank : Int) : Bool :=
  cs.rank_is_sref_.getD rank.toNat false

/-- The inline `IsRefreshWaiting`. -/
def IsRefreshWaiting (cs : ChannelState) : Bool := !cs.refresh_q_.isEmpty

/-- The inline `PendingRefCommand`, the front of the refresh queue; `none` on
an empty queue, where the code has no defined result. -/
def PendingRefCommand (cs : ChannelState) : Option Command := cs.refresh_q_.head?

/-- The inline `OpenRow`. -/
def OpenRow (cs : ChannelState) (rank bankgroup bank : Int) : Int :=
  (cs.bank rank bankgroup bank).OpenRow

/-- The inline `RowHitCount`. -/
def RowHitCount (cs : ChannelState) (rank bankgroup bank : Int) : Int :=
  (cs.bank rank bankgroup bank).RowHitCount

end ChannelState

/-- The member functions whose bodies (`channel_state.cc`, `refresh.cc`) are
not among the sources, taken as parameters of the controller; `ρ` is the state
of the refresh engine.  Each takes the state it works on and returns the state
afterwards, `none` for a fatal exit. -/
structure Collaborators (ρ : Type) where
  GetReadyCommand : ChannelState → Command → Nat → Option (Command × ChannelState)
  UpdateTimingAndStates : ChannelState → Command → Nat → Option ChannelState
  IsAllBankIdleInRank : ChannelState → Int → Bool
  InServeBankNum : ChannelState → Int → Int
  RefreshClockTick : ρ → ChannelState → Option (ρ × ChannelState)

/-! ## `command_queue.cc` -/

/-- Modelled from the spec: `command_queue.h` is not among the sources.  The
queue structure is one of PER_BANK and PER_RANK (section 4.3). -/
inductive QueueStructure where
  | PER_RANK
  | PER_BANK
  | SIZE
  deriving DecidableEq, Repr

/-- The data members of `class CommandQueue` that `command_queue.cc` uses (the
references to the configuration and to the channel state are passed
separately).  `ref_q_indices_` is the set of queue indices under refresh. -/
structure CommandQueue where
  rank_q_empty : List Bool
  is_in_ref_ : Bool
  queue_size_ : Nat
  queue_idx_ : Int
  clk_ : Nat
  queue_structure_ : QueueStructure
  num_queues_ : Int
  queues_ : List (List Command)
  ref_q_indices_ : List Int
  deriving DecidableEq, Repr

namespace CommandQueue

/-- The constructor `CommandQueue::CommandQueue`; `none` for an unsupported
queue structure. -/
def init (config : Config) : Option CommandQueue :=
  if config.queue_structure = "PER_BANK" then
    some { rank_q_empty := List.replicate config.ranks true
           is_in_ref_ := false
           queue_size_ := config.cmd_queue_size
           queue_idx_ := 0
           clk_ := 0
           queue_structure_ := QueueStructure.PER_BANK
           num_queues_ := (config.banks : Int) * (config.ranks : Int)
           queues_ := List.replicate (config.banks * config.ranks) []
           ref_q_indices_ := [] }
  else if config.queue_structure = "PER_RANK" then
    some { rank_q_empty := List.replicate config.ranks true
           is_in_ref_ := false
           queue_size_ := config.cmd_queue_size
           queue_idx_ := 0
           clk_ := 0
           queue_structure_ := QueueStructure.PER_RANK
           num_queues_ := (config.ranks : Int)
           queues_ := List.replicate config.ranks []
           ref_q_indices_ := [] }
  else none

/-- The method `CommandQueue::GetQueueIndex`. -/
def GetQueueIndex (cq : CommandQueue) (config : Config) (rank bankgroup bank : Int) : Int :=
  if cq.queue_structure_ = QueueStructure.PER_RANK then rank
  else rank * (config.banks : Int) + bankgroup * (config.banks_per_group : Int) + bank

/-- The method `CommandQueue::GetQueue`, as the content of the selected
queue. -/
def GetQueue (cq : CommandQueue) (config : Config) (rank bankgroup bank : Int) :
    List Command :=
  cq.queues_.getD (cq.GetQueueIndex config rank bankgroup bank).toNat []

/-- The method `CommandQueue::WillAcceptCommand`. -/
def WillAcceptCommand (cq : CommandQueue) (config : Config) (rank bankgroup bank : Int) :
    Bool :=
  decide ((cq.GetQueue config rank bankgroup bank).length < cq.queue_size_)

/-- The method `CommandQueue::QueueEmpty`. -/
def QueueEmpty (cq : CommandQueue) : Bool := cq.queues_.all (fun q => q.isEmpty)

/-- The method `CommandQueue::AddCommand`. -/
def AddCommand (cq : CommandQueue) (config : Config) (cmd : Command) : Bool × CommandQueue :=
  let idx := (cq.GetQueueIndex config cmd.Rank cmd.Bankgroup cmd.Bank).toNat
  let queue := cq.queues_.getD idx []
  if queue.length < cq.queue_size_ then
    (true, { cq with queues_ := cq.queues_.set idx (queue ++ [cmd])
                     rank_q_empty := cq.rank_q_empty.set cmd.Rank.toNat false })
  else (false, cq)

/-- The method `CommandQueue::GetNextQueue`: the cursor advances cyclically;
the queue it selects is `queues_[queue_idx_]` of the result. -/
def GetNextQueue (cq : CommandQueue) : CommandQueue :=
  let idx := cq.queue_idx_ + 1
  { cq with queue_idx_ := if idx = cq.num_queues_ then 0 else idx }

/-- The insertion into the set `ref_q_indices_`. -/
def insertRefIndex (s : List Int) (i : Int) : List Int := if i ∈ s then s else i :: s

/-- The method `CommandQueue::GetRefQIndices`. -/
def GetRefQIndices (cq : CommandQueue) (config : Config) (ref : Command) : CommandQueue :=
  if ref.cmd_type = CommandType.REFRESH then
    if cq.queue_structure_ = QueueStructure.PER_BANK then
      let indices := (List.range cq.num_queues_.toNat).foldl
        (fun s i => if Int.ofNat (i / config.banks) = ref.Rank then
          insertRefIndex s (Int.ofNat i) else s)
        cq.ref_q_indices_
      { cq with ref_q_indices_ := indices }
    else { cq with ref_q_indices_ := insertRefIndex cq.ref_q_indices_ ref.Rank }
  else
    let idx := cq.GetQueueIndex config ref.Rank ref.Bankgroup ref.Bank
    { cq with ref_q_indices_ := insertRefIndex cq.ref_q_indices_ idx }

/-- The method `CommandQueue::ArbitratePrecharge` for the queue
`pre ++ cmd :: post` and the iterator at `cmd`. -/
def ArbitratePrecharge (cs : ChannelState) (pre : List Command) (cmd : Command)
    (post : List Command) : Bool :=
  if pre.any (fun p => p.Rank == cmd.Rank && p.Bankgroup == cmd.Bankgroup &&
      p.Bank == cmd.Bank) then false
  else
    let open_row := cs.OpenRow cmd.Rank cmd.Bankgroup cmd.Bank
    let pending_row_hits_exist := (cmd :: post).any (fun p => p.Row == open_row &&
      p.Bank == cmd.Bank && p.Bankgroup == cmd.Bankgroup && p.Rank == cmd.Rank)
    let rowhit_limit_reached := decide (cs.RowHitCount cmd.Rank cmd.Bankgroup cmd.Bank ≥ 4)
    if !pending_row_hits_exist || rowhit_limit_reached then true else false

/-- The method `CommandQueue::HasRWDependency` for the entries `pre` before
the iterator at `cmd`. -/
def HasRWDependency (pre : List Command) (cmd : Command) : Bool :=
  pre.any (fun e => e.IsRead && e.Row == cmd.Row && e.Column == cmd.Column &&
    e.Bank == cmd.Bank && e.Bankgroup == cmd.Bankgroup)

/-- The loop of `CommandQueue::GetFirstReadyInQueue` with the iterator between
`pre` and the entries still to visit. -/
def firstReadyFrom {ρ : Type} (env : Collaborators ρ) (clk : Nat) :
    List Command → List Command → ChannelState → Option (Command × ChannelState)
  | _, [], cs => some (Command.invalid, cs)
  | pre, e :: post, cs =>
    match env.GetReadyCommand cs e clk with
    | none => none
    | some (cmd, cs1) =>
      if !cmd.IsValid then firstReadyFrom env clk (pre ++ [e]) post cs1
      else if cmd.cmd_type = CommandType.PRECHARGE then
        if !ArbitratePrecharge cs1 pre e post then firstReadyFrom env clk (pre ++ [e]) post cs1
        else some (cmd, cs1)
      else if cmd.IsWrite then
        if HasRWDependency pre e then firstReadyFrom env clk (pre ++ [e]) post cs1
        else some (cmd, cs1)
      else some (cmd, cs1)

/-- The method `CommandQueue::GetFirstReadyInQueue`. -/
def GetFirstReadyInQueue {ρ : Type} (env : Collaborators ρ) (cq : CommandQueue)
    (cs : ChannelState) (queue : List Command) : Option (Command × ChannelState) :=
  firstReadyFrom env cq.clk_ [] queue cs

/-- The method `CommandQueue::EraseRWCommand`; `none` for the exit
"cannot find cmd". -/
def EraseRWCommand (cq : CommandQueue) (config : Config) (cmd : Command) :
    Option CommandQueue :=
  let idx := (cq.GetQueueIndex config cmd.Rank cmd.Bankgroup cmd.Bank).toNat
  let queue := cq.queues_.getD idx []
  if queue.any (fun e => cmd.hex_addr == e.hex_addr && cmd.cmd_type == e.cmd_type) then
    let erased := queue.eraseP (fun e => cmd.hex_addr == e.hex_addr && cmd.cmd_type == e.cmd_type)
    some { cq with queues_ := cq.queues_.set idx erased }
  else none

/-- The `for` loop of `CommandQueue::GetCommandToIssue` with the given number
of iterations left. -/
def issueLoop {ρ : Type} (env : Collaborators ρ) (config : Config) :
    Nat → CommandQueue → ChannelState → Option (Command × CommandQueue × ChannelState)
  | 0, cq, cs => some (Command.invalid, cq, cs)
  | n + 1, cq, cs =>
    let cq1 := cq.GetNextQueue
    let queue := cq1.queues_.getD cq1.queue_idx_.toNat []
    if cq1.is_in_ref_ && cq1.ref_q_indices_.contains cq1.queue_idx_ then
      issueLoop env config n cq1 cs
    else
      match GetFirstReadyInQueue env cq1 cs queue with
      | none => none
      | some (cmd, cs1) =>
        if cmd.IsValid then
          if cmd.IsReadWrite then
            match cq1.EraseRWCommand config cmd with
            | none => none
            | some cq2 => some (cmd, cq2, cs1)
          else some (cmd, cq1, cs1)
        else issueLoop env config n cq1 cs1

/-- The method `CommandQueue::GetCommandToIssue`. -/
def GetCommandToIssue {ρ : Type} (env : Collaborators ρ) (config : Config)
    (cq : CommandQueue) (cs : ChannelState) :
    Option (Command × CommandQueue × ChannelState) :=
  issueLoop env config cq.num_queues_.toNat cq cs

/-- The method `CommandQueue::FinishRefresh`; `none` also when the refresh
queue is empty, where the code has no defined result. -/
def FinishRefresh {ρ : Type} (env : Collaborators ρ) (config : Config)
    (cq : CommandQueue) (cs : ChannelState) :
    Option (Command × CommandQueue × ChannelState) :=
  match cs.PendingRefCommand with
  | none => none
  | some ref =>
    let cq1 := if !cq.is_in_ref_ then { cq.GetRefQIndices config ref with is_in_ref_ := true }
      else cq
    match env.GetReadyCommand cs ref cq1.clk_ with
    | none => none
    | some (cmd, cs1) =>
      if cmd.IsRefresh then
        some (cmd, { cq1 with ref_q_indices_ := [], is_in_ref_ := false }, cs1)
      else some (cmd, cq1, cs1)

/-- Modelled from the spec: `command_queue.h`, which holds the body of
`CommandQueue::ClockTick`, is not among the sources.  The queue's private
clock advances in lock-step with the controller's (section 5). -/
def ClockTick (cq : CommandQueue) : CommandQueue := { cq with clk_ := cq.clk_ + 1 }

end CommandQueue

/-! ## `controller.h` / `controller.cc`

The statistics object `simple_stats_` only accumulates counters that the
controller never reads back, and its implementation is not among the sources;
it is left out of the embedding.  The counters the controller keeps itself
(`read_cmds` and the like) are kept. -/

/-- The enumeration `RowBufPolicy`. -/
inductive RowBufPolicy where
  | OPEN_PAGE
  | CLOSE_PAGE
  | SIZE
  deriving DecidableEq, Repr

/-- The data members of `class Controller`.  Each transaction vector comes with
its capacity, which `WillAcceptTransaction` and `ScheduleTransaction` read. -/
structure Controller (ρ : Type) where
  channel_id_ : Int
  clk_ : Nat
  config_ : Config
  channel_state_ : ChannelState
  cmd_queue_ : CommandQueue
  refresh_ : ρ
  concurrent_serve : Nat
  is_active_cycles : Bool
  read_cmds : Nat
  write_cmds : Nat
  read_row_hits : Nat
  write_row_hits : Nat
  is_unified_queue_ : Bool
  unified_queue_ : List Transaction
  unified_queue_capacity : Nat
  read_queue_ : List Transaction
  read_queue_capacity : Nat
  write_buffer_ : List Transaction
  write_buffer_capacity : Nat
  pending_rd_q_ : List (Nat × Transaction)
  pending_wr_q_ : List (Nat × Transaction)
  return_queue_ : List Transaction
  row_buf_policy_ : RowBufPolicy
  last_trans_clk_ : Nat
  write_draining_ : Int

namespace Controller

variable {ρ : Type}

/-- The constructor `Controller::Controller`, given the constructed channel
state and refresh engine; `none` when the command queue cannot be built. -/
def init (channel : Int) (config : Config) (channel_state : ChannelState) (refresh : ρ) :
    Option (Controller ρ) :=
  match CommandQueue.init config with
  | none => none
  | some cq =>
    some { channel_id_ := channel
           clk_ := 0
           config_ := config
           channel_state_ := channel_state
           cmd_queue_ := cq
           refresh_ := refresh
           concurrent_serve := 0
           is_active_cycles := false
           read_cmds := 0
           write_cmds := 0
           read_row_hits := 0
           write_row_hits := 0
           is_unified_queue_ := config.unified_queue
           unified_queue_ := []
           unified_queue_capacity := if config.unified_queue then config.trans_queue_size else 0
           read_queue_ := []
           read_queue_capacity := if config.unified_queue then 0 else config.trans_queue_size
           write_buffer_ := []
           write_buffer_capacity := if config.unified_queue then 0 else config.trans_queue_size
           pending_rd_q_ := []
           pending_wr_q_ := []
           return_queue_ := []
           row_buf_policy_ :=
             if config.row_buf_policy = "CLOSE_PAGE" then RowBufPolicy.CLOSE_PAGE
             else RowBufPolicy.OPEN_PAGE
           last_trans_clk_ := 0
           write_draining_ := 0 }

/-- The method `Controller::WillAcceptTransaction`. -/
def WillAcceptTransaction (c : Controller ρ) (_hex_addr : Nat) (is_write : Bool) : Bool :=
  if c.is_unified_queue_ then decide (c.unified_queue_.length < c.unified_queue_capacity)
  else if !is_write then decide (c.read_queue_.length < c.read_queue_capacity)
  else decide (c.write_buffer_.length < c.write_buffer_capacity)

/-- The statement `unified_queue_.push_back(trans)`. -/
def pushUnified (c : Controller ρ) (trans : Transaction) : Controller ρ :=
  { c with unified_queue_ := c.unified_queue_ ++ [trans]
           unified_queue_capacity :=
             pushBackCapacity c.unified_queue_.length c.unified_queue_capacity }

/-- The statement `read_queue_.push_back(trans)`. -/
def pushRead (c : Controller ρ) (trans : Transaction) : Controller ρ :=
  { c with read_queue_ := c.read_queue_ ++ [trans]
           read_queue_capacity := pushBackCapacity c.read_queue_.length c.read_queue_capacity }

/-- The statement `write_buffer_.push_back(trans)`. -/
def pushWrite (c : Controller ρ) (trans : Transaction) : Controller ρ :=
  { c with write_buffer_ := c.write_buffer_ ++ [trans]
           write_buffer_capacity :=
             pushBackCapacity c.write_buffer_.length c.write_buffer_capacity }

/-- The method `Controller::AddTransaction`: the returned flag and the
controller afterwards. -/
def AddTransaction (c : Controller ρ) (trans : Transaction) : Bool × Controller ρ :=
  let trans := { trans with added_cycle := c.clk_ }
  let c := { c with last_trans_clk_ := c.clk_ }
  if trans.is_write then
    let c1 :=
      if mmCount c.pending_wr_q_ trans.addr = 0 then
        let c2 := { c with pending_wr_q_ := mmInsert c.pending_wr_q_ trans.addr trans }
        if c2.is_unified_queue_ then c2.pushUnified trans else c2.pushWrite trans
      else c
    let trans := { trans with complete_cycle := c1.clk_ + 1 }
    (true, { c1 with return_queue_ := c1.return_queue_ ++ [trans] })
  else
    if mmCount c.pending_wr_q_ trans.addr > 0 then
      let trans := { trans with complete_cycle := c.clk_ + 1 }
      (true, { c with return_queue_ := c.return_queue_ ++ [trans] })
    else
      let c1 := { c with pending_rd_q_ := mmInsert c.pending_rd_q_ trans.addr trans }
      if mmCount c1.pending_rd_q_ trans.addr = 1 then
        (true, if c1.is_unified_queue_ then c1.pushUnified trans else c1.pushRead trans)
      else (true, c1)

/-- The method `Controller::TransToCommand`. -/
def TransToCommand (c : Controller ρ) (trans : Transaction) : Command :=
  let addr := c.config_.AddressMapping trans.addr
  let cmd_type :=
    if c.row_buf_policy_ = RowBufPolicy.OPEN_PAGE then
      (if trans.is_write then CommandType.WRITE else CommandType.READ)
    else (if trans.is_write then CommandType.WRITE_PRECHARGE else CommandType.READ_PRECHARGE)
  { cmd_type := cmd_type, addr := addr, hex_addr := trans.addr }

/-- The `while` loop of `Controller::IssueCommand` (lines 337-343) with
`num_reads` iterations left, on the pending reads and the return queue;
`none` if `find` were to miss, which the count excludes. -/
def returnPendingReads (hex_addr complete_cycle : Nat) :
    Nat → List (Nat × Transaction) → List Transaction →
      Option (List (Nat × Transaction) × List Transaction)
  | 0, pending, ret => some (pending, ret)
  | n + 1, pending, ret =>
    match mmFind pending hex_addr with
    | none => none
    | some it =>
      returnPendingReads hex_addr complete_cycle n (mmErase pending hex_addr)
        (ret ++ [{ it.2 with complete_cycle := complete_cycle }])

/-- The first part of `Controller::IssueCommand` (lines 326-355): the update of
the pending queues and of the return queue, with the value of `num_count`;
`none` for the exits "not in read queue" and "not in write queue". -/
def issuePending (c : Controller ρ) (cmd : Command) : Option (Controller ρ × Nat) :=
  if cmd.IsRead then
    let num_reads := mmCount c.pending_rd_q_ cmd.hex_addr
    if num_reads = 0 then none
    else
      match returnPendingReads cmd.hex_addr (c.clk_ + c.config_.read_delay) num_reads
          c.pending_rd_q_ c.return_queue_ with
      | none => none
      | some (pending, ret) =>
        some ({ c with pending_rd_q_ := pending, return_queue_ := ret }, num_reads)
  else if cmd.IsWrite then
    match mmFind c.pending_wr_q_ cmd.hex_addr with
    | none => none
    | some _ => some ({ c with pending_wr_q_ := mmErase c.pending_wr_q_ cmd.hex_addr }, 1)
  else some (c, 0)

/-- The method `Controller::UpdateCommandStats`, on the counters kept in the
controller; `none` for the `AbruptExit` of the default case. -/
def UpdateCommandStats (c : Controller ρ) (cmd : Command) (count : Nat) :
    Option (Controller ρ) :=
  match cmd.cmd_type with
  | CommandType.READ | CommandType.READ_PRECHARGE =>
    let c1 := { c with read_cmds := c.read_cmds + count }
    if c1.channel_state_.RowHitCount cmd.Rank cmd.Bankgroup cmd.Bank ≠ 0 then
      some { c1 with read_row_hits := c1.read_row_hits + count }
    else some c1
  | CommandType.WRITE | CommandType.WRITE_PRECHARGE =>
    let c1 := { c with write_cmds := c.write_cmds + count }
    if c1.channel_state_.RowHitCount cmd.Rank cmd.Bankgroup cmd.Bank ≠ 0 then
      some { c1 with write_row_hits := c1.write_row_hits + count }
    else some c1
  | CommandType.ACTIVATE | CommandType.PRECHARGE | CommandType.REFRESH
  | CommandType.REFRESH_BANK | CommandType.SREF_ENTER | CommandType.SREF_EXIT => some c
  | CommandType.SIZE => none

/-- The last part of `Controller::IssueCommand` (lines 365-405): the in-serve
marking of the addressed bank. -/
def markInServe (c : Controller ρ) (cmd : Command) : Controller ρ :=
  if cmd.IsRead then
    let cs1 := c.channel_state_.SetInServeBank cmd.Rank cmd.Bankgroup cmd.Bank true
    { c with channel_state_ :=
        cs1.SetServeEndCycleBank cmd.Rank cmd.Bankgroup cmd.Bank (c.clk_ + c.config_.read_delay) }
  else if cmd.cmd_type = CommandType.ACTIVATE then
    if !c.channel_state_.GetActivateByWhoBank cmd.Rank cmd.Bankgroup cmd.Bank then
      { c with channel_state_ :=
          c.channel_state_.SetInServeBank cmd.Rank cmd.Bankgroup cmd.Bank true }
    else c
  else if cmd.cmd_type = CommandType.PRECHARGE then
    if c.channel_state_.GetPrechargeByRefreshBank cmd.Rank cmd.Bankgroup cmd.Bank then
      { c with channel_state_ :=
          c.channel_state_.SetInServeBank cmd.Rank cmd.Bankgroup cmd.Bank true }
    else c
  else c

/-- The method `Controller::IssueCommand`; `none` for a fatal exit. -/
def IssueCommand (env : Collaborators ρ) (c : Controller ρ) (cmd : Command) :
    Option (Controller ρ) :=
  match c.issuePending cmd with
  | none => none
  | some (c1, num_count) =>
    match c1.UpdateCommandStats cmd num_count with
    | none => none
    | some c2 =>
      match env.UpdateTimingAndStates c2.channel_state_ cmd c2.clk_ with
      | none => none
      | some cs => some (markInServe { c2 with channel_state_ := cs } cmd)

/-- The transaction vector `ScheduleTransaction` works on (line 293). -/
inductive TransQueue where
  | unified
  | writeBuffer
  | readQueue
  deriving DecidableEq, Repr

/-- The choice of the reference `queue` in `ScheduleTransaction` (line 293). -/
def scheduleQueue (c : Controller ρ) : TransQueue :=
  if c.is_unified_queue_ then TransQueue.unified
  else if c.write_draining_ > 0 then TransQueue.writeBuffer
  else TransQueue.readQueue

/-- The content of the chosen transaction vector. -/
def getTransQueue (c : Controller ρ) : TransQueue → List Transaction
  | TransQueue.unified => c.unified_queue_
  | TransQueue.writeBuffer => c.write_buffer_
  | TransQueue.readQueue => c.read_queue_

/-- An update of the content of the chosen transaction vector (an erase, which
keeps the capacity). -/
def setTransQueue (c : Controller ρ) (q : TransQueue) (l : List Transaction) : Controller ρ :=
  match q with
  | TransQueue.unified => { c with unified_queue_ := l }
  | TransQueue.writeBuffer => { c with write_buffer_ := l }
  | TransQueue.readQueue => { c with read_queue_ := l }

/-- The scan of the `for` loop of `ScheduleTransaction` (lines 294-296): the
first transaction whose command the command queue will accept, with the
entries before and after it. -/
def firstAcceptable (c : Controller ρ) :
    List Transaction → List Transaction →
      Option (List Transaction × Transaction × List Transaction)
  | _, [] => none
  | pre, t :: post =>
    let cmd := c.TransToCommand t
    if c.cmd_queue_.WillAcceptCommand c.config_ cmd.Rank cmd.Bankgroup cmd.Bank then
      some (pre, t, post)
    else firstAcceptable c (pre ++ [t]) post

/-- The method `Controller::ScheduleTransaction`. -/
def ScheduleTransaction (c : Controller ρ) : Controller ρ :=
  let c1 :=
    if c.write_draining_ = 0 ∧ c.is_unified_queue_ = false then
      if c.write_buffer_.length ≥ c.write_buffer_capacity ∨
          (c.write_buffer_.length > 8 ∧ c.cmd_queue_.QueueEmpty = true) then
        { c with write_draining_ := Int.ofNat c.write_buffer_.length }
      else c
    else c
  let q := c1.scheduleQueue
  match c1.firstAcceptable [] (c1.getTransQueue q) with
  | none => c1
  | some (pre, t, post) =>
    let cmd := c1.TransToCommand t
    if c1.is_unified_queue_ = false ∧ cmd.IsWrite = true then
      if mmCount c1.pending_rd_q_ t.addr > 0 then { c1 with write_draining_ := 0 }
      else
        let c2 := { c1 with write_draining_ := c1.write_draining_ - 1 }
        let c3 := { c2 with cmd_queue_ := (c2.cmd_queue_.AddCommand c2.config_ cmd).2 }
        c3.setTransQueue q (pre ++ post)
    else
      let c3 := { c1 with cmd_queue_ := (c1.cmd_queue_.AddCommand c1.config_ cmd).2 }
      c3.setTransQueue q (pre ++ post)

/-- The body of the innermost loop of `Controller::Calculate_stats` for one
bank (lines 197-204). -/
def clearServed (clk : Nat) (cs : ChannelState) (i j k : Int) : ChannelState :=
  let cs1 := if clk = cs.GetServeEndCycleBank i j k + 1 then cs.SetInServeBank i j k false
    else cs
  if cs1.IsRowClosed i j k then cs1.SetInServeBank i j k false else cs1

/-- The method `Controller::Calculate_stats`. -/
def Calculate_stats (env : Collaborators ρ) (c : Controller ρ) : Controller ρ :=
  (List.range c.config_.ranks).foldl
    (fun c i =>
      let cs := (List.range c.config_.bankgroups).foldl
        (fun cs j => (List.range c.config_.banks_per_group).foldl
          (fun cs k => clearServed c.clk_ cs (Int.ofNat i) (Int.ofNat j) (Int.ofNat k)) cs)
        c.channel_state_
      let c1 := { c with channel_state_ := cs }
      if env.InServeBankNum cs (Int.ofNat i) > 0 then
        { c1 with is_active_cycles := true
                  concurrent_serve :=
                    c1.concurrent_serve + (env.InServeBankNum cs (Int.ofNat i)).toNat }
      else c1)
    { c with is_active_cycles := false, concurrent_serve := 0 }

/-- The start of `Controller::ClockTick` (lines 90-93): the command of the
refresh in progress if a refresh waits, else the invalid command. -/
def fetchRefresh (env : Collaborators ρ) (c : Controller ρ) :
    Option (Command × Controller ρ) :=
  if c.channel_state_.IsRefreshWaiting then
    match c.cmd_queue_.FinishRefresh env c.config_ c.channel_state_ with
    | none => none
    | some (cmd, cq, cs) => some (cmd, { c with cmd_queue_ := cq, channel_state_ := cs })
  else some (Command.invalid, c)

/-- The first part of `Controller::ClockTick` (lines 90-102): the refresh
command if there is one, else the next command of the command queue. -/
def fetchCommand (env : Collaborators ρ) (c : Controller ρ) :
    Option (Command × Controller ρ) :=
  match c.fetchRefresh env with
  | none => none
  | some (cmd, c1) =>
    if !cmd.IsValid then
      match c1.cmd_queue_.GetCommandToIssue env c1.config_ c1.channel_state_ with
      | none => none
      | some (cmd2, cq, cs) => some (cmd2, { c1 with cmd_queue_ := cq, channel_state_ := cs })
    else some (cmd, c1)

/-- The issue part of `Controller::ClockTick` (lines 104-117): the controller
afterwards and the flag `cmd_issued`. -/
def issueFetched (env : Collaborators ρ) (c : Controller ρ) (cmd : Command) :
    Option (Controller ρ × Bool) :=
  if cmd.IsValid then
    match c.IssueCommand env cmd with
    | none => none
    | some c1 =>
      if c1.config_.enable_hbm_dual_cmd then
        match c1.cmd_queue_.GetCommandToIssue env c1.config_ c1.channel_state_ with
        | none => none
        | some (second_cmd, cq, cs) =>
          let c2 := { c1 with cmd_queue_ := cq, channel_state_ := cs }
          if second_cmd.IsValid && (second_cmd.IsReadWrite != cmd.IsReadWrite) then
            match c2.IssueCommand env second_cmd with
            | none => none
            | some c3 => some (c3, true)
          else some (c2, true)
      else some (c1, true)
  else some (c, false)

/-- The first power loop of `Controller::ClockTick` (lines 125-139), on the
channel state. -/
def powerUpdate (env : Collaborators ρ) (c : Controller ρ) : Controller ρ :=
  (List.range c.config_.ranks).foldl
    (fun c i =>
      if c.channel_state_.IsRankSelfRefreshing (Int.ofNat i) then c
      else
        let cs := c.channel_state_
        if env.IsAllBankIdleInRank cs (Int.ofNat i) then
          { c with channel_state_ :=
              { cs with rank_idle_cycles :=
                  cs.rank_idle_cycles.set i (cs.rank_idle_cycles.getD i 0 + 1) } }
        else
          { c with channel_state_ :=
              { cs with rank_idle_cycles := cs.rank_idle_cycles.set i 0 } })
    c

/-- The address `Address()` with its rank set, as built in the self-refresh
loop. -/
def rankAddress (i : Nat) : Address := { Address.default with rank := Int.ofNat i }

/-- The second power loop of `Controller::ClockTick` (lines 145-172) over the
ranks still to visit; it stops at the first command it issues. -/
def selfRefreshLoop (env : Collaborators ρ) : List Nat → Controller ρ → Option (Controller ρ)
  | [], c => some c
  | i :: rest, c =>
    if c.channel_state_.IsRankSelfRefreshing (Int.ofNat i) then
      if !(c.cmd_queue_.rank_q_empty.getD i true) then
        match env.GetReadyCommand c.channel_state_
            { cmd_type := CommandType.SREF_EXIT, addr := rankAddress i,
              hex_addr := 18446744073709551615 } c.clk_ with
        | none => none
        | some (cmd, cs) =>
          if cmd.IsValid then IssueCommand env { c with channel_state_ := cs } cmd
          else selfRefreshLoop env rest { c with channel_state_ := cs }
      else selfRefreshLoop env rest c
    else
      if c.cmd_queue_.rank_q_empty.getD i true &&
          decide (c.channel_state_.rank_idle_cycles.getD i 0 ≥ Int.ofNat c.config_.sref_threshold)
      then
        match env.GetReadyCommand c.channel_state_
            { cmd_type := CommandType.SREF_ENTER, addr := rankAddress i,
              hex_addr := 18446744073709551615 } c.clk_ with
        | none => none
        | some (cmd, cs) =>
          if cmd.IsValid then IssueCommand env { c with channel_state_ := cs } cmd
          else selfRefreshLoop env rest { c with channel_state_ := cs }
      else selfRefreshLoop env rest c

/-- The second power update of `Controller::ClockTick` (lines 143-173). -/
def selfRefresh (env : Collaborators ρ) (c : Controller ρ) (cmd_issued : Bool) :
    Option (Controller ρ) :=
  if c.config_.enable_self_refresh && !cmd_issued then
    selfRefreshLoop env (List.range c.config_.ranks) c
  else some c

/-- The method `Controller::ClockTick`; `none` for a fatal exit. -/
def ClockTick (env : Collaborators ρ) (c : Controller ρ) : Option (Controller ρ) :=
  match env.RefreshClockTick c.refresh_ c.channel_state_ with
  | none => none
  | some (r, cs) =>
    let c1 := { c with refresh_ := r, channel_state_ := cs }
    match c1.fetchCommand env with
    | none => none
    | some (cmd, c2) =>
      match c2.issueFetched env cmd with
      | none => none
      | some (c3, cmd_issued) =>
        match (c3.powerUpdate env).selfRefresh env cmd_issued with
        | none => none
        | some c5 =>
          let c6 := (c5.Calculate_stats env).ScheduleTransaction
          some { c6 with clk_ := c6.clk_ + 1, cmd_queue_ := c6.cmd_queue_.ClockTick }

/-- The `while` loop of `Controller::ReturnDoneTrans` with the iterator
between `pre` and the entries still to visit: the entry it returns and the
queue without it, or `none` when no entry is due. -/
def returnDoneFrom (clk : Nat) :
    List Transaction → List Transaction → Option (Transaction × List Transaction)
  | _, [] => none
  | pre, t :: post =>
    if clk ≥ t.complete_cycle then some (t, pre ++ post)
    else returnDoneFrom clk (pre ++ [t]) post

/-- The method `Controller::ReturnDoneTrans`: the returned pair (address,
write flag as an `int`) and the controller afterwards; the pair
`std::make_pair(-1, -1)` has the first component converted to `uint64_t`. -/
def ReturnDoneTrans (c : Controller ρ) (clk : Nat) : (Nat × Int) × Controller ρ :=
  match returnDoneFrom clk [] c.return_queue_ with
  | some (t, rest) => ((t.addr, if t.is_write then 1 else 0), { c with return_queue_ := rest })
  | none => ((18446744073709551615, -1), c)

/-- The controller states a run can reach: the constructed controller, and
the state after any call of `AddTransaction`, `ClockTick` (when it does not
exit) or `ReturnDoneTrans` on a reachable state. -/
inductive Reachable (env : Collaborators ρ) : Controller ρ → Prop where
  | init (channel : Int) (config : Config) (channel_state : ChannelState) (refresh : ρ)
      (c : Controller ρ) :
      Controller.init channel config channel_state refresh = some c → Reachable env c
  | addTransaction (c : Controller ρ) (trans : Transaction) :
      Reachable env c → Reachable env (c.AddTransaction trans).2
  | clockTick (c c1 : Controller ρ) :
      Reachable env c → c.ClockTick env = some c1 → Reachable env c1
  | returnDoneTrans (c : Controller ρ) (clk : Nat) :
      Reachable env c → Reachable env (c.ReturnDoneTrans clk).2

end Controller

/-! ## A small system for the examples -/

/-- The configuration of scenario S1: one rank, two bankgroups of four banks,
open-page policy, split transaction queues, per-bank command queues. -/
def sampleConfig : Config :=
  { ranks := 1
    bankgroups := 2
    banks_per_group := 4
    banks := 8
    cmd_queue_size := 8
    trans_queue_size := 32
    unified_queue := false
    row_buf_policy := "OPEN_PAGE"
    queue_structure := "PER_BANK"
    enable_hbm_dual_cmd := false
    enable_self_refresh := false
    sref_threshold := 1000
    read_delay := 20
    write_delay := 10
    AddressMapping := fun a =>
      { channel := 0, rank := 0, bankgroup := Int.ofNat (a / 64 % 2),
        bank := Int.ofNat (a / 128 % 4), row := Int.ofNat (a / 512),
        column := Int.ofNat (a % 64) } }

/-- The channel state of the sample system: every bank freshly constructed, no
refresh waiting. -/
def sampleChannelState : ChannelState :=
  { rank_idle_cycles := [0]
    rank_is_sref_ := [false]
    bank_states_ := [List.replicate 2 (List.replicate 4 BankState.init)]
    refresh_q_ := []
    four_aw_ := [[]]
    thirty_two_aw_ := [[]] }

/-- The collaborators of the sample system: a query or an update goes to the
addressed bank alone, no timing constraint links two commands, and there is
no refresh engine. -/
def sampleCollaborators : Collaborators Unit :=
  { GetReadyCommand := fun cs cmd clk =>
      match (cs.bank cmd.Rank cmd.Bankgroup cmd.Bank).GetReadyCommand cmd clk with
      | none => none
      | some (out, b) => some (out, cs.setBank cmd.Rank cmd.Bankgroup cmd.Bank b)
    UpdateTimingAndStates := fun cs cmd _ =>
      match (cs.bank cmd.Rank cmd.Bankgroup cmd.Bank).UpdateState cmd with
      | none => none
      | some b => some (cs.setBank cmd.Rank cmd.Bankgroup cmd.Bank b)
    IsAllBankIdleInRank := fun cs rank =>
      (cs.bank_states_.getD rank.toNat []).all (fun g => g.all (fun b => !b.IsRowOpen))
    InServeBankNum := fun cs rank =>
      Int.ofNat (((cs.bank_states_.getD rank.toNat []).map
        (fun g => g.countP (fun b => b.in_serve))).sum)
    RefreshClockTick := fun r cs => some (r, cs) }

/-- The sample controller at cycle 5, with bank (0, 0, 0) open on row 8, two
reads pending for address 4096, one read pending for address 64 and one write
pending for address 2748. -/
def sampleController : Controller Unit :=
  { channel_id_ := 0
    clk_ := 5
    config_ := sampleConfig
    channel_state_ := sampleChannelState.setBank 0 0 0
      { BankState.init with state_ := State.OPEN, open_row_ := 8 }
    cmd_queue_ :=
      { rank_q_empty := [true]
        is_in_ref_ := false
        queue_size_ := 8
        queue_idx_ := 0
        clk_ := 5
        queue_structure_ := QueueStructure.PER_BANK
        num_queues_ := 8
        queues_ := List.replicate 8 []
        ref_q_indices_ := [] }
    refresh_ := ()
    concurrent_serve := 0
    is_active_cycles := false
    read_cmds := 0
    write_cmds := 0
    read_row_hits := 0
    write_row_hits := 0
    is_unified_queue_ := false
    unified_queue_ := []
    unified_queue_capacity := 0
    read_queue_ := [⟨64, 3, 0, false⟩]
    read_queue_capacity := 32
    write_buffer_ := [⟨2748, 0, 0, true⟩]
    write_buffer_capacity := 32
    pending_rd_q_ := [(4096, ⟨4096, 1, 0, false⟩), (64, ⟨64, 3, 0, false⟩),
      (4096, ⟨4096, 2, 0, false⟩)]
    pending_wr_q_ := [(2748, ⟨2748, 0, 0, true⟩)]
    return_queue_ := []
    row_buf_policy_ := RowBufPolicy.OPEN_PAGE
    last_trans_clk_ := 3
    write_draining_ := 0 }

/-! ## Runs of the command queue -/

namespace CommandQueue

/-- The command-queue states a run can reach: the constructed queue, and the
state after any call of `AddCommand`, `GetCommandToIssue`, `FinishRefresh`
(when they do not exit) or `ClockTick` on a reachable state. -/
inductive Reachable {ρ : Type} (env : Collaborators ρ) (config : Config) :
    CommandQueue → Prop where
  | init (cq : CommandQueue) : CommandQueue.init config = some cq → Reachable env config cq
  | addCommand (cq : CommandQueue) (cmd : Command) :
      Reachable env config cq → Reachable env config (cq.AddCommand config cmd).2
  | getCommandToIssue (cq cq1 : CommandQueue) (cs cs1 : ChannelState) (cmd : Command) :
      Reachable env config cq →
      cq.GetCommandToIssue env config cs = some (cmd, cq1, cs1) → Reachable env config cq1
  | finishRefresh (cq cq1 : CommandQueue) (cs cs1 : ChannelState) (cmd : Command) :
      Reachable env config cq →
      cq.FinishRefresh env config cs = some (cmd, cq1, cs1) → Reachable env config cq1
  | clockTick (cq : CommandQueue) : Reachable env config cq → Reachable env config cq.ClockTick

end CommandQueue


/-! ## `dram_system.cc`: the ideal memory system

`dram_system.h` is not among the sources; the members below are those the
bodies of `dram_system.cc` use.  The two registered callbacks are embedded as
the sequence of their calls. -/

/-- A call of `read_callback_` or of `write_callback_` with its address. -/
inductive CallbackEvent where
  | read (addr : Nat)
  | write (addr : Nat)
  deriving DecidableEq, Repr

/-- The callback call that completes a transaction: the write callback for a
write, the read callback otherwise, with the transaction's address. -/
def Transaction.callback (t : Transaction) : CallbackEvent :=
  if t.is_write then CallbackEvent.write t.addr else CallbackEvent.read t.addr

/-- The data members of `class IdealDRAMSystem` that `AddTransaction` and
`ClockTick` use; `latency_` is the configured `ideal_memory_latency`. -/
structure IdealDRAMSystem where
  clk_ : Nat
  latency_ : Nat
  infinite_buffer_q_ : List Transaction
  deriving DecidableEq, Repr

namespace IdealDRAMSystem

/-- The constructor `IdealDRAMSystem::IdealDRAMSystem` for a configured
latency. -/
def init (ideal_memory_latency : Nat) : IdealDRAMSystem :=
  { clk_ := 0, latency_ := ideal_memory_latency, infinite_buffer_q_ := [] }

/-- The method `IdealDRAMSystem::AddTransaction`. -/
def AddTransaction (s : IdealDRAMSystem) (hex_addr : Nat) (is_write : Bool) :
    Bool × IdealDRAMSystem :=
  let trans := { Transaction.mk2 hex_addr is_write with added_cycle := s.clk_ }
  (true, { s with infinite_buffer_q_ := s.infinite_buffer_q_ ++ [trans] })

/-- The `for` loop of `IdealDRAMSystem::ClockTick` (lines 335-348) with the
iterator between the entries `kept` and the entries still ahead: the callback
calls made so far and the buffer at the end.  After an erase the iterator
stands on the next entry and the unconditional advance of line 345 steps over
it. -/
def scan (clk latency : Nat) :
    List Transaction → List Transaction → List CallbackEvent →
      List CallbackEvent × List Transaction
  | kept, [], events => (events, kept)
  | kept, [t], events =>
    if clk - t.added_cycle ≥ latency then (events ++ [t.callback], kept)
    else (events, kept ++ [t])
  | kept, t :: u :: rest, events =>
    if clk - t.added_cycle ≥ latency then
      scan clk latency (kept ++ [u]) rest (events ++ [t.callback])
    else scan clk latency (kept ++ [t]) (u :: rest) events

/-- The method `IdealDRAMSystem::ClockTick`: the callback calls of the cycle
and the system afterwards. -/
def ClockTick (s : IdealDRAMSystem) : List CallbackEvent × IdealDRAMSystem :=
  let r := scan s.clk_ s.latency_ [] s.infinite_buffer_q_ []
  (r.1, { s with infinite_buffer_q_ := r.2, clk_ := s.clk_ + 1 })

/-- The calls of `ClockTick` of `n` consecutive cycles: for each cycle its
clock value and its callback calls, and the system at the end. -/
def run : Nat → IdealDRAMSystem → List (Nat × List CallbackEvent) × IdealDRAMSystem
  | 0, s => ([], s)
  | n + 1, s =>
    let r := s.ClockTick
    let rest := run n r.2
    ((s.clk_, r.1) :: rest.1, rest.2)

end IdealDRAMSystem


/-! ## The parts of the controller state and the effect of issued commands -/

namespace Controller

variable {ρ : Type}

/-- The members of the controller that only `AddTransaction`,
`ScheduleTransaction` and the clock advance of `ClockTick` write. -/
def front (c : Controller ρ) :=
  (c.channel_id_, c.clk_, c.config_, c.is_unified_queue_, c.unified_queue_,
    c.unified_queue_capacity, c.read_queue_, c.read_queue_capacity, c.write_buffer_,
    c.write_buffer_capacity, c.row_buf_policy_, c.last_trans_clk_, c.write_draining_)

/-- The pending queues and the return queue. -/
def ledger (c : Controller ρ) := (c.pending_rd_q_, c.pending_wr_q_, c.return_queue_)

/-- The relation between the controller before and after a stretch of
`ClockTick` in which commands are issued: `front` is kept, and `ledger`
changes only as the first part of `IssueCommand` (lines 326-355) changes it,
once per issued command. -/
inductive Issued : Controller ρ → Controller ρ → Prop where
  | same (c c1 : Controller ρ) : c1.front = c.front → c1.ledger = c.ledger → Issued c c1
  | issue (c c1 c2 c3 : Controller ρ) (cmd : Command) (n : Nat) :
      Issued c c1 → c1.issuePending cmd = some (c2, n) →
      c3.front = c2.front → c3.ledger = c2.ledger → Issued c c3

end Controller


/-! ## Runs of the controller with the history of its reads -/

namespace Controller

variable {ρ : Type}

/-- The number of read entries for address `a` in the return queue. -/
def returnReads (c : Controller ρ) (a : Nat) : Nat :=
  c.return_queue_.countP (fun t => t.addr == a && !t.is_write)

/-- A run of the controller together with its history: `accepted` lists the
addresses of the reads handed to `AddTransaction` so far, `returned` the
addresses that `ReturnDoneTrans` has returned with write flag 0, which is what
the system passes to the read callback. -/
inductive ReadHistory (env : Collaborators ρ) : Controller ρ → List Nat → List Nat → Prop where
  | init (channel : Int) (config : Config) (channel_state : ChannelState) (refresh : ρ)
      (c : Controller ρ) :
      Controller.init channel config channel_state refresh = some c →
      ReadHistory env c [] []
  | addTransaction (c : Controller ρ) (trans : Transaction) (accepted returned : List Nat) :
      ReadHistory env c accepted returned →
      ReadHistory env (c.AddTransaction trans).2
        (if trans.is_write then accepted else accepted ++ [trans.addr]) returned
  | clockTick (c c1 : Controller ρ) (accepted returned : List Nat) :
      ReadHistory env c accepted returned → c.ClockTick env = some c1 →
      ReadHistory env c1 accepted returned
  | returnDoneTrans (c : Controller ρ) (clk : Nat) (accepted returned : List Nat) :
      ReadHistory env c accepted returned →
      ReadHistory env (c.ReturnDoneTrans clk).2 accepted
        (if (c.ReturnDoneTrans clk).1.2 = 0 then returned ++ [(c.ReturnDoneTrans clk).1.1]
          else returned)

end Controller

/-- The controller that `Controller.init` builds for channel 0 from the sample
configuration and channel state. -/
def sampleInitial : Controller Unit :=
  { channel_id_ := 0
    clk_ := 0
    config_ := sampleConfig
    channel_state_ := sampleChannelState
    cmd_queue_ :=
      { rank_q_empty := [true]
        is_in_ref_ := false
        queue_size_ := 8
        queue_idx_ := 0
        clk_ := 0
        queue_structure_ := QueueStructure.PER_BANK
        num_queues_ := 8
        queues_ := List.replicate 8 []
        ref_q_indices_ := [] }
    refresh_ := ()
    concurrent_serve := 0
    is_active_cycles := false
    read_cmds := 0
    write_cmds := 0
    read_row_hits := 0
    write_row_hits := 0
    is_unified_queue_ := false
    unified_queue_ := []
    unified_queue_capacity := 0
    read_queue_ := []
    read_queue_capacity := 32
    write_buffer_ := []
    write_buffer_capacity := 32
    pending_rd_q_ := []
    pending_wr_q_ := []
    return_queue_ := []
    row_buf_policy_ := RowBufPolicy.OPEN_PAGE
    last_trans_clk_ := 0
    write_draining_ := 0 }


namespace Controller

variable {ρ : Type}

/-- The controller states reachable when the host honours the backpressure:
as `Reachable`, but `AddTransaction` is only called after
`WillAcceptTransaction` has returned true for the address and direction. -/
inductive GuardedReachable (env : Collaborators ρ) : Controller ρ → Prop where
  | init (channel : Int) (config : Config) (channel_state : ChannelState) (refresh : ρ)
      (c : Controller ρ) :
      Controller.init channel config channel_state refresh = some c →
      GuardedReachable env c
  | addTransaction (c : Controller ρ) (trans : Transaction) :
      GuardedReachable env c →
      c.WillAcceptTransaction trans.addr trans.is_write = true →
      GuardedReachable env (c.AddTransaction trans).2
  | clockTick (c c1 : Controller ρ) :
      GuardedReachable env c → c.ClockTick env = some c1 → GuardedReachable env c1
  | returnDoneTrans (c : Controller ρ) (clk : Nat) :
      GuardedReachable env c → GuardedReachable env (c.ReturnDoneTrans clk).2

/-- The transaction queues are within the configured size and the vectors in
use still have the capacity reserved at construction. -/
def QueuesWithinSize (c : Controller ρ) : Prop :=
  (c.is_unified_queue_ = true →
    c.unified_queue_capacity = c.config_.trans_queue_size ∧
    c.unified_queue_.length ≤ c.config_.trans_queue_size ∧
    c.read_queue_ = [] ∧ c.write_buffer_ = []) ∧
  (c.is_unified_queue_ = false →
    c.read_queue_capacity = c.config_.trans_queue_size ∧
    c.write_buffer_capacity = c.config_.trans_queue_size ∧
    c.read_queue_.length ≤ c.config_.trans_queue_size ∧
    c.write_buffer_.length ≤ c.config_.trans_queue_size ∧
    c.unified_queue_ = [])

end Controller


/-! ## The commands issued in one controller cycle -/

namespace Controller

variable {ρ : Type}

/-- The issue part of `Controller::ClockTick` (lines 104-117) as `issueFetched`,
with the commands it passes to `IssueCommand`, in call order. -/
def issueFetchedTrace (env : Collaborators ρ) (c : Controller ρ) (cmd : Command) :
    Option ((Controller ρ × Bool) × List Command) :=
  if cmd.IsValid then
    match c.IssueCommand env cmd with
    | none => none
    | some c1 =>
      if c1.config_.enable_hbm_dual_cmd then
        match c1.cmd_queue_.GetCommandToIssue env c1.config_ c1.channel_state_ with
        | none => none
        | some (second_cmd, cq, cs) =>
          let c2 := { c1 with cmd_queue_ := cq, channel_state_ := cs }
          if second_cmd.IsValid && (second_cmd.IsReadWrite != cmd.IsReadWrite) then
            match c2.IssueCommand env second_cmd with
            | none => none
            | some c3 => some ((c3, true), [cmd, second_cmd])
          else some ((c2, true), [cmd])
      else some ((c1, true), [cmd])
  else some ((c, false), [])

/-- The second power loop of `Controller::ClockTick` (lines 145-172) as
`selfRefreshLoop`, with the commands it passes to `IssueCommand`. -/
def selfRefreshLoopTrace (env : Collaborators ρ) :
    List Nat → Controller ρ → Option (Controller ρ × List Command)
  | [], c => some (c, [])
  | i :: rest, c =>
    if c.channel_state_.IsRankSelfRefreshing (Int.ofNat i) then
      if !(c.cmd_queue_.rank_q_empty.getD i true) then
        match env.GetReadyCommand c.channel_state_
            { cmd_type := CommandType.SREF_EXIT, addr := rankAddress i,
              hex_addr := 18446744073709551615 } c.clk_ with
        | none => none
        | some (cmd, cs) =>
          if cmd.IsValid then
            match IssueCommand env { c with channel_state_ := cs } cmd with
            | none => none
            | some c1 => some (c1, [cmd])
          else selfRefreshLoopTrace env rest { c with channel_state_ := cs }
      else selfRefreshLoopTrace env rest c
    else
      if c.cmd_queue_.rank_q_empty.getD i true &&
          decide (c.channel_state_.rank_idle_cycles.getD i 0 ≥ Int.ofNat c.config_.sref_threshold)
      then
        match env.GetReadyCommand c.channel_state_
            { cmd_type := CommandType.SREF_ENTER, addr := rankAddress i,
              hex_addr := 18446744073709551615 } c.clk_ with
        | none => none
        | some (cmd, cs) =>
          if cmd.IsValid then
            match IssueCommand env { c with channel_state_ := cs } cmd with
            | none => none
            | some c1 => some (c1, [cmd])
          else selfRefreshLoopTrace env rest { c with channel_state_ := cs }
      else selfRefreshLoopTrace env rest c

/-- The second power update of `Controller::ClockTick` (lines 143-173) as
`selfRefresh`, with the commands it passes to `IssueCommand`. -/
def selfRefreshTrace (env : Collaborators ρ) (c : Controller ρ) (cmd_issued : Bool) :
    Option (Controller ρ × List Command) :=
  if c.config_.enable_self_refresh && !cmd_issued then
    selfRefreshLoopTrace env (List.range c.config_.ranks) c
  else some (c, [])

/-- The method `Controller::ClockTick` as `ClockTick`, with the commands passed
to `IssueCommand` during the call, in call order. -/
def ClockTickTrace (env : Collaborators ρ) (c : Controller ρ) :
    Option (Controller ρ × List Command) :=
  match env.RefreshClockTick c.refresh_ c.channel_state_ with
  | none => none
  | some (r, cs) =>
    let c1 := { c with refresh_ := r, channel_state_ := cs }
    match c1.fetchCommand env with
    | none => none
    | some (cmd, c2) =>
      match c2.issueFetchedTrace env cmd with
      | none => none
      | some ((c3, cmd_issued), issued) =>
        match (c3.powerUpdate env).selfRefreshTrace env cmd_issued with
        | none => none
        | some (c5, woken) =>
          let c6 := (c5.Calculate_stats env).ScheduleTransaction
          some ({ c6 with clk_ := c6.clk_ + 1, cmd_queue_ := c6.cmd_queue_.ClockTick },
            issued ++ woken)

end Controller

/-! ## A run in HBM dual-command mode -/

/-- The sample configuration with HBM dual-command issue switched on. -/
def sampleDualConfig : Config := { sampleConfig with enable_hbm_dual_cmd := true }

namespace Controller

variable {ρ : Type}

/-- A run of `n` calls of `Controller::ClockTick`: the controller afterwards
and, for each cycle, the commands passed to `IssueCommand`; `none` if a call
exits. -/
def runTrace (env : Collaborators ρ) : Nat → Controller ρ →
    Option (Controller ρ × List (List Command))
  | 0, c => some (c, [])
  | n + 1, c =>
    match c.ClockTickTrace env with
    | none => none
    | some (c1, issued) =>
      match runTrace env n c1 with
      | none => none
      | some (c2, rest) => some (c2, issued :: rest)

/-- The calls `AddTransaction(Transaction(a, false))` for the addresses of a
list, in order. -/
def addReads (c : Controller ρ) (l : List Nat) : Controller ρ :=
  l.foldl (fun c a => (c.AddTransaction ⟨a, 0, 0, false⟩).2) c

/-- What the examples observe of a controller: the command queues, the
addresses of the pending reads, the addresses in the return queue and the
addresses in the read queue. -/
def observe (c : Controller ρ) :
    List (List Command) × List Nat × List Nat × List Nat :=
  (c.cmd_queue_.queues_, c.pending_rd_q_.map Prod.fst,
    c.return_queue_.map Transaction.addr, c.read_queue_.map Transaction.addr)

end Controller

/-! ## `dram_system.cc`: the JEDEC system

`dram_system.h` is not among the sources; the members below are those the
bodies of `dram_system.cc` use.  Output to files is left out.  As for the
controller, the constructed channel state and refresh engine of a controller
are given to the constructor. -/

/-- Modelled from the spec: `configuration.h` is not among the sources.  The
configuration of the whole system: the fields the controller consumes and the
fields only `dram_system.cc` reads (the channel count, the three values of the
channel extraction, the epoch period and the answer of `IsHMC()`). -/
structure SystemConfig extends Config where
  channels : Nat
  shift_bits : Nat
  ch_pos : Nat
  ch_mask : Nat
  epoch_period : Nat
  IsHMC : Bool

/-- The data members of `class JedecDRAMSystem` that `AddTransaction` and
`ClockTick` use. -/
structure JedecDRAMSystem (ρ : Type) where
  config_ : SystemConfig
  clk_ : Nat
  last_req_clk_ : Nat
  concurrent_serve : Nat
  active_cycles : Nat
  ctrls_ : List (Controller ρ)

namespace JedecDRAMSystem

variable {ρ : Type}

/-- The loop of the constructor `JedecDRAMSystem::JedecDRAMSystem` over the
channel numbers still to build; `none` when a controller cannot be built. -/
def buildCtrls (config : Config) (channel_state : ChannelState) (refresh : ρ) :
    List Nat → Option (List (Controller ρ))
  | [] => some []
  | i :: rest =>
    match Controller.init (Int.ofNat i) config channel_state refresh with
    | none => none
    | some c =>
      match buildCtrls config channel_state refresh rest with
      | none => none
      | some cs => some (c :: cs)

/-- The constructor `JedecDRAMSystem::JedecDRAMSystem` (with the base class
constructor); `none` for the exit on an HMC configuration. -/
def init (config : SystemConfig) (channel_state : ChannelState) (refresh : ρ) :
    Option (JedecDRAMSystem ρ) :=
  if config.IsHMC then none
  else
    match buildCtrls config.toConfig channel_state refresh (List.range config.channels) with
    | none => none
    | some cs =>
      some { config_ := config, clk_ := 0, last_req_clk_ := 0, concurrent_serve := 0,
             active_cycles := 0, ctrls_ := cs }

/-- The method `BaseDRAMSystem::GetChannel`. -/
def GetChannel (s : JedecDRAMSystem ρ) (hex_addr : Nat) : Nat :=
  ((hex_addr >>> s.config_.shift_bits) >>> s.config_.ch_pos) &&& s.config_.ch_mask

/-- The method `JedecDRAMSystem::WillAcceptTransaction`; `none` when the
channel number is not the index of a controller. -/
def WillAcceptTransaction (s : JedecDRAMSystem ρ) (hex_addr : Nat) (is_write : Bool) :
    Option Bool :=
  match s.ctrls_.get? (s.GetChannel hex_addr) with
  | none => none
  | some c => some (c.WillAcceptTransaction hex_addr is_write)

/-- The method `JedecDRAMSystem::AddTransaction`; `none` when the channel
number is not the index of a controller and when `assert(ok)` fails. -/
def AddTransaction (s : JedecDRAMSystem ρ) (hex_addr : Nat) (is_write : Bool) :
    Option (Bool × JedecDRAMSystem ρ) :=
  let channel := s.GetChannel hex_addr
  match s.ctrls_.get? channel with
  | none => none
  | some c =>
    let ok := c.WillAcceptTransaction hex_addr is_write
    if ok then
      let trans := Transaction.mk2 hex_addr is_write
      some (ok, { s with ctrls_ := s.ctrls_.set channel (c.AddTransaction trans).2
                         last_req_clk_ := s.clk_ })
    else none

/-- The `while (true)` loop of `JedecDRAMSystem::ClockTick` (lines 240-254) for
one controller, with at most `fuel` calls of `ReturnDoneTrans`: the callback
calls in order and the controller afterwards; `none` when the calls are used
up before the loop breaks. -/
def drainDone (clk : Nat) : Nat → Controller ρ → Option (List CallbackEvent × Controller ρ)
  | 0, _ => none
  | fuel + 1, c =>
    let r := c.ReturnDoneTrans clk
    if r.1.2 = 1 then
      match drainDone clk fuel r.2 with
      | none => none
      | some (events, c1) => some (CallbackEvent.write r.1.1 :: events, c1)
    else if r.1.2 = 0 then
      match drainDone clk fuel r.2 with
      | none => none
      | some (events, c1) => some (CallbackEvent.read r.1.1 :: events, c1)
    else some ([], r.2)

/-- The first `for` loop of `JedecDRAMSystem::ClockTick` (lines 237-255) over
the controllers still to visit: for each controller the callback calls of its
iteration, and the controllers afterwards.  A controller's loop gets one call
of `ReturnDoneTrans` more than its return queue has entries. -/
def drainAll (clk : Nat) :
    List (Controller ρ) → Option (List (List CallbackEvent) × List (Controller ρ))
  | [] => some ([], [])
  | c :: rest =>
    match drainDone clk (c.return_queue_.length + 1) c with
    | none => none
    | some (events, c1) =>
      match drainAll clk rest with
      | none => none
      | some (more, cs) => some (events :: more, c1 :: cs)

/-- The second `for` loop of `JedecDRAMSystem::ClockTick` (lines 257-273) over
the controllers still to visit, with the running values of `concurrent_serve`
and `active_cycles`; `changed` is declared inside the loop body, so it is
false at each test.  The result is `none` when a controller exits. -/
def tickAll (env : Collaborators ρ) :
    List (Controller ρ) → Nat → Nat → Option (List (Controller ρ) × Nat × Nat)
  | [], concurrent_serve, active_cycles => some ([], concurrent_serve, active_cycles)
  | c :: rest, concurrent_serve, active_cycles =>
    match c.ClockTick env with
    | none => none
    | some c1 =>
      let stats :=
        if c1.is_active_cycles then (concurrent_serve + c1.concurrent_serve, active_cycles + 1)
        else (concurrent_serve, active_cycles)
      match tickAll env rest stats.1 stats.2 with
      | none => none
      | some (cs, serve, active) => some (c1 :: cs, serve, active)

/-- The method `JedecDRAMSystem::ClockTick`: for each controller the callback
calls made in its iteration of the first loop (the calls happen in the order
of the concatenation), and the system afterwards.  The result is `none` when a
controller exits and when `epoch_period` is zero (a remainder by zero). -/
def ClockTick (env : Collaborators ρ) (s : JedecDRAMSystem ρ) :
    Option (List (List CallbackEvent) × JedecDRAMSystem ρ) :=
  match drainAll s.clk_ s.ctrls_ with
  | none => none
  | some (events, cs) =>
    match tickAll env cs s.concurrent_serve s.active_cycles with
    | none => none
    | some (cs1, serve, active) =>
      if s.config_.epoch_period = 0 then none
      else
        some (events, { s with ctrls_ := cs1, concurrent_serve := serve,
                               active_cycles := active, clk_ := s.clk_ + 1 })

/-- The systems a run can reach: the constructed system, and the system after
any call of `AddTransaction` or `ClockTick` that returns. -/
inductive Reachable (env : Collaborators ρ) : JedecDRAMSystem ρ → Prop where
  | init (config : SystemConfig) (channel_state : ChannelState) (refresh : ρ)
      (s : JedecDRAMSystem ρ) :
      JedecDRAMSystem.init config channel_state refresh = some s → Reachable env s
  | addTransaction (s s1 : JedecDRAMSystem ρ) (hex_addr : Nat) (is_write ok : Bool) :
      Reachable env s → s.AddTransaction hex_addr is_write = some (ok, s1) → Reachable env s1
  | clockTick (s s1 : JedecDRAMSystem ρ) (events : List (List CallbackEvent)) :
      Reachable env s → s.ClockTick env = some (events, s1) → Reachable env s1

end JedecDRAMSystem

/-- A call the host makes on the system. -/
inductive HostCall where
  | add (hex_addr : Nat) (is_write : Bool)
  | tick
  deriving DecidableEq, Repr

namespace JedecDRAMSystem

variable {ρ : Type}

/-- The host calls of a list made in order: for each `ClockTick` the clock
value at the call and the callback calls of each channel, and the system at
the end; `none` when a call does not return. -/
def run (env : Collaborators ρ) :
    List HostCall → JedecDRAMSystem ρ →
      Option (List (Nat × List (List CallbackEvent)) × JedecDRAMSystem ρ)
  | [], s => some ([], s)
  | HostCall.add hex_addr is_write :: rest, s =>
    match s.AddTransaction hex_addr is_write with
    | none => none
    | some (_, s1) => run env rest s1
  | HostCall.tick :: rest, s =>
    match s.ClockTick env with
    | none => none
    | some (events, s1) =>
      match run env rest s1 with
      | none => none
      | some (log, s2) => some ((s.clk_, events) :: log, s2)

/-- What the examples observe of a system: its clock and, for each channel,
the entries of the return queue as (address, write flag, complete cycle). -/
def observe (s : JedecDRAMSystem ρ) : Nat × List (List (Nat × Bool × Nat)) :=
  (s.clk_, s.ctrls_.map (fun c =>
    c.return_queue_.map (fun t => (t.addr, t.is_write, t.complete_cycle))))

end JedecDRAMSystem

/-- The sample configuration as the configuration of a system of one
channel. -/
def sampleSystemConfig : SystemConfig :=
  { toConfig := sampleConfig, channels := 1, shift_bits := 6, ch_pos := 0, ch_mask := 0,
    epoch_period := 100000, IsHMC := false }

/-- The sample system configuration with a read delay of zero cycles. -/
def sampleZeroDelayConfig : SystemConfig :=
  { sampleSystemConfig with read_delay := 0 }

/-- The system that `JedecDRAMSystem.init` builds from the sample system
configuration. -/
def sampleSystem : JedecDRAMSystem Unit :=
  { config_ := sampleSystemConfig, clk_ := 0, last_req_clk_ := 0, concurrent_serve := 0,
    active_cycles := 0, ctrls_ := [sampleInitial] }

/-! ## Runs of the bank state machine -/

namespace BankState

/-- The calls `UpdateState(cmd)` for the commands of a list, in order; `none`
as soon as one of them exits. -/
def updateAll : List Command → BankState → Option BankState
  | [], b => some b
  | cmd :: rest, b =>
    match b.UpdateState cmd with
    | none => none
    | some b1 => updateAll rest b1

end BankState

/-- The count the specification gives `row_hit_count` its meaning by: going
through the commands applied to a bank in order, an ACTIVATE starts the count
at zero and each READ or WRITE adds one. -/
def hitsSinceActivate (cmds : List Command) : Nat :=
  cmds.foldl
    (fun n cmd =>
      if cmd.cmd_type = CommandType.ACTIVATE then 0
      else if cmd.cmd_type = CommandType.READ ∨ cmd.cmd_type = CommandType.WRITE then n + 1
      else n)
    0

/-! ## Reference notions for the scan of one command queue -/

namespace CommandQueue

/-- The channel state after `ChannelState::GetReadyCommand` has been asked for
each entry of a list in order, as `GetFirstReadyInQueue` does for the entries
it passes over; `none` if a call exits. -/
def askAll {ρ : Type} (env : Collaborators ρ) (clk : Nat) :
    List Command → ChannelState → Option ChannelState
  | [], cs => some cs
  | e :: rest, cs =>
    match env.GetReadyCommand cs e clk with
    | none => none
    | some (_, cs1) => askAll env clk rest cs1

/-- The condition of the specification for the entry `e` of the queue
`pre ++ e :: post` whose prerequisite is `cmd`: the prerequisite is valid, it
passes the precharge arbitration if it is a PRECHARGE, and the entry has no
read-write dependency if it is of the WRITE family. -/
def qualifies (cs : ChannelState) (pre : List Command) (e : Command) (post : List Command)
    (cmd : Command) : Bool :=
  cmd.IsValid &&
    (cmd.cmd_type != CommandType.PRECHARGE || ArbitratePrecharge cs pre e post) &&
    (!cmd.IsWrite || !HasRWDependency pre e)

end CommandQueue

/-! ## Reference notions for the round-robin over the command queues -/

namespace CommandQueue

/-- The cyclic order of the specification: the `m` queue indices that follow
the cursor `i` among `n` queues, `(i + 1) mod n`, `(i + 2) mod n` and so on. -/
def cyclicOrder (i n : Int) (m : Nat) : List Int :=
  (List.range m).map (fun (k : Nat) => (i + 1 + (k : Int)) % n)

/-- The search of the specification over a list of queue indices, in order: a
queue masked by a refresh in progress is skipped, the others are asked with
`GetFirstReadyInQueue`; the result is the first index whose queue yields a
valid command, with the command, or nothing when no queue does.  The outer
`none` stands for a fatal exit. -/
def firstReadyAmong {ρ : Type} (env : Collaborators ρ) (cq : CommandQueue) :
    List Int → ChannelState → Option (Option (Int × Command) × ChannelState)
  | [], cs => some (none, cs)
  | i :: rest, cs =>
    if cq.is_in_ref_ && cq.ref_q_indices_.contains i then firstReadyAmong env cq rest cs
    else
      match GetFirstReadyInQueue env cq cs (cq.queues_.getD i.toNat []) with
      | none => none
      | some (cmd, cs1) =>
        if cmd.IsValid then some (some (i, cmd), cs1)
        else firstReadyAmong env cq rest cs1

/-- The result of the specification for `m` steps of the round-robin: the
command of the first queue in cyclic order that is not masked and yields a
valid command, the cursor left on that queue and a data command erased from
it; or the invalid command, the cursor having advanced `m` times. -/
def roundRobin {ρ : Type} (env : Collaborators ρ) (config : Config) (m : Nat)
    (cq : CommandQueue) (cs : ChannelState) :
    Option (Command × CommandQueue × ChannelState) :=
  match firstReadyAmong env cq (cyclicOrder cq.queue_idx_ cq.num_queues_ m) cs with
  | none => none
  | some (none, cs1) =>
    some (Command.invalid,
      { cq with queue_idx_ := (cq.queue_idx_ + (m : Int)) % cq.num_queues_ }, cs1)
  | some (some (i, cmd), cs1) =>
    if cmd.IsReadWrite then
      match EraseRWCommand { cq with queue_idx_ := i } config cmd with
      | none => none
      | some cq2 => some (cmd, cq2, cs1)
    else some (cmd, { cq with queue_idx_ := i }, cs1)

end CommandQueue

/-! ## Reference notions for the refresh mask -/

namespace CommandQueue

/-- The queues the specification has a pending refresh cover: for REFRESH
every queue of the refresh's rank, that is the queue of each bank group and
bank of the rank; for a per-bank refresh the single queue of its rank, bank
group and bank. -/
def covers (cq : CommandQueue) (config : Config) (ref : Command) (i : Int) : Prop :=
  if ref.cmd_type = CommandType.REFRESH then
    ∃ bankgroup bank : Int, 0 ≤ bankgroup ∧ bankgroup < config.bankgroups ∧
      0 ≤ bank ∧ bank < config.banks_per_group ∧
      i = cq.GetQueueIndex config ref.Rank bankgroup bank
  else i = cq.GetQueueIndex config ref.Rank ref.Bankgroup ref.Bank

/-- The command-queue states between the first `FinishRefresh` call for the
pending refresh `ref` (made on a reachable state that is not in a refresh) and
the `FinishRefresh` call that returns the refresh command: the state after that
first call when it returns another command, and the state after any call of
`AddCommand`, `GetCommandToIssue`, `ClockTick` or of a `FinishRefresh` that
again returns another command. -/
inductive InRefresh {ρ : Type} (env : Collaborators ρ) (config : Config) (ref : Command) :
    CommandQueue → Prop where
  | start (cq cq1 : CommandQueue) (cs cs1 : ChannelState) (cmd : Command) :
      Reachable env config cq → cq.is_in_ref_ = false →
      cs.PendingRefCommand = some ref →
      cq.FinishRefresh env config cs = some (cmd, cq1, cs1) → cmd.IsRefresh = false →
      InRefresh env config ref cq1
  | addCommand (cq : CommandQueue) (cmd : Command) :
      InRefresh env config ref cq → InRefresh env config ref (cq.AddCommand config cmd).2
  | getCommandToIssue (cq cq1 : CommandQueue) (cs cs1 : ChannelState) (cmd : Command) :
      InRefresh env config ref cq →
      cq.GetCommandToIssue env config cs = some (cmd, cq1, cs1) → InRefresh env config ref cq1
  | finishRefresh (cq cq1 : CommandQueue) (cs cs1 : ChannelState) (cmd : Command) :
      InRefresh env config ref cq →
      cq.FinishRefresh env config cs = some (cmd, cq1, cs1) → cmd.IsRefresh = false →
      InRefresh env config ref cq1
  | clockTick (cq : CommandQueue) :
      InRefresh env config ref cq → InRefresh env config ref cq.ClockTick

end CommandQueue

/-- A REFRESH command for rank 0 of the sample system. -/
def sampleRefresh : Command := ⟨CommandType.REFRESH, ⟨0, 0, 0, 0, -1, -1⟩, 0⟩

/-- The channel state of the sample controller (bank (0, 0, 0) open on row 8)
with the sample REFRESH waiting in the refresh queue. -/
def sampleRefreshState : ChannelState :=
  { sampleController.channel_state_ with refresh_q_ := [sampleRefresh] }

/-! ## A run with self-refresh -/

/-- The sample configuration with self-refresh switched on after three idle
cycles and the close-page policy, under which a bank is closed again by the
data command itself. -/
def sampleSelfRefreshConfig : Config :=
  { sampleConfig with enable_self_refresh := true, sref_threshold := 3,
                      row_buf_policy := "CLOSE_PAGE" }

/-- What the self-refresh examples observe of a run: the kinds of the commands
issued in each cycle, the flags `rank_q_empty`, the lengths of the command
queues and the idle cycles of the ranks. -/
def observeSelfRefresh {ρ : Type} (x : Controller ρ × List (List Command)) :
    List (List CommandType) × List Bool × List Nat × List Int :=
  (x.2.map (fun l => l.map Command.cmd_type), x.1.cmd_queue_.rank_q_empty,
    x.1.cmd_queue_.queues_.map List.length, x.1.channel_state_.rank_idle_cycles)

/-! ## The two parts of `ScheduleTransaction` -/

namespace Controller

variable {ρ : Type}

/-- The first part of `Controller::ScheduleTransaction` (lines 281-287): the
decision to start draining writes. -/
def updateWriteDraining (c : Controller ρ) : Controller ρ :=
  if c.write_draining_ = 0 ∧ c.is_unified_queue_ = false then
    if c.write_buffer_.length ≥ c.write_buffer_capacity ∨
        (c.write_buffer_.length > 8 ∧ c.cmd_queue_.QueueEmpty = true) then
      { c with write_draining_ := Int.ofNat c.write_buffer_.length }
    else c
  else c

/-- The second part of `Controller::ScheduleTransaction` (lines 293-309): the
choice of the transaction queue and the scheduling of its first acceptable
transaction. -/
def scheduleFrom (c1 : Controller ρ) : Controller ρ :=
  let q := c1.scheduleQueue
  match c1.firstAcceptable [] (c1.getTransQueue q) with
  | none => c1
  | some (pre, t, post) =>
    let cmd := c1.TransToCommand t
    if c1.is_unified_queue_ = false ∧ cmd.IsWrite = true then
      if mmCount c1.pending_rd_q_ t.addr > 0 then { c1 with write_draining_ := 0 }
      else
        let c2 := { c1 with write_draining_ := c1.write_draining_ - 1 }
        let c3 := { c2 with cmd_queue_ := (c2.cmd_queue_.AddCommand c2.config_ cmd).2 }
        c3.setTransQueue q (pre ++ post)
    else
      let c3 := { c1 with cmd_queue_ := (c1.cmd_queue_.AddCommand c1.config_ cmd).2 }
      c3.setTransQueue q (pre ++ post)

end Controller

/-- The driver of section 4.1 for one request: take `GetReadyCommand` for
`cmd`; when the answer is the request itself, stop with the bank as it is;
otherwise apply `UpdateState` to the answer and ask again.  The result is the
list of prerequisite commands applied and the bank at the moment the request
itself is returned; `none` when a call exits or the fuel runs out. -/
def BankState.serve (b : BankState) (cmd : Command) (clk : Nat) :
    Nat → Option (List Command × BankState)
  | 0 => none
  | fuel + 1 =>
    match b.GetReadyCommand cmd clk with
    | none => none
    | some (out, b1) =>
      if out = cmd then some ([], b1)
      else
        match b1.UpdateState out with
        | none => none
        | some b2 => (BankState.serve b2 cmd clk fuel).map (fun r => (out :: r.1, r.2))

/-- The sample system configuration with two channels: bit 6 of the address
selects the channel. -/
def sampleTwoChannelConfig : SystemConfig :=
  { sampleSystemConfig with channels := 2, ch_mask := 1 }

/-- The system that `JedecDRAMSystem.init` builds from the two-channel sample
configuration. -/
def sampleTwoChannelSystem : JedecDRAMSystem Unit :=
  { config_ := sampleTwoChannelConfig, clk_ := 0, last_req_clk_ := 0, concurrent_serve := 0,
    active_cycles := 0, ctrls_ := [sampleInitial, { sampleInitial with channel_id_ := 1 }] }

/-- What the statistics examples observe of a system: `active_cycles`,
`concurrent_serve`, and for each controller its flag `is_active_cycles` and its
value of `concurrent_serve`. -/
def JedecDRAMSystem.observeActive {ρ : Type} (s : JedecDRAMSystem ρ) :
    Nat × Nat × List (Bool × Nat) :=
  (s.active_cycles, s.concurrent_serve,
    s.ctrls_.map (fun c => (c.is_active_cycles, c.concurrent_serve)))

/-! ## The write-draining counter along a run -/

namespace Controller

variable {ρ : Type}

/-- The bounds of the write-draining counter: the read queue holds reads only,
the write buffer holds writes only, `write_draining_` lies between 0 and the
size of the write buffer, and it is 0 with a unified queue. -/
def DrainBounded (c : Controller ρ) : Prop :=
  (∀ t ∈ c.read_queue_, t.is_write = false) ∧
    (∀ t ∈ c.write_buffer_, t.is_write = true) ∧
    0 ≤ c.write_draining_ ∧ c.write_draining_ ≤ (c.write_buffer_.length : Int) ∧
    (c.is_unified_queue_ = true → c.write_draining_ = 0)

/-- A run of the controller together with the number of writes that entered
the write buffer since write-draining last engaged: the count grows with the
write buffer in `AddTransaction`, and a `ClockTick` that starts with
`write_draining_ = 0`, the only kind in which draining can engage, starts it
again from 0. -/
inductive DrainHistory (env : Collaborators ρ) : Controller ρ → Nat → Prop where
  | init (channel : Int) (config : Config) (channel_state : ChannelState) (refresh : ρ)
      (c : Controller ρ) :
      Controller.init channel config channel_state refresh = some c → DrainHistory env c 0
  | addTransaction (c : Controller ρ) (trans : Transaction) (n : Nat) :
      DrainHistory env c n →
      DrainHistory env (c.AddTransaction trans).2
        (n + ((c.AddTransaction trans).2.write_buffer_.length - c.write_buffer_.length))
  | clockTick (c c1 : Controller ρ) (n : Nat) :
      DrainHistory env c n → c.ClockTick env = some c1 →
      DrainHistory env c1 (if c.write_draining_ = 0 then 0 else n)
  | returnDoneTrans (c : Controller ρ) (clk : Nat) (n : Nat) :
      DrainHistory env c n → DrainHistory env (c.ReturnDoneTrans clk).2 n

end Controller

/-- The sample configuration with transaction queues of two entries. -/
def sampleSmallQueueConfig : Config := { sampleConfig with trans_queue_size := 2 }

/-- The controller that `Controller.init` builds for channel 0 from the sample
configuration with two-entry transaction queues. -/
def sampleSmallInitial : Controller Unit :=
  { sampleInitial with config_ := sampleSmallQueueConfig, read_queue_capacity := 2,
                       write_buffer_capacity := 2 }

/-- The sample controller with two-entry transaction queues after the writes
to the addresses 0 and 512 were admitted at cycle 0. -/
def sampleDrainStart : Controller Unit :=
  ((sampleSmallInitial.AddTransaction (Transaction.mk2 0 true)).2.AddTransaction
    (Transaction.mk2 512 true)).2

/-- The controller after the clock tick of cycle 0, in which write-draining
engages. -/
def sampleDrainEngaged : Controller Unit :=
  (sampleDrainStart.ClockTick sampleCollaborators).getD sampleDrainStart

/-- The controller after a write to address 1024 was admitted at cycle 1. -/
def sampleDrainBefore : Controller Unit :=
  (sampleDrainEngaged.AddTransaction (Transaction.mk2 1024 true)).2

/-- The controller after the clock tick of cycle 1. -/
def sampleDrainAfter : Controller Unit :=
  (sampleDrainBefore.ClockTick sampleCollaborators).getD sampleDrainBefore

/-- What the draining examples observe of a controller: `write_draining_`, the
addresses in the write buffer, the number of pending reads and the hex
addresses in each command queue. -/
def Controller.observeDrain {ρ : Type} (c : Controller ρ) :
    Int × List Nat × Nat × List (List Nat) :=
  (c.write_draining_, c.write_buffer_.map (fun t => t.addr), c.pending_rd_q_.length,
    c.cmd_queue_.queues_.map (fun q => q.map (fun e => e.hex_addr)))

/-- The command queue of the sample controller after
`AddCommand(READ 4096)`, a read of the open row of bank (0, 0, 0). -/
def sampleQueueWithRead : CommandQueue :=
  (sampleController.cmd_queue_.AddCommand sampleConfig
    ⟨CommandType.READ, sampleConfig.AddressMapping 4096, 4096⟩).2

/-! ## Queued data requests and their pending entries -/

/-- The direction test of a command: WRITE family for `w = true`, READ family
for `w = false`. -/
def Command.hasDirection (e : Command) (w : Bool) : Bool := if w then e.IsWrite else e.IsRead

/-- One if the command is a data command of direction `w` for the hex address
`a`, else zero. -/
def Command.adds (e : Command) (w : Bool) (a : Nat) : Nat :=
  if e.hasDirection w && e.hex_addr == a then 1 else 0

/-- The number of transactions of direction `w` for the address `a` in a
transaction queue. -/
def transCount (w : Bool) (a : Nat) (l : List Transaction) : Nat :=
  l.countP (fun t => t.is_write == w && t.addr == a)

/-- The number of commands of direction `w` for the hex address `a` in the
command queues. -/
def cmdCount (w : Bool) (a : Nat) (qs : List (List Command)) : Nat :=
  (qs.map (fun q => q.countP (fun e => e.hasDirection w && e.hex_addr == a))).sum

/-- The channel states whose refresh queue holds no data command. -/
def ChannelState.RefreshOnly (cs : ChannelState) : Prop :=
  ∀ x ∈ cs.refresh_q_, x.IsReadWrite = false

/-- What the controller relies on in the member functions that are not among
the sources: `GetReadyCommand` answers a request that is not a data command
with a command that is not a data command, and no collaborator puts a data
command into the refresh queue. -/
def Collaborators.Orderly {ρ : Type} (env : Collaborators ρ) : Prop :=
  (∀ cs req clk out cs1, env.GetReadyCommand cs req clk = some (out, cs1) →
    (req.IsReadWrite = false → out.IsReadWrite = false) ∧
    (cs.RefreshOnly → cs1.RefreshOnly)) ∧
  (∀ cs cmd clk cs1, env.UpdateTimingAndStates cs cmd clk = some cs1 →
    cs.RefreshOnly → cs1.RefreshOnly) ∧
  (∀ r cs r1 cs1, env.RefreshClockTick r cs = some (r1, cs1) →
    cs.RefreshOnly → cs1.RefreshOnly)

namespace Controller

variable {ρ : Type}

/-- The pending queue of direction `w`. -/
def pending (c : Controller ρ) (w : Bool) : List (Nat × Transaction) :=
  if w then c.pending_wr_q_ else c.pending_rd_q_

/-- The number of data requests of direction `w` for the address `a` that wait
in the transaction queues and in the command queues. -/
def queued (c : Controller ρ) (w : Bool) (a : Nat) : Nat :=
  transCount w a (c.unified_queue_ ++ c.read_queue_ ++ c.write_buffer_) +
    cmdCount w a c.cmd_queue_.queues_

/-- The cover of the waiting data requests by the pending queues, with `cmd` a
command that has been taken out of the command queue and is not yet issued
(the invalid command when there is none): counting `cmd`, at most one read
waits for an address, and the requests of each direction waiting for an
address are no more than the pending entries of that direction for it; the
refresh queue holds no data command. -/
def Covers (c : Controller ρ) (cmd : Command) : Prop :=
  (∀ a, c.queued false a + cmd.adds false a ≤ 1) ∧
    (∀ w a, c.queued w a + cmd.adds w a ≤ mmCount (c.pending w) a) ∧
    c.channel_state_.RefreshOnly

/-- The members of the controller that `Covers` reads, the channel state
apart. -/
def core (c : Controller ρ) :=
  (c.unified_queue_, c.read_queue_, c.write_buffer_, c.cmd_queue_.queues_,
    c.pending_rd_q_, c.pending_wr_q_)

/-- The controller states a run can reach from a controller constructed on a
channel state whose refresh queue holds no data command: the state after any
call of `AddTransaction`, `ClockTick` (when it does not exit) or
`ReturnDoneTrans`. -/
inductive OrderlyReachable (env : Collaborators ρ) : Controller ρ → Prop where
  | init (channel : Int) (config : Config) (channel_state : ChannelState) (refresh : ρ)
      (c : Controller ρ) :
      channel_state.RefreshOnly →
      Controller.init channel config channel_state refresh = some c → OrderlyReachable env c
  | addTransaction (c : Controller ρ) (trans : Transaction) :
      OrderlyReachable env c → OrderlyReachable env (c.AddTransaction trans).2
  | clockTick (c c1 : Controller ρ) :
      OrderlyReachable env c → c.ClockTick env = some c1 → OrderlyReachable env c1
  | returnDoneTrans (c : Controller ρ) (clk : Nat) :
      OrderlyReachable env c → OrderlyReachable env (c.ReturnDoneTrans clk).2

end Controller

/-! ## Collaborators with a timing matrix -/

/-- The calls `UpdateTiming(k, t)` for the four data commands `k`, on a timing
vector of one entry per command kind. -/
def BankState.delayData (b : BankState) (t : Nat) : BankState :=
  { b with cmd_timing_ :=
      (List.range CommandType.SIZE.toNat).map (fun i =>
        if i = CommandType.READ.toNat ∨ i = CommandType.READ_PRECHARGE.toNat ∨
            i = CommandType.WRITE.toNat ∨ i = CommandType.WRITE_PRECHARGE.toNat then
          max (b.cmd_timing_.getD i 0) t
        else b.cmd_timing_.getD i 0) }

/-- An update of every bank of the grid. -/
def ChannelState.mapBanks (cs : ChannelState) (f : BankState → BankState) : ChannelState :=
  { cs with bank_states_ := cs.bank_states_.map (fun r => r.map (fun g => g.map f)) }

/-- Modelled from the spec: `channel_state.cc` and the timing tables are not
among the sources.  The sample collaborators with the `UpdateTimingAndStates`
of section 4.2 for a timing matrix of two entries: a data command delays the
data commands of every bank by one cycle, an ACTIVATE those of its own bank by
two cycles. -/
def sampleTimedCollaborators : Collaborators Unit :=
  { sampleCollaborators with
    UpdateTimingAndStates := fun cs cmd clk =>
      match (cs.bank cmd.Rank cmd.Bankgroup cmd.Bank).UpdateState cmd with
      | none => none
      | some b =>
        if cmd.IsReadWrite then
          some ((cs.setBank cmd.Rank cmd.Bankgroup cmd.Bank b).mapBanks
            (fun x => x.delayData (clk + 1)))
        else if cmd.cmd_type = CommandType.ACTIVATE then
          some (cs.setBank cmd.Rank cmd.Bankgroup cmd.Bank (b.delayData (clk + 2)))
        else some (cs.setBank cmd.Rank cmd.Bankgroup cmd.Bank b) }

/-- The controller that `Controller.init` builds for channel 0 from the sample
configuration with HBM dual-command issue. -/
def sampleDualInitial : Controller Unit := { sampleInitial with config_ := sampleDualConfig }

/-- The dual-command controller with reads of 0, 64 and 128 (three banks)
added at cycle 0, after three cycles: the banks of 0 and 64 are open, the READ
of 0 is ready and the bank of 128 is closed. -/
def sampleDualBefore : Controller Unit :=
  ((Controller.runTrace sampleTimedCollaborators 3
    (sampleDualInitial.addReads [0, 64, 128])).map Prod.fst).getD sampleDualInitial

/-- The answer of `ClockTickTrace` on `sampleDualBefore`. -/
def sampleDualAfter : Controller Unit × List Command :=
  (sampleDualBefore.ClockTickTrace sampleTimedCollaborators).getD (sampleDualBefore, [])

/-- The sample controller (dual-command issue off) with a read of 0 added at
cycle 0, after one cycle: the READ is in the command queue and its bank is
closed. -/
def sampleSingleBefore : Controller Unit :=
  ((Controller.runTrace sampleTimedCollaborators 1
    (sampleInitial.addReads [0])).map Prod.fst).getD sampleInitial

/-- The answer of `ClockTickTrace` on `sampleSingleBefore`. -/
def sampleSingleAfter : Controller Unit × List Command :=
  (sampleSingleBefore.ClockTickTrace sampleTimedCollaborators).getD (sampleSingleBefore, [])

/-- The command queue of the sample controller with a READ of address 4096 in
queue 0 and a READ of address 64 in queue 4; the cursor is at queue 0. -/
def sampleTwoQueues : CommandQueue :=
  (sampleQueueWithRead.AddCommand sampleConfig
    ⟨CommandType.READ, sampleConfig.AddressMapping 64, 64⟩).2

/-- The answer of `GetCommandToIssue` on `sampleTwoQueues` in the channel state
of the sample controller. -/
def sampleTwoQueuesIssued : Command × CommandQueue × ChannelState :=
  (sampleTwoQueues.GetCommandToIssue sampleCollaborators sampleConfig
    sampleController.channel_state_).getD
      (Command.invalid, sampleTwoQueues, sampleController.channel_state_)

/-- The host calls that bring the sample system to cycle 22 with three entries
in the return queue of its controller: a read of 0 at cycle 0 (issued in cycle
2, complete at 22), 21 clock ticks, a write of 64 at cycle 21 (complete at 22),
one more tick and a write of 128 at cycle 22 (complete at 23). -/
def sampleDueCalls : List HostCall :=
  HostCall.add 0 false :: List.replicate 21 HostCall.tick ++
    [HostCall.add 64 true, HostCall.tick, HostCall.add 128 true]

/-- The sample system after the calls `sampleDueCalls`. -/
def sampleDueSystem : JedecDRAMSystem Unit :=
  ((JedecDRAMSystem.run sampleCollaborators sampleDueCalls sampleSystem).map Prod.snd).getD
    sampleSystem

/-- The answer of `ClockTick` on `sampleDueSystem`. -/
def sampleDueTick : List (List CallbackEvent) × JedecDRAMSystem Unit :=
  (sampleDueSystem.ClockTick sampleCollaborators).getD ([], sampleDueSystem)

/-- The controller with `trans_queue_size` 2 after `AddTransaction` calls for
reads of 0 and 64, which fill the read queue. -/
def sampleFullReads : Controller Unit :=
  ((sampleSmallInitial.AddTransaction ⟨0, 0, 0, false⟩).2.AddTransaction ⟨64, 0, 0, false⟩).2

/-- The controller `sampleFullReads` after one more `AddTransaction` call, for
a read of 128, made although `WillAcceptTransaction` answers false. -/
def sampleOverfullReads : Controller Unit :=
  (sampleFullReads.AddTransaction ⟨128, 0, 0, false⟩).2

/-! ## Theorems: bank state machine -/

theorem BankState.requiredType_eq_spec (b : BankState) (cmd : Command) :
    (b.requiredType cmd).map Prod.fst =
      specPrerequisite b.state_ b.open_row_ cmd.cmd_type cmd.Row := by
  rcases b with ⟨s, tm, orow, rh, sv, se, pr, aw⟩
  rcases cmd with ⟨k, a, hx⟩
  by_cases hrow : a.row = orow <;>
    cases s <;> cases k <;>
      simp [BankState.requiredType, specPrerequisite, isDataKind, isMaintenanceKind,
        Command.Row, hrow]

theorem BankState.requiredType_frame (b b1 : BankState) (cmd : Command) (k : CommandType)
    (h : b.requiredType cmd = some (k, b1)) :
    b1.state_ = b.state_ ∧ b1.cmd_timing_ = b.cmd_timing_ ∧ b1.open_row_ = b.open_row_ ∧
      b1.row_hit_count_ = b.row_hit_count_ ∧ b1.in_serve = b.in_serve ∧
      b1.serve_end_cycle = b.serve_end_cycle := by
  rcases b with ⟨s, tm, orow, rh, sv, se, pr, aw⟩
  rcases cmd with ⟨c, a, hx⟩
  by_cases hrow : a.row = orow <;>
    cases s <;> cases c <;>
      simp [BankState.requiredType, Command.Row, hrow] at h <;>
      (obtain ⟨_, rfl⟩ := h; simp)

theorem BankState.requiredType_ne_SIZE (b b1 : BankState) (cmd : Command) (k : CommandType)
    (h : b.requiredType cmd = some (k, b1)) : k ≠ CommandType.SIZE := by
  rcases b with ⟨s, tm, orow, rh, sv, se, pr, aw⟩
  rcases cmd with ⟨c, a, hx⟩
  by_cases hrow : a.row = orow <;>
    cases s <;> cases c <;>
      simp [BankState.requiredType, Command.Row, hrow] at h <;>
      (obtain ⟨rfl, _⟩ := h; simp)

theorem BankState.GetReadyCommand_of_requiredType (b b1 : BankState) (cmd : Command)
    (clk : Nat) (k : CommandType) (h : b.requiredType cmd = some (k, b1)) :
    b.GetReadyCommand cmd clk =
      some (if b.timing k ≤ clk then
          { cmd_type := k, addr := cmd.addr, hex_addr := cmd.hex_addr }
        else Command.invalid, b1) := by
  have hk := BankState.requiredType_ne_SIZE b b1 cmd k h
  have ht : b1.timing k = b.timing k := by
    simp [BankState.timing, (BankState.requiredType_frame b b1 cmd k h).2.1]
  simp only [BankState.GetReadyCommand, h, ht, ne_eq, hk, not_false_eq_true, if_true, ge_iff_le]
  split <;> rfl

theorem BankState.GetReadyCommand_none_iff (b : BankState) (cmd : Command) (clk : Nat) :
    b.GetReadyCommand cmd clk = none ↔ b.requiredType cmd = none := by
  cases h : b.requiredType cmd with
  | none => simp [BankState.GetReadyCommand, h]
  | some p =>
    obtain ⟨k, b1⟩ := p
    simp [BankState.GetReadyCommand_of_requiredType b b1 cmd clk k h]

theorem BankState.requiredType_of_spec (b : BankState) (cmd : Command) (k : CommandType)
    (h : specPrerequisite b.state_ b.open_row_ cmd.cmd_type cmd.Row = some k) :
    ∃ b1, b.requiredType cmd = some (k, b1) := by
  have e := BankState.requiredType_eq_spec b cmd
  rw [h] at e
  cases hr : b.requiredType cmd with
  | none => simp [hr] at e
  | some p =>
    obtain ⟨k1, b1⟩ := p
    simp [hr] at e
    exact ⟨b1, by rw [e]⟩

/-- C1: for a request inside the dispatch table with prerequisite kind `k`,
`GetReadyCommand` returns the invalid command exactly when `clk` is below the
bank's `cmd_timing` entry of `k`; a valid command it returns has kind `k` and
`clk` is at least the bank's `cmd_timing` entry of that kind; the call leaves
the timing entries as they were. -/
theorem BankState.GetReadyCommand_invalid_iff_not_ready (b : BankState) (cmd : Command)
    (clk : Nat) (k : CommandType)
    (h : specPrerequisite b.state_ b.open_row_ cmd.cmd_type cmd.Row = some k) :
    ∃ out b1, b.GetReadyCommand cmd clk = some (out, b1) ∧
      b1.cmd_timing_ = b.cmd_timing_ ∧
      (out.IsValid = false ↔ clk < b.timing k) ∧
      (out.IsValid = true → out.cmd_type = k ∧ b.timing out.cmd_type ≤ clk) := by
  obtain ⟨b1, hr⟩ := BankState.requiredType_of_spec b cmd k h
  have hk := BankState.requiredType_ne_SIZE b b1 cmd k hr
  refine ⟨_, b1, BankState.GetReadyCommand_of_requiredType b b1 cmd clk k hr,
    (BankState.requiredType_frame b b1 cmd k hr).2.1, ?_, ?_⟩
  · by_cases hc : b.timing k ≤ clk
    · simp [hc, Command.IsValid, hk]
    · simp [hc, Command.IsValid, Command.invalid]
      omega
  · by_cases hc : b.timing k ≤ clk
    · simp [hc]
    · simp [hc, Command.IsValid, Command.invalid]

/-- Witness for C1: a closed bank asked for a READ needs ACTIVATE, legal from
cycle 7 on; at cycle 3 nothing is returned. -/
theorem BankState.GetReadyCommand_invalid_iff_not_ready_witness :
    ∃ out b1,
      ({ BankState.init with cmd_timing_ := [0, 0, 0, 0, 7, 0, 0, 0, 0, 0] }).GetReadyCommand
        { cmd_type := CommandType.READ, addr := ⟨0, 0, 0, 0, 5, 0⟩, hex_addr := 4096 } 3 =
        some (out, b1) ∧
      b1.cmd_timing_ = [0, 0, 0, 0, 7, 0, 0, 0, 0, 0] ∧
      (out.IsValid = false ↔
        3 < ({ BankState.init with cmd_timing_ := [0, 0, 0, 0, 7, 0, 0, 0, 0, 0] }).timing
          CommandType.ACTIVATE) ∧
      (out.IsValid = true → out.cmd_type = CommandType.ACTIVATE ∧
        ({ BankState.init with cmd_timing_ := [0, 0, 0, 0, 7, 0, 0, 0, 0, 0] }).timing
          out.cmd_type ≤ 3) :=
  BankState.GetReadyCommand_invalid_iff_not_ready
    { BankState.init with cmd_timing_ := [0, 0, 0, 0, 7, 0, 0, 0, 0, 0] }
    { cmd_type := CommandType.READ, addr := ⟨0, 0, 0, 0, 5, 0⟩, hex_addr := 4096 } 3
    CommandType.ACTIVATE (by decide)

/-- C2: `GetReadyCommand` agrees with the reference dispatch table.  For a
request inside the table with prerequisite `k` and `clk` at least the bank's
`cmd_timing` entry of `k`, it returns the command of kind `k` carrying the
request's address and hex address; for a (state, kind) pair outside the table
it is a fatal error. -/
theorem BankState.GetReadyCommand_eq_dispatch_table (b : BankState) (cmd : Command)
    (clk : Nat) :
    (∀ k, specPrerequisite b.state_ b.open_row_ cmd.cmd_type cmd.Row = some k →
      b.timing k ≤ clk →
      ∃ b1, b.GetReadyCommand cmd clk =
        some ({ cmd_type := k, addr := cmd.addr, hex_addr := cmd.hex_addr }, b1)) ∧
    (specPrerequisite b.state_ b.open_row_ cmd.cmd_type cmd.Row = none →
      b.GetReadyCommand cmd clk = none) := by
  constructor
  · intro k h hc
    obtain ⟨b1, hr⟩ := BankState.requiredType_of_spec b cmd k h
    exact ⟨b1, by rw [BankState.GetReadyCommand_of_requiredType b b1 cmd clk k hr, if_pos hc]⟩
  · intro h
    rw [BankState.GetReadyCommand_none_iff]
    have e := BankState.requiredType_eq_spec b cmd
    rw [h] at e
    simpa using e

/-- Witness for C2: an open bank on row 5 asked to write row 9 answers
PRECHARGE at cycle 12, and a self-refreshing bank asked to REFRESH is outside
the table. -/
theorem BankState.GetReadyCommand_eq_dispatch_table_witness :
    (∃ b1, ({ BankState.init with state_ := State.OPEN, open_row_ := 5 }).GetReadyCommand
        { cmd_type := CommandType.WRITE, addr := ⟨0, 1, 2, 3, 9, 4⟩, hex_addr := 77 } 12 =
        some (Command.mk CommandType.PRECHARGE ⟨0, 1, 2, 3, 9, 4⟩ 77, b1)) ∧
    ({ BankState.init with state_ := State.SREF }).GetReadyCommand
        { cmd_type := CommandType.REFRESH, addr := ⟨0, 1, 2, 3, 9, 4⟩, hex_addr := 77 } 12 =
        none :=
  ⟨(BankState.GetReadyCommand_eq_dispatch_table
      { BankState.init with state_ := State.OPEN, open_row_ := 5 }
      { cmd_type := CommandType.WRITE, addr := ⟨0, 1, 2, 3, 9, 4⟩, hex_addr := 77 } 12).1
      CommandType.PRECHARGE (by decide) (by decide),
    (BankState.GetReadyCommand_eq_dispatch_table
      { BankState.init with state_ := State.SREF }
      { cmd_type := CommandType.REFRESH, addr := ⟨0, 1, 2, 3, 9, 4⟩, hex_addr := 77 } 12).2
      (by decide)⟩

/-- C3: `UpdateState` is the reference transition table: on every bank state
and command it returns what the table of section 4.1 prescribes, and it is a
fatal error exactly on the pairs the table does not list. -/
theorem BankState.UpdateState_eq_transition_table (b : BankState) (cmd : Command) :
    b.UpdateState cmd = specUpdateState b cmd := by
  rcases b with ⟨s, tm, orow, rh, sv, se, pr, aw⟩
  rcases cmd with ⟨k, a, hx⟩
  cases s <;> cases k <;> simp [BankState.UpdateState, specUpdateState, Command.Row]

theorem CommandType.toNat_injective (j k : CommandType) (h : j.toNat = k.toNat) : j = k := by
  cases j <;> cases k <;> simp [CommandType.toNat] at h <;> rfl

theorem BankState.UpdateState_cmd_timing (b b1 : BankState) (cmd : Command)
    (h : b.UpdateState cmd = some b1) : b1.cmd_timing_ = b.cmd_timing_ := by
  rcases b with ⟨s, tm, orow, rh, sv, se, pr, aw⟩
  rcases cmd with ⟨k, a, hx⟩
  cases s <;> cases k <;> simp [BankState.UpdateState] at h <;> (subst h; rfl)

theorem BankState.GetReadyCommand_frame (b b1 : BankState) (cmd out : Command) (clk : Nat)
    (h : b.GetReadyCommand cmd clk = some (out, b1)) :
    b1.state_ = b.state_ ∧ b1.cmd_timing_ = b.cmd_timing_ ∧ b1.open_row_ = b.open_row_ ∧
      b1.row_hit_count_ = b.row_hit_count_ ∧ b1.in_serve = b.in_serve ∧
      b1.serve_end_cycle = b.serve_end_cycle := by
  cases hr : b.requiredType cmd with
  | none => simp [BankState.GetReadyCommand, hr] at h
  | some p =>
    obtain ⟨k, b2⟩ := p
    rw [BankState.GetReadyCommand_of_requiredType b b2 cmd clk k hr] at h
    simp only [Option.some.injEq, Prod.mk.injEq] at h
    obtain ⟨_, rfl⟩ := h
    exact BankState.requiredType_frame b b2 cmd k hr

theorem BankState.UpdateState_open_iff (b b1 : BankState) (cmd : Command)
    (hrow : cmd.cmd_type = CommandType.ACTIVATE → 0 ≤ cmd.Row)
    (h : b.UpdateState cmd = some b1)
    (inv : b.state_ = State.OPEN ↔ 0 ≤ b.open_row_) :
    b1.state_ = State.OPEN ↔ 0 ≤ b1.open_row_ := by
  rcases b with ⟨s, tm, orow, rh, sv, se, pr, aw⟩
  rcases cmd with ⟨k, a, hx⟩
  cases s <;> cases k <;> simp [BankState.UpdateState] at h <;> subst h <;>
    simp_all [Command.Row]

/-- C4: in every bank state reachable from a freshly constructed bank by
successful `UpdateState`, `UpdateTiming` and `GetReadyCommand` calls in which
every ACTIVATE carries a non-negative row, the bank is OPEN if and only if
`open_row_` is non-negative. -/
theorem BankState.open_iff_open_row_nonneg (b : BankState) (h : BankReachable b) :
    b.state_ = State.OPEN ↔ 0 ≤ b.open_row_ := by
  induction h with
  | fresh => decide
  | updateState b b1 cmd _ hrow hu ih => exact BankState.UpdateState_open_iff b b1 cmd hrow hu ih
  | updateTiming b k t _ ih => exact ih
  | getReadyCommand b b1 cmd out clk _ hg ih =>
    obtain ⟨hs, _, ho, _⟩ := BankState.GetReadyCommand_frame b b1 cmd out clk hg
    rw [hs, ho]
    exact ih

/-- Witness for C4: the bank reached by activating row 5 and delaying its
READ timing is OPEN with a non-negative open row. -/
theorem BankState.open_iff_open_row_nonneg_witness :
    (({ BankState.init with state_ := State.OPEN, open_row_ := 5 }).UpdateTiming
        CommandType.READ 14).state_ = State.OPEN ↔
      0 ≤ (({ BankState.init with state_ := State.OPEN, open_row_ := 5 }).UpdateTiming
        CommandType.READ 14).open_row_ :=
  BankState.open_iff_open_row_nonneg _
    (BankReachable.updateTiming _ CommandType.READ 14
      (BankReachable.updateState BankState.init _
        (Command.mk CommandType.ACTIVATE ⟨0, 0, 0, 0, 5, 0⟩ 4096)
        BankReachable.fresh (by decide) rfl))

/-- C5: `UpdateTiming(k, t)` sets the `cmd_timing` entry of `k` to the maximum
of its old value and `t`, leaves every other entry, the state, the open row
and the row-hit count unchanged, and so lowers no entry; `UpdateState` and
`GetReadyCommand` leave every timing entry unchanged. -/
theorem BankState.cmd_timing_never_decreases (b : BankState) (k : CommandType) (t : Nat)
    (hk : k.toNat < b.cmd_timing_.length) :
    (b.UpdateTiming k t).timing k = max (b.timing k) t ∧
    (∀ j, j ≠ k → (b.UpdateTiming k t).timing j = b.timing j) ∧
    (∀ i, i ≠ k.toNat → (b.UpdateTiming k t).cmd_timing_.getD i 0 = b.cmd_timing_.getD i 0) ∧
    (b.UpdateTiming k t).cmd_timing_.length = b.cmd_timing_.length ∧
    (b.UpdateTiming k t).state_ = b.state_ ∧
    (b.UpdateTiming k t).open_row_ = b.open_row_ ∧
    (b.UpdateTiming k t).row_hit_count_ = b.row_hit_count_ ∧
    (∀ j, b.timing j ≤ (b.UpdateTiming k t).timing j) ∧
    (∀ cmd b1, b.UpdateState cmd = some b1 → b1.cmd_timing_ = b.cmd_timing_) ∧
    (∀ cmd clk out b1, b.GetReadyCommand cmd clk = some (out, b1) →
      b1.cmd_timing_ = b.cmd_timing_) := by
  have hself : (b.UpdateTiming k t).timing k = max (b.timing k) t := by
    simp [BankState.UpdateTiming, BankState.timing, List.getD_eq_getElem?_getD,
      List.getElem?_set_self, hk]
  have hidx : ∀ i, i ≠ k.toNat →
      (b.UpdateTiming k t).cmd_timing_.getD i 0 = b.cmd_timing_.getD i 0 := by
    intro i hi
    simp [BankState.UpdateTiming, List.getD_eq_getElem?_getD,
      List.getElem?_set_ne (Ne.symm hi)]
  have hother : ∀ j, j ≠ k → (b.UpdateTiming k t).timing j = b.timing j := by
    intro j hj
    exact hidx j.toNat (fun e => hj (CommandType.toNat_injective j k e))
  refine ⟨hself, hother, hidx, by simp [BankState.UpdateTiming], rfl, rfl, rfl, ?_, ?_, ?_⟩
  · intro j
    by_cases hj : j = k
    · subst hj
      rw [hself]
      exact Nat.le_max_left _ _
    · rw [hother j hj]
  · intro cmd b1 hu
    exact BankState.UpdateState_cmd_timing b b1 cmd hu
  · intro cmd clk out b1 hg
    exact (BankState.GetReadyCommand_frame b b1 cmd out clk hg).2.1

/-- Witness for C5: on a fresh bank, whose timing vector has ten entries, the
ACTIVATE entry is in range. -/
theorem BankState.cmd_timing_never_decreases_witness :
    (BankState.init.UpdateTiming CommandType.ACTIVATE 9).timing CommandType.ACTIVATE =
      max (BankState.init.timing CommandType.ACTIVATE) 9 :=
  (BankState.cmd_timing_never_decreases BankState.init CommandType.ACTIVATE 9 (by decide)).1

/-! ## Theorems: pending queues -/

theorem mmFind_erase_decomp (m : List (Nat × Transaction)) (k : Nat) (h : mmCount m k ≠ 0) :
    ∃ it, mmFind m k = some it ∧ it.1 = k ∧
      m.filter (fun p => p.1 == k) = it :: (mmErase m k).filter (fun p => p.1 == k) ∧
      (mmErase m k).filter (fun p => !(p.1 == k)) = m.filter (fun p => !(p.1 == k)) ∧
      mmCount (mmErase m k) k + 1 = mmCount m k := by
  induction m with
  | nil => simp [mmCount] at h
  | cons x xs ih =>
    by_cases hx : x.1 = k
    · refine ⟨x, ?_, hx, ?_, ?_, ?_⟩
      · simp [mmFind, hx]
      · simp [mmErase, hx]
      · simp [mmErase, hx]
      · simp [mmErase, mmCount, hx]
    · have hc : mmCount xs k ≠ 0 := by
        simpa [mmCount, List.countP_cons, hx] using h
      obtain ⟨it, h1, h2, h3, h4, h5⟩ := ih hc
      refine ⟨it, ?_, h2, ?_, ?_, ?_⟩
      · simpa [mmFind, hx] using h1
      · simpa [mmErase, hx] using h3
      · simpa [mmErase, hx] using h4
      · simpa [mmErase, mmCount, List.countP_cons, hx] using h5

theorem mmCount_eq_zero_filter (m : List (Nat × Transaction)) (k : Nat) (h : mmCount m k = 0) :
    m.filter (fun p => p.1 == k) = [] ∧ m.filter (fun p => !(p.1 == k)) = m := by
  have h0 : ∀ a ∈ m, ¬ ((a.1 == k) = true) := by
    simpa [mmCount, List.countP_eq_zero] using h
  constructor
  · rw [List.filter_eq_nil_iff]
    exact h0
  · rw [List.filter_eq_self]
    intro a ha
    simpa using h0 a ha

theorem Controller.returnPendingReads_eq (hex_addr complete_cycle : Nat) (n : Nat) :
    ∀ (pending : List (Nat × Transaction)) (ret : List Transaction),
      mmCount pending hex_addr = n →
      Controller.returnPendingReads hex_addr complete_cycle n pending ret =
        some (pending.filter (fun p => !(p.1 == hex_addr)),
          ret ++ (pending.filter (fun p => p.1 == hex_addr)).map
            (fun p => { p.2 with complete_cycle := complete_cycle })) := by
  induction n with
  | zero =>
    intro pending ret h
    obtain ⟨h1, h2⟩ := mmCount_eq_zero_filter pending hex_addr h
    simp [Controller.returnPendingReads, h1, h2]
  | succ n ih =>
    intro pending ret h
    have hne : mmCount pending hex_addr ≠ 0 := by omega
    obtain ⟨it, h1, _, h3, h4, h5⟩ := mmFind_erase_decomp pending hex_addr hne
    have hc : mmCount (mmErase pending hex_addr) hex_addr = n := by omega
    simp only [Controller.returnPendingReads, h1]
    rw [ih (mmErase pending hex_addr) _ hc, h4, h3]
    simp

theorem Controller.issuePending_read {ρ : Type} (c : Controller ρ) (cmd : Command)
    (hread : cmd.IsRead = true) (hn : 1 ≤ mmCount c.pending_rd_q_ cmd.hex_addr) :
    c.issuePending cmd =
      some ({ c with
          pending_rd_q_ := c.pending_rd_q_.filter (fun p => !(p.1 == cmd.hex_addr))
          return_queue_ := c.return_queue_ ++
            (c.pending_rd_q_.filter (fun p => p.1 == cmd.hex_addr)).map
              (fun p => { p.2 with complete_cycle := c.clk_ + c.config_.read_delay }) },
        mmCount c.pending_rd_q_ cmd.hex_addr) := by
  have hne : mmCount c.pending_rd_q_ cmd.hex_addr ≠ 0 := by omega
  simp only [Controller.issuePending, hread, if_true, hne, if_false]
  rw [Controller.returnPendingReads_eq cmd.hex_addr _ _ c.pending_rd_q_ c.return_queue_ rfl]

theorem Controller.UpdateCommandStats_read {ρ : Type} (c : Controller ρ) (cmd : Command)
    (count : Nat) (hread : cmd.IsRead = true) :
    ∃ c1, c.UpdateCommandStats cmd count = some c1 ∧
      c1.pending_rd_q_ = c.pending_rd_q_ ∧ c1.pending_wr_q_ = c.pending_wr_q_ ∧
      c1.return_queue_ = c.return_queue_ ∧ c1.channel_state_ = c.channel_state_ ∧
      c1.clk_ = c.clk_ ∧ c1.config_ = c.config_ := by
  rcases cmd with ⟨k, a, hx⟩
  cases k <;> simp [Command.IsRead] at hread <;>
    simp only [Controller.UpdateCommandStats] <;> split <;> exact ⟨_, rfl, rfl, rfl, rfl, rfl, rfl, rfl⟩

theorem Controller.markInServe_frame {ρ : Type} (c : Controller ρ) (cmd : Command) :
    (c.markInServe cmd).pending_rd_q_ = c.pending_rd_q_ ∧
      (c.markInServe cmd).pending_wr_q_ = c.pending_wr_q_ ∧
      (c.markInServe cmd).return_queue_ = c.return_queue_ ∧
      (c.markInServe cmd).clk_ = c.clk_ ∧
      (c.markInServe cmd).config_ = c.config_ ∧
      (c.markInServe cmd).cmd_queue_ = c.cmd_queue_ ∧
      (c.markInServe cmd).unified_queue_ = c.unified_queue_ ∧
      (c.markInServe cmd).read_queue_ = c.read_queue_ ∧
      (c.markInServe cmd).write_buffer_ = c.write_buffer_ ∧
      (c.markInServe cmd).write_draining_ = c.write_draining_ := by
  unfold Controller.markInServe
  split_ifs <;> simp

/-- C7: for a write transaction, `AddTransaction` returns true and appends
exactly one entry to the return queue, with the write's address, the write
flag and `complete_cycle = clk + 1`; when a write to the address is already
pending, `pending_wr_q_` and the transaction queues stay as they were. -/
theorem Controller.AddTransaction_write_completes_next_cycle {ρ : Type} (c : Controller ρ)
    (trans : Transaction) (hw : trans.is_write = true) :
    (c.AddTransaction trans).1 = true ∧
    (c.AddTransaction trans).2.return_queue_ = c.return_queue_ ++
      [{ addr := trans.addr, added_cycle := c.clk_, complete_cycle := c.clk_ + 1,
         is_write := true }] ∧
    (c.AddTransaction trans).2.clk_ = c.clk_ ∧
    (mmCount c.pending_wr_q_ trans.addr ≠ 0 →
      (c.AddTransaction trans).2.pending_wr_q_ = c.pending_wr_q_ ∧
      (c.AddTransaction trans).2.unified_queue_ = c.unified_queue_ ∧
      (c.AddTransaction trans).2.read_queue_ = c.read_queue_ ∧
      (c.AddTransaction trans).2.write_buffer_ = c.write_buffer_) := by
  rcases trans with ⟨a, ac, cc, w⟩
  simp only at hw
  subst hw
  by_cases h0 : mmCount c.pending_wr_q_ a = 0
  · by_cases hu : c.is_unified_queue_ = true
    · simp [Controller.AddTransaction, h0, hu, Controller.pushUnified]
    · simp [Controller.AddTransaction, h0, hu, Controller.pushWrite]
  · simp [Controller.AddTransaction, h0]

/-- Witness for C7: a second write to address 2748, already pending in the
sample controller at cycle 5, completes at cycle 6 and leaves the pending
writes as they were. -/
theorem Controller.AddTransaction_write_completes_next_cycle_witness :
    (sampleController.AddTransaction ⟨2748, 0, 0, true⟩).1 = true ∧
    (sampleController.AddTransaction ⟨2748, 0, 0, true⟩).2.return_queue_ =
      sampleController.return_queue_ ++ [⟨2748, 5, 6, true⟩] ∧
    (sampleController.AddTransaction ⟨2748, 0, 0, true⟩).2.pending_wr_q_ =
      sampleController.pending_wr_q_ :=
  ⟨(Controller.AddTransaction_write_completes_next_cycle sampleController
      ⟨2748, 0, 0, true⟩ rfl).1,
    (Controller.AddTransaction_write_completes_next_cycle sampleController
      ⟨2748, 0, 0, true⟩ rfl).2.1,
    ((Controller.AddTransaction_write_completes_next_cycle sampleController
      ⟨2748, 0, 0, true⟩ rfl).2.2.2 (by decide)).1⟩

/-- C8: a read to an address with a pending write is answered from the write
buffer: `AddTransaction` returns true, appends the read to the return queue
with `complete_cycle = clk + 1`, and changes nothing else but the
arrival-time bookkeeping; in particular the pending queues, the transaction
queues and the command queue are unchanged. -/
theorem Controller.AddTransaction_read_bypasses_on_pending_write {ρ : Type}
    (c : Controller ρ) (trans : Transaction) (hr : trans.is_write = false)
    (hp : 0 < mmCount c.pending_wr_q_ trans.addr) :
    (c.AddTransaction trans).1 = true ∧
    (c.AddTransaction trans).2 =
      { c with
        last_trans_clk_ := c.clk_
        return_queue_ := c.return_queue_ ++
          [{ addr := trans.addr, added_cycle := c.clk_, complete_cycle := c.clk_ + 1,
             is_write := false }] } ∧
    (c.AddTransaction trans).2.pending_rd_q_ = c.pending_rd_q_ ∧
    (c.AddTransaction trans).2.pending_wr_q_ = c.pending_wr_q_ ∧
    (c.AddTransaction trans).2.unified_queue_ = c.unified_queue_ ∧
    (c.AddTransaction trans).2.read_queue_ = c.read_queue_ ∧
    (c.AddTransaction trans).2.write_buffer_ = c.write_buffer_ ∧
    (c.AddTransaction trans).2.cmd_queue_ = c.cmd_queue_ := by
  rcases trans with ⟨a, ac, cc, w⟩
  simp only at hr
  subst hr
  simp only at hp
  simp [Controller.AddTransaction, hp]

/-- Witness for C8: a read of address 2748 at cycle 5, while the write to 2748
is pending in the sample controller, completes at cycle 6. -/
theorem Controller.AddTransaction_read_bypasses_on_pending_write_witness :
    (sampleController.AddTransaction ⟨2748, 0, 0, false⟩).2.return_queue_ =
      [⟨2748, 5, 6, false⟩] ∧
    (sampleController.AddTransaction ⟨2748, 0, 0, false⟩).2.pending_rd_q_ =
      sampleController.pending_rd_q_ := by
  have h := Controller.AddTransaction_read_bypasses_on_pending_write sampleController
    ⟨2748, 0, 0, false⟩ rfl (by decide)
  exact ⟨by rw [h.2.1]; rfl, h.2.2.1⟩

/-- C9: a read to an address without a pending write is inserted into
`pending_rd_q_`; it is pushed onto the transaction queue (the unified queue,
else the read queue) exactly when it is then the only pending read of its
address, that is when no read of the address was pending before; the return
queue, the pending writes and the write buffer are unchanged in both cases. -/
theorem Controller.AddTransaction_read_coalesces {ρ : Type} (c : Controller ρ)
    (trans : Transaction) (hr : trans.is_write = false)
    (hp : mmCount c.pending_wr_q_ trans.addr = 0) :
    (c.AddTransaction trans).1 = true ∧
    (c.AddTransaction trans).2.pending_rd_q_ =
      c.pending_rd_q_ ++ [(trans.addr, { trans with added_cycle := c.clk_ })] ∧
    mmCount (c.AddTransaction trans).2.pending_rd_q_ trans.addr =
      mmCount c.pending_rd_q_ trans.addr + 1 ∧
    (c.AddTransaction trans).2.return_queue_ = c.return_queue_ ∧
    (c.AddTransaction trans).2.pending_wr_q_ = c.pending_wr_q_ ∧
    (c.AddTransaction trans).2.write_buffer_ = c.write_buffer_ ∧
    (mmCount (c.AddTransaction trans).2.pending_rd_q_ trans.addr = 1 →
      (c.is_unified_queue_ = true →
        (c.AddTransaction trans).2.unified_queue_ =
          c.unified_queue_ ++ [{ trans with added_cycle := c.clk_ }] ∧
        (c.AddTransaction trans).2.read_queue_ = c.read_queue_) ∧
      (c.is_unified_queue_ = false →
        (c.AddTransaction trans).2.read_queue_ =
          c.read_queue_ ++ [{ trans with added_cycle := c.clk_ }] ∧
        (c.AddTransaction trans).2.unified_queue_ = c.unified_queue_)) ∧
    (mmCount (c.AddTransaction trans).2.pending_rd_q_ trans.addr ≠ 1 →
      (c.AddTransaction trans).2.unified_queue_ = c.unified_queue_ ∧
      (c.AddTransaction trans).2.read_queue_ = c.read_queue_) := by
  rcases trans with ⟨a, ac, cc, w⟩
  simp only at hr
  subst hr
  simp only at hp
  have hcount : ∀ t, mmCount (c.pending_rd_q_ ++ [(a, t)]) a =
      mmCount c.pending_rd_q_ a + 1 := by
    intro t
    simp [mmCount, List.countP_append]
  have hins : ∀ t, mmInsert c.pending_rd_q_ a t = c.pending_rd_q_ ++ [(a, t)] := fun _ => rfl
  by_cases h1 : mmCount c.pending_rd_q_ a = 0
  · by_cases hu : c.is_unified_queue_ = true
    · simp [Controller.AddTransaction, hp, hcount, h1, hu, Controller.pushUnified, hins]
    · simp [Controller.AddTransaction, hp, hcount, h1, hu, Controller.pushRead, hins]
  · simp [Controller.AddTransaction, hp, hcount, h1, hins]

/-- Witness for C9: in the sample controller a read of the fresh address 128
is queued, there being no write pending for it. -/
theorem Controller.AddTransaction_read_coalesces_witness :
    (sampleController.AddTransaction ⟨128, 0, 0, false⟩).2.pending_rd_q_ =
      sampleController.pending_rd_q_ ++ [(128, ⟨128, 5, 0, false⟩)] ∧
    (sampleController.AddTransaction ⟨128, 0, 0, false⟩).2.return_queue_ = [] :=
  ⟨(Controller.AddTransaction_read_coalesces sampleController ⟨128, 0, 0, false⟩ rfl
      (by decide)).2.1,
    (Controller.AddTransaction_read_coalesces sampleController ⟨128, 0, 0, false⟩ rfl
      (by decide)).2.2.2.1⟩

/-- C10: for a READ or READ_PRECHARGE command whose hex address has `n ≥ 1`
entries in `pending_rd_q_` (each stored under its own address), and a channel
state that accepts the command, `IssueCommand` at cycle `clk` succeeds, removes
all the entries of that address, appends exactly `n` entries to the return
queue, each with that address and `complete_cycle = clk + read_delay`, and
leaves the pending reads of every other address and the pending writes
unchanged. -/
theorem Controller.IssueCommand_read_returns_all_pending {ρ : Type}
    (env : Collaborators ρ) (c : Controller ρ) (cmd : Command) (cs : ChannelState)
    (hread : cmd.cmd_type = CommandType.READ ∨ cmd.cmd_type = CommandType.READ_PRECHARGE)
    (hn : 1 ≤ mmCount c.pending_rd_q_ cmd.hex_addr)
    (hkey : ∀ p ∈ c.pending_rd_q_, p.2.addr = p.1)
    (hcs : env.UpdateTimingAndStates c.channel_state_ cmd c.clk_ = some cs) :
    ∃ c1 done, c.IssueCommand env cmd = some c1 ∧
      mmCount c1.pending_rd_q_ cmd.hex_addr = 0 ∧
      c1.pending_rd_q_ = c.pending_rd_q_.filter (fun p => !(p.1 == cmd.hex_addr)) ∧
      (∀ a, a ≠ cmd.hex_addr →
        c1.pending_rd_q_.filter (fun p => p.1 == a) =
          c.pending_rd_q_.filter (fun p => p.1 == a)) ∧
      c1.return_queue_ = c.return_queue_ ++ done ∧
      done.length = mmCount c.pending_rd_q_ cmd.hex_addr ∧
      done = (c.pending_rd_q_.filter (fun p => p.1 == cmd.hex_addr)).map
        (fun p => { p.2 with complete_cycle := c.clk_ + c.config_.read_delay }) ∧
      (∀ t ∈ done, t.addr = cmd.hex_addr ∧
        t.complete_cycle = c.clk_ + c.config_.read_delay) ∧
      c1.pending_wr_q_ = c.pending_wr_q_ := by
  have hR : cmd.IsRead = true := by
    rcases hread with h | h <;> simp [Command.IsRead, h]
  obtain ⟨c2, hc2, e1, e2, e3, e4, e5, e6⟩ :=
    Controller.UpdateCommandStats_read
      { c with
        pending_rd_q_ := c.pending_rd_q_.filter (fun p => !(p.1 == cmd.hex_addr))
        return_queue_ := c.return_queue_ ++
          (c.pending_rd_q_.filter (fun p => p.1 == cmd.hex_addr)).map
            (fun p => { p.2 with complete_cycle := c.clk_ + c.config_.read_delay }) }
      cmd (mmCount c.pending_rd_q_ cmd.hex_addr) hR
  simp only at e1 e2 e3 e4 e5 e6
  have hI : c.IssueCommand env cmd =
      some (Controller.markInServe { c2 with channel_state_ := cs } cmd) := by
    simp only [Controller.IssueCommand, Controller.issuePending_read c cmd hR hn, hc2, e4, e5,
      hcs]
  obtain ⟨m1, m2, m3, _⟩ := Controller.markInServe_frame { c2 with channel_state_ := cs } cmd
  simp only at m1 m2 m3
  refine ⟨_, _, hI, ?_, ?_, ?_, ?_, ?_, rfl, ?_, ?_⟩
  · rw [m1, e1]
    simp [mmCount, List.countP_eq_zero]
  · rw [m1, e1]
  · intro a ha
    rw [m1, e1, List.filter_filter]
    congr 1
    funext p
    by_cases hp : p.1 = a
    · simp [hp, ha]
    · simp [hp]
  · rw [m3, e3]
  · simp [mmCount, List.countP_eq_length_filter]
  · intro t ht
    simp only [List.mem_map, List.mem_filter] at ht
    obtain ⟨p, ⟨hp1, hp2⟩, rfl⟩ := ht
    have := hkey p hp1
    simp only [beq_iff_eq] at hp2
    simp [this, hp2]
  · rw [m2, e2]

/-- Witness for C10: in the sample controller the READ command for address
4096, with two pending reads and its bank open, returns both at cycle
5 + 20. -/
theorem Controller.IssueCommand_read_returns_all_pending_witness :
    ∃ c1 done, sampleController.IssueCommand sampleCollaborators
        ⟨CommandType.READ, ⟨0, 0, 0, 0, 8, 0⟩, 4096⟩ = some c1 ∧
      mmCount c1.pending_rd_q_ 4096 = 0 ∧
      c1.return_queue_ = sampleController.return_queue_ ++ done ∧
      done.length = 2 ∧
      (∀ t ∈ done, t.addr = 4096 ∧ t.complete_cycle = 25) := by
  obtain ⟨c1, done, h1, h2, _, _, h5, h6, _, h8, _⟩ :=
    Controller.IssueCommand_read_returns_all_pending sampleCollaborators sampleController
      ⟨CommandType.READ, ⟨0, 0, 0, 0, 8, 0⟩, 4096⟩
      (sampleController.channel_state_.setBank 0 0 0
        { BankState.init with state_ := State.OPEN, open_row_ := 8, row_hit_count_ := 1 })
      (Or.inl rfl) (by decide) (by decide) (by decide)
  exact ⟨c1, done, h1, h2, h5, h6, h8⟩

/-! ## Theorems: uniqueness of pending writes -/

theorem foldl_preserves {α β : Type} (P : α → Prop) (f : α → β → α)
    (h : ∀ a b, P a → P (f a b)) : ∀ (l : List β) (a : α), P a → P (l.foldl f a) := by
  intro l
  induction l with
  | nil => intro a ha; simpa using ha
  | cons x xs ih => intro a ha; simpa using ih (f a x) (h a x ha)

theorem Controller.markInServe_pending_wr {ρ : Type} (c : Controller ρ) (cmd : Command) :
    (c.markInServe cmd).pending_wr_q_ = c.pending_wr_q_ :=
  (Controller.markInServe_frame c cmd).2.1

theorem Controller.UpdateCommandStats_pending_wr {ρ : Type} (c c1 : Controller ρ)
    (cmd : Command) (count : Nat) (h : c.UpdateCommandStats cmd count = some c1) :
    c1.pending_wr_q_ = c.pending_wr_q_ := by
  rcases cmd with ⟨k, a, hx⟩
  cases k <;> simp only [Controller.UpdateCommandStats] at h <;>
    first
    | (split at h <;> (simp only [Option.some.injEq] at h; subst h; rfl))
    | (simp only [Option.some.injEq] at h; subst h; rfl)
    | simp at h

theorem Controller.issuePending_pending_wr {ρ : Type} (c c1 : Controller ρ) (cmd : Command)
    (n : Nat) (h : c.issuePending cmd = some (c1, n)) :
    c1.pending_wr_q_.Sublist c.pending_wr_q_ := by
  unfold Controller.issuePending at h
  by_cases h1 : cmd.IsRead = true
  · simp only [h1, if_true] at h
    by_cases h0 : mmCount c.pending_rd_q_ cmd.hex_addr = 0
    · simp [h0] at h
    · simp only [h0, if_false] at h
      cases hr : Controller.returnPendingReads cmd.hex_addr (c.clk_ + c.config_.read_delay)
          (mmCount c.pending_rd_q_ cmd.hex_addr) c.pending_rd_q_ c.return_queue_ with
      | none => simp [hr] at h
      | some p =>
        simp only [hr, Option.some.injEq, Prod.mk.injEq] at h
        obtain ⟨rfl, _⟩ := h
        exact List.Sublist.refl _
  · simp only [h1] at h
    by_cases h2 : cmd.IsWrite = true
    · simp only [h2, if_true] at h
      cases hf : mmFind c.pending_wr_q_ cmd.hex_addr with
      | none => simp [hf] at h
      | some p =>
        simp only [hf, Option.some.injEq, Prod.mk.injEq] at h
        obtain ⟨rfl, _⟩ := h
        exact List.eraseP_sublist _
    · simp only [h2] at h
      simp only [Bool.false_eq_true, if_false, Option.some.injEq, Prod.mk.injEq] at h
      obtain ⟨rfl, _⟩ := h
      exact List.Sublist.refl _

theorem Controller.IssueCommand_pending_wr {ρ : Type} (env : Collaborators ρ)
    (c c1 : Controller ρ) (cmd : Command) (h : c.IssueCommand env cmd = some c1) :
    c1.pending_wr_q_.Sublist c.pending_wr_q_ := by
  unfold Controller.IssueCommand at h
  cases hp : c.issuePending cmd with
  | none => simp [hp] at h
  | some p =>
    obtain ⟨c2, n⟩ := p
    simp only [hp] at h
    cases hs : c2.UpdateCommandStats cmd n with
    | none => simp [hs] at h
    | some c3 =>
      simp only [hs] at h
      cases hu : env.UpdateTimingAndStates c3.channel_state_ cmd c3.clk_ with
      | none => simp [hu] at h
      | some cs =>
        simp only [hu, Option.some.injEq] at h
        subst h
        rw [Controller.markInServe_pending_wr]
        simp only
        rw [Controller.UpdateCommandStats_pending_wr c2 c3 cmd n hs]
        exact Controller.issuePending_pending_wr c c2 cmd n hp

theorem Controller.fetchRefresh_pending_wr {ρ : Type} (env : Collaborators ρ)
    (c c1 : Controller ρ) (cmd : Command) (h : c.fetchRefresh env = some (cmd, c1)) :
    c1.pending_wr_q_ = c.pending_wr_q_ := by
  unfold Controller.fetchRefresh at h
  split at h
  · split at h
    · simp at h
    · simp only [Option.some.injEq, Prod.mk.injEq] at h
      obtain ⟨_, rfl⟩ := h
      rfl
  · simp only [Option.some.injEq, Prod.mk.injEq] at h
    obtain ⟨_, rfl⟩ := h
    rfl

theorem Controller.fetchCommand_pending_wr {ρ : Type} (env : Collaborators ρ)
    (c c1 : Controller ρ) (cmd : Command) (h : c.fetchCommand env = some (cmd, c1)) :
    c1.pending_wr_q_ = c.pending_wr_q_ := by
  unfold Controller.fetchCommand at h
  split at h
  · simp at h
  · rename_i cmd1 c2 hfr
    have h2 := Controller.fetchRefresh_pending_wr env c c2 cmd1 hfr
    split at h
    · split at h
      · simp at h
      · simp only [Option.some.injEq, Prod.mk.injEq] at h
        obtain ⟨_, rfl⟩ := h
        exact h2
    · simp only [Option.some.injEq, Prod.mk.injEq] at h
      obtain ⟨_, rfl⟩ := h
      exact h2

theorem Controller.issueFetched_pending_wr {ρ : Type} (env : Collaborators ρ)
    (c c1 : Controller ρ) (cmd : Command) (b : Bool)
    (h : c.issueFetched env cmd = some (c1, b)) :
    c1.pending_wr_q_.Sublist c.pending_wr_q_ := by
  unfold Controller.issueFetched at h
  split at h
  · split at h
    · simp at h
    · rename_i c2 hi
      have h2 := Controller.IssueCommand_pending_wr env c c2 cmd hi
      split at h
      · split at h
        · simp at h
        · rename_i second cq cs hg
          dsimp only at h
          split at h
          · split at h
            · simp at h
            · rename_i c3 hi3
              simp only [Option.some.injEq, Prod.mk.injEq] at h
              obtain ⟨rfl, _⟩ := h
              exact (Controller.IssueCommand_pending_wr env _ c3 second hi3).trans h2
          · simp only [Option.some.injEq, Prod.mk.injEq] at h
            obtain ⟨rfl, _⟩ := h
            exact h2
      · simp only [Option.some.injEq, Prod.mk.injEq] at h
        obtain ⟨rfl, _⟩ := h
        exact h2
  · simp only [Option.some.injEq, Prod.mk.injEq] at h
    obtain ⟨rfl, _⟩ := h
    exact List.Sublist.refl _

theorem Controller.powerUpdate_pending_wr {ρ : Type} (env : Collaborators ρ)
    (c : Controller ρ) : (c.powerUpdate env).pending_wr_q_ = c.pending_wr_q_ := by
  unfold Controller.powerUpdate
  apply foldl_preserves (fun x : Controller ρ => x.pending_wr_q_ = c.pending_wr_q_)
  · intro a i ha
    simp only
    split
    · exact ha
    · split <;> exact ha
  · rfl

theorem Controller.selfRefreshLoop_pending_wr {ρ : Type} (env : Collaborators ρ)
    (l : List Nat) : ∀ (c c1 : Controller ρ), Controller.selfRefreshLoop env l c = some c1 →
      c1.pending_wr_q_.Sublist c.pending_wr_q_ := by
  induction l with
  | nil =>
    intro c c1 h
    simp only [Controller.selfRefreshLoop, Option.some.injEq] at h
    subst h
    exact List.Sublist.refl _
  | cons i rest ih =>
    intro c c1 h
    unfold Controller.selfRefreshLoop at h
    split at h
    · split at h
      · split at h
        · simp at h
        · split at h
          · have h3 := Controller.IssueCommand_pending_wr env _ c1 _ h
            exact h3
          · have h3 := ih _ c1 h
            exact h3
      · exact ih _ c1 h
    · split at h
      · split at h
        · simp at h
        · split at h
          · have h3 := Controller.IssueCommand_pending_wr env _ c1 _ h
            exact h3
          · have h3 := ih _ c1 h
            exact h3
      · exact ih _ c1 h

theorem Controller.selfRefresh_pending_wr {ρ : Type} (env : Collaborators ρ)
    (c c1 : Controller ρ) (b : Bool) (h : c.selfRefresh env b = some c1) :
    c1.pending_wr_q_.Sublist c.pending_wr_q_ := by
  unfold Controller.selfRefresh at h
  split at h
  · exact Controller.selfRefreshLoop_pending_wr env _ c c1 h
  · simp only [Option.some.injEq] at h
    subst h
    exact List.Sublist.refl _

theorem Controller.Calculate_stats_pending_wr {ρ : Type} (env : Collaborators ρ)
    (c : Controller ρ) : (c.Calculate_stats env).pending_wr_q_ = c.pending_wr_q_ := by
  unfold Controller.Calculate_stats
  apply foldl_preserves (fun x : Controller ρ => x.pending_wr_q_ = c.pending_wr_q_)
  · intro a i ha
    simp only
    split <;> exact ha
  · rfl

theorem Controller.setTransQueue_pending_wr {ρ : Type} (c : Controller ρ)
    (q : Controller.TransQueue) (l : List Transaction) :
    (c.setTransQueue q l).pending_wr_q_ = c.pending_wr_q_ := by
  cases q <;> rfl

theorem Controller.ScheduleTransaction_pending_wr {ρ : Type} (c : Controller ρ) :
    c.ScheduleTransaction.pending_wr_q_ = c.pending_wr_q_ := by
  unfold Controller.ScheduleTransaction
  simp only
  split
  · split_ifs <;> rfl
  · split_ifs <;> simp only [Controller.setTransQueue_pending_wr]

theorem Controller.ClockTick_pending_wr {ρ : Type} (env : Collaborators ρ)
    (c c1 : Controller ρ) (h : c.ClockTick env = some c1) :
    c1.pending_wr_q_.Sublist c.pending_wr_q_ := by
  unfold Controller.ClockTick at h
  split at h
  · simp at h
  · rename_i r cs hr
    dsimp only at h
    split at h
    · simp at h
    · rename_i cmd c2 hf
      have e2 := Controller.fetchCommand_pending_wr env _ c2 cmd hf
      split at h
      · simp at h
      · rename_i c3 issued hi
        have e3 := Controller.issueFetched_pending_wr env c2 c3 cmd issued hi
        split at h
        · simp at h
        · rename_i c5 hs
          have e5 := Controller.selfRefresh_pending_wr env _ c5 issued hs
          rw [Controller.powerUpdate_pending_wr] at e5
          simp only [Option.some.injEq] at h
          subst h
          simp only [Controller.ScheduleTransaction_pending_wr,
            Controller.Calculate_stats_pending_wr]
          simp only at e2
          rw [e2] at e3
          exact e5.trans e3

theorem Controller.ReturnDoneTrans_pending_wr {ρ : Type} (c : Controller ρ) (clk : Nat) :
    (c.ReturnDoneTrans clk).2.pending_wr_q_ = c.pending_wr_q_ := by
  unfold Controller.ReturnDoneTrans
  split <;> rfl

theorem Controller.init_pending_wr {ρ : Type} (channel : Int) (config : Config)
    (channel_state : ChannelState) (refresh : ρ) (c : Controller ρ)
    (h : Controller.init channel config channel_state refresh = some c) :
    c.pending_wr_q_ = [] := by
  unfold Controller.init at h
  split at h
  · simp at h
  · simp only [Option.some.injEq] at h
    subst h
    rfl

theorem Controller.AddTransaction_pending_wr_unique {ρ : Type} (c : Controller ρ)
    (trans : Transaction) (inv : ∀ a, mmCount c.pending_wr_q_ a ≤ 1) :
    ∀ a, mmCount (c.AddTransaction trans).2.pending_wr_q_ a ≤ 1 := by
  intro a
  rcases trans with ⟨ta, tac, tcc, w⟩
  have hins : ∀ t, mmCount (mmInsert c.pending_wr_q_ ta t) a ≤ 1 ∨
      mmCount c.pending_wr_q_ ta ≠ 0 := by
    intro t
    by_cases h0 : mmCount c.pending_wr_q_ ta = 0
    · left
      by_cases ha : ta = a
      · subst ha
        simp [mmCount, mmInsert, List.countP_append] at h0 ⊢
        simpa [List.countP_eq_zero] using h0
      · have := inv a
        simpa [mmCount, mmInsert, List.countP_append, List.countP_cons, ha] using this
    · right
      exact h0
  unfold Controller.AddTransaction
  dsimp only
  cases w
  · simp only [Bool.false_eq_true, if_false]
    split_ifs <;> simpa [Controller.pushUnified, Controller.pushRead] using inv a
  · simp only [if_true]
    by_cases h0 : mmCount c.pending_wr_q_ ta = 0
    · simp only [h0, if_true]
      have key := (hins ⟨ta, c.clk_, tcc, true⟩).resolve_right (by simp [h0])
      split_ifs <;> simpa [Controller.pushUnified, Controller.pushWrite] using key
    · simpa [h0] using inv a

/-- C6: in every controller state reachable from the constructed controller by
calls of `AddTransaction`, `ClockTick` (which issues commands through
`IssueCommand`) and `ReturnDoneTrans`, `pending_wr_q_` holds at most one entry
for each address. -/
theorem Controller.pending_wr_q_at_most_one_per_address {ρ : Type} (env : Collaborators ρ)
    (c : Controller ρ) (h : Controller.Reachable env c) (a : Nat) :
    mmCount c.pending_wr_q_ a ≤ 1 := by
  induction h generalizing a with
  | init channel config channel_state refresh c hc =>
    rw [Controller.init_pending_wr channel config channel_state refresh c hc]
    simp [mmCount]
  | addTransaction c trans _ ih =>
    exact Controller.AddTransaction_pending_wr_unique c trans ih a
  | clockTick c c1 _ ht ih =>
    exact le_trans (List.Sublist.countP_le _ (Controller.ClockTick_pending_wr env c c1 ht))
      (ih a)
  | returnDoneTrans c clk _ ih =>
    rw [Controller.ReturnDoneTrans_pending_wr]
    exact ih a

/-- Witness for C6: the controller constructed from the sample configuration,
after two writes to address 2748 and one clock tick, is reachable and holds at
most one pending write for 2748. -/
theorem Controller.pending_wr_q_at_most_one_per_address_witness :
    ∃ c0 c1, Controller.init 0 sampleConfig sampleChannelState () = some c0 ∧
      (Controller.ClockTick sampleCollaborators
        ((c0.AddTransaction ⟨2748, 0, 0, true⟩).2.AddTransaction ⟨2748, 0, 0, true⟩).2) =
        some c1 ∧
      mmCount c1.pending_wr_q_ 2748 ≤ 1 := by
  have h0 : (Controller.init 0 sampleConfig sampleChannelState ()).isSome = true := rfl
  obtain ⟨c0, hc0⟩ := Option.isSome_iff_exists.mp h0
  have h1 : (Controller.ClockTick sampleCollaborators
      ((((Controller.init 0 sampleConfig sampleChannelState ()).get h0).AddTransaction
        ⟨2748, 0, 0, true⟩).2.AddTransaction ⟨2748, 0, 0, true⟩).2).isSome = true := rfl
  have e0 : (Controller.init 0 sampleConfig sampleChannelState ()).get h0 = c0 := by
    simp [hc0]
  rw [e0] at h1
  obtain ⟨c1, hc1⟩ := Option.isSome_iff_exists.mp h1
  exact ⟨c0, c1, hc0, hc1,
    Controller.pending_wr_q_at_most_one_per_address sampleCollaborators c1
      (Controller.Reachable.clockTick _ c1
        (Controller.Reachable.addTransaction _ _
          (Controller.Reachable.addTransaction _ _
            (Controller.Reachable.init 0 sampleConfig sampleChannelState () c0 hc0)))
        hc1) 2748⟩

/-! ## Theorems: completion -/

theorem Controller.returnDoneFrom_none (clk : Nat) (l : List Transaction) :
    ∀ pre, (∀ x ∈ l, clk < x.complete_cycle) → Controller.returnDoneFrom clk pre l = none := by
  induction l with
  | nil => intro pre _; rfl
  | cons t post ih =>
    intro pre h
    have ht : ¬ clk ≥ t.complete_cycle := by
      have := h t (List.mem_cons_self _ _)
      omega
    simp only [Controller.returnDoneFrom, ht, if_false]
    exact ih _ (fun x hx => h x (List.mem_cons_of_mem _ hx))

theorem Controller.returnDoneFrom_first (clk : Nat) (a : List Transaction) (t : Transaction)
    (b : List Transaction) :
    ∀ pre, (∀ x ∈ a, clk < x.complete_cycle) → t.complete_cycle ≤ clk →
      Controller.returnDoneFrom clk pre (a ++ t :: b) = some (t, pre ++ a ++ b) := by
  induction a with
  | nil =>
    intro pre _ ht
    simp [Controller.returnDoneFrom, ht]
  | cons x xs ih =>
    intro pre h ht
    have hx : ¬ clk ≥ x.complete_cycle := by
      have := h x (List.mem_cons_self _ _)
      omega
    have h3 := ih (pre ++ [x]) (fun y hy => h y (List.mem_cons_of_mem _ hy)) ht
    simpa [Controller.returnDoneFrom, hx] using h3

theorem exists_first_due (clk : Nat) (l : List Transaction)
    (h : ∃ x ∈ l, x.complete_cycle ≤ clk) :
    ∃ pre t post, l = pre ++ t :: post ∧ (∀ x ∈ pre, clk < x.complete_cycle) ∧
      t.complete_cycle ≤ clk := by
  induction l with
  | nil => simp at h
  | cons y ys ih =>
    by_cases hy : y.complete_cycle ≤ clk
    · exact ⟨[], y, ys, rfl, by simp, hy⟩
    · have h2 : ∃ x ∈ ys, x.complete_cycle ≤ clk := by
        obtain ⟨x, hx, hxc⟩ := h
        rcases List.mem_cons.mp hx with rfl | hx
        · exact absurd hxc hy
        · exact ⟨x, hx, hxc⟩
      obtain ⟨pre, t, post, e, h1, h3⟩ := ih h2
      refine ⟨y :: pre, t, post, by rw [e]; rfl, ?_, h3⟩
      intro x hx
      rcases List.mem_cons.mp hx with rfl | hx
      · omega
      · exact h1 x hx

/-- C12: `ReturnDoneTrans(clk)` returns the (address, write flag) pair of the
earliest-inserted return-queue entry with `complete_cycle ≤ clk` and removes
exactly that entry, the others keeping their order; such an entry is found
whenever one exists; when none exists it returns the pair made from
`(-1, -1)`, whose address component is the largest `uint64_t`, and changes
nothing. -/
theorem Controller.ReturnDoneTrans_returns_earliest_done {ρ : Type} (c : Controller ρ)
    (clk : Nat) :
    (∀ pre t post, c.return_queue_ = pre ++ t :: post →
      (∀ x ∈ pre, clk < x.complete_cycle) → t.complete_cycle ≤ clk →
      c.ReturnDoneTrans clk =
        ((t.addr, if t.is_write then 1 else 0), { c with return_queue_ := pre ++ post })) ∧
    ((∃ x ∈ c.return_queue_, x.complete_cycle ≤ clk) →
      ∃ pre t post, c.return_queue_ = pre ++ t :: post ∧
        (∀ x ∈ pre, clk < x.complete_cycle) ∧ t.complete_cycle ≤ clk) ∧
    ((∀ x ∈ c.return_queue_, clk < x.complete_cycle) →
      c.ReturnDoneTrans clk = ((18446744073709551615, -1), c)) := by
  refine ⟨?_, exists_first_due clk c.return_queue_, ?_⟩
  · intro pre t post e h1 h2
    simp only [Controller.ReturnDoneTrans, e,
      Controller.returnDoneFrom_first clk pre t post [] h1 h2, List.nil_append]
  · intro h
    simp only [Controller.ReturnDoneTrans, Controller.returnDoneFrom_none clk _ [] h]

/-- Witness for C12: with the entries completing at cycles 9, 4 and 3 in the
return queue, `ReturnDoneTrans(5)` returns the second one and keeps the first
and third in order. -/
theorem Controller.ReturnDoneTrans_returns_earliest_done_witness :
    ({ sampleController with
        return_queue_ := [⟨10, 0, 9, false⟩, ⟨20, 0, 4, true⟩, ⟨30, 0, 3, false⟩] }
      ).ReturnDoneTrans 5 =
      ((20, 1), { sampleController with
        return_queue_ := [⟨10, 0, 9, false⟩, ⟨30, 0, 3, false⟩] }) :=
  (Controller.ReturnDoneTrans_returns_earliest_done
    { sampleController with
      return_queue_ := [⟨10, 0, 9, false⟩, ⟨20, 0, 4, true⟩, ⟨30, 0, 3, false⟩] } 5).1
    [⟨10, 0, 9, false⟩] ⟨20, 0, 4, true⟩ [⟨30, 0, 3, false⟩] rfl (by decide) (by decide)

/-! ## Theorems: command queue -/

theorem CommandQueue.EraseRWCommand_shape (cq cq1 : CommandQueue) (config : Config)
    (cmd : Command) (h : cq.EraseRWCommand config cmd = some cq1) :
    ∃ pre e post,
      cq.queues_.getD (cq.GetQueueIndex config cmd.Rank cmd.Bankgroup cmd.Bank).toNat [] =
        pre ++ e :: post ∧
      (cq.GetQueueIndex config cmd.Rank cmd.Bankgroup cmd.Bank).toNat < cq.queues_.length ∧
      e.hex_addr = cmd.hex_addr ∧ e.cmd_type = cmd.cmd_type ∧
      (∀ x ∈ pre, ¬ (x.hex_addr = cmd.hex_addr ∧ x.cmd_type = cmd.cmd_type)) ∧
      cq1 = { cq with queues_ := cq1.queues_ } ∧
      cq1.queues_ = cq.queues_.set
        (cq.GetQueueIndex config cmd.Rank cmd.Bankgroup cmd.Bank).toNat (pre ++ post) := by
  unfold CommandQueue.EraseRWCommand at h
  dsimp only at h
  split at h
  · rename_i hany
    simp only [Option.some.injEq] at h
    subst h
    rw [List.any_eq_true] at hany
    obtain ⟨x, hx, hxp⟩ := hany
    obtain ⟨e, pre, post, h1, h2, h3, h4⟩ :=
      List.exists_of_eraseP
        (p := fun e => cmd.hex_addr == e.hex_addr && cmd.cmd_type == e.cmd_type) hx hxp
    have hlen : (cq.GetQueueIndex config cmd.Rank cmd.Bankgroup cmd.Bank).toNat <
        cq.queues_.length := by
      by_contra hc
      have : cq.queues_.getD
          (cq.GetQueueIndex config cmd.Rank cmd.Bankgroup cmd.Bank).toNat [] = [] := by
        simp [List.getD_eq_getElem?_getD, List.getElem?_eq_none (Nat.le_of_not_lt hc)]
      rw [this] at hx
      simp at hx
    simp only [Bool.and_eq_true, beq_iff_eq] at h2
    refine ⟨pre, e, post, h3, hlen, h2.1.symm, h2.2.symm, ?_, rfl, ?_⟩
    · intro y hy hcon
      exact h1 y hy (by simp [hcon.1, hcon.2])
    · simp only [h4]
  · simp at h

theorem CommandQueue.issueLoop_shape {ρ : Type} (env : Collaborators ρ) (config : Config)
    (n : Nat) : ∀ (cq cq1 : CommandQueue) (cs cs1 : ChannelState) (cmd : Command),
      CommandQueue.issueLoop env config n cq cs = some (cmd, cq1, cs1) →
      ∃ cqm, cqm = { cq with queue_idx_ := cqm.queue_idx_ } ∧
        ((cmd.IsReadWrite = true ∧ cqm.EraseRWCommand config cmd = some cq1) ∨
          (cmd.IsReadWrite = false ∧ cq1 = cqm)) := by
  induction n with
  | zero =>
    intro cq cq1 cs cs1 cmd h
    simp only [CommandQueue.issueLoop, Option.some.injEq, Prod.mk.injEq] at h
    obtain ⟨rfl, rfl, _⟩ := h
    exact ⟨cq, rfl, Or.inr ⟨by decide, rfl⟩⟩
  | succ n ih =>
    intro cq cq1 cs cs1 cmd h
    unfold CommandQueue.issueLoop at h
    dsimp only at h
    have step : ∀ cqm, cqm = { cq.GetNextQueue with queue_idx_ := cqm.queue_idx_ } →
        cqm = { cq with queue_idx_ := cqm.queue_idx_ } := by
      intro cqm e
      rw [e]
      rfl
    split at h
    · obtain ⟨cqm, e, hh⟩ := ih _ _ _ _ _ h
      exact ⟨cqm, step cqm e, hh⟩
    · split at h
      · simp at h
      · rename_i cmd0 cs0 hg
        split at h
        · split at h
          · rename_i hrw
            split at h
            · simp at h
            · rename_i cq2 he
              simp only [Option.some.injEq, Prod.mk.injEq] at h
              obtain ⟨rfl, rfl, _⟩ := h
              exact ⟨cq.GetNextQueue, rfl, Or.inl ⟨hrw, he⟩⟩
          · rename_i hrw
            simp only [Option.some.injEq, Prod.mk.injEq] at h
            obtain ⟨rfl, rfl, _⟩ := h
            exact ⟨cq.GetNextQueue, rfl, Or.inr ⟨by simpa using hrw, rfl⟩⟩
        · obtain ⟨cqm, e, hh⟩ := ih _ _ _ _ _ h
          exact ⟨cqm, step cqm e, hh⟩

theorem CommandQueue.GetCommandToIssue_shape {ρ : Type} (env : Collaborators ρ)
    (config : Config) (cq cq1 : CommandQueue) (cs cs1 : ChannelState) (cmd : Command)
    (h : cq.GetCommandToIssue env config cs = some (cmd, cq1, cs1)) :
    ∃ cqm, cqm = { cq with queue_idx_ := cqm.queue_idx_ } ∧
      ((cmd.IsReadWrite = true ∧ cqm.EraseRWCommand config cmd = some cq1) ∨
        (cmd.IsReadWrite = false ∧ cq1 = cqm)) :=
  CommandQueue.issueLoop_shape env config _ cq cq1 cs cs1 cmd h

theorem CommandQueue.FinishRefresh_shape {ρ : Type} (env : Collaborators ρ)
    (config : Config) (cq cq1 : CommandQueue) (cs cs1 : ChannelState) (cmd : Command)
    (h : cq.FinishRefresh env config cs = some (cmd, cq1, cs1)) :
    cq1 = { cq with ref_q_indices_ := cq1.ref_q_indices_, is_in_ref_ := cq1.is_in_ref_ } := by
  unfold CommandQueue.FinishRefresh at h
  split at h
  · simp at h
  · rename_i ref href
    dsimp only at h
    have hq : ∀ cqx : CommandQueue,
        cqx = (if (!cq.is_in_ref_) = true then
          { cq.GetRefQIndices config ref with is_in_ref_ := true } else cq) →
        cqx = { cq with ref_q_indices_ := cqx.ref_q_indices_, is_in_ref_ := cqx.is_in_ref_ } := by
      intro cqx e
      rw [e]
      split
      · unfold CommandQueue.GetRefQIndices
        split
        · split <;> rfl
        · rfl
      · rfl
    split at h
    · simp at h
    · split at h
      · simp only [Option.some.injEq, Prod.mk.injEq] at h
        obtain ⟨_, rfl, _⟩ := h
        have := hq _ rfl
        rw [this]
      · simp only [Option.some.injEq, Prod.mk.injEq] at h
        obtain ⟨_, rfl, _⟩ := h
        exact hq _ rfl

theorem List.length_le_of_mem_set {α : Type} (l : List (List α)) (i n : Nat) (x : List α)
    (hl : ∀ q ∈ l, q.length ≤ n) (hx : x.length ≤ n) : ∀ q ∈ l.set i x, q.length ≤ n := by
  intro q hq
  rcases List.mem_or_eq_of_mem_set hq with h | h
  · exact hl q h
  · rw [h]
    exact hx

theorem CommandQueue.getD_mem_or_nil (l : List (List Command)) (i : Nat) :
    l.getD i [] ∈ l ∨ l.getD i [] = [] := by
  by_cases h : i < l.length
  · left
    rw [List.getD_eq_getElem _ _ h]
    exact List.getElem_mem _
  · right
    simp [List.getD_eq_getElem?_getD, List.getElem?_eq_none (Nat.le_of_not_lt h)]

theorem CommandQueue.AddCommand_bound (cq : CommandQueue) (config : Config) (cmd : Command)
    (inv : ∀ q ∈ cq.queues_, q.length ≤ cq.queue_size_) :
    (cq.AddCommand config cmd).2.queue_size_ = cq.queue_size_ ∧
      ∀ q ∈ (cq.AddCommand config cmd).2.queues_,
        q.length ≤ (cq.AddCommand config cmd).2.queue_size_ := by
  unfold CommandQueue.AddCommand
  dsimp only
  split
  · rename_i hroom
    refine ⟨rfl, ?_⟩
    dsimp only
    apply List.length_le_of_mem_set _ _ _ _ inv
    simp only [List.length_append, List.length_singleton]
    omega
  · exact ⟨rfl, inv⟩

theorem CommandQueue.EraseRWCommand_bound (cq cq1 : CommandQueue) (config : Config)
    (cmd : Command) (h : cq.EraseRWCommand config cmd = some cq1)
    (inv : ∀ q ∈ cq.queues_, q.length ≤ cq.queue_size_) :
    cq1.queue_size_ = cq.queue_size_ ∧ ∀ q ∈ cq1.queues_, q.length ≤ cq1.queue_size_ := by
  obtain ⟨pre, e, post, h1, hlen, _, _, _, h6, h7⟩ :=
    CommandQueue.EraseRWCommand_shape cq cq1 config cmd h
  have hs : cq1.queue_size_ = cq.queue_size_ := by rw [h6]
  refine ⟨hs, ?_⟩
  rw [hs, h7]
  apply List.length_le_of_mem_set _ _ _ _ inv
  have hmem : cq.queues_.getD
      (cq.GetQueueIndex config cmd.Rank cmd.Bankgroup cmd.Bank).toNat [] ∈ cq.queues_ := by
    rw [List.getD_eq_getElem _ _ hlen]
    exact List.getElem_mem _
  have := inv _ hmem
  rw [h1] at this
  simp only [List.length_append, List.length_cons] at this ⊢
  omega

theorem CommandQueue.Reachable_bound {ρ : Type} (env : Collaborators ρ) (config : Config)
    (cq : CommandQueue) (h : CommandQueue.Reachable env config cq) :
    cq.queue_size_ = config.cmd_queue_size ∧ ∀ q ∈ cq.queues_, q.length ≤ cq.queue_size_ := by
  induction h with
  | init cq hi =>
    unfold CommandQueue.init at hi
    split at hi
    · simp only [Option.some.injEq] at hi
      subst hi
      refine ⟨rfl, ?_⟩
      intro q hq
      simp only [List.mem_replicate] at hq
      simp [hq.2]
    · split at hi
      · simp only [Option.some.injEq] at hi
        subst hi
        refine ⟨rfl, ?_⟩
        intro q hq
        simp only [List.mem_replicate] at hq
        simp [hq.2]
      · simp at hi
  | addCommand cq cmd _ ih =>
    obtain ⟨h1, h2⟩ := CommandQueue.AddCommand_bound cq config cmd ih.2
    exact ⟨h1.trans ih.1, h2⟩
  | getCommandToIssue cq cq1 cs cs1 cmd _ hg ih =>
    obtain ⟨cqm, e, hh⟩ := CommandQueue.GetCommandToIssue_shape env config cq cq1 cs cs1 cmd hg
    have hm : cqm.queue_size_ = cq.queue_size_ ∧ cqm.queues_ = cq.queues_ := by
      rw [e]
      exact ⟨rfl, rfl⟩
    have invm : ∀ q ∈ cqm.queues_, q.length ≤ cqm.queue_size_ := by
      rw [hm.1, hm.2]
      exact ih.2
    rcases hh with ⟨_, he⟩ | ⟨_, rfl⟩
    · obtain ⟨h1, h2⟩ := CommandQueue.EraseRWCommand_bound cqm cq1 config cmd he invm
      exact ⟨h1.trans (hm.1.trans ih.1), h2⟩
    · exact ⟨hm.1.trans ih.1, invm⟩
  | finishRefresh cq cq1 cs cs1 cmd _ hf ih =>
    have e := CommandQueue.FinishRefresh_shape env config cq cq1 cs cs1 cmd hf
    rw [e]
    exact ih
  | clockTick cq _ ih => exact ih

/-- C14: `AddCommand` returns true and appends `cmd` at the end of the queue
selected by the rank, bankgroup and bank of `cmd`, leaving every other queue
as it was, if that queue holds fewer than `queue_size_` entries; otherwise it
returns false and changes nothing.  In every reachable command-queue state
`queue_size_` is the configured `cmd_queue_size` and no queue holds more
entries than that. -/
theorem CommandQueue.AddCommand_appends_iff_room {ρ : Type} (env : Collaborators ρ)
    (config : Config) (cq : CommandQueue) (cmd : Command) :
    ((cq.GetQueueIndex config cmd.Rank cmd.Bankgroup cmd.Bank).toNat < cq.queues_.length →
      (cq.GetQueue config cmd.Rank cmd.Bankgroup cmd.Bank).length < cq.queue_size_ →
      (cq.AddCommand config cmd).1 = true ∧
      (cq.AddCommand config cmd).2.GetQueue config cmd.Rank cmd.Bankgroup cmd.Bank =
        cq.GetQueue config cmd.Rank cmd.Bankgroup cmd.Bank ++ [cmd] ∧
      (∀ j, j ≠ (cq.GetQueueIndex config cmd.Rank cmd.Bankgroup cmd.Bank).toNat →
        (cq.AddCommand config cmd).2.queues_.getD j [] = cq.queues_.getD j []) ∧
      (cq.AddCommand config cmd).2.queues_.length = cq.queues_.length) ∧
    (¬ (cq.GetQueue config cmd.Rank cmd.Bankgroup cmd.Bank).length < cq.queue_size_ →
      cq.AddCommand config cmd = (false, cq)) ∧
    (CommandQueue.Reachable env config cq →
      cq.queue_size_ = config.cmd_queue_size ∧
      ∀ q ∈ cq.queues_, q.length ≤ config.cmd_queue_size) := by
  refine ⟨?_, ?_, ?_⟩
  · intro hidx hroom
    unfold CommandQueue.GetQueue at hroom ⊢
    have hI : ∀ (cqx : CommandQueue), cqx.queue_structure_ = cq.queue_structure_ →
        cqx.GetQueueIndex config cmd.Rank cmd.Bankgroup cmd.Bank =
          cq.GetQueueIndex config cmd.Rank cmd.Bankgroup cmd.Bank := by
      intro cqx h2
      simp only [CommandQueue.GetQueueIndex, h2]
    have e : cq.AddCommand config cmd = (true, (cq.AddCommand config cmd).2) ∧
        (cq.AddCommand config cmd).2.queue_structure_ = cq.queue_structure_ ∧
        (cq.AddCommand config cmd).2.queues_ =
          cq.queues_.set (cq.GetQueueIndex config cmd.Rank cmd.Bankgroup cmd.Bank).toNat
            (cq.queues_.getD (cq.GetQueueIndex config cmd.Rank cmd.Bankgroup cmd.Bank).toNat []
              ++ [cmd]) := by
      unfold CommandQueue.AddCommand
      dsimp only
      rw [if_pos hroom]
      exact ⟨rfl, rfl, rfl⟩
    obtain ⟨e1, e2, e3⟩ := e
    rw [hI _ e2, e3]
    refine ⟨by rw [e1], ?_, ?_, by simp⟩
    · simp [List.getD_eq_getElem?_getD, List.getElem?_set_self, hidx]
    · intro j hj
      simp [List.getD_eq_getElem?_getD, List.getElem?_set_ne (Ne.symm hj)]
  · intro hfull
    unfold CommandQueue.GetQueue at hfull
    simp only [CommandQueue.AddCommand, hfull, if_false]
  · intro hr
    obtain ⟨h1, h2⟩ := CommandQueue.Reachable_bound env config cq hr
    exact ⟨h1, fun q hq => h1 ▸ h2 q hq⟩

/-- Witness for C14: the command queue of the sample controller, with eight
empty queues of size 8, accepts a READ for bank 1 of bankgroup 0 into queue
1. -/
theorem CommandQueue.AddCommand_appends_iff_room_witness :
    (sampleController.cmd_queue_.AddCommand sampleConfig
        ⟨CommandType.READ, ⟨0, 0, 0, 1, 8, 0⟩, 4224⟩).1 = true ∧
    (sampleController.cmd_queue_.AddCommand sampleConfig
        ⟨CommandType.READ, ⟨0, 0, 0, 1, 8, 0⟩, 4224⟩).2.GetQueue sampleConfig 0 0 1 =
      [⟨CommandType.READ, ⟨0, 0, 0, 1, 8, 0⟩, 4224⟩] := by
  have h := (CommandQueue.AddCommand_appends_iff_room sampleCollaborators sampleConfig
    sampleController.cmd_queue_ ⟨CommandType.READ, ⟨0, 0, 0, 1, 8, 0⟩, 4224⟩).1
    (by decide) (by decide)
  exact ⟨h.1, h.2.1⟩

/-- C15: when `GetCommandToIssue` returns a READ/WRITE-family command, one
queue has lost exactly one entry, which has the hex address and kind of the
returned command, and every other entry is where it was, in the same order;
when it returns another command or the invalid command, the queues are
unchanged. -/
theorem CommandQueue.GetCommandToIssue_erases_returned_data_command {ρ : Type}
    (env : Collaborators ρ) (config : Config) (cq cq1 : CommandQueue)
    (cs cs1 : ChannelState) (cmd : Command)
    (h : cq.GetCommandToIssue env config cs = some (cmd, cq1, cs1)) :
    (cmd.IsReadWrite = true →
      ∃ idx pre e post, idx < cq.queues_.length ∧
        cq.queues_.getD idx [] = pre ++ e :: post ∧
        e.hex_addr = cmd.hex_addr ∧ e.cmd_type = cmd.cmd_type ∧
        cq1.queues_ = cq.queues_.set idx (pre ++ post)) ∧
    (cmd.IsReadWrite = false → cq1.queues_ = cq.queues_) := by
  obtain ⟨cqm, e, hh⟩ := CommandQueue.GetCommandToIssue_shape env config cq cq1 cs cs1 cmd h
  have hm : cqm.queues_ = cq.queues_ := by rw [e]
  constructor
  · intro hrw
    rcases hh with ⟨_, he⟩ | ⟨hn, _⟩
    · obtain ⟨pre, x, post, h1, hlen, h3, h4, _, _, h7⟩ :=
        CommandQueue.EraseRWCommand_shape cqm cq1 config cmd he
      rw [hm] at h1 hlen h7
      exact ⟨_, pre, x, post, hlen, h1, h3, h4, h7⟩
    · rw [hrw] at hn
      exact absurd hn (by decide)
  · intro hrw
    rcases hh with ⟨hy, _⟩ | ⟨_, rfl⟩
    · rw [hrw] at hy
      exact absurd hy (by decide)
    · exact hm

/-- Witness for C15: with one READ queued for the open row of bank (0, 0, 0)
of the sample controller, `GetCommandToIssue` returns a command and the
statement applies to it. -/
theorem CommandQueue.GetCommandToIssue_erases_returned_data_command_witness :
    ∃ cmd cq1 cs1,
      CommandQueue.GetCommandToIssue sampleCollaborators sampleConfig
        (sampleController.cmd_queue_.AddCommand sampleConfig
          ⟨CommandType.READ, ⟨0, 0, 0, 0, 8, 0⟩, 4096⟩).2
        sampleController.channel_state_ = some (cmd, cq1, cs1) ∧
      cmd.IsReadWrite = true ∧
      ∃ idx pre e post,
        idx < (sampleController.cmd_queue_.AddCommand sampleConfig
          ⟨CommandType.READ, ⟨0, 0, 0, 0, 8, 0⟩, 4096⟩).2.queues_.length ∧
        (sampleController.cmd_queue_.AddCommand sampleConfig
          ⟨CommandType.READ, ⟨0, 0, 0, 0, 8, 0⟩, 4096⟩).2.queues_.getD idx [] =
            pre ++ e :: post ∧
        e.hex_addr = cmd.hex_addr ∧ e.cmd_type = cmd.cmd_type ∧
        cq1.queues_ = (sampleController.cmd_queue_.AddCommand sampleConfig
          ⟨CommandType.READ, ⟨0, 0, 0, 0, 8, 0⟩, 4096⟩).2.queues_.set idx (pre ++ post) := by
  have hs : ((CommandQueue.GetCommandToIssue sampleCollaborators sampleConfig
      (sampleController.cmd_queue_.AddCommand sampleConfig
        ⟨CommandType.READ, ⟨0, 0, 0, 0, 8, 0⟩, 4096⟩).2
      sampleController.channel_state_).map (fun r => r.1.IsReadWrite)) = some true := by
    decide
  cases hg : CommandQueue.GetCommandToIssue sampleCollaborators sampleConfig
      (sampleController.cmd_queue_.AddCommand sampleConfig
        ⟨CommandType.READ, ⟨0, 0, 0, 0, 8, 0⟩, 4096⟩).2
      sampleController.channel_state_ with
  | none => rw [hg] at hs; simp at hs
  | some r =>
    obtain ⟨cmd, cq1, cs1⟩ := r
    rw [hg] at hs
    simp only [Option.map_some', Option.some.injEq] at hs
    exact ⟨cmd, cq1, cs1, rfl, hs,
      (CommandQueue.GetCommandToIssue_erases_returned_data_command sampleCollaborators
        sampleConfig _ cq1 _ cs1 cmd hg).1 hs⟩

/-! ## Theorems: the ideal memory system -/

/-- C19 (the code at the failing input): with latency 3 and two reads admitted
at cycle 0, the tick of clock 3 calls back only the first; the second, though
due, is stepped over and called back in the tick of clock 4. -/
theorem IdealDRAMSystem.second_due_transaction_is_late :
    (IdealDRAMSystem.run 5
      (((IdealDRAMSystem.init 3).AddTransaction 10 false).2.AddTransaction 20 false).2).1 =
      [(0, []), (1, []), (2, []), (3, [CallbackEvent.read 10]),
        (4, [CallbackEvent.read 20])] := by
  decide

/-- C20 (the code at the failing input): with latency 3 and three reads
admitted at cycle 0 in the order 10, 20, 30, the tick of clock 3 calls back
10 and 30, and 20 is called back one tick later, after 30. -/
theorem IdealDRAMSystem.callbacks_leave_admission_order :
    (IdealDRAMSystem.run 5
      ((((IdealDRAMSystem.init 3).AddTransaction 10 false).2.AddTransaction 20 false
        ).2.AddTransaction 30 false).2).1 =
      [(0, []), (1, []), (2, []), (3, [CallbackEvent.read 10, CallbackEvent.read 30]),
        (4, [CallbackEvent.read 20])] := by
  decide

/-! ## Theorems: the frame of `ClockTick` -/

theorem Controller.Issued.refl {ρ : Type} (c : Controller ρ) : Controller.Issued c c :=
  Controller.Issued.same c c rfl rfl

theorem Controller.Issued.then_same {ρ : Type} (c c1 c2 : Controller ρ)
    (h : Controller.Issued c c1) (hf : c2.front = c1.front) (hl : c2.ledger = c1.ledger) :
    Controller.Issued c c2 := by
  cases h with
  | same _ f l => exact Controller.Issued.same c c2 (hf.trans f) (hl.trans l)
  | issue ca cb _ cmd n hi hp f l =>
    exact Controller.Issued.issue c ca cb c2 cmd n hi hp (hf.trans f) (hl.trans l)

theorem Controller.Issued.trans {ρ : Type} (c c1 c2 : Controller ρ)
    (h1 : Controller.Issued c c1) (h2 : Controller.Issued c1 c2) : Controller.Issued c c2 := by
  induction h2 with
  | same c2 f l => exact Controller.Issued.then_same c c1 c2 h1 f l
  | issue ca cb c3 cmd n _ hp f l ih => exact Controller.Issued.issue c ca cb c3 cmd n ih hp f l

theorem Controller.Issued.after_same {ρ : Type} (c d c1 : Controller ρ)
    (h : Controller.Issued d c1) (hf : d.front = c.front) (hl : d.ledger = c.ledger) :
    Controller.Issued c c1 :=
  Controller.Issued.trans c d c1 (Controller.Issued.same c d hf hl) h

theorem Controller.UpdateCommandStats_same {ρ : Type} (c c1 : Controller ρ)
    (cmd : Command) (count : Nat) (h : c.UpdateCommandStats cmd count = some c1) :
    c1.front = c.front ∧ c1.ledger = c.ledger ∧ c1.channel_state_ = c.channel_state_ ∧
      c1.cmd_queue_ = c.cmd_queue_ ∧ c1.refresh_ = c.refresh_ := by
  rcases cmd with ⟨k, a, hx⟩
  cases k <;> simp only [Controller.UpdateCommandStats] at h <;>
    first
    | (split at h <;> (simp only [Option.some.injEq] at h; subst h; exact ⟨rfl, rfl, rfl, rfl, rfl⟩))
    | (simp only [Option.some.injEq] at h; subst h; exact ⟨rfl, rfl, rfl, rfl, rfl⟩)
    | simp at h

theorem Controller.markInServe_same {ρ : Type} (c : Controller ρ) (cmd : Command) :
    (c.markInServe cmd).front = c.front ∧ (c.markInServe cmd).ledger = c.ledger ∧
      (c.markInServe cmd).cmd_queue_ = c.cmd_queue_ ∧
      (c.markInServe cmd).refresh_ = c.refresh_ := by
  unfold Controller.markInServe
  split_ifs <;> exact ⟨rfl, rfl, rfl, rfl⟩

theorem Controller.issuePending_front {ρ : Type} (c c1 : Controller ρ) (cmd : Command)
    (n : Nat) (h : c.issuePending cmd = some (c1, n)) :
    c1.front = c.front ∧ c1.channel_state_ = c.channel_state_ ∧
      c1.cmd_queue_ = c.cmd_queue_ ∧ c1.refresh_ = c.refresh_ := by
  unfold Controller.issuePending at h
  split at h
  · dsimp only at h
    split at h
    · simp at h
    · split at h
      · simp at h
      · simp only [Option.some.injEq, Prod.mk.injEq] at h
        obtain ⟨rfl, _⟩ := h
        exact ⟨rfl, rfl, rfl, rfl⟩
  · split at h
    · split at h
      · simp at h
      · simp only [Option.some.injEq, Prod.mk.injEq] at h
        obtain ⟨rfl, _⟩ := h
        exact ⟨rfl, rfl, rfl, rfl⟩
    · simp only [Option.some.injEq, Prod.mk.injEq] at h
      obtain ⟨rfl, _⟩ := h
      exact ⟨rfl, rfl, rfl, rfl⟩

theorem Controller.IssueCommand_parts {ρ : Type} (env : Collaborators ρ)
    (c c1 : Controller ρ) (cmd : Command) (h : c.IssueCommand env cmd = some c1) :
    ∃ c2 n, c.issuePending cmd = some (c2, n) ∧ c1.front = c2.front ∧
      c1.ledger = c2.ledger ∧ c1.cmd_queue_ = c.cmd_queue_ ∧ c1.refresh_ = c.refresh_ ∧
      cmd.IsValid = true := by
  unfold Controller.IssueCommand at h
  split at h
  · simp at h
  · rename_i c2 n hp
    split at h
    · simp at h
    · rename_i c3 hs
      split at h
      · simp at h
      · rename_i cs hu
        simp only [Option.some.injEq] at h
        subst h
        obtain ⟨s1, s2, _, s4, s5⟩ := Controller.UpdateCommandStats_same c2 c3 cmd n hs
        obtain ⟨m1, m2, m3, m4⟩ := Controller.markInServe_same { c3 with channel_state_ := cs } cmd
        obtain ⟨_, _, p3, p4⟩ := Controller.issuePending_front c c2 cmd n hp
        refine ⟨c2, n, hp, ?_, ?_, ?_, ?_, ?_⟩
        · rw [m1]
          exact s1
        · rw [m2]
          exact s2
        · rw [m3]
          exact s4.trans p3
        · rw [m4]
          exact s5.trans p4
        · rcases cmd with ⟨k, a, hx⟩
          cases k <;> first | rfl | simp [Controller.UpdateCommandStats] at hs

theorem Controller.IssueCommand_issued {ρ : Type} (env : Collaborators ρ)
    (c c1 : Controller ρ) (cmd : Command) (h : c.IssueCommand env cmd = some c1) :
    Controller.Issued c c1 := by
  obtain ⟨c2, n, hp, hf, hl, _⟩ := Controller.IssueCommand_parts env c c1 cmd h
  exact Controller.Issued.issue c c c2 c1 cmd n (Controller.Issued.refl c) hp hf hl

theorem Controller.fetchRefresh_same {ρ : Type} (env : Collaborators ρ)
    (c c1 : Controller ρ) (cmd : Command) (h : c.fetchRefresh env = some (cmd, c1)) :
    c1.front = c.front ∧ c1.ledger = c.ledger := by
  unfold Controller.fetchRefresh at h
  split at h
  · split at h
    · simp at h
    · simp only [Option.some.injEq, Prod.mk.injEq] at h
      obtain ⟨_, rfl⟩ := h
      exact ⟨rfl, rfl⟩
  · simp only [Option.some.injEq, Prod.mk.injEq] at h
    obtain ⟨_, rfl⟩ := h
    exact ⟨rfl, rfl⟩

theorem Controller.fetchCommand_same {ρ : Type} (env : Collaborators ρ)
    (c c1 : Controller ρ) (cmd : Command) (h : c.fetchCommand env = some (cmd, c1)) :
    c1.front = c.front ∧ c1.ledger = c.ledger := by
  unfold Controller.fetchCommand at h
  split at h
  · simp at h
  · rename_i cmd1 c2 hfr
    have h2 := Controller.fetchRefresh_same env c c2 cmd1 hfr
    split at h
    · split at h
      · simp at h
      · simp only [Option.some.injEq, Prod.mk.injEq] at h
        obtain ⟨_, rfl⟩ := h
        exact h2
    · simp only [Option.some.injEq, Prod.mk.injEq] at h
      obtain ⟨_, rfl⟩ := h
      exact h2

theorem Controller.issueFetched_issued {ρ : Type} (env : Collaborators ρ)
    (c c1 : Controller ρ) (cmd : Command) (b : Bool)
    (h : c.issueFetched env cmd = some (c1, b)) : Controller.Issued c c1 := by
  unfold Controller.issueFetched at h
  split at h
  · split at h
    · simp at h
    · rename_i c2 hi
      have h2 := Controller.IssueCommand_issued env c c2 cmd hi
      split at h
      · split at h
        · simp at h
        · rename_i second cq cs hg
          dsimp only at h
          split at h
          · split at h
            · simp at h
            · rename_i c3 hi3
              simp only [Option.some.injEq, Prod.mk.injEq] at h
              obtain ⟨rfl, _⟩ := h
              have h3 := Controller.IssueCommand_issued env _ c3 second hi3
              exact Controller.Issued.trans c c2 c3 h2 (Controller.Issued.after_same c2 _ c3 h3 rfl rfl)
          · simp only [Option.some.injEq, Prod.mk.injEq] at h
            obtain ⟨rfl, _⟩ := h
            exact Controller.Issued.then_same c c2 _ h2 rfl rfl
      · simp only [Option.some.injEq, Prod.mk.injEq] at h
        obtain ⟨rfl, _⟩ := h
        exact h2
  · simp only [Option.some.injEq, Prod.mk.injEq] at h
    obtain ⟨rfl, _⟩ := h
    exact Controller.Issued.refl c

theorem Controller.powerUpdate_same {ρ : Type} (env : Collaborators ρ) (c : Controller ρ) :
    (c.powerUpdate env).front = c.front ∧ (c.powerUpdate env).ledger = c.ledger ∧
      (c.powerUpdate env).cmd_queue_ = c.cmd_queue_ := by
  unfold Controller.powerUpdate
  apply foldl_preserves
    (fun x : Controller ρ => x.front = c.front ∧ x.ledger = c.ledger ∧
      x.cmd_queue_ = c.cmd_queue_)
  · intro a i ha
    dsimp only
    split
    · exact ha
    · split <;> exact ha
  · exact ⟨rfl, rfl, rfl⟩

theorem Controller.selfRefreshLoop_issued {ρ : Type} (env : Collaborators ρ)
    (l : List Nat) : ∀ (c c1 : Controller ρ), Controller.selfRefreshLoop env l c = some c1 →
      Controller.Issued c c1 := by
  induction l with
  | nil =>
    intro c c1 h
    simp only [Controller.selfRefreshLoop, Option.some.injEq] at h
    subst h
    exact Controller.Issued.refl c
  | cons i rest ih =>
    intro c c1 h
    unfold Controller.selfRefreshLoop at h
    split at h
    · split at h
      · split at h
        · simp at h
        · split at h
          · have h3 := Controller.IssueCommand_issued env _ c1 _ h
            exact Controller.Issued.after_same c _ c1 h3 rfl rfl
          · have h3 := ih _ c1 h
            exact Controller.Issued.after_same c _ c1 h3 rfl rfl
      · exact ih _ c1 h
    · split at h
      · split at h
        · simp at h
        · split at h
          · have h3 := Controller.IssueCommand_issued env _ c1 _ h
            exact Controller.Issued.after_same c _ c1 h3 rfl rfl
          · have h3 := ih _ c1 h
            exact Controller.Issued.after_same c _ c1 h3 rfl rfl
      · exact ih _ c1 h

theorem Controller.selfRefresh_issued {ρ : Type} (env : Collaborators ρ)
    (c c1 : Controller ρ) (b : Bool) (h : c.selfRefresh env b = some c1) :
    Controller.Issued c c1 := by
  unfold Controller.selfRefresh at h
  split at h
  · exact Controller.selfRefreshLoop_issued env _ c c1 h
  · simp only [Option.some.injEq] at h
    subst h
    exact Controller.Issued.refl c

theorem Controller.Calculate_stats_same {ρ : Type} (env : Collaborators ρ)
    (c : Controller ρ) :
    (c.Calculate_stats env).front = c.front ∧ (c.Calculate_stats env).ledger = c.ledger ∧
      (c.Calculate_stats env).cmd_queue_ = c.cmd_queue_ := by
  unfold Controller.Calculate_stats
  apply foldl_preserves
    (fun x : Controller ρ => x.front = c.front ∧ x.ledger = c.ledger ∧
      x.cmd_queue_ = c.cmd_queue_)
  · intro a i ha
    dsimp only
    split <;> exact ha
  · exact ⟨rfl, rfl, rfl⟩

theorem Controller.ClockTick_decomp {ρ : Type} (env : Collaborators ρ)
    (c c1 : Controller ρ) (h : c.ClockTick env = some c1) :
    ∃ c6, Controller.Issued c c6 ∧
      c1.front = { c6.ScheduleTransaction with
        clk_ := c6.ScheduleTransaction.clk_ + 1 }.front ∧
      c1.ledger = c6.ScheduleTransaction.ledger ∧
      c1.cmd_queue_ = c6.ScheduleTransaction.cmd_queue_.ClockTick := by
  unfold Controller.ClockTick at h
  split at h
  · simp at h
  · rename_i r cs hr
    dsimp only at h
    split at h
    · simp at h
    · rename_i cmd c2 hf
      obtain ⟨f2, l2⟩ := Controller.fetchCommand_same env _ c2 cmd hf
      split at h
      · simp at h
      · rename_i c3 issued hi
        have e3 := Controller.issueFetched_issued env c2 c3 cmd issued hi
        split at h
        · simp at h
        · rename_i c5 hs
          have e5 := Controller.selfRefresh_issued env _ c5 issued hs
          obtain ⟨pf, pl, _⟩ := Controller.powerUpdate_same env c3
          obtain ⟨sf, sl, _⟩ := Controller.Calculate_stats_same env c5
          simp only [Option.some.injEq] at h
          subst h
          refine ⟨c5.Calculate_stats env, ?_, rfl, rfl, rfl⟩
          have a2 : Controller.Issued c c2 := Controller.Issued.same c c2 f2 l2
          have a3 : Controller.Issued c c3 := a2.trans _ _ _ e3
          have a4 : Controller.Issued c (c3.powerUpdate env) := a3.then_same _ _ _ pf pl
          have a5 : Controller.Issued c c5 := a4.trans _ _ _ e5
          exact a5.then_same _ _ _ sf sl

theorem Controller.firstAcceptable_decomp {ρ : Type} (c : Controller ρ)
    (l : List Transaction) : ∀ (pre p post : List Transaction) (t : Transaction),
      c.firstAcceptable pre l = some (p, t, post) →
      ∃ mid, p = pre ++ mid ∧ l = mid ++ t :: post ∧
        (∀ x ∈ mid, c.cmd_queue_.WillAcceptCommand c.config_ (c.TransToCommand x).Rank
          (c.TransToCommand x).Bankgroup (c.TransToCommand x).Bank = false) ∧
        c.cmd_queue_.WillAcceptCommand c.config_ (c.TransToCommand t).Rank
          (c.TransToCommand t).Bankgroup (c.TransToCommand t).Bank = true := by
  induction l with
  | nil =>
    intro pre p post t h
    simp [Controller.firstAcceptable] at h
  | cons x xs ih =>
    intro pre p post t h
    unfold Controller.firstAcceptable at h
    dsimp only at h
    split at h
    · rename_i hacc
      simp only [Option.some.injEq, Prod.mk.injEq] at h
      obtain ⟨rfl, rfl, rfl⟩ := h
      exact ⟨[], by simp, by simp, by simp, hacc⟩
    · rename_i hacc
      obtain ⟨mid, h1, h2, h3, h4⟩ := ih _ _ _ _ h
      refine ⟨x :: mid, by simp [h1], by simp [h2], ?_, h4⟩
      intro y hy
      rcases List.mem_cons.mp hy with rfl | hy
      · simpa using hacc
      · exact h3 y hy

theorem Controller.setTransQueue_shape {ρ : Type} (c : Controller ρ)
    (q : Controller.TransQueue) (l : List Transaction) (hl : l.Sublist (c.getTransQueue q)) :
    (c.setTransQueue q l).ledger = c.ledger ∧
      (c.setTransQueue q l).clk_ = c.clk_ ∧
      (c.setTransQueue q l).config_ = c.config_ ∧
      (c.setTransQueue q l).is_unified_queue_ = c.is_unified_queue_ ∧
      (c.setTransQueue q l).unified_queue_capacity = c.unified_queue_capacity ∧
      (c.setTransQueue q l).read_queue_capacity = c.read_queue_capacity ∧
      (c.setTransQueue q l).write_buffer_capacity = c.write_buffer_capacity ∧
      (c.setTransQueue q l).unified_queue_.Sublist c.unified_queue_ ∧
      (c.setTransQueue q l).read_queue_.Sublist c.read_queue_ ∧
      (c.setTransQueue q l).write_buffer_.Sublist c.write_buffer_ := by
  cases q <;>
    exact ⟨rfl, rfl, rfl, rfl, rfl, rfl, rfl, by first | exact hl | exact List.Sublist.refl _,
      by first | exact hl | exact List.Sublist.refl _,
      by first | exact hl | exact List.Sublist.refl _⟩

theorem Controller.ScheduleTransaction_shape {ρ : Type} (c : Controller ρ) :
    c.ScheduleTransaction.ledger = c.ledger ∧
      c.ScheduleTransaction.clk_ = c.clk_ ∧
      c.ScheduleTransaction.config_ = c.config_ ∧
      c.ScheduleTransaction.is_unified_queue_ = c.is_unified_queue_ ∧
      c.ScheduleTransaction.unified_queue_capacity = c.unified_queue_capacity ∧
      c.ScheduleTransaction.read_queue_capacity = c.read_queue_capacity ∧
      c.ScheduleTransaction.write_buffer_capacity = c.write_buffer_capacity ∧
      c.ScheduleTransaction.unified_queue_.Sublist c.unified_queue_ ∧
      c.ScheduleTransaction.read_queue_.Sublist c.read_queue_ ∧
      c.ScheduleTransaction.write_buffer_.Sublist c.write_buffer_ := by
  have key : ∀ d : Controller ρ, d.ledger = c.ledger → d.clk_ = c.clk_ →
      d.config_ = c.config_ → d.is_unified_queue_ = c.is_unified_queue_ →
      d.unified_queue_capacity = c.unified_queue_capacity →
      d.read_queue_capacity = c.read_queue_capacity →
      d.write_buffer_capacity = c.write_buffer_capacity →
      d.unified_queue_ = c.unified_queue_ → d.read_queue_ = c.read_queue_ →
      d.write_buffer_ = c.write_buffer_ →
      ∀ (q : Controller.TransQueue) (l : List Transaction), l.Sublist (d.getTransQueue q) →
      (d.setTransQueue q l).ledger = c.ledger ∧
      (d.setTransQueue q l).clk_ = c.clk_ ∧
      (d.setTransQueue q l).config_ = c.config_ ∧
      (d.setTransQueue q l).is_unified_queue_ = c.is_unified_queue_ ∧
      (d.setTransQueue q l).unified_queue_capacity = c.unified_queue_capacity ∧
      (d.setTransQueue q l).read_queue_capacity = c.read_queue_capacity ∧
      (d.setTransQueue q l).write_buffer_capacity = c.write_buffer_capacity ∧
      (d.setTransQueue q l).unified_queue_.Sublist c.unified_queue_ ∧
      (d.setTransQueue q l).read_queue_.Sublist c.read_queue_ ∧
      (d.setTransQueue q l).write_buffer_.Sublist c.write_buffer_ := by
    intro d h1 h2 h3 h4 h5 h6 h7 h8 h9 h10 q l hl
    have := Controller.setTransQueue_shape d q l hl
    rw [h1, h2, h3, h4, h5, h6, h7, h8, h9, h10] at this
    exact this
  have base : ∀ d : Controller ρ, d.ledger = c.ledger → d.clk_ = c.clk_ →
      d.config_ = c.config_ → d.is_unified_queue_ = c.is_unified_queue_ →
      d.unified_queue_capacity = c.unified_queue_capacity →
      d.read_queue_capacity = c.read_queue_capacity →
      d.write_buffer_capacity = c.write_buffer_capacity →
      d.unified_queue_ = c.unified_queue_ → d.read_queue_ = c.read_queue_ →
      d.write_buffer_ = c.write_buffer_ →
      d.ledger = c.ledger ∧ d.clk_ = c.clk_ ∧ d.config_ = c.config_ ∧
      d.is_unified_queue_ = c.is_unified_queue_ ∧
      d.unified_queue_capacity = c.unified_queue_capacity ∧
      d.read_queue_capacity = c.read_queue_capacity ∧
      d.write_buffer_capacity = c.write_buffer_capacity ∧
      d.unified_queue_.Sublist c.unified_queue_ ∧ d.read_queue_.Sublist c.read_queue_ ∧
      d.write_buffer_.Sublist c.write_buffer_ := by
    intro d h1 h2 h3 h4 h5 h6 h7 h8 h9 h10
    exact ⟨h1, h2, h3, h4, h5, h6, h7, h8 ▸ List.Sublist.refl _, h9 ▸ List.Sublist.refl _,
      h10 ▸ List.Sublist.refl _⟩
  unfold Controller.ScheduleTransaction
  dsimp only
  split_ifs <;>
    (split
     · apply base <;> rfl
     · rename_i pre t post hfa
       obtain ⟨mid, h1, h2, _, _⟩ := Controller.firstAcceptable_decomp _ _ _ _ _ _ hfa
       have hsub : (pre ++ post).Sublist (mid ++ t :: post) := by
         rw [h1]
         simp
       rw [← h2] at hsub
       split_ifs <;>
         first
         | (apply base <;> rfl)
         | (apply key <;> first | rfl | exact hsub))

/-! ## Theorems: conservation of reads -/

theorem Controller.returnDoneFrom_some (clk : Nat) (rq rest : List Transaction)
    (t : Transaction) (h : Controller.returnDoneFrom clk [] rq = some (t, rest)) :
    ∃ pre post, rq = pre ++ t :: post ∧ rest = pre ++ post ∧
      (∀ x ∈ pre, clk < x.complete_cycle) ∧ t.complete_cycle ≤ clk := by
  by_cases hex : ∃ x ∈ rq, x.complete_cycle ≤ clk
  · obtain ⟨pre, u, post, e, h1, h2⟩ := exists_first_due clk rq hex
    rw [e, Controller.returnDoneFrom_first clk pre u post [] h1 h2] at h
    simp only [List.nil_append, Option.some.injEq, Prod.mk.injEq] at h
    obtain ⟨rfl, rfl⟩ := h
    exact ⟨pre, post, e, rfl, h1, h2⟩
  · have hn : ∀ x ∈ rq, clk < x.complete_cycle := by
      intro x hx
      by_contra hc
      exact hex ⟨x, hx, by omega⟩
    rw [Controller.returnDoneFrom_none clk rq [] hn] at h
    simp at h

theorem Controller.ReturnDoneTrans_cases {ρ : Type} (c : Controller ρ) (clk : Nat) :
    (c.ReturnDoneTrans clk = ((18446744073709551615, -1), c) ∧
      ∀ x ∈ c.return_queue_, clk < x.complete_cycle) ∨
    (∃ pre t post, c.return_queue_ = pre ++ t :: post ∧
      (∀ x ∈ pre, clk < x.complete_cycle) ∧ t.complete_cycle ≤ clk ∧
      c.ReturnDoneTrans clk =
        ((t.addr, if t.is_write then 1 else 0), { c with return_queue_ := pre ++ post })) := by
  by_cases hex : ∃ x ∈ c.return_queue_, x.complete_cycle ≤ clk
  · right
    obtain ⟨pre, t, post, e, h1, h2⟩ := exists_first_due clk c.return_queue_ hex
    refine ⟨pre, t, post, e, h1, h2, ?_⟩
    simp only [Controller.ReturnDoneTrans, e,
      Controller.returnDoneFrom_first clk pre t post [] h1 h2, List.nil_append]
  · left
    have hn : ∀ x ∈ c.return_queue_, clk < x.complete_cycle := by
      intro x hx
      by_contra hc
      exact hex ⟨x, hx, by omega⟩
    refine ⟨?_, hn⟩
    simp only [Controller.ReturnDoneTrans, Controller.returnDoneFrom_none clk _ [] hn]

theorem countP_split {α : Type} (p q : α → Bool) (l : List α) :
    List.countP p l =
      List.countP (fun x => p x && !(q x)) l + List.countP (fun x => p x && q x) l := by
  induction l with
  | nil => rfl
  | cons x xs ih =>
    simp only [List.countP_cons, ih]
    cases hp : p x <;> cases hq : q x <;> simp <;> omega

theorem Controller.ledger_eq {ρ : Type} (c c1 : Controller ρ) (h : c1.ledger = c.ledger) :
    c1.pending_rd_q_ = c.pending_rd_q_ ∧ c1.pending_wr_q_ = c.pending_wr_q_ ∧
      c1.return_queue_ = c.return_queue_ := by
  simpa [Controller.ledger] using h

theorem Controller.issuePending_cases {ρ : Type} (c c1 : Controller ρ) (cmd : Command)
    (n : Nat) (h : c.issuePending cmd = some (c1, n)) :
    (cmd.IsRead = true ∧ 1 ≤ mmCount c.pending_rd_q_ cmd.hex_addr ∧
      c1.pending_rd_q_ = c.pending_rd_q_.filter (fun p => !(p.1 == cmd.hex_addr)) ∧
      c1.return_queue_ = c.return_queue_ ++
        (c.pending_rd_q_.filter (fun p => p.1 == cmd.hex_addr)).map
          (fun p => { p.2 with complete_cycle := c.clk_ + c.config_.read_delay }) ∧
      c1.pending_wr_q_ = c.pending_wr_q_) ∨
    (cmd.IsRead = false ∧ c1.pending_rd_q_ = c.pending_rd_q_ ∧
      c1.return_queue_ = c.return_queue_ ∧ c1.pending_wr_q_.Sublist c.pending_wr_q_) := by
  by_cases hr : cmd.IsRead = true
  · left
    have hn : 1 ≤ mmCount c.pending_rd_q_ cmd.hex_addr := by
      by_contra hc
      have h0 : mmCount c.pending_rd_q_ cmd.hex_addr = 0 := by omega
      simp [Controller.issuePending, hr, h0] at h
    rw [Controller.issuePending_read c cmd hr hn] at h
    simp only [Option.some.injEq, Prod.mk.injEq] at h
    obtain ⟨rfl, _⟩ := h
    exact ⟨hr, hn, rfl, rfl, rfl⟩
  · right
    have hr' : cmd.IsRead = false := by simpa using hr
    refine ⟨hr', ?_, ?_, Controller.issuePending_pending_wr c c1 cmd n h⟩
    · unfold Controller.issuePending at h
      rw [if_neg hr] at h
      split at h
      · split at h
        · simp at h
        · simp only [Option.some.injEq, Prod.mk.injEq] at h
          obtain ⟨rfl, _⟩ := h
          rfl
      · simp only [Option.some.injEq, Prod.mk.injEq] at h
        obtain ⟨rfl, _⟩ := h
        rfl
    · unfold Controller.issuePending at h
      rw [if_neg hr] at h
      split at h
      · split at h
        · simp at h
        · simp only [Option.some.injEq, Prod.mk.injEq] at h
          obtain ⟨rfl, _⟩ := h
          rfl
      · simp only [Option.some.injEq, Prod.mk.injEq] at h
        obtain ⟨rfl, _⟩ := h
        rfl

theorem Controller.issuePending_reads {ρ : Type} (c c1 : Controller ρ) (cmd : Command)
    (n : Nat) (h : c.issuePending cmd = some (c1, n))
    (inv : ∀ p ∈ c.pending_rd_q_, p.2.addr = p.1 ∧ p.2.is_write = false) :
    (∀ p ∈ c1.pending_rd_q_, p.2.addr = p.1 ∧ p.2.is_write = false) ∧
      ∀ a, mmCount c1.pending_rd_q_ a + c1.returnReads a =
        mmCount c.pending_rd_q_ a + c.returnReads a := by
  rcases Controller.issuePending_cases c c1 cmd n h with ⟨_, _, h1, h2, _⟩ | ⟨_, h1, h2, _⟩
  · constructor
    · intro p hp
      rw [h1] at hp
      exact inv p (List.mem_of_mem_filter hp)
    · intro a
      simp only [Controller.returnReads, h1, h2, mmCount, List.countP_append]
      have hmoved : List.countP (fun t => t.addr == a && !t.is_write)
          ((c.pending_rd_q_.filter (fun p => p.1 == cmd.hex_addr)).map
            (fun p => { p.2 with complete_cycle := c.clk_ + c.config_.read_delay })) =
          List.countP (fun p => p.1 == a && p.1 == cmd.hex_addr) c.pending_rd_q_ := by
        rw [List.countP_map, List.countP_filter]
        apply List.countP_congr
        intro p hp
        obtain ⟨i1, i2⟩ := inv p hp
        simp [i1, i2]
      have hkept : List.countP (fun p => p.1 == a)
          (c.pending_rd_q_.filter (fun p => !(p.1 == cmd.hex_addr))) =
          List.countP (fun p => p.1 == a && !(p.1 == cmd.hex_addr)) c.pending_rd_q_ := by
        rw [List.countP_filter]
      have hsplit := countP_split (fun p : Nat × Transaction => p.1 == a)
        (fun p => p.1 == cmd.hex_addr) c.pending_rd_q_
      rw [hmoved, hkept, hsplit]
      omega
  · constructor
    · intro p hp
      rw [h1] at hp
      exact inv p hp
    · intro a
      simp only [Controller.returnReads, h1, h2]

theorem Controller.Issued_reads {ρ : Type} (c c1 : Controller ρ)
    (h : Controller.Issued c c1)
    (inv : ∀ p ∈ c.pending_rd_q_, p.2.addr = p.1 ∧ p.2.is_write = false) :
    (∀ p ∈ c1.pending_rd_q_, p.2.addr = p.1 ∧ p.2.is_write = false) ∧
      ∀ a, mmCount c1.pending_rd_q_ a + c1.returnReads a =
        mmCount c.pending_rd_q_ a + c.returnReads a := by
  induction h with
  | same c1 _ l =>
    obtain ⟨l1, _, l3⟩ := Controller.ledger_eq c c1 l
    constructor
    · rw [l1]
      exact inv
    · intro a
      simp only [Controller.returnReads, l1, l3]
  | issue ca cb c3 cmd n _ hp _ l ih =>
    obtain ⟨l1, _, l3⟩ := Controller.ledger_eq cb c3 l
    obtain ⟨i1, i2⟩ := Controller.issuePending_reads ca cb cmd n hp ih.1
    constructor
    · rw [l1]
      exact i1
    · intro a
      simp only [Controller.returnReads, l1, l3]
      exact (i2 a).trans (ih.2 a)

theorem Controller.ClockTick_reads {ρ : Type} (env : Collaborators ρ) (c c1 : Controller ρ)
    (h : c.ClockTick env = some c1)
    (inv : ∀ p ∈ c.pending_rd_q_, p.2.addr = p.1 ∧ p.2.is_write = false) :
    (∀ p ∈ c1.pending_rd_q_, p.2.addr = p.1 ∧ p.2.is_write = false) ∧
      ∀ a, mmCount c1.pending_rd_q_ a + c1.returnReads a =
        mmCount c.pending_rd_q_ a + c.returnReads a := by
  obtain ⟨c6, hi, _, hl, _⟩ := Controller.ClockTick_decomp env c c1 h
  have hs := (Controller.ScheduleTransaction_shape c6).1
  obtain ⟨l1, _, l3⟩ := Controller.ledger_eq c6 c1 (hl.trans hs)
  obtain ⟨i1, i2⟩ := Controller.Issued_reads c c6 hi inv
  constructor
  · rw [l1]
    exact i1
  · intro a
    simp only [Controller.returnReads, l1, l3]
    exact i2 a

theorem Controller.AddTransaction_ledger {ρ : Type} (c : Controller ρ) (trans : Transaction) :
    (c.AddTransaction trans).2.ledger =
      if trans.is_write = true then
        (c.pending_rd_q_,
          (if mmCount c.pending_wr_q_ trans.addr = 0 then
            mmInsert c.pending_wr_q_ trans.addr { trans with added_cycle := c.clk_ }
          else c.pending_wr_q_),
          c.return_queue_ ++
            [{ trans with added_cycle := c.clk_, complete_cycle := c.clk_ + 1 }])
      else if 0 < mmCount c.pending_wr_q_ trans.addr then
        (c.pending_rd_q_, c.pending_wr_q_,
          c.return_queue_ ++
            [{ trans with added_cycle := c.clk_, complete_cycle := c.clk_ + 1 }])
      else
        (c.pending_rd_q_ ++ [(trans.addr, { trans with added_cycle := c.clk_ })],
          c.pending_wr_q_, c.return_queue_) := by
  unfold Controller.AddTransaction
  dsimp only
  split_ifs <;> rfl

theorem Controller.AddTransaction_reads {ρ : Type} (c : Controller ρ) (trans : Transaction)
    (inv : ∀ p ∈ c.pending_rd_q_, p.2.addr = p.1 ∧ p.2.is_write = false) :
    (∀ p ∈ (c.AddTransaction trans).2.pending_rd_q_, p.2.addr = p.1 ∧ p.2.is_write = false) ∧
      ∀ a, mmCount (c.AddTransaction trans).2.pending_rd_q_ a +
          (c.AddTransaction trans).2.returnReads a =
        mmCount c.pending_rd_q_ a + c.returnReads a +
          (if trans.is_write then 0 else if trans.addr = a then 1 else 0) := by
  have hl := Controller.AddTransaction_ledger c trans
  rcases trans with ⟨ta, tac, tcc, w⟩
  cases w
  · simp only [Bool.false_eq_true, if_false] at hl
    split at hl
    · obtain ⟨h1, _, h3⟩ : (c.AddTransaction ⟨ta, tac, tcc, false⟩).2.pending_rd_q_ = _ ∧
          (c.AddTransaction ⟨ta, tac, tcc, false⟩).2.pending_wr_q_ = _ ∧
          (c.AddTransaction ⟨ta, tac, tcc, false⟩).2.return_queue_ = _ := by
        simpa [Controller.ledger] using hl
      constructor
      · rw [h1]
        exact inv
      · intro a
        simp only [Controller.returnReads, h1, h3, List.countP_append, List.countP_cons,
          List.countP_nil, beq_iff_eq, Bool.not_false, Bool.and_true, Bool.false_eq_true,
          if_false]
        omega
    · obtain ⟨h1, _, h3⟩ : (c.AddTransaction ⟨ta, tac, tcc, false⟩).2.pending_rd_q_ = _ ∧
          (c.AddTransaction ⟨ta, tac, tcc, false⟩).2.pending_wr_q_ = _ ∧
          (c.AddTransaction ⟨ta, tac, tcc, false⟩).2.return_queue_ = _ := by
        simpa [Controller.ledger] using hl
      constructor
      · intro p hp2
        rw [h1] at hp2
        rcases List.mem_append.mp hp2 with hp3 | hp3
        · exact inv p hp3
        · simp only [List.mem_singleton] at hp3
          subst hp3
          exact ⟨rfl, rfl⟩
      · intro a
        simp only [Controller.returnReads, h1, h3, mmCount, List.countP_append,
          List.countP_cons, List.countP_nil, beq_iff_eq, Bool.false_eq_true, if_false]
        omega
  · simp only [if_true] at hl
    obtain ⟨h1, _, h3⟩ : (c.AddTransaction ⟨ta, tac, tcc, true⟩).2.pending_rd_q_ = _ ∧
        (c.AddTransaction ⟨ta, tac, tcc, true⟩).2.pending_wr_q_ = _ ∧
        (c.AddTransaction ⟨ta, tac, tcc, true⟩).2.return_queue_ = _ := by
      simpa [Controller.ledger] using hl
    constructor
    · rw [h1]
      exact inv
    · intro a
      rw [h1]
      simp [Controller.returnReads, h3, List.countP_append, List.countP_cons]

theorem Controller.ReturnDoneTrans_reads {ρ : Type} (c : Controller ρ) (clk : Nat) (a : Nat) :
    (c.ReturnDoneTrans clk).2.pending_rd_q_ = c.pending_rd_q_ ∧
      (c.ReturnDoneTrans clk).2.returnReads a +
          (if (c.ReturnDoneTrans clk).1.2 = 0 then
            (if (c.ReturnDoneTrans clk).1.1 = a then 1 else 0) else 0) =
        c.returnReads a := by
  rcases Controller.ReturnDoneTrans_cases c clk with ⟨e, _⟩ | ⟨pre, t, post, hq, _, _, e⟩
  · rw [e]
    exact ⟨rfl, by simp⟩
  · rw [e]
    refine ⟨rfl, ?_⟩
    simp only [Controller.returnReads, hq, List.countP_append, List.countP_cons]
    cases hw : t.is_write <;> by_cases ha : t.addr = a <;> simp [ha]
    omega

theorem Controller.ReadHistory_inv {ρ : Type} (env : Collaborators ρ) (c : Controller ρ)
    (accepted returned : List Nat) (h : Controller.ReadHistory env c accepted returned) :
    (∀ p ∈ c.pending_rd_q_, p.2.addr = p.1 ∧ p.2.is_write = false) ∧
      ∀ a, accepted.count a =
        mmCount c.pending_rd_q_ a + c.returnReads a + returned.count a := by
  induction h with
  | init channel config channel_state refresh c hc =>
    unfold Controller.init at hc
    split at hc
    · simp at hc
    · simp only [Option.some.injEq] at hc
      subst hc
      exact ⟨by simp, fun a => by simp [mmCount, Controller.returnReads]⟩
  | addTransaction c trans accepted returned _ ih =>
    obtain ⟨h1, h2⟩ := Controller.AddTransaction_reads c trans ih.1
    refine ⟨h1, ?_⟩
    intro a
    have := ih.2 a
    rw [h2 a]
    cases hw : trans.is_write
    · by_cases ha : trans.addr = a
      · simp [ha, List.count_append]
        omega
      · simp [ha, List.count_append, List.count_cons]
        omega
    · simp
      omega
  | clockTick c c1 accepted returned _ ht ih =>
    obtain ⟨h1, h2⟩ := Controller.ClockTick_reads env c c1 ht ih.1
    refine ⟨h1, ?_⟩
    intro a
    rw [h2 a]
    exact ih.2 a
  | returnDoneTrans c clk accepted returned _ ih =>
    constructor
    · rw [(Controller.ReturnDoneTrans_reads c clk 0).1]
      exact ih.1
    · intro a
      obtain ⟨h1, h2⟩ := Controller.ReturnDoneTrans_reads c clk a
      have := ih.2 a
      rw [h1]
      split_ifs at h2 ⊢ <;> simp_all [List.count_append, List.count_cons]
      all_goals omega

/-- C11: along every run of `AddTransaction`, `ClockTick` and
`ReturnDoneTrans` calls, and for every address, the reads accepted for the
address so far are exactly those pending in `pending_rd_q_`, those waiting in
the return queue and those already returned for the read callback, each
counted once: no accepted read is dropped or duplicated, and no address is
returned more often than it was accepted. -/
theorem Controller.accepted_reads_are_conserved {ρ : Type} (env : Collaborators ρ)
    (c : Controller ρ) (accepted returned : List Nat)
    (h : Controller.ReadHistory env c accepted returned) (a : Nat) :
    accepted.count a = mmCount c.pending_rd_q_ a + c.returnReads a + returned.count a ∧
      returned.count a ≤ accepted.count a := by
  have h1 := (Controller.ReadHistory_inv env c accepted returned h).2 a
  exact ⟨h1, by omega⟩

theorem sampleInitial_eq :
    Controller.init 0 sampleConfig sampleChannelState () = some sampleInitial := rfl

/-- Witness for C11: from the constructed sample controller, a read of 4096,
a write of 64 and a read of 64 (answered from the write buffer) are added and
`ReturnDoneTrans(1)` is called twice, returning the write and then the read of
64; the reads accepted for 64 are accounted for by the one returned. -/
theorem Controller.accepted_reads_are_conserved_witness :
    ([4096, 64] : List Nat).count 64 =
        mmCount (((((sampleInitial.AddTransaction ⟨4096, 0, 0, false⟩).2.AddTransaction
          ⟨64, 0, 0, true⟩).2.AddTransaction ⟨64, 0, 0, false⟩).2.ReturnDoneTrans
            1).2.ReturnDoneTrans 1).2.pending_rd_q_ 64 +
        (((((sampleInitial.AddTransaction ⟨4096, 0, 0, false⟩).2.AddTransaction
          ⟨64, 0, 0, true⟩).2.AddTransaction ⟨64, 0, 0, false⟩).2.ReturnDoneTrans
            1).2.ReturnDoneTrans 1).2.returnReads 64 +
        ([64] : List Nat).count 64 ∧
      ([64] : List Nat).count 64 ≤ ([4096, 64] : List Nat).count 64 :=
  Controller.accepted_reads_are_conserved sampleCollaborators _ [4096, 64] [64]
    (Controller.ReadHistory.returnDoneTrans _ 1 [4096, 64] []
      (Controller.ReadHistory.returnDoneTrans _ 1 [4096, 64] []
        (Controller.ReadHistory.addTransaction _ ⟨64, 0, 0, false⟩ [4096] []
          (Controller.ReadHistory.addTransaction _ ⟨64, 0, 0, true⟩ [4096] []
            (Controller.ReadHistory.addTransaction _ ⟨4096, 0, 0, false⟩ [] []
              (Controller.ReadHistory.init 0 sampleConfig sampleChannelState ()
                sampleInitial sampleInitial_eq)))))) 64

/-! ## Theorems: backpressure -/

theorem Controller.front_eq {ρ : Type} (c c1 : Controller ρ) (h : c1.front = c.front) :
    c1.clk_ = c.clk_ ∧ c1.config_ = c.config_ ∧
      c1.is_unified_queue_ = c.is_unified_queue_ ∧
      c1.unified_queue_ = c.unified_queue_ ∧
      c1.unified_queue_capacity = c.unified_queue_capacity ∧
      c1.read_queue_ = c.read_queue_ ∧ c1.read_queue_capacity = c.read_queue_capacity ∧
      c1.write_buffer_ = c.write_buffer_ ∧
      c1.write_buffer_capacity = c.write_buffer_capacity ∧
      c1.write_draining_ = c.write_draining_ := by
  simp only [Controller.front, Prod.mk.injEq] at h
  obtain ⟨_, h2, h3, h4, h5, h6, h7, h8, h9, h10, _, _, h13⟩ := h
  exact ⟨h2, h3, h4, h5, h6, h7, h8, h9, h10, h13⟩

theorem Controller.Issued_front {ρ : Type} (c c1 : Controller ρ)
    (h : Controller.Issued c c1) : c1.front = c.front := by
  induction h with
  | same c1 f _ => exact f
  | issue ca cb c3 cmd n _ hp f _ ih =>
    exact f.trans ((Controller.issuePending_front ca cb cmd n hp).1.trans ih)

theorem Controller.ClockTick_front {ρ : Type} (env : Collaborators ρ) (c c1 : Controller ρ)
    (h : c.ClockTick env = some c1) :
    c1.clk_ = c.clk_ + 1 ∧ c1.config_ = c.config_ ∧
      c1.is_unified_queue_ = c.is_unified_queue_ ∧
      c1.unified_queue_capacity = c.unified_queue_capacity ∧
      c1.read_queue_capacity = c.read_queue_capacity ∧
      c1.write_buffer_capacity = c.write_buffer_capacity ∧
      c1.unified_queue_.Sublist c.unified_queue_ ∧
      c1.read_queue_.Sublist c.read_queue_ ∧
      c1.write_buffer_.Sublist c.write_buffer_ := by
  obtain ⟨c6, hi, hf, _, _⟩ := Controller.ClockTick_decomp env c c1 h
  obtain ⟨f1, f2, f3, f4, f5, f6, f7, f8, f9, _⟩ :=
    Controller.front_eq c c6 (Controller.Issued_front c c6 hi)
  obtain ⟨_, s2, s3, s4, s5, s6, s7, s8, s9, s10⟩ := Controller.ScheduleTransaction_shape c6
  obtain ⟨g1, g2, g3, g4, g5, g6, g7, g8, g9, _⟩ := Controller.front_eq _ c1 hf
  simp only at g1 g2 g3 g4 g5 g6 g7 g8 g9
  rw [f4] at s8
  rw [f6] at s9
  rw [f8] at s10
  refine ⟨by rw [g1, s2, f1], by rw [g2, s3, f2], by rw [g3, s4, f3], by rw [g5, s5, f5],
    by rw [g7, s6, f7], by rw [g9, s7, f9], ?_, ?_, ?_⟩
  · rw [g4]
    exact s8
  · rw [g6]
    exact s9
  · rw [g8]
    exact s10

theorem Controller.ClockTick_within {ρ : Type} (env : Collaborators ρ) (c c1 : Controller ρ)
    (h : c.ClockTick env = some c1) (inv : c.QueuesWithinSize) : c1.QueuesWithinSize := by
  obtain ⟨_, h2, h3, h4, h5, h6, h7, h8, h9⟩ := Controller.ClockTick_front env c c1 h
  unfold Controller.QueuesWithinSize at inv ⊢
  rw [h2, h3, h4, h5, h6]
  constructor
  · intro hu
    obtain ⟨i1, i2, i3, i4⟩ := inv.1 hu
    rw [i3] at h8
    rw [i4] at h9
    exact ⟨i1, le_trans h7.length_le i2, List.eq_nil_of_sublist_nil h8,
      List.eq_nil_of_sublist_nil h9⟩
  · intro hu
    obtain ⟨i1, i2, i3, i4, i5⟩ := inv.2 hu
    rw [i5] at h7
    exact ⟨i1, i2, le_trans h8.length_le i3, le_trans h9.length_le i4,
      List.eq_nil_of_sublist_nil h7⟩

theorem Controller.AddTransaction_within {ρ : Type} (c : Controller ρ) (trans : Transaction)
    (hacc : c.WillAcceptTransaction trans.addr trans.is_write = true)
    (inv : c.QueuesWithinSize) : (c.AddTransaction trans).2.QueuesWithinSize := by
  unfold Controller.QueuesWithinSize at inv ⊢
  unfold Controller.WillAcceptTransaction at hacc
  rcases trans with ⟨ta, tac, tcc, w⟩
  unfold Controller.AddTransaction
  dsimp only at hacc ⊢
  by_cases hu : c.is_unified_queue_ = true
  · obtain ⟨i1, i2, i3, i4⟩ := inv.1 hu
    simp only [hu, if_true, decide_eq_true_eq] at hacc
    have hcap : pushBackCapacity c.unified_queue_.length c.unified_queue_capacity =
        c.config_.trans_queue_size := by
      rw [pushBackCapacity, if_pos hacc]; assumption
    cases w <;> split_ifs <;>
      simp_all [Controller.pushUnified, Controller.pushRead, Controller.pushWrite] <;> omega
  · have hu' : c.is_unified_queue_ = false := by simpa using hu
    obtain ⟨i1, i2, i3, i4, i5⟩ := inv.2 hu'
    cases w
    · simp only [hu', Bool.false_eq_true, if_false, Bool.not_false, if_true,
        decide_eq_true_eq] at hacc
      have hcap : pushBackCapacity c.read_queue_.length c.read_queue_capacity =
          c.config_.trans_queue_size := by
        rw [pushBackCapacity, if_pos hacc]; assumption
      split_ifs <;>
        (simp_all [Controller.pushUnified, Controller.pushRead, Controller.pushWrite]
         try omega)
    · simp only [hu', Bool.false_eq_true, if_false, Bool.not_true,
        decide_eq_true_eq] at hacc
      have hcap : pushBackCapacity c.write_buffer_.length c.write_buffer_capacity =
          c.config_.trans_queue_size := by
        rw [pushBackCapacity, if_pos hacc]; assumption
      split_ifs <;>
        (simp_all [Controller.pushUnified, Controller.pushRead, Controller.pushWrite]
         try omega)

theorem Controller.ReturnDoneTrans_within {ρ : Type} (c : Controller ρ) (clk : Nat)
    (inv : c.QueuesWithinSize) : (c.ReturnDoneTrans clk).2.QueuesWithinSize := by
  unfold Controller.ReturnDoneTrans
  split
  · exact inv
  · exact inv

theorem Controller.init_within {ρ : Type} (channel : Int) (config : Config)
    (channel_state : ChannelState) (refresh : ρ) (c : Controller ρ)
    (h : Controller.init channel config channel_state refresh = some c) :
    c.QueuesWithinSize := by
  unfold Controller.init at h
  split at h
  · exact absurd h (by simp)
  · simp only [Option.some.injEq] at h
    subst h
    unfold Controller.QueuesWithinSize
    constructor
    · intro hu
      dsimp only at hu ⊢
      simp [hu]
    · intro hu
      dsimp only at hu ⊢
      simp [hu]

theorem Controller.GuardedReachable_within {ρ : Type} (env : Collaborators ρ)
    (c : Controller ρ) (h : Controller.GuardedReachable env c) : c.QueuesWithinSize := by
  induction h with
  | init channel config channel_state refresh c hc =>
    exact Controller.init_within channel config channel_state refresh c hc
  | addTransaction c trans _ hacc ih => exact Controller.AddTransaction_within c trans hacc ih
  | clockTick c c1 _ ht ih => exact Controller.ClockTick_within env c c1 ht ih
  | returnDoneTrans c clk _ ih => exact Controller.ReturnDoneTrans_within c clk ih

/-- Claim C18 (amended): in every controller state reached from construction
by `AddTransaction` calls that each follow a `WillAcceptTransaction` answer of
true for the same address and direction, by `ClockTick` and by
`ReturnDoneTrans`, `WillAcceptTransaction` answers true exactly when the
appropriate transaction queue (the unified queue, else the write buffer for a
write and the read queue for a read) holds fewer than `trans_queue_size`
entries, and none of the three queues holds more than `trans_queue_size`
entries. -/
theorem Controller.WillAcceptTransaction_iff_room_and_queues_bounded {ρ : Type}
    (env : Collaborators ρ) (c : Controller ρ) (h : Controller.GuardedReachable env c)
    (hex_addr : Nat) (is_write : Bool) :
    (c.WillAcceptTransaction hex_addr is_write = true ↔
        (if c.is_unified_queue_ = true then c.unified_queue_
          else if is_write = true then c.write_buffer_ else c.read_queue_).length <
          c.config_.trans_queue_size) ∧
      c.unified_queue_.length ≤ c.config_.trans_queue_size ∧
      c.read_queue_.length ≤ c.config_.trans_queue_size ∧
      c.write_buffer_.length ≤ c.config_.trans_queue_size := by
  have inv := Controller.GuardedReachable_within env c h
  unfold Controller.QueuesWithinSize at inv
  unfold Controller.WillAcceptTransaction
  by_cases hu : c.is_unified_queue_ = true
  · obtain ⟨i1, i2, i3, i4⟩ := inv.1 hu
    simp [hu, i1, i2, i3, i4]
  · have hu' : c.is_unified_queue_ = false := by simpa using hu
    obtain ⟨i1, i2, i3, i4, i5⟩ := inv.2 hu'
    cases is_write <;> simp [hu', i1, i2, i3, i4, i5]

/-- Witness for C18: the sample controller after an accepted read of address
4096 is a guarded reachable state; its read queue holds one entry of the 32
allowed and it accepts a further read. -/
theorem Controller.WillAcceptTransaction_iff_room_and_queues_bounded_witness :
    Controller.GuardedReachable sampleCollaborators
        (sampleInitial.AddTransaction ⟨4096, 0, 0, false⟩).2 ∧
      (sampleInitial.AddTransaction ⟨4096, 0, 0, false⟩).2.read_queue_.length = 1 ∧
      (sampleInitial.AddTransaction ⟨4096, 0, 0, false⟩).2.config_.trans_queue_size = 32 ∧
      (((sampleInitial.AddTransaction ⟨4096, 0, 0, false⟩).2.WillAcceptTransaction 64 false
          = true ↔
        (if (sampleInitial.AddTransaction ⟨4096, 0, 0, false⟩).2.is_unified_queue_ = true then
            (sampleInitial.AddTransaction ⟨4096, 0, 0, false⟩).2.unified_queue_
          else if false = true then
            (sampleInitial.AddTransaction ⟨4096, 0, 0, false⟩).2.write_buffer_
          else (sampleInitial.AddTransaction ⟨4096, 0, 0, false⟩).2.read_queue_).length <
          (sampleInitial.AddTransaction ⟨4096, 0, 0, false⟩).2.config_.trans_queue_size) ∧
      (sampleInitial.AddTransaction ⟨4096, 0, 0, false⟩).2.unified_queue_.length ≤
        (sampleInitial.AddTransaction ⟨4096, 0, 0, false⟩).2.config_.trans_queue_size ∧
      (sampleInitial.AddTransaction ⟨4096, 0, 0, false⟩).2.read_queue_.length ≤
        (sampleInitial.AddTransaction ⟨4096, 0, 0, false⟩).2.config_.trans_queue_size ∧
      (sampleInitial.AddTransaction ⟨4096, 0, 0, false⟩).2.write_buffer_.length ≤
        (sampleInitial.AddTransaction ⟨4096, 0, 0, false⟩).2.config_.trans_queue_size) :=
  have hg : Controller.GuardedReachable sampleCollaborators
      (sampleInitial.AddTransaction ⟨4096, 0, 0, false⟩).2 :=
    Controller.GuardedReachable.addTransaction sampleInitial ⟨4096, 0, 0, false⟩
      (Controller.GuardedReachable.init 0 sampleConfig sampleChannelState () sampleInitial
        sampleInitial_eq) rfl
  ⟨hg, rfl, rfl,
    Controller.WillAcceptTransaction_iff_room_and_queues_bounded sampleCollaborators _ hg 64
      false⟩


/-! ## Theorems: the commands issued in one cycle -/

theorem Controller.issueFetchedTrace_fst {ρ : Type} (env : Collaborators ρ)
    (c : Controller ρ) (cmd : Command) :
    (c.issueFetchedTrace env cmd).map Prod.fst = c.issueFetched env cmd := by
  unfold Controller.issueFetchedTrace Controller.issueFetched
  split
  · split
    · rfl
    · split
      · split
        · rfl
        · dsimp only
          split
          · split <;> rfl
          · rfl
      · rfl
  · rfl

theorem Controller.selfRefreshLoopTrace_fst {ρ : Type} (env : Collaborators ρ)
    (l : List Nat) : ∀ c : Controller ρ,
      (Controller.selfRefreshLoopTrace env l c).map Prod.fst =
        Controller.selfRefreshLoop env l c := by
  induction l with
  | nil => intro c; rfl
  | cons i rest ih =>
    intro c
    unfold Controller.selfRefreshLoopTrace Controller.selfRefreshLoop
    split
    · split
      · split
        · rfl
        · split
          · split
            · rename_i h; simp [h]
            · rename_i h; simp [h]
          · exact ih _
      · exact ih _
    · split
      · split
        · rfl
        · split
          · split
            · rename_i h; simp [h]
            · rename_i h; simp [h]
          · exact ih _
      · exact ih _

theorem Controller.selfRefreshTrace_fst {ρ : Type} (env : Collaborators ρ)
    (c : Controller ρ) (b : Bool) :
    (c.selfRefreshTrace env b).map Prod.fst = c.selfRefresh env b := by
  unfold Controller.selfRefreshTrace Controller.selfRefresh
  split
  · exact Controller.selfRefreshLoopTrace_fst env _ c
  · rfl

theorem Controller.ClockTickTrace_fst {ρ : Type} (env : Collaborators ρ)
    (c : Controller ρ) : (c.ClockTickTrace env).map Prod.fst = c.ClockTick env := by
  unfold Controller.ClockTickTrace Controller.ClockTick
  split
  · rfl
  · dsimp only
    split
    · rfl
    · rename_i cmd c2 _
      have h1 := Controller.issueFetchedTrace_fst env c2 cmd
      cases ht : c2.issueFetchedTrace env cmd with
      | none =>
        rw [ht] at h1
        rw [← h1]
        rfl
      | some x =>
        obtain ⟨⟨c3, b⟩, issued⟩ := x
        rw [ht] at h1
        rw [← h1]
        dsimp only [Option.map]
        have h2 := Controller.selfRefreshTrace_fst env (c3.powerUpdate env) b
        cases hs : (c3.powerUpdate env).selfRefreshTrace env b with
        | none =>
          rw [hs] at h2
          rw [← h2]
          rfl
        | some y =>
          obtain ⟨c5, woken⟩ := y
          rw [hs] at h2
          rw [← h2]
          rfl

theorem Controller.IssueCommand_config {ρ : Type} (env : Collaborators ρ)
    (c c1 : Controller ρ) (cmd : Command) (h : c.IssueCommand env cmd = some c1) :
    c1.config_ = c.config_ :=
  (Controller.front_eq c c1
    (Controller.Issued_front c c1 (Controller.IssueCommand_issued env c c1 cmd h))).2.1

theorem Controller.issueFetchedTrace_shape {ρ : Type} (env : Collaborators ρ)
    (c c1 : Controller ρ) (cmd : Command) (b : Bool) (l : List Command)
    (h : c.issueFetchedTrace env cmd = some ((c1, b), l)) :
    (b = false ∧ l = []) ∨ (b = true ∧ l = [cmd]) ∨
      (b = true ∧ c.config_.enable_hbm_dual_cmd = true ∧
        ∃ s, l = [cmd, s] ∧ (s.IsReadWrite != cmd.IsReadWrite) = true) := by
  unfold Controller.issueFetchedTrace at h
  split at h
  · split at h
    · simp at h
    · rename_i c2 hi
      have hc := Controller.IssueCommand_config env c c2 cmd hi
      split at h
      · rename_i hd
        rw [hc] at hd
        split at h
        · simp at h
        · rename_i second cq cs _
          dsimp only at h
          split at h
          · rename_i hv
            split at h
            · simp at h
            · simp only [Option.some.injEq, Prod.mk.injEq] at h
              obtain ⟨⟨_, rfl⟩, rfl⟩ := h
              simp only [Bool.and_eq_true] at hv
              exact Or.inr (Or.inr ⟨rfl, hd, second, rfl, hv.2⟩)
          · simp only [Option.some.injEq, Prod.mk.injEq] at h
            obtain ⟨⟨_, rfl⟩, rfl⟩ := h
            exact Or.inr (Or.inl ⟨rfl, rfl⟩)
      · simp only [Option.some.injEq, Prod.mk.injEq] at h
        obtain ⟨⟨_, rfl⟩, rfl⟩ := h
        exact Or.inr (Or.inl ⟨rfl, rfl⟩)
  · simp only [Option.some.injEq, Prod.mk.injEq] at h
    obtain ⟨⟨_, rfl⟩, rfl⟩ := h
    exact Or.inl ⟨rfl, rfl⟩

theorem Controller.selfRefreshLoopTrace_length {ρ : Type} (env : Collaborators ρ)
    (l : List Nat) : ∀ (c c1 : Controller ρ) (issued : List Command),
      Controller.selfRefreshLoopTrace env l c = some (c1, issued) → issued.length ≤ 1 := by
  induction l with
  | nil =>
    intro c c1 issued h
    simp only [Controller.selfRefreshLoopTrace, Option.some.injEq, Prod.mk.injEq] at h
    obtain ⟨_, rfl⟩ := h
    simp
  | cons i rest ih =>
    intro c c1 issued h
    unfold Controller.selfRefreshLoopTrace at h
    split at h
    · split at h
      · split at h
        · simp at h
        · split at h
          · split at h
            · simp at h
            · simp only [Option.some.injEq, Prod.mk.injEq] at h
              obtain ⟨_, rfl⟩ := h
              simp
          · exact ih _ c1 issued h
      · exact ih _ c1 issued h
    · split at h
      · split at h
        · simp at h
        · split at h
          · split at h
            · simp at h
            · simp only [Option.some.injEq, Prod.mk.injEq] at h
              obtain ⟨_, rfl⟩ := h
              simp
          · exact ih _ c1 issued h
      · exact ih _ c1 issued h

theorem Controller.selfRefreshTrace_length {ρ : Type} (env : Collaborators ρ)
    (c c1 : Controller ρ) (b : Bool) (issued : List Command)
    (h : c.selfRefreshTrace env b = some (c1, issued)) :
    issued.length ≤ 1 ∧ (b = true → issued = []) := by
  unfold Controller.selfRefreshTrace at h
  split at h
  · rename_i hb
    simp only [Bool.and_eq_true, Bool.not_eq_true'] at hb
    refine ⟨Controller.selfRefreshLoopTrace_length env _ c c1 issued h, ?_⟩
    intro hb2
    rw [hb2] at hb
    exact absurd hb.2 (by simp)
  · simp only [Option.some.injEq, Prod.mk.injEq] at h
    obtain ⟨_, rfl⟩ := h
    simp

/-- Claim C17: when `Controller::ClockTick` returns, the commands it passed to
`IssueCommand` during the call (self-refresh entry and exit included) are at
most one if `enable_hbm_dual_cmd` is off and at most two otherwise; when they
are two, exactly one of them is of the READ/WRITE family; and the controller
clock is one more than before. -/
theorem Controller.ClockTick_issues_at_most_two_of_opposite_class {ρ : Type}
    (env : Collaborators ρ) (c c1 : Controller ρ) (h : c.ClockTick env = some c1) :
    ∃ issued : List Command, c.ClockTickTrace env = some (c1, issued) ∧
      (c.config_.enable_hbm_dual_cmd = false → issued.length ≤ 1) ∧
      issued.length ≤ 2 ∧
      (issued.length = 2 → issued.countP (fun x => x.IsReadWrite) = 1) ∧
      c1.clk_ = c.clk_ + 1 := by
  have hclk := (Controller.ClockTick_front env c c1 h).1
  have hfst := Controller.ClockTickTrace_fst env c
  rw [h] at hfst
  cases ht : c.ClockTickTrace env with
  | none =>
    rw [ht] at hfst
    simp at hfst
  | some x =>
    obtain ⟨c1x, issued⟩ := x
    rw [ht] at hfst
    simp only [Option.map_some', Option.some.injEq] at hfst
    subst hfst
    refine ⟨issued, rfl, ?_⟩
    unfold Controller.ClockTickTrace at ht
    split at ht
    · simp at ht
    · rename_i r cs _
      dsimp only at ht
      split at ht
      · simp at ht
      · rename_i cmd c2 hf
        have hcfg : c2.config_ = c.config_ :=
          (Controller.front_eq _ c2 (Controller.fetchCommand_same env _ c2 cmd hf).1).2.1
        split at ht
        · simp at ht
        · rename_i c3 b l1 hi
          split at ht
          · simp at ht
          · rename_i c5 l2 hs
            simp only [Option.some.injEq, Prod.mk.injEq] at ht
            obtain ⟨_, rfl⟩ := ht
            obtain ⟨s1, s2⟩ := Controller.selfRefreshTrace_length env _ c5 b l2 hs
            rcases Controller.issueFetchedTrace_shape env c2 c3 cmd b l1 hi with
              ⟨_, rfl⟩ | ⟨hb, rfl⟩ | ⟨hb, hd, s, rfl, hne⟩
            · refine ⟨fun _ => by simpa using s1, by simp; omega, ?_, hclk⟩
              intro h2
              simp at h2
              omega
            · rw [s2 hb]
              refine ⟨fun _ => by simp, by simp, ?_, hclk⟩
              intro h2
              simp at h2
            · rw [s2 hb]
              rw [hcfg] at hd
              refine ⟨fun hoff => ?_, by simp, ?_, hclk⟩
              · rw [hoff] at hd
                simp at hd
              · intro _
                simp only [List.append_nil, List.countP_cons, List.countP_nil]
                cases h1 : s.IsReadWrite <;> cases h2 : cmd.IsReadWrite <;> simp_all

/-! ## Theorems: the second command of HBM dual-command mode -/

set_option maxRecDepth 100000 in
/-- The second fetch of HBM dual-command mode relies on the timing between
two data commands.  With HBM dual-command issue on and collaborators that put
no delay between two READs, which the timing matrix of section 4.2 rules out,
reads of 0, 512, 513 and 514 (one bank; rows 0, 1, 1, 1) are added to the
constructed controller.  After four cycles the command queue of the bank holds
READ 513 and READ 514.  The fifth `ClockTick` passes only READ 513 to
`IssueCommand`, yet both commands are gone from the command queue: READ 514
was fetched as the second command, erased, and dropped because the first
command was a data command too. -/
theorem Controller.dual_fetch_without_data_spacing :
    ((Controller.init 0 sampleDualConfig sampleChannelState ()).bind fun c =>
        Controller.runTrace sampleCollaborators 4
          (c.addReads [0, 512, 513, 514])).map
        (fun x => x.1.observe) =
      some ([⟨CommandType.READ, sampleConfig.AddressMapping 513, 513⟩,
              ⟨CommandType.READ, sampleConfig.AddressMapping 514, 514⟩] ::
            List.replicate 7 [],
        [513, 514], [0, 512], []) ∧
    ((Controller.init 0 sampleDualConfig sampleChannelState ()).bind fun c =>
        Controller.runTrace sampleCollaborators 5
          (c.addReads [0, 512, 513, 514])).map
        (fun x => (x.2.getD 4 [], x.1.observe)) =
      some ([⟨CommandType.READ, sampleConfig.AddressMapping 513, 513⟩],
        List.replicate 8 [], [514], [0, 512, 513], []) ∧
    ((Controller.init 0 sampleDualConfig sampleChannelState ()).bind fun c =>
        Controller.runTrace sampleCollaborators 8
          (c.addReads [0, 512, 513, 514])).map
        (fun x => (x.2.drop 5, x.1.observe)) =
      some ([[], [], []], List.replicate 8 [], [514], [0, 512, 513], []) := by
  refine ⟨?_, ?_, ?_⟩ <;> rfl


/-! ## Theorems: the callbacks of one system cycle -/

theorem JedecDRAMSystem.drainDone_eq {ρ : Type} (clk : Nat) :
    ∀ (fuel : Nat) (c : Controller ρ), c.return_queue_.length < fuel →
      JedecDRAMSystem.drainDone clk fuel c =
        some ((c.return_queue_.filter (fun t => decide (t.complete_cycle ≤ clk))).map
            Transaction.callback,
          { c with return_queue_ :=
              c.return_queue_.filter (fun t => !decide (t.complete_cycle ≤ clk)) }) := by
  intro fuel
  induction fuel with
  | zero => intro c h; omega
  | succ n ih =>
    intro c hlen
    unfold JedecDRAMSystem.drainDone
    rcases Controller.ReturnDoneTrans_cases c clk with ⟨e, hall⟩ | ⟨pre, t, post, e, hpre, ht, er⟩
    · have h1 : c.return_queue_.filter (fun t => decide (t.complete_cycle ≤ clk)) = [] := by
        rw [List.filter_eq_nil_iff]
        intro x hx
        have := hall x hx
        simp only [decide_eq_true_eq]
        omega
      have h2 : c.return_queue_.filter (fun t => !decide (t.complete_cycle ≤ clk)) =
          c.return_queue_ := by
        rw [List.filter_eq_self]
        intro x hx
        have := hall x hx
        simp only [Bool.not_eq_true', decide_eq_false_iff_not]
        omega
      rw [h1, h2, e]
      simp
    · have hp1 : pre.filter (fun t => decide (t.complete_cycle ≤ clk)) = [] := by
        rw [List.filter_eq_nil_iff]
        intro x hx
        have := hpre x hx
        simp only [decide_eq_true_eq]
        omega
      have hp2 : pre.filter (fun t => !decide (t.complete_cycle ≤ clk)) = pre := by
        rw [List.filter_eq_self]
        intro x hx
        have := hpre x hx
        simp only [Bool.not_eq_true', decide_eq_false_iff_not]
        omega
      have hlen2 : ({ c with return_queue_ := pre ++ post } : Controller ρ).return_queue_.length
          < n := by
        rw [e] at hlen
        simp only [List.length_append, List.length_cons] at hlen ⊢
        omega
      have h3 := ih _ hlen2
      rw [er]
      dsimp only at h3 ⊢
      rw [h3, e]
      simp only [List.filter_append, hp1, hp2, List.nil_append]
      have ht2 : decide (t.complete_cycle ≤ clk) = true := by simpa using ht
      simp only [List.filter_cons, ht2, if_true, Bool.not_true, Bool.false_eq_true, if_false,
        List.map_cons]
      cases hw : t.is_write <;> simp [Transaction.callback, hw]

theorem JedecDRAMSystem.drainAll_eq {ρ : Type} (clk : Nat) (cs : List (Controller ρ)) :
    JedecDRAMSystem.drainAll clk cs =
      some (cs.map (fun c =>
          (c.return_queue_.filter (fun t => decide (t.complete_cycle ≤ clk))).map
            Transaction.callback),
        cs.map (fun c =>
          { c with return_queue_ :=
                     c.return_queue_.filter (fun t => !decide (t.complete_cycle ≤ clk)) })) := by
  induction cs with
  | nil => rfl
  | cons c rest ih =>
    unfold JedecDRAMSystem.drainAll
    rw [JedecDRAMSystem.drainDone_eq clk _ c (Nat.lt_succ_self _), ih]
    rfl

theorem JedecDRAMSystem.tickAll_mem {ρ : Type} (env : Collaborators ρ) :
    ∀ (cs cs1 : List (Controller ρ)) (a b a1 b1 : Nat),
      JedecDRAMSystem.tickAll env cs a b = some (cs1, a1, b1) →
      ∀ c1 ∈ cs1, ∃ c ∈ cs, c.ClockTick env = some c1 := by
  intro cs
  induction cs with
  | nil =>
    intro cs1 a b a1 b1 h c1 hc1
    simp only [JedecDRAMSystem.tickAll, Option.some.injEq, Prod.mk.injEq] at h
    obtain ⟨rfl, _⟩ := h
    simp at hc1
  | cons c rest ih =>
    intro cs1 a b a1 b1 h c1 hc1
    unfold JedecDRAMSystem.tickAll at h
    split at h
    · simp at h
    · rename_i c2 hc2
      dsimp only at h
      split at h
      · simp at h
      · rename_i cs2 serve active hrest
        simp only [Option.some.injEq, Prod.mk.injEq] at h
        obtain ⟨rfl, _⟩ := h
        rcases List.mem_cons.mp hc1 with rfl | hin
        · exact ⟨c, List.mem_cons_self _ _, hc2⟩
        · obtain ⟨c0, hc0, ht⟩ := ih cs2 _ _ serve active hrest c1 hin
          exact ⟨c0, List.mem_cons_of_mem _ hc0, ht⟩

theorem Controller.Issued_return_queue {ρ : Type} (c c1 : Controller ρ)
    (h : Controller.Issued c c1) :
    ∀ t ∈ c1.return_queue_, t ∈ c.return_queue_ ∨
      t.complete_cycle = c.clk_ + c.config_.read_delay := by
  induction h with
  | same c1 _ l =>
    intro t ht
    rw [(Controller.ledger_eq c c1 l).2.2] at ht
    exact Or.inl ht
  | issue ca cb c3 cmd n hi hp _ l ih =>
    intro t ht
    rw [(Controller.ledger_eq cb c3 l).2.2] at ht
    obtain ⟨f1, f2, _⟩ := Controller.front_eq c ca (Controller.Issued_front c ca hi)
    rcases Controller.issuePending_cases ca cb cmd n hp with ⟨_, _, _, e, _⟩ | ⟨_, _, e, _⟩
    · rw [e] at ht
      rcases List.mem_append.mp ht with h1 | h1
      · exact ih t h1
      · obtain ⟨p, _, rfl⟩ := List.mem_map.mp h1
        right
        dsimp only
        rw [f1, f2]
    · rw [e] at ht
      exact ih t ht

theorem Controller.ClockTick_return_queue {ρ : Type} (env : Collaborators ρ)
    (c c1 : Controller ρ) (h : c.ClockTick env = some c1) :
    ∀ t ∈ c1.return_queue_, t ∈ c.return_queue_ ∨
      t.complete_cycle = c.clk_ + c.config_.read_delay := by
  obtain ⟨c6, hi, _, hl, _⟩ := Controller.ClockTick_decomp env c c1 h
  obtain ⟨s1, _⟩ := Controller.ScheduleTransaction_shape c6
  intro t ht
  rw [(Controller.ledger_eq _ c1 (hl.trans s1)).2.2] at ht
  exact Controller.Issued_return_queue c c6 hi t ht

theorem Controller.AddTransaction_clk_config {ρ : Type} (c : Controller ρ)
    (trans : Transaction) :
    (c.AddTransaction trans).2.clk_ = c.clk_ ∧ (c.AddTransaction trans).2.config_ = c.config_ := by
  unfold Controller.AddTransaction
  dsimp only
  split_ifs <;> exact ⟨rfl, rfl⟩

theorem Controller.AddTransaction_return_queue {ρ : Type} (c : Controller ρ)
    (trans : Transaction) :
    ∀ t ∈ (c.AddTransaction trans).2.return_queue_, t ∈ c.return_queue_ ∨
      t.complete_cycle = c.clk_ + 1 := by
  have h := Controller.AddTransaction_ledger c trans
  intro t ht
  have e : (c.AddTransaction trans).2.return_queue_ = (c.AddTransaction trans).2.ledger.2.2 := rfl
  rw [e, h] at ht
  split_ifs at ht <;> dsimp only at ht <;>
    first
    | exact Or.inl ht
    | (rcases List.mem_append.mp ht with h1 | h1
       · exact Or.inl h1
       · simp only [List.mem_singleton] at h1
         subst h1
         exact Or.inr rfl)

theorem JedecDRAMSystem.buildCtrls_mem {ρ : Type} (config : Config)
    (channel_state : ChannelState) (refresh : ρ) :
    ∀ (l : List Nat) (cs : List (Controller ρ)),
      JedecDRAMSystem.buildCtrls config channel_state refresh l = some cs →
      ∀ c ∈ cs, ∃ i : Int, Controller.init i config channel_state refresh = some c := by
  intro l
  induction l with
  | nil =>
    intro cs h c hc
    simp only [JedecDRAMSystem.buildCtrls, Option.some.injEq] at h
    subst h
    simp at hc
  | cons i rest ih =>
    intro cs h c hc
    unfold JedecDRAMSystem.buildCtrls at h
    split at h
    · simp at h
    · rename_i c0 h0
      split at h
      · simp at h
      · rename_i cs0 hrest
        simp only [Option.some.injEq] at h
        subst h
        rcases List.mem_cons.mp hc with rfl | hin
        · exact ⟨_, h0⟩
        · exact ih cs0 hrest c hin

theorem Controller.init_fresh {ρ : Type} (channel : Int) (config : Config)
    (channel_state : ChannelState) (refresh : ρ) (c : Controller ρ)
    (h : Controller.init channel config channel_state refresh = some c) :
    c.clk_ = 0 ∧ c.config_ = config ∧ c.return_queue_ = [] := by
  unfold Controller.init at h
  split at h
  · simp at h
  · simp only [Option.some.injEq] at h
    subst h
    exact ⟨rfl, rfl, rfl⟩

theorem JedecDRAMSystem.Reachable_inv {ρ : Type} (env : Collaborators ρ)
    (s : JedecDRAMSystem ρ) (h : JedecDRAMSystem.Reachable env s) :
    ∀ c ∈ s.ctrls_, c.clk_ = s.clk_ ∧ c.config_ = s.config_.toConfig ∧
      (1 ≤ s.config_.read_delay → ∀ t ∈ c.return_queue_, s.clk_ ≤ t.complete_cycle) := by
  induction h with
  | init config channel_state refresh s hs =>
    intro c hc
    unfold JedecDRAMSystem.init at hs
    split at hs
    · simp at hs
    · split at hs
      · simp at hs
      · rename_i cs hb
        simp only [Option.some.injEq] at hs
        subst hs
        obtain ⟨i, hi⟩ := JedecDRAMSystem.buildCtrls_mem _ channel_state refresh _ cs hb c hc
        obtain ⟨i1, i2, i3⟩ := Controller.init_fresh i _ channel_state refresh c hi
        refine ⟨i1, i2, ?_⟩
        intro _ t ht
        rw [i3] at ht
        simp at ht
  | addTransaction s s1 hex_addr is_write ok _ ha ih =>
    intro c hc
    unfold JedecDRAMSystem.AddTransaction at ha
    dsimp only at ha
    split at ha
    · simp at ha
    · rename_i c0 h0
      split at ha
      · simp only [Option.some.injEq, Prod.mk.injEq] at ha
        obtain ⟨_, rfl⟩ := ha
        dsimp only at hc ⊢
        rcases List.mem_or_eq_of_mem_set hc with hin | rfl
        · exact ih c hin
        · obtain ⟨j1, j2, j3⟩ := ih c0 (List.get?_mem h0)
          obtain ⟨a1, a2⟩ := Controller.AddTransaction_clk_config c0
            (Transaction.mk2 hex_addr is_write)
          refine ⟨a1.trans j1, a2.trans j2, ?_⟩
          intro hd t ht
          rcases Controller.AddTransaction_return_queue c0 _ t ht with h1 | h1
          · exact j3 hd t h1
          · rw [h1, j1]
            omega
      · simp at ha
  | clockTick s s1 events _ ht ih =>
    intro c1 hc1
    unfold JedecDRAMSystem.ClockTick at ht
    rw [JedecDRAMSystem.drainAll_eq] at ht
    dsimp only at ht
    split at ht
    · simp at ht
    · rename_i cs1 serve active htick
      split at ht
      · simp at ht
      · simp only [Option.some.injEq, Prod.mk.injEq] at ht
        obtain ⟨_, rfl⟩ := ht
        dsimp only at hc1 ⊢
        obtain ⟨c, hc, hct⟩ := JedecDRAMSystem.tickAll_mem env _ cs1 _ _ serve active htick c1 hc1
        obtain ⟨c0, hc0, rfl⟩ := List.mem_map.mp hc
        obtain ⟨j1, j2, j3⟩ := ih c0 hc0
        obtain ⟨k1, k2, _⟩ := Controller.ClockTick_front env _ c1 hct
        dsimp only at k1 k2
        refine ⟨by rw [k1, j1], k2.trans j2, ?_⟩
        intro hd t htm
        rcases Controller.ClockTick_return_queue env _ c1 hct t htm with h1 | h1
        · dsimp only at h1
          obtain ⟨_, h2⟩ := List.mem_filter.mp h1
          simp only [Bool.not_eq_true', decide_eq_false_iff_not, not_le] at h2
          omega
        · dsimp only at h1
          rw [h1, j1, j2]
          have : 1 ≤ s.config_.toConfig.read_delay := hd
          omega

theorem sampleSystem_eq :
    JedecDRAMSystem.init sampleSystemConfig sampleChannelState () = some sampleSystem := rfl

set_option maxRecDepth 100000 in
/-- The order of the callbacks of one cycle rests on a read delay of at least
one cycle.  In the one-channel sample system with the read delay set to zero
cycles a read of 0 is added at cycle 0 and a write of 64 at cycle 2.  After
the `ClockTick` of cycle 2 the return queue holds the write with complete
cycle 3 followed by the read with complete cycle 2, and the `ClockTick` of
cycle 3 invokes the write callback of 64 before the read callback of 0. -/
theorem JedecDRAMSystem.zero_read_delay_reorders_callbacks :
    ((JedecDRAMSystem.init sampleZeroDelayConfig sampleChannelState ()).bind
        (JedecDRAMSystem.run sampleCollaborators
          [HostCall.add 0 false, HostCall.tick, HostCall.tick, HostCall.add 64 true,
            HostCall.tick])).map (fun r => r.2.observe) =
      some (3, [[(64, true, 3), (0, false, 2)]]) ∧
    ((JedecDRAMSystem.init sampleZeroDelayConfig sampleChannelState ()).bind
        (JedecDRAMSystem.run sampleCollaborators
          [HostCall.add 0 false, HostCall.tick, HostCall.tick, HostCall.add 64 true,
            HostCall.tick, HostCall.tick])).map (fun r => r.1) =
      some [(0, [[]]), (1, [[]]), (2, [[]]),
        (3, [[CallbackEvent.write 64, CallbackEvent.read 0]])] := by
  refine ⟨?_, ?_⟩ <;> rfl


/-! ## Theorems: the row-hit counter -/

theorem BankState.updateAll_row_hit_count (cmds : List Command) :
    ∀ (b b1 : BankState) (n : Nat),
      (b.state_ ≠ State.OPEN → b.row_hit_count_ = 0) →
      (b.state_ = State.OPEN → b.row_hit_count_ = (n : Int)) →
      BankState.updateAll cmds b = some b1 →
      (b1.state_ ≠ State.OPEN → b1.row_hit_count_ = 0) ∧
      (b1.state_ = State.OPEN → b1.row_hit_count_ =
        ((cmds.foldl
          (fun n cmd =>
            if cmd.cmd_type = CommandType.ACTIVATE then 0
            else if cmd.cmd_type = CommandType.READ ∨ cmd.cmd_type = CommandType.WRITE
              then n + 1
            else n)
          n : Nat) : Int)) := by
  induction cmds with
  | nil =>
    intro b b1 n h1 h2 h
    simp only [BankState.updateAll, Option.some.injEq] at h
    subst h
    exact ⟨h1, h2⟩
  | cons cmd rest ih =>
    intro b b1 n h1 h2 h
    unfold BankState.updateAll at h
    split at h
    · simp at h
    · rename_i b2 hu
      rw [List.foldl_cons]
      apply ih b2 b1 _ _ _ h
      · intro hs
        rcases b with ⟨s, t, r, k, i1, i2, i3, i4⟩
        rcases cmd with ⟨ty, a, hx⟩
        cases s <;> cases ty <;> simp [BankState.UpdateState] at hu <;> subst hu <;>
          simp_all
      · intro hs
        rcases b with ⟨s, t, r, k, i1, i2, i3, i4⟩
        rcases cmd with ⟨ty, a, hx⟩
        cases s <;> cases ty <;> simp [BankState.UpdateState] at hu <;> subst hu <;>
          simp_all

/-- Claim C21: for a bank reached from a freshly constructed `BankState` by
`UpdateState` calls that return, `row_hit_count_` is 0 whenever the bank is
not OPEN; while the bank is OPEN it is the number of READ and WRITE commands
applied since the ACTIVATE that opened the row; and an `UpdateState` call with
PRECHARGE, READ_PRECHARGE or WRITE_PRECHARGE that returns leaves it at 0. -/
theorem BankState.row_hit_count_counts_hits_since_activate (cmds : List Command)
    (b : BankState) (h : BankState.updateAll cmds BankState.init = some b) :
    (b.state_ ≠ State.OPEN → b.row_hit_count_ = 0) ∧
      (b.state_ = State.OPEN → b.row_hit_count_ = (hitsSinceActivate cmds : Int)) ∧
      (∀ cmd b1, b.UpdateState cmd = some b1 →
        cmd.cmd_type = CommandType.PRECHARGE ∨ cmd.cmd_type = CommandType.READ_PRECHARGE ∨
          cmd.cmd_type = CommandType.WRITE_PRECHARGE →
        b1.row_hit_count_ = 0) := by
  obtain ⟨h1, h2⟩ := BankState.updateAll_row_hit_count cmds BankState.init b 0
    (fun _ => rfl) (fun hs => absurd hs (by decide)) h
  refine ⟨h1, h2, ?_⟩
  intro cmd b1 hu hk
  rcases b with ⟨s, t, r, k, i1, i2, i3, i4⟩
  rcases cmd with ⟨ty, a, hx⟩
  dsimp only at hk
  rcases hk with rfl | rfl | rfl <;> cases s <;>
    simp [BankState.UpdateState] at hu <;> subst hu <;> rfl

/-- Witness for C21: after ACTIVATE of row 8, a READ and a WRITE on a fresh
bank the bank is OPEN with a row-hit count of 2. -/
theorem BankState.row_hit_count_counts_hits_since_activate_witness :
    BankState.updateAll
        [⟨CommandType.ACTIVATE, ⟨0, 0, 0, 0, 8, 0⟩, 4096⟩,
          ⟨CommandType.READ, ⟨0, 0, 0, 0, 8, 0⟩, 4096⟩,
          ⟨CommandType.WRITE, ⟨0, 0, 0, 0, 8, 1⟩, 4097⟩] BankState.init =
        some { BankState.init with state_ := State.OPEN, open_row_ := 8, row_hit_count_ := 2 } ∧
      ({ BankState.init with
          state_ := State.OPEN, open_row_ := 8, row_hit_count_ := 2 } : BankState).row_hit_count_ =
        (hitsSinceActivate
          [⟨CommandType.ACTIVATE, ⟨0, 0, 0, 0, 8, 0⟩, 4096⟩,
            ⟨CommandType.READ, ⟨0, 0, 0, 0, 8, 0⟩, 4096⟩,
            ⟨CommandType.WRITE, ⟨0, 0, 0, 0, 8, 1⟩, 4097⟩] : Int) :=
  ⟨rfl,
    (BankState.row_hit_count_counts_hits_since_activate
      [⟨CommandType.ACTIVATE, ⟨0, 0, 0, 0, 8, 0⟩, 4096⟩,
        ⟨CommandType.READ, ⟨0, 0, 0, 0, 8, 0⟩, 4096⟩,
        ⟨CommandType.WRITE, ⟨0, 0, 0, 0, 8, 1⟩, 4097⟩]
      { BankState.init with state_ := State.OPEN, open_row_ := 8, row_hit_count_ := 2 }
      rfl).2.1 rfl⟩


/-! ## Theorems: the queue index -/

theorem mixed_radix_lt (k n a m : Nat) (hk : k < m) (ha : a < n) : k * n + a < m * n := by
  calc k * n + a < k * n + n := by omega
    _ = (k + 1) * n := by ring
    _ ≤ m * n := Nat.mul_le_mul_right n hk

theorem mixed_radix_inj (n k a k1 a1 : Nat) (ha : a < n) (ha1 : a1 < n)
    (h : k * n + a = k1 * n + a1) : k = k1 ∧ a = a1 := by
  have hn : 0 < n := by omega
  have e1 : (k * n + a) / n = k := by
    rw [Nat.add_comm, Nat.add_mul_div_right _ _ hn, Nat.div_eq_of_lt ha, Nat.zero_add]
  have e2 : (k1 * n + a1) / n = k1 := by
    rw [Nat.add_comm, Nat.add_mul_div_right _ _ hn, Nat.div_eq_of_lt ha1, Nat.zero_add]
  have hk : k = k1 := by rw [← e1, ← e2, h]
  subst hk
  exact ⟨rfl, by omega⟩

theorem queue_index_nat_lt (ranks bankgroups bpg r g b : Nat) (hr : r < ranks)
    (hg : g < bankgroups) (hb : b < bpg) :
    r * (bankgroups * bpg) + g * bpg + b < ranks * (bankgroups * bpg) := by
  have h1 : g * bpg + b < bankgroups * bpg := mixed_radix_lt g bpg b bankgroups hg hb
  have h2 := mixed_radix_lt r (bankgroups * bpg) (g * bpg + b) ranks hr h1
  omega

theorem queue_index_nat_inj (bankgroups bpg r g b r1 g1 b1 : Nat)
    (hg : g < bankgroups) (hb : b < bpg) (hg1 : g1 < bankgroups) (hb1 : b1 < bpg)
    (h : r * (bankgroups * bpg) + g * bpg + b = r1 * (bankgroups * bpg) + g1 * bpg + b1) :
    r = r1 ∧ g = g1 ∧ b = b1 := by
  have h1 : g * bpg + b < bankgroups * bpg := mixed_radix_lt g bpg b bankgroups hg hb
  have h2 : g1 * bpg + b1 < bankgroups * bpg := mixed_radix_lt g1 bpg b1 bankgroups hg1 hb1
  obtain ⟨e1, e2⟩ := mixed_radix_inj (bankgroups * bpg) r (g * bpg + b) r1 (g1 * bpg + b1)
    h1 h2 (by omega)
  obtain ⟨e3, e4⟩ := mixed_radix_inj bpg g b g1 b1 hb hb1 e2
  exact ⟨e1, e3, e4⟩

/-- Claim C29: with `banks = bankgroups * banks_per_group` and a rank, bank
group and bank within their counts, `GetQueueIndex` of a PER_BANK queue
returns `rank * banks + bankgroup * banks_per_group + bank`, a value in
`[0, ranks * banks)` that differs for different triples; of a PER_RANK queue
it returns `rank`, a value in `[0, ranks)`. -/
theorem CommandQueue.GetQueueIndex_is_a_bijective_index (cq : CommandQueue) (config : Config)
    (hbanks : config.banks = config.bankgroups * config.banks_per_group)
    (rank bankgroup bank : Int)
    (hr : 0 ≤ rank ∧ rank < config.ranks) (hg : 0 ≤ bankgroup ∧ bankgroup < config.bankgroups)
    (hb : 0 ≤ bank ∧ bank < config.banks_per_group) :
    (cq.queue_structure_ = QueueStructure.PER_BANK →
      cq.GetQueueIndex config rank bankgroup bank =
        rank * config.banks + bankgroup * config.banks_per_group + bank ∧
      0 ≤ cq.GetQueueIndex config rank bankgroup bank ∧
      cq.GetQueueIndex config rank bankgroup bank < (config.ranks : Int) * config.banks ∧
      ∀ rank1 bankgroup1 bank1 : Int,
        0 ≤ rank1 ∧ rank1 < config.ranks → 0 ≤ bankgroup1 ∧ bankgroup1 < config.bankgroups →
        0 ≤ bank1 ∧ bank1 < config.banks_per_group →
        cq.GetQueueIndex config rank1 bankgroup1 bank1 =
          cq.GetQueueIndex config rank bankgroup bank →
        rank1 = rank ∧ bankgroup1 = bankgroup ∧ bank1 = bank) ∧
    (cq.queue_structure_ = QueueStructure.PER_RANK →
      cq.GetQueueIndex config rank bankgroup bank = rank ∧
      0 ≤ cq.GetQueueIndex config rank bankgroup bank ∧
      cq.GetQueueIndex config rank bankgroup bank < config.ranks) := by
  obtain ⟨hr0, hr1⟩ := hr
  obtain ⟨hg0, hg1⟩ := hg
  obtain ⟨hb0, hb1⟩ := hb
  constructor
  · intro hs
    have hf : ∀ x y z : Int, cq.GetQueueIndex config x y z =
        x * config.banks + y * config.banks_per_group + z := by
      intro x y z
      simp [CommandQueue.GetQueueIndex, hs]
    rw [hf]
    lift rank to ℕ using hr0
    lift bankgroup to ℕ using hg0
    lift bank to ℕ using hb0
    rw [hbanks]
    have hr1n : rank < config.ranks := by exact_mod_cast hr1
    have hg1n : bankgroup < config.bankgroups := by exact_mod_cast hg1
    have hb1n : bank < config.banks_per_group := by exact_mod_cast hb1
    refine ⟨rfl, by positivity, ?_, ?_⟩
    · have := queue_index_nat_lt config.ranks config.bankgroups config.banks_per_group
        rank bankgroup bank hr1n hg1n hb1n
      exact_mod_cast this
    · intro rank1 bankgroup1 bank1 ⟨h10, h11⟩ ⟨h20, h21⟩ ⟨h30, h31⟩ he
      rw [hf, hbanks] at he
      lift rank1 to ℕ using h10
      lift bankgroup1 to ℕ using h20
      lift bank1 to ℕ using h30
      have he2 : rank1 * (config.bankgroups * config.banks_per_group) +
          bankgroup1 * config.banks_per_group + bank1 =
          rank * (config.bankgroups * config.banks_per_group) +
          bankgroup * config.banks_per_group + bank := by exact_mod_cast he
      obtain ⟨e1, e2, e3⟩ := queue_index_nat_inj config.bankgroups config.banks_per_group
        rank1 bankgroup1 bank1 rank bankgroup bank (by exact_mod_cast h21)
        (by exact_mod_cast h31) hg1n hb1n he2
      exact ⟨by exact_mod_cast e1, by exact_mod_cast e2, by exact_mod_cast e3⟩
  · intro hs
    have hf : cq.GetQueueIndex config rank bankgroup bank = rank := by
      simp [CommandQueue.GetQueueIndex, hs]
    rw [hf]
    exact ⟨rfl, hr0, hr1⟩

/-- Witness for C29: in the sample configuration (one rank, two bank groups
of four banks) the queue of rank 0, bank group 1, bank 2 of the PER_BANK
sample command queue has index 6. -/
theorem CommandQueue.GetQueueIndex_is_a_bijective_index_witness :
    sampleInitial.cmd_queue_.GetQueueIndex sampleConfig 0 1 2 = 6 ∧
      0 ≤ sampleInitial.cmd_queue_.GetQueueIndex sampleConfig 0 1 2 ∧
      sampleInitial.cmd_queue_.GetQueueIndex sampleConfig 0 1 2 <
        (sampleConfig.ranks : Int) * sampleConfig.banks :=
  have h := (CommandQueue.GetQueueIndex_is_a_bijective_index sampleInitial.cmd_queue_
    sampleConfig rfl 0 1 2 (by decide) (by decide) (by decide)).1 rfl
  ⟨rfl, h.2.1, h.2.2.1⟩


/-! ## Theorems: the scan of one command queue -/

theorem CommandQueue.askAll_append {ρ : Type} (env : Collaborators ρ) (clk : Nat)
    (l1 : List Command) : ∀ (l2 : List Command) (cs : ChannelState),
      CommandQueue.askAll env clk (l1 ++ l2) cs =
        (CommandQueue.askAll env clk l1 cs).bind (CommandQueue.askAll env clk l2) := by
  induction l1 with
  | nil => intro l2 cs; rfl
  | cons x xs ih =>
    intro l2 cs
    simp only [List.cons_append, CommandQueue.askAll]
    split
    · rfl
    · exact ih l2 _

theorem Command.invalid_not_valid : Command.invalid.IsValid = false := by decide

theorem CommandQueue.firstReadyFrom_decomp {ρ : Type} (env : Collaborators ρ) (clk : Nat)
    (q : List Command) : ∀ (pre0 : List Command) (cs cs1 : ChannelState) (cmd : Command),
      CommandQueue.firstReadyFrom env clk pre0 q cs = some (cmd, cs1) →
      (cmd.IsValid = true →
        ∃ mid e post csb, q = mid ++ e :: post ∧
          CommandQueue.askAll env clk mid cs = some csb ∧
          env.GetReadyCommand csb e clk = some (cmd, cs1) ∧
          CommandQueue.qualifies cs1 (pre0 ++ mid) e post cmd = true ∧
          ∀ p1 x p2 csx out csy, mid = p1 ++ x :: p2 →
            CommandQueue.askAll env clk p1 cs = some csx →
            env.GetReadyCommand csx x clk = some (out, csy) →
            CommandQueue.qualifies csy (pre0 ++ p1) x (p2 ++ e :: post) out = false) ∧
      (cmd.IsValid = false →
        cmd = Command.invalid ∧ CommandQueue.askAll env clk q cs = some cs1 ∧
          ∀ p1 x p2 csx out csy, q = p1 ++ x :: p2 →
            CommandQueue.askAll env clk p1 cs = some csx →
            env.GetReadyCommand csx x clk = some (out, csy) →
            CommandQueue.qualifies csy (pre0 ++ p1) x p2 out = false) := by
  induction q with
  | nil =>
    intro pre0 cs cs1 cmd h
    simp only [CommandQueue.firstReadyFrom, Option.some.injEq, Prod.mk.injEq] at h
    obtain ⟨rfl, rfl⟩ := h
    constructor
    · intro hv
      exact absurd hv (by decide)
    · intro _
      refine ⟨rfl, rfl, ?_⟩
      intro p1 x p2 csx out csy e
      simp at e
  | cons x xs ih =>
    intro pre0 cs cs1 cmd h
    unfold CommandQueue.firstReadyFrom at h
    split at h
    · simp at h
    · rename_i out cs2 hg
      -- the step over `x` when it does not qualify
      have skip : CommandQueue.qualifies cs2 pre0 x xs out = false →
          CommandQueue.firstReadyFrom env clk (pre0 ++ [x]) xs cs2 = some (cmd, cs1) →
          (cmd.IsValid = true →
            ∃ mid e post csb, x :: xs = mid ++ e :: post ∧
              CommandQueue.askAll env clk mid cs = some csb ∧
              env.GetReadyCommand csb e clk = some (cmd, cs1) ∧
              CommandQueue.qualifies cs1 (pre0 ++ mid) e post cmd = true ∧
              ∀ p1 y p2 csx o csy, mid = p1 ++ y :: p2 →
                CommandQueue.askAll env clk p1 cs = some csx →
                env.GetReadyCommand csx y clk = some (o, csy) →
                CommandQueue.qualifies csy (pre0 ++ p1) y (p2 ++ e :: post) o = false) ∧
          (cmd.IsValid = false →
            cmd = Command.invalid ∧ CommandQueue.askAll env clk (x :: xs) cs = some cs1 ∧
              ∀ p1 y p2 csx o csy, x :: xs = p1 ++ y :: p2 →
                CommandQueue.askAll env clk p1 cs = some csx →
                env.GetReadyCommand csx y clk = some (o, csy) →
                CommandQueue.qualifies csy (pre0 ++ p1) y p2 o = false) := by
        intro hq hrec
        obtain ⟨i1, i2⟩ := ih (pre0 ++ [x]) cs2 cs1 cmd hrec
        constructor
        · intro hv
          obtain ⟨mid, e, post, csb, e1, e2, e3, e4, e5⟩ := i1 hv
          have hq2 := hq
          rw [e1] at hq2
          refine ⟨x :: mid, e, post, csb, by rw [e1]; rfl, ?_, e3, ?_, ?_⟩
          · simp only [CommandQueue.askAll, hg]
            exact e2
          · simpa using e4
          · intro p1 y p2 csx o csy hs ha hgr
            cases p1 with
            | nil =>
              simp only [List.nil_append, List.cons.injEq] at hs
              obtain ⟨rfl, rfl⟩ := hs
              simp only [CommandQueue.askAll, Option.some.injEq] at ha
              subst ha
              rw [hg] at hgr
              simp only [Option.some.injEq, Prod.mk.injEq] at hgr
              obtain ⟨rfl, rfl⟩ := hgr
              simpa using hq2
            | cons z p1 =>
              simp only [List.cons_append, List.cons.injEq] at hs
              obtain ⟨rfl, rfl⟩ := hs
              simp only [CommandQueue.askAll, hg] at ha
              have := e5 p1 y p2 csx o csy rfl ha hgr
              simpa using this
        · intro hv
          obtain ⟨e1, e2, e3⟩ := i2 hv
          refine ⟨e1, ?_, ?_⟩
          · simp only [CommandQueue.askAll, hg]
            exact e2
          · intro p1 y p2 csx o csy hs ha hgr
            cases p1 with
            | nil =>
              simp only [List.nil_append, List.cons.injEq] at hs
              obtain ⟨rfl, rfl⟩ := hs
              simp only [CommandQueue.askAll, Option.some.injEq] at ha
              subst ha
              rw [hg] at hgr
              simp only [Option.some.injEq, Prod.mk.injEq] at hgr
              obtain ⟨rfl, rfl⟩ := hgr
              simpa using hq
            | cons z p1 =>
              simp only [List.cons_append, List.cons.injEq] at hs
              obtain ⟨rfl, rfl⟩ := hs
              simp only [CommandQueue.askAll, hg] at ha
              have := e3 p1 y p2 csx o csy rfl ha hgr
              simpa using this
      -- the return of the prerequisite of `x` when it qualifies
      have take : CommandQueue.qualifies cs2 pre0 x xs out = true →
          some (out, cs2) = some (cmd, cs1) →
          (cmd.IsValid = true →
            ∃ mid e post csb, x :: xs = mid ++ e :: post ∧
              CommandQueue.askAll env clk mid cs = some csb ∧
              env.GetReadyCommand csb e clk = some (cmd, cs1) ∧
              CommandQueue.qualifies cs1 (pre0 ++ mid) e post cmd = true ∧
              ∀ p1 y p2 csx o csy, mid = p1 ++ y :: p2 →
                CommandQueue.askAll env clk p1 cs = some csx →
                env.GetReadyCommand csx y clk = some (o, csy) →
                CommandQueue.qualifies csy (pre0 ++ p1) y (p2 ++ e :: post) o = false) ∧
          (cmd.IsValid = false →
            cmd = Command.invalid ∧ CommandQueue.askAll env clk (x :: xs) cs = some cs1 ∧
              ∀ p1 y p2 csx o csy, x :: xs = p1 ++ y :: p2 →
                CommandQueue.askAll env clk p1 cs = some csx →
                env.GetReadyCommand csx y clk = some (o, csy) →
                CommandQueue.qualifies csy (pre0 ++ p1) y p2 o = false) := by
        intro hq he
        simp only [Option.some.injEq, Prod.mk.injEq] at he
        obtain ⟨rfl, rfl⟩ := he
        constructor
        · intro _
          refine ⟨[], x, xs, cs, rfl, rfl, hg, by simpa using hq, ?_⟩
          intro p1 y p2 csx o csy hs
          simp at hs
        · intro hv
          simp only [CommandQueue.qualifies, hv, Bool.false_and] at hq
          exact absurd hq (by decide)
      by_cases hv : out.IsValid = true
      · simp only [hv, Bool.not_true, Bool.false_eq_true, if_false] at h
        by_cases hp : out.cmd_type = CommandType.PRECHARGE
        · have hw : out.IsWrite = false := by simp [Command.IsWrite, hp]
          rw [if_pos hp] at h
          by_cases ha : CommandQueue.ArbitratePrecharge cs2 pre0 x xs = true
          · simp only [ha, Bool.not_true, Bool.false_eq_true, if_false] at h
            exact take (by simp [CommandQueue.qualifies, hv, hp, ha, hw]) h
          · have ha2 : CommandQueue.ArbitratePrecharge cs2 pre0 x xs = false := by simpa using ha
            simp only [ha2, Bool.not_false, if_true] at h
            exact skip (by simp [CommandQueue.qualifies, hv, hp, ha2]) h
        · rw [if_neg hp] at h
          by_cases hw : out.IsWrite = true
          · simp only [hw, if_true] at h
            by_cases hd : CommandQueue.HasRWDependency pre0 x = true
            · simp only [hd, if_true] at h
              exact skip (by simp [CommandQueue.qualifies, hv, hp, hw, hd]) h
            · have hd2 : CommandQueue.HasRWDependency pre0 x = false := by simpa using hd
              simp only [hd2, Bool.false_eq_true, if_false] at h
              exact take (by simp [CommandQueue.qualifies, hv, hp, hw, hd2]) h
          · have hw2 : out.IsWrite = false := by simpa using hw
            simp only [hw2, Bool.false_eq_true, if_false] at h
            exact take (by simp [CommandQueue.qualifies, hv, hp, hw2]) h
      · have hv2 : out.IsValid = false := by simpa using hv
        simp only [hv2, Bool.not_false, if_true] at h
        exact skip (by simp [CommandQueue.qualifies, hv2]) h

theorem Command.IsValid_of_IsWrite (cmd : Command) (h : cmd.IsWrite = true) :
    cmd.IsValid = true := by
  rcases cmd with ⟨k, a, hx⟩
  cases k <;> simp [Command.IsWrite] at h <;> rfl

theorem Command.IsValid_of_PRECHARGE (cmd : Command)
    (h : cmd.cmd_type = CommandType.PRECHARGE) : cmd.IsValid = true := by
  simp [Command.IsValid, h]

theorem CommandQueue.ArbitratePrecharge_iff (cs : ChannelState) (pre : List Command)
    (e : Command) (post : List Command) :
    CommandQueue.ArbitratePrecharge cs pre e post = true ↔
      (∀ p ∈ pre, ¬ (p.Rank = e.Rank ∧ p.Bankgroup = e.Bankgroup ∧ p.Bank = e.Bank)) ∧
      ((∀ p ∈ e :: post, ¬ (p.Row = cs.OpenRow e.Rank e.Bankgroup e.Bank ∧
          p.Rank = e.Rank ∧ p.Bankgroup = e.Bankgroup ∧ p.Bank = e.Bank)) ∨
        4 ≤ cs.RowHitCount e.Rank e.Bankgroup e.Bank) := by
  unfold CommandQueue.ArbitratePrecharge
  by_cases h1 : (pre.any (fun p => p.Rank == e.Rank && p.Bankgroup == e.Bankgroup &&
      p.Bank == e.Bank)) = true
  · rw [if_pos h1]
    constructor
    · intro hf
      exact absurd hf (by decide)
    · rintro ⟨hall, _⟩
      rw [List.any_eq_true] at h1
      obtain ⟨p, hp, hpe⟩ := h1
      simp only [Bool.and_eq_true, beq_iff_eq] at hpe
      exact absurd ⟨hpe.1.1, hpe.1.2, hpe.2⟩ (hall p hp)
  · rw [if_neg h1]
    have hpre : ∀ p ∈ pre, ¬ (p.Rank = e.Rank ∧ p.Bankgroup = e.Bankgroup ∧
        p.Bank = e.Bank) := by
      intro p hp hpe
      apply h1
      rw [List.any_eq_true]
      exact ⟨p, hp, by simp [hpe.1, hpe.2.1, hpe.2.2]⟩
    rw [and_iff_right hpre]
    dsimp only
    by_cases h2 : ((e :: post).any (fun p => p.Row == cs.OpenRow e.Rank e.Bankgroup e.Bank &&
        p.Bank == e.Bank && p.Bankgroup == e.Bankgroup && p.Rank == e.Rank)) = true
    · rw [h2]
      have hex : ¬ ∀ p ∈ e :: post, ¬ (p.Row = cs.OpenRow e.Rank e.Bankgroup e.Bank ∧
          p.Rank = e.Rank ∧ p.Bankgroup = e.Bankgroup ∧ p.Bank = e.Bank) := by
        intro hall
        rw [List.any_eq_true] at h2
        obtain ⟨p, hp, hpe⟩ := h2
        simp only [Bool.and_eq_true, beq_iff_eq] at hpe
        exact hall p hp ⟨hpe.1.1.1, hpe.2, hpe.1.2, hpe.1.1.2⟩
      simp only [Bool.not_true, Bool.false_or, hex, false_or]
      by_cases h3 : 4 ≤ cs.RowHitCount e.Rank e.Bankgroup e.Bank <;> simp [h3]
    · have h2f : ((e :: post).any (fun p =>
          p.Row == cs.OpenRow e.Rank e.Bankgroup e.Bank &&
          p.Bank == e.Bank && p.Bankgroup == e.Bankgroup && p.Rank == e.Rank)) = false := by
        simpa using h2
      rw [h2f]
      have hall : ∀ p ∈ e :: post, ¬ (p.Row = cs.OpenRow e.Rank e.Bankgroup e.Bank ∧
          p.Rank = e.Rank ∧ p.Bankgroup = e.Bankgroup ∧ p.Bank = e.Bank) := by
        intro p hp hpe
        apply h2
        rw [List.any_eq_true]
        exact ⟨p, hp, by simp [hpe.1, hpe.2.1, hpe.2.2.1, hpe.2.2.2]⟩
      simp only [Bool.not_false, Bool.true_or, if_true, true_iff]
      exact Or.inl hall

theorem CommandQueue.HasRWDependency_iff (pre : List Command) (e : Command) :
    CommandQueue.HasRWDependency pre e = true ↔
      ∃ p ∈ pre, p.IsRead = true ∧ p.Row = e.Row ∧ p.Column = e.Column ∧
        p.Bank = e.Bank ∧ p.Bankgroup = e.Bankgroup := by
  unfold CommandQueue.HasRWDependency
  rw [List.any_eq_true]
  constructor
  · rintro ⟨p, hp, hpe⟩
    simp only [Bool.and_eq_true, beq_iff_eq] at hpe
    exact ⟨p, hp, hpe.1.1.1.1, hpe.1.1.1.2, hpe.1.1.2, hpe.1.2, hpe.2⟩
  · rintro ⟨p, hp, h1, h2, h3, h4, h5⟩
    exact ⟨p, hp, by simp [h1, h2, h3, h4, h5]⟩

/-- Claim C24: `ArbitratePrecharge` for the entry `e` of the queue
`pre ++ e :: post` returns true exactly when no entry before `e` targets the
rank, bank group and bank of `e`, and either no entry from `e` on targets that
bank with the row the bank has open or the row-hit count of the bank is at
least 4.  In particular, when `GetFirstReadyInQueue` returns a PRECHARGE, it
is the prerequisite of an entry with no earlier entry of the queue for the same
bank. -/
theorem CommandQueue.ArbitratePrecharge_grants_iff_first_and_no_pending_hit {ρ : Type}
    (env : Collaborators ρ) (cs : ChannelState) (pre : List Command) (e : Command)
    (post : List Command) :
    (CommandQueue.ArbitratePrecharge cs pre e post = true ↔
      (∀ p ∈ pre, ¬ (p.Rank = e.Rank ∧ p.Bankgroup = e.Bankgroup ∧ p.Bank = e.Bank)) ∧
      ((∀ p ∈ e :: post, ¬ (p.Row = cs.OpenRow e.Rank e.Bankgroup e.Bank ∧
          p.Rank = e.Rank ∧ p.Bankgroup = e.Bankgroup ∧ p.Bank = e.Bank)) ∨
        4 ≤ cs.RowHitCount e.Rank e.Bankgroup e.Bank)) ∧
    (∀ (cq : CommandQueue) (cs0 cs1 : ChannelState) (queue : List Command) (cmd : Command),
      cq.GetFirstReadyInQueue env cs0 queue = some (cmd, cs1) →
      cmd.cmd_type = CommandType.PRECHARGE →
      ∃ before x after csb, queue = before ++ x :: after ∧
        env.GetReadyCommand csb x cq.clk_ = some (cmd, cs1) ∧
        ∀ p ∈ before, ¬ (p.Rank = x.Rank ∧ p.Bankgroup = x.Bankgroup ∧ p.Bank = x.Bank)) := by
  refine ⟨CommandQueue.ArbitratePrecharge_iff cs pre e post, ?_⟩
  intro cq cs0 cs1 queue cmd h hp
  obtain ⟨mid, x, after, csb, e1, _, e3, e4, _⟩ :=
    (CommandQueue.firstReadyFrom_decomp env cq.clk_ queue [] cs0 cs1 cmd h).1
      (Command.IsValid_of_PRECHARGE cmd hp)
  refine ⟨mid, x, after, csb, e1, e3, ?_⟩
  simp only [CommandQueue.qualifies, hp, bne_self_eq_false, Bool.false_or, Bool.and_eq_true,
    List.nil_append] at e4
  exact ((CommandQueue.ArbitratePrecharge_iff cs1 mid x after).mp e4.1.2).1

/-- Witness for C24: with bank (0, 0, 0) of the sample controller open on row
8 and a queue holding only a READ of row 9 of that bank, the scan returns the
PRECHARGE of that entry, which no earlier entry precedes. -/
theorem CommandQueue.ArbitratePrecharge_grants_iff_first_and_no_pending_hit_witness :
    ∃ cmd cs1,
      sampleController.cmd_queue_.GetFirstReadyInQueue sampleCollaborators
        sampleController.channel_state_ [⟨CommandType.READ, ⟨0, 0, 0, 0, 9, 0⟩, 4608⟩] =
          some (cmd, cs1) ∧
      cmd.cmd_type = CommandType.PRECHARGE ∧
      ∃ before x after csb,
        [(⟨CommandType.READ, ⟨0, 0, 0, 0, 9, 0⟩, 4608⟩ : Command)] = before ++ x :: after ∧
        sampleCollaborators.GetReadyCommand csb x sampleController.cmd_queue_.clk_ =
          some (cmd, cs1) ∧
        ∀ p ∈ before, ¬ (p.Rank = x.Rank ∧ p.Bankgroup = x.Bankgroup ∧ p.Bank = x.Bank) := by
  have hs : ((sampleController.cmd_queue_.GetFirstReadyInQueue sampleCollaborators
      sampleController.channel_state_ [⟨CommandType.READ, ⟨0, 0, 0, 0, 9, 0⟩, 4608⟩]).map
        (fun r => r.1.cmd_type)) = some CommandType.PRECHARGE := by
    decide
  cases hg : sampleController.cmd_queue_.GetFirstReadyInQueue sampleCollaborators
      sampleController.channel_state_ [⟨CommandType.READ, ⟨0, 0, 0, 0, 9, 0⟩, 4608⟩] with
  | none => rw [hg] at hs; simp at hs
  | some r =>
    obtain ⟨cmd, cs1⟩ := r
    rw [hg] at hs
    simp only [Option.map_some', Option.some.injEq] at hs
    exact ⟨cmd, cs1, rfl, hs,
      (CommandQueue.ArbitratePrecharge_grants_iff_first_and_no_pending_hit sampleCollaborators
        sampleController.channel_state_ [] ⟨CommandType.READ, ⟨0, 0, 0, 0, 9, 0⟩, 4608⟩ []).2
        sampleController.cmd_queue_ _ cs1 _ cmd hg hs⟩

/-- Claim C25: `HasRWDependency` for the entry `e` with the entries `pre`
before it is true exactly when some entry of `pre` is of the READ family and
has the row, column, bank and bank group of `e`; and when
`GetFirstReadyInQueue` returns a command of the WRITE family, it is the
prerequisite of an entry that no such read precedes in the queue. -/
theorem CommandQueue.HasRWDependency_iff_earlier_read_of_same_column {ρ : Type}
    (env : Collaborators ρ) (pre : List Command) (e : Command) :
    (CommandQueue.HasRWDependency pre e = true ↔
      ∃ p ∈ pre, p.IsRead = true ∧ p.Row = e.Row ∧ p.Column = e.Column ∧
        p.Bank = e.Bank ∧ p.Bankgroup = e.Bankgroup) ∧
    (∀ (cq : CommandQueue) (cs0 cs1 : ChannelState) (queue : List Command) (cmd : Command),
      cq.GetFirstReadyInQueue env cs0 queue = some (cmd, cs1) →
      cmd.IsWrite = true →
      ∃ before x after csb, queue = before ++ x :: after ∧
        env.GetReadyCommand csb x cq.clk_ = some (cmd, cs1) ∧
        ¬ ∃ p ∈ before, p.IsRead = true ∧ p.Row = x.Row ∧ p.Column = x.Column ∧
          p.Bank = x.Bank ∧ p.Bankgroup = x.Bankgroup) := by
  refine ⟨CommandQueue.HasRWDependency_iff pre e, ?_⟩
  intro cq cs0 cs1 queue cmd h hw
  obtain ⟨mid, x, after, csb, e1, _, e3, e4, _⟩ :=
    (CommandQueue.firstReadyFrom_decomp env cq.clk_ queue [] cs0 cs1 cmd h).1
      (Command.IsValid_of_IsWrite cmd hw)
  refine ⟨mid, x, after, csb, e1, e3, ?_⟩
  simp only [CommandQueue.qualifies, hw, Bool.not_true, Bool.false_or, Bool.and_eq_true,
    List.nil_append, Bool.not_eq_true'] at e4
  intro hex
  have := (CommandQueue.HasRWDependency_iff mid x).mpr hex
  rw [e4.2] at this
  exact absurd this (by decide)

/-- Witness for C25: with bank (0, 0, 0) of the sample controller open on row
8 and a queue holding only a WRITE to row 8 of that bank, the scan returns the
WRITE, which no read of the same column precedes. -/
theorem CommandQueue.HasRWDependency_iff_earlier_read_of_same_column_witness :
    ∃ cmd cs1,
      sampleController.cmd_queue_.GetFirstReadyInQueue sampleCollaborators
        sampleController.channel_state_ [⟨CommandType.WRITE, ⟨0, 0, 0, 0, 8, 0⟩, 4096⟩] =
          some (cmd, cs1) ∧
      cmd.IsWrite = true ∧
      ∃ before x after csb,
        [(⟨CommandType.WRITE, ⟨0, 0, 0, 0, 8, 0⟩, 4096⟩ : Command)] = before ++ x :: after ∧
        sampleCollaborators.GetReadyCommand csb x sampleController.cmd_queue_.clk_ =
          some (cmd, cs1) ∧
        ¬ ∃ p ∈ before, p.IsRead = true ∧ p.Row = x.Row ∧ p.Column = x.Column ∧
          p.Bank = x.Bank ∧ p.Bankgroup = x.Bankgroup := by
  have hs : ((sampleController.cmd_queue_.GetFirstReadyInQueue sampleCollaborators
      sampleController.channel_state_ [⟨CommandType.WRITE, ⟨0, 0, 0, 0, 8, 0⟩, 4096⟩]).map
        (fun r => r.1.IsWrite)) = some true := by
    decide
  cases hg : sampleController.cmd_queue_.GetFirstReadyInQueue sampleCollaborators
      sampleController.channel_state_ [⟨CommandType.WRITE, ⟨0, 0, 0, 0, 8, 0⟩, 4096⟩] with
  | none => rw [hg] at hs; simp at hs
  | some r =>
    obtain ⟨cmd, cs1⟩ := r
    rw [hg] at hs
    simp only [Option.map_some', Option.some.injEq] at hs
    exact ⟨cmd, cs1, rfl, hs,
      (CommandQueue.HasRWDependency_iff_earlier_read_of_same_column sampleCollaborators
        [] ⟨CommandType.WRITE, ⟨0, 0, 0, 0, 8, 0⟩, 4096⟩).2
        sampleController.cmd_queue_ _ cs1 _ cmd hg hs⟩

/-- Claim C26: when `GetFirstReadyInQueue` returns, its result is valid
exactly when some entry of the queue qualifies (its prerequisite reported by
`ChannelState::GetReadyCommand` is valid, passes the precharge arbitration if
it is a PRECHARGE and has no read-write dependency if it is a write); a valid
result is the prerequisite of the first qualifying entry in queue order, the
entries before it having been asked in order and none of them qualifying; an
invalid result is `Command()` and then no entry qualifies.  The queue is only
read. -/
theorem CommandQueue.GetFirstReadyInQueue_returns_first_qualifying {ρ : Type}
    (env : Collaborators ρ) (cq : CommandQueue) (cs cs1 : ChannelState)
    (queue : List Command) (cmd : Command)
    (h : cq.GetFirstReadyInQueue env cs queue = some (cmd, cs1)) :
    (cmd.IsValid = true →
      ∃ pre e post csb, queue = pre ++ e :: post ∧
        CommandQueue.askAll env cq.clk_ pre cs = some csb ∧
        env.GetReadyCommand csb e cq.clk_ = some (cmd, cs1) ∧
        CommandQueue.qualifies cs1 pre e post cmd = true ∧
        ∀ p1 x p2 csx out csy, pre = p1 ++ x :: p2 →
          CommandQueue.askAll env cq.clk_ p1 cs = some csx →
          env.GetReadyCommand csx x cq.clk_ = some (out, csy) →
          CommandQueue.qualifies csy p1 x (p2 ++ e :: post) out = false) ∧
    (cmd.IsValid = false →
      cmd = Command.invalid ∧ CommandQueue.askAll env cq.clk_ queue cs = some cs1 ∧
        ∀ p1 x p2 csx out csy, queue = p1 ++ x :: p2 →
          CommandQueue.askAll env cq.clk_ p1 cs = some csx →
          env.GetReadyCommand csx x cq.clk_ = some (out, csy) →
          CommandQueue.qualifies csy p1 x p2 out = false) := by
  have hd := CommandQueue.firstReadyFrom_decomp env cq.clk_ queue [] cs cs1 cmd h
  simpa using hd

/-- Witness for C26: with bank (0, 0, 0) of the sample controller open on row
8 and a queue holding a READ of row 9 followed by a READ of row 8 of that bank,
the PRECHARGE for the first entry is refused by the arbitration (a row hit is
pending) and the scan returns the READ of the second entry. -/
theorem CommandQueue.GetFirstReadyInQueue_returns_first_qualifying_witness :
    ∃ cmd cs1,
      sampleController.cmd_queue_.GetFirstReadyInQueue sampleCollaborators
        sampleController.channel_state_
        [⟨CommandType.READ, ⟨0, 0, 0, 0, 9, 0⟩, 4608⟩,
          ⟨CommandType.READ, ⟨0, 0, 0, 0, 8, 0⟩, 4096⟩] = some (cmd, cs1) ∧
      cmd = ⟨CommandType.READ, ⟨0, 0, 0, 0, 8, 0⟩, 4096⟩ ∧
      ∃ pre e post csb,
        [(⟨CommandType.READ, ⟨0, 0, 0, 0, 9, 0⟩, 4608⟩ : Command),
          ⟨CommandType.READ, ⟨0, 0, 0, 0, 8, 0⟩, 4096⟩] = pre ++ e :: post ∧
        CommandQueue.askAll sampleCollaborators sampleController.cmd_queue_.clk_ pre
          sampleController.channel_state_ = some csb ∧
        sampleCollaborators.GetReadyCommand csb e sampleController.cmd_queue_.clk_ =
          some (cmd, cs1) ∧
        CommandQueue.qualifies cs1 pre e post cmd = true ∧
        ∀ p1 x p2 csx out csy, pre = p1 ++ x :: p2 →
          CommandQueue.askAll sampleCollaborators sampleController.cmd_queue_.clk_ p1
            sampleController.channel_state_ = some csx →
          sampleCollaborators.GetReadyCommand csx x sampleController.cmd_queue_.clk_ =
            some (out, csy) →
          CommandQueue.qualifies csy p1 x (p2 ++ e :: post) out = false := by
  have hs : ((sampleController.cmd_queue_.GetFirstReadyInQueue sampleCollaborators
      sampleController.channel_state_
      [⟨CommandType.READ, ⟨0, 0, 0, 0, 9, 0⟩, 4608⟩,
        ⟨CommandType.READ, ⟨0, 0, 0, 0, 8, 0⟩, 4096⟩]).map (fun r => r.1)) =
      some ⟨CommandType.READ, ⟨0, 0, 0, 0, 8, 0⟩, 4096⟩ := by
    decide
  cases hg : sampleController.cmd_queue_.GetFirstReadyInQueue sampleCollaborators
      sampleController.channel_state_
      [⟨CommandType.READ, ⟨0, 0, 0, 0, 9, 0⟩, 4608⟩,
        ⟨CommandType.READ, ⟨0, 0, 0, 0, 8, 0⟩, 4096⟩] with
  | none => rw [hg] at hs; simp at hs
  | some r =>
    obtain ⟨cmd, cs1⟩ := r
    rw [hg] at hs
    simp only [Option.map_some', Option.some.injEq] at hs
    exact ⟨cmd, cs1, rfl, hs,
      (CommandQueue.GetFirstReadyInQueue_returns_first_qualifying sampleCollaborators
        sampleController.cmd_queue_ _ cs1 _ cmd hg).1 (by rw [hs]; decide)⟩


/-! ## Theorems: the round-robin over the command queues -/

theorem CommandQueue.GetNextQueue_idx (cq : CommandQueue)
    (h : 0 ≤ cq.queue_idx_ ∧ cq.queue_idx_ < cq.num_queues_) :
    cq.GetNextQueue = { cq with queue_idx_ := (cq.queue_idx_ + 1) % cq.num_queues_ } := by
  unfold CommandQueue.GetNextQueue
  dsimp only
  by_cases he : cq.queue_idx_ + 1 = cq.num_queues_
  · rw [if_pos he, he, Int.emod_self]
  · rw [if_neg he, Int.emod_eq_of_lt (by omega) (by omega)]

theorem CommandQueue.firstReadyAmong_congr {ρ : Type} (env : Collaborators ρ)
    (cq : CommandQueue) (j : Int) (l : List Int) : ∀ cs : ChannelState,
      CommandQueue.firstReadyAmong env { cq with queue_idx_ := j } l cs =
        CommandQueue.firstReadyAmong env cq l cs := by
  induction l with
  | nil => intro cs; rfl
  | cons i rest ih =>
    intro cs
    unfold CommandQueue.firstReadyAmong
    dsimp only
    split
    · exact ih cs
    · show (match CommandQueue.GetFirstReadyInQueue env cq cs (cq.queues_.getD i.toNat []) with
        | none => none
        | some (cmd, cs1) =>
          if cmd.IsValid = true then some (some (i, cmd), cs1)
          else CommandQueue.firstReadyAmong env { cq with queue_idx_ := j } rest cs1) = _
      split
      · rfl
      · split
        · rfl
        · exact ih _

theorem CommandQueue.cyclicOrder_succ (i n : Int) (m : Nat) :
    CommandQueue.cyclicOrder i n (m + 1) =
      (i + 1) % n :: CommandQueue.cyclicOrder ((i + 1) % n) n m := by
  unfold CommandQueue.cyclicOrder
  rw [List.range_succ_eq_map, List.map_cons, List.map_map]
  congr 1
  · simp
  · apply List.map_congr_left
    intro k _
    simp only [Function.comp, Nat.succ_eq_add_one, Nat.cast_add, Nat.cast_one]
    rw [Int.add_assoc ((i + 1) % n), Int.emod_add_emod]
    congr 1
    ring

theorem CommandQueue.roundRobin_shift {ρ : Type} (env : Collaborators ρ) (config : Config)
    (m : Nat) (cq : CommandQueue) (cs : ChannelState) :
    CommandQueue.roundRobin env config m
        { cq with queue_idx_ := (cq.queue_idx_ + 1) % cq.num_queues_ } cs =
      match CommandQueue.firstReadyAmong env cq
          (CommandQueue.cyclicOrder ((cq.queue_idx_ + 1) % cq.num_queues_) cq.num_queues_ m)
          cs with
      | none => none
      | some (none, cs1) =>
        some (Command.invalid,
          { cq with queue_idx_ := (cq.queue_idx_ + ((m + 1 : Nat) : Int)) % cq.num_queues_ },
          cs1)
      | some (some (i, cmd), cs1) =>
        if cmd.IsReadWrite then
          match CommandQueue.EraseRWCommand { cq with queue_idx_ := i } config cmd with
          | none => none
          | some cq2 => some (cmd, cq2, cs1)
        else some (cmd, { cq with queue_idx_ := i }, cs1) := by
  unfold CommandQueue.roundRobin
  dsimp only
  rw [CommandQueue.firstReadyAmong_congr]
  have e : ((cq.queue_idx_ + 1) % cq.num_queues_ + (m : Int)) % cq.num_queues_ =
      (cq.queue_idx_ + ((m + 1 : Nat) : Int)) % cq.num_queues_ := by
    rw [Int.emod_add_emod]
    congr 1
    push_cast
    ring
  rw [e]

theorem CommandQueue.firstReadyAmong_cons {ρ : Type} (env : Collaborators ρ)
    (cq : CommandQueue) (i : Int) (rest : List Int) (cs : ChannelState) :
    CommandQueue.firstReadyAmong env cq (i :: rest) cs =
      if cq.is_in_ref_ && cq.ref_q_indices_.contains i then
        CommandQueue.firstReadyAmong env cq rest cs
      else
        match CommandQueue.GetFirstReadyInQueue env cq cs (cq.queues_.getD i.toNat []) with
        | none => none
        | some (cmd, cs1) =>
          if cmd.IsValid then some (some (i, cmd), cs1)
          else CommandQueue.firstReadyAmong env cq rest cs1 := by
  rw [CommandQueue.firstReadyAmong]

theorem CommandQueue.roundRobin_step {ρ : Type} (env : Collaborators ρ) (config : Config)
    (m : Nat) (cq : CommandQueue) (cs : ChannelState) :
    CommandQueue.roundRobin env config (m + 1) cq cs =
      if cq.is_in_ref_ && cq.ref_q_indices_.contains ((cq.queue_idx_ + 1) % cq.num_queues_) then
        CommandQueue.roundRobin env config m
          { cq with queue_idx_ := (cq.queue_idx_ + 1) % cq.num_queues_ } cs
      else
        match CommandQueue.GetFirstReadyInQueue env cq cs
            (cq.queues_.getD ((cq.queue_idx_ + 1) % cq.num_queues_).toNat []) with
        | none => none
        | some (cmd, cs1) =>
          if cmd.IsValid then
            if cmd.IsReadWrite then
              match CommandQueue.EraseRWCommand
                  { cq with queue_idx_ := (cq.queue_idx_ + 1) % cq.num_queues_ } config cmd with
              | none => none
              | some cq2 => some (cmd, cq2, cs1)
            else some (cmd, { cq with queue_idx_ := (cq.queue_idx_ + 1) % cq.num_queues_ }, cs1)
          else
            CommandQueue.roundRobin env config m
              { cq with queue_idx_ := (cq.queue_idx_ + 1) % cq.num_queues_ } cs1 := by
  simp only [CommandQueue.roundRobin_shift]
  rw [CommandQueue.roundRobin, CommandQueue.cyclicOrder_succ, CommandQueue.firstReadyAmong_cons]
  by_cases hm : (cq.is_in_ref_ &&
      cq.ref_q_indices_.contains ((cq.queue_idx_ + 1) % cq.num_queues_)) = true
  · rw [if_pos hm, if_pos hm]
  · rw [if_neg hm, if_neg hm]
    cases hg : CommandQueue.GetFirstReadyInQueue env cq cs
        (cq.queues_.getD ((cq.queue_idx_ + 1) % cq.num_queues_).toNat []) with
    | none => rfl
    | some r =>
      obtain ⟨cmd, cs1⟩ := r
      dsimp only
      by_cases hv : cmd.IsValid = true
      · rw [if_pos hv, if_pos hv]
      · rw [if_neg hv, if_neg hv]

theorem CommandQueue.issueLoop_eq_roundRobin {ρ : Type} (env : Collaborators ρ)
    (config : Config) (m : Nat) : ∀ (cq : CommandQueue) (cs : ChannelState),
      0 ≤ cq.queue_idx_ ∧ cq.queue_idx_ < cq.num_queues_ →
      CommandQueue.issueLoop env config m cq cs = CommandQueue.roundRobin env config m cq cs := by
  induction m with
  | zero =>
    intro cq cs h
    unfold CommandQueue.issueLoop CommandQueue.roundRobin
    simp only [CommandQueue.cyclicOrder, List.range_zero, List.map_nil,
      CommandQueue.firstReadyAmong, Nat.cast_zero, Int.add_zero,
      Int.emod_eq_of_lt h.1 h.2]
  | succ m ih =>
    intro cq cs h
    have hn : 0 < cq.num_queues_ := by omega
    have hr : 0 ≤ (cq.queue_idx_ + 1) % cq.num_queues_ ∧
        (cq.queue_idx_ + 1) % cq.num_queues_ < cq.num_queues_ :=
      ⟨Int.emod_nonneg _ (by omega), Int.emod_lt_of_pos _ hn⟩
    rw [CommandQueue.roundRobin_step, CommandQueue.issueLoop,
      CommandQueue.GetNextQueue_idx cq h]
    dsimp only
    by_cases hm : (cq.is_in_ref_ &&
        cq.ref_q_indices_.contains ((cq.queue_idx_ + 1) % cq.num_queues_)) = true
    · rw [if_pos hm, if_pos hm]
      exact ih _ cs hr
    · rw [if_neg hm, if_neg hm]
      show (match CommandQueue.GetFirstReadyInQueue env cq cs
          (cq.queues_.getD ((cq.queue_idx_ + 1) % cq.num_queues_).toNat []) with
        | none => none
        | some (cmd, cs1) =>
          if cmd.IsValid = true then
            if cmd.IsReadWrite = true then
              match CommandQueue.EraseRWCommand
                  { cq with queue_idx_ := (cq.queue_idx_ + 1) % cq.num_queues_ } config cmd with
              | none => none
              | some cq2 => some (cmd, cq2, cs1)
            else some (cmd, { cq with queue_idx_ := (cq.queue_idx_ + 1) % cq.num_queues_ }, cs1)
          else
            CommandQueue.issueLoop env config m
              { cq with queue_idx_ := (cq.queue_idx_ + 1) % cq.num_queues_ } cs1) = _
      cases hg : CommandQueue.GetFirstReadyInQueue env cq cs
          (cq.queues_.getD ((cq.queue_idx_ + 1) % cq.num_queues_).toNat []) with
      | none => rfl
      | some r =>
        obtain ⟨cmd, cs1⟩ := r
        dsimp only
        by_cases hv : cmd.IsValid = true
        · rw [if_pos hv, if_pos hv]
        · rw [if_neg hv, if_neg hv]
          exact ih _ cs1 hr

theorem CommandQueue.cyclicOrder_mem (i n : Int) (m : Nat) (hn : 0 < n) :
    ∀ j ∈ CommandQueue.cyclicOrder i n m, 0 ≤ j ∧ j < n := by
  intro j hj
  unfold CommandQueue.cyclicOrder at hj
  obtain ⟨k, _, rfl⟩ := List.mem_map.mp hj
  exact ⟨Int.emod_nonneg _ (by omega), Int.emod_lt_of_pos _ hn⟩

theorem CommandQueue.firstReadyAmong_mem {ρ : Type} (env : Collaborators ρ)
    (cq : CommandQueue) (l : List Int) : ∀ (cs cs1 : ChannelState) (i : Int) (cmd : Command),
      CommandQueue.firstReadyAmong env cq l cs = some (some (i, cmd), cs1) →
      i ∈ l ∧ cmd.IsValid = true := by
  induction l with
  | nil =>
    intro cs cs1 i cmd h
    simp [CommandQueue.firstReadyAmong] at h
  | cons x rest ih =>
    intro cs cs1 i cmd h
    rw [CommandQueue.firstReadyAmong_cons] at h
    split at h
    · obtain ⟨h1, h2⟩ := ih _ _ _ _ h
      exact ⟨List.mem_cons_of_mem _ h1, h2⟩
    · split at h
      · simp at h
      · split at h
        · rename_i hv
          simp only [Option.some.injEq, Prod.mk.injEq] at h
          obtain ⟨⟨rfl, rfl⟩, _⟩ := h
          exact ⟨List.mem_cons_self _ _, hv⟩
        · obtain ⟨h1, h2⟩ := ih _ _ _ _ h
          exact ⟨List.mem_cons_of_mem _ h1, h2⟩

theorem CommandQueue.EraseRWCommand_cursor (cq cq1 : CommandQueue) (config : Config)
    (cmd : Command) (h : cq.EraseRWCommand config cmd = some cq1) :
    cq1.queue_idx_ = cq.queue_idx_ ∧ cq1.num_queues_ = cq.num_queues_ := by
  unfold CommandQueue.EraseRWCommand at h
  dsimp only at h
  split at h
  · simp only [Option.some.injEq] at h
    subst h
    exact ⟨rfl, rfl⟩
  · simp at h

theorem CommandQueue.roundRobin_cursor {ρ : Type} (env : Collaborators ρ) (config : Config)
    (cq cq1 : CommandQueue) (cs cs1 : ChannelState) (cmd : Command)
    (hr : 0 ≤ cq.queue_idx_ ∧ cq.queue_idx_ < cq.num_queues_)
    (h : CommandQueue.roundRobin env config cq.num_queues_.toNat cq cs = some (cmd, cq1, cs1)) :
    cq1.num_queues_ = cq.num_queues_ ∧
      0 ≤ cq1.queue_idx_ ∧ cq1.queue_idx_ < cq.num_queues_ ∧
      (cmd.IsValid = false → cq1.queue_idx_ = cq.queue_idx_) := by
  have hn : 0 < cq.num_queues_ := by omega
  unfold CommandQueue.roundRobin at h
  split at h
  · simp at h
  · simp only [Option.some.injEq, Prod.mk.injEq] at h
    obtain ⟨_, rfl, _⟩ := h
    have e : (cq.queue_idx_ + (cq.num_queues_.toNat : Int)) % cq.num_queues_ = cq.queue_idx_ := by
      rw [Int.toNat_of_nonneg (by omega), Int.add_emod_self, Int.emod_eq_of_lt hr.1 hr.2]
    dsimp only
    rw [e]
    exact ⟨rfl, hr.1, hr.2, fun _ => rfl⟩
  · rename_i i cmd0 cs0 hf
    obtain ⟨hmem, hv⟩ := CommandQueue.firstReadyAmong_mem env cq _ _ _ _ _ hf
    obtain ⟨hi0, hi1⟩ := CommandQueue.cyclicOrder_mem _ _ _ hn i hmem
    split at h
    · split at h
      · simp at h
      · rename_i cq2 he
        simp only [Option.some.injEq, Prod.mk.injEq] at h
        obtain ⟨rfl, rfl, _⟩ := h
        obtain ⟨e1, e2⟩ := CommandQueue.EraseRWCommand_cursor _ _ config _ he
        dsimp only at e1 e2
        rw [e1, e2]
        refine ⟨rfl, hi0, hi1, ?_⟩
        intro hf2
        rw [hv] at hf2
        exact absurd hf2 (by decide)
    · simp only [Option.some.injEq, Prod.mk.injEq] at h
      obtain ⟨rfl, rfl, _⟩ := h
      refine ⟨rfl, hi0, hi1, ?_⟩
      intro hf2
      rw [hv] at hf2
      exact absurd hf2 (by decide)

theorem CommandQueue.roundRobin_found {ρ : Type} (env : Collaborators ρ) (config : Config)
    (m : Nat) (cq cq1 : CommandQueue) (cs cs1 : ChannelState) (cmd : Command)
    (h : CommandQueue.roundRobin env config m cq cs = some (cmd, cq1, cs1))
    (hv : cmd.IsValid = true) :
    CommandQueue.firstReadyAmong env cq (CommandQueue.cyclicOrder cq.queue_idx_ cq.num_queues_ m)
      cs = some (some (cq1.queue_idx_, cmd), cs1) := by
  unfold CommandQueue.roundRobin at h
  split at h
  · simp at h
  · simp only [Option.some.injEq, Prod.mk.injEq] at h
    obtain ⟨rfl, _, _⟩ := h
    exact absurd hv (by decide)
  · rename_i i cmd0 cs0 hf
    split at h
    · split at h
      · simp at h
      · rename_i cq2 he
        simp only [Option.some.injEq, Prod.mk.injEq] at h
        obtain ⟨rfl, rfl, rfl⟩ := h
        rw [(CommandQueue.EraseRWCommand_cursor _ _ config _ he).1]
        exact hf
    · simp only [Option.some.injEq, Prod.mk.injEq] at h
      obtain ⟨rfl, rfl, rfl⟩ := h
      exact hf

theorem CommandQueue.AddCommand_cursor (cq : CommandQueue) (config : Config) (cmd : Command) :
    (cq.AddCommand config cmd).2.queue_idx_ = cq.queue_idx_ ∧
      (cq.AddCommand config cmd).2.num_queues_ = cq.num_queues_ := by
  unfold CommandQueue.AddCommand
  dsimp only
  split <;> exact ⟨rfl, rfl⟩

theorem CommandQueue.Reachable_cursor {ρ : Type} (env : Collaborators ρ) (config : Config)
    (cq : CommandQueue) (h : CommandQueue.Reachable env config cq) :
    0 < cq.num_queues_ → 0 ≤ cq.queue_idx_ ∧ cq.queue_idx_ < cq.num_queues_ := by
  induction h with
  | init cq hi =>
    intro hn
    have h0 : cq.queue_idx_ = 0 := by
      unfold CommandQueue.init at hi
      split at hi
      · simp only [Option.some.injEq] at hi
        subst hi
        rfl
      · split at hi
        · simp only [Option.some.injEq] at hi
          subst hi
          rfl
        · simp at hi
    rw [h0]
    exact ⟨le_refl _, hn⟩
  | addCommand cq cmd _ ih =>
    intro hn
    obtain ⟨e1, e2⟩ := CommandQueue.AddCommand_cursor cq config cmd
    rw [e2] at hn
    rw [e1, e2]
    exact ih hn
  | getCommandToIssue cq cq1 cs cs1 cmd _ hg ih =>
    intro hn
    have hnum : cq1.num_queues_ = cq.num_queues_ := by
      obtain ⟨cqm, e, hh⟩ := CommandQueue.GetCommandToIssue_shape env config cq cq1 cs cs1 cmd hg
      have em : cqm.num_queues_ = cq.num_queues_ := by rw [e]
      rcases hh with ⟨_, he⟩ | ⟨_, rfl⟩
      · rw [(CommandQueue.EraseRWCommand_cursor _ _ config _ he).2, em]
      · exact em
    rw [hnum] at hn ⊢
    have hr := ih hn
    unfold CommandQueue.GetCommandToIssue at hg
    rw [CommandQueue.issueLoop_eq_roundRobin env config _ cq cs hr] at hg
    obtain ⟨_, r1, r2, _⟩ := CommandQueue.roundRobin_cursor env config cq cq1 cs cs1 cmd hr hg
    exact ⟨r1, r2⟩
  | finishRefresh cq cq1 cs cs1 cmd _ hf ih =>
    intro hn
    have e := CommandQueue.FinishRefresh_shape env config cq cq1 cs cs1 cmd hf
    have e1 : cq1.queue_idx_ = cq.queue_idx_ := by rw [e]
    have e2 : cq1.num_queues_ = cq.num_queues_ := by rw [e]
    rw [e2] at hn
    rw [e1, e2]
    exact ih hn
  | clockTick cq _ ih =>
    intro hn
    exact ih hn

/-- Claim C27: for a command queue whose cursor `queue_idx_` is in
`[0, num_queues_)`, `GetCommandToIssue` is the round-robin of the
specification: it examines the queues in the cyclic order that starts at
`(queue_idx_ + 1) mod num_queues_`, skips the queues masked by a refresh and
returns the command of the first queue that yields a valid one, leaving
`queue_idx_` at the index of that queue; when no queue yields a command
`queue_idx_` ends with the value it had on entry; the cursor is in
`[0, num_queues_)` afterwards, and it is so in every reachable state of a
command queue that has at least one queue. -/
theorem CommandQueue.GetCommandToIssue_is_round_robin {ρ : Type} (env : Collaborators ρ)
    (config : Config) (cq : CommandQueue) (cs : ChannelState)
    (hr : 0 ≤ cq.queue_idx_ ∧ cq.queue_idx_ < cq.num_queues_) :
    cq.GetCommandToIssue env config cs =
        CommandQueue.roundRobin env config cq.num_queues_.toNat cq cs ∧
    (∀ cmd cq1 cs1, cq.GetCommandToIssue env config cs = some (cmd, cq1, cs1) →
      0 ≤ cq1.queue_idx_ ∧ cq1.queue_idx_ < cq1.num_queues_ ∧
      (cmd.IsValid = true →
        CommandQueue.firstReadyAmong env cq
          (CommandQueue.cyclicOrder cq.queue_idx_ cq.num_queues_ cq.num_queues_.toNat) cs =
            some (some (cq1.queue_idx_, cmd), cs1)) ∧
      (cmd.IsValid = false → cq1.queue_idx_ = cq.queue_idx_)) ∧
    (∀ cqr, CommandQueue.Reachable env config cqr → 0 < cqr.num_queues_ →
      0 ≤ cqr.queue_idx_ ∧ cqr.queue_idx_ < cqr.num_queues_) := by
  have he : cq.GetCommandToIssue env config cs =
      CommandQueue.roundRobin env config cq.num_queues_.toNat cq cs :=
    CommandQueue.issueLoop_eq_roundRobin env config _ cq cs hr
  refine ⟨he, ?_, fun cqr h => CommandQueue.Reachable_cursor env config cqr h⟩
  intro cmd cq1 cs1 hg
  rw [he] at hg
  obtain ⟨r0, r1, r2, r3⟩ := CommandQueue.roundRobin_cursor env config cq cq1 cs cs1 cmd hr hg
  rw [r0]
  exact ⟨r1, r2, CommandQueue.roundRobin_found env config _ cq cq1 cs cs1 cmd hg, r3⟩

/-! ## Theorems: the refresh mask -/

theorem CommandQueue.mem_insertRefIndex (s : List Int) (i j : Int) :
    j ∈ CommandQueue.insertRefIndex s i ↔ j = i ∨ j ∈ s := by
  unfold CommandQueue.insertRefIndex
  split
  · rename_i h
    constructor
    · intro hj; exact Or.inr hj
    · rintro (rfl | hj)
      · exact h
      · exact hj
  · simp

theorem CommandQueue.mem_foldl_insertRefIndex (p : Nat → Prop) [DecidablePred p]
    (l : List Nat) : ∀ (s : List Int) (j : Int),
      j ∈ l.foldl (fun s i => if p i then CommandQueue.insertRefIndex s (Int.ofNat i) else s) s ↔
        j ∈ s ∨ ∃ k ∈ l, p k ∧ j = Int.ofNat k := by
  induction l with
  | nil => intro s j; simp
  | cons x xs ih =>
    intro s j
    rw [List.foldl_cons, ih]
    by_cases hx : p x
    · rw [if_pos hx, CommandQueue.mem_insertRefIndex]
      constructor
      · rintro ((rfl | h) | ⟨k, hk, hp, rfl⟩)
        · exact Or.inr ⟨x, List.mem_cons_self _ _, hx, rfl⟩
        · exact Or.inl h
        · exact Or.inr ⟨k, List.mem_cons_of_mem _ hk, hp, rfl⟩
      · rintro (h | ⟨k, hk, hp, rfl⟩)
        · exact Or.inl (Or.inr h)
        · rcases List.mem_cons.mp hk with rfl | hk
          · exact Or.inl (Or.inl rfl)
          · exact Or.inr ⟨k, hk, hp, rfl⟩
    · rw [if_neg hx]
      constructor
      · rintro (h | ⟨k, hk, hp, rfl⟩)
        · exact Or.inl h
        · exact Or.inr ⟨k, List.mem_cons_of_mem _ hk, hp, rfl⟩
      · rintro (h | ⟨k, hk, hp, rfl⟩)
        · exact Or.inl h
        · rcases List.mem_cons.mp hk with rfl | hk
          · exact absurd hp hx
          · exact Or.inr ⟨k, hk, hp, rfl⟩

theorem CommandQueue.mem_GetRefQIndices (cq : CommandQueue) (config : Config) (ref : Command)
    (hempty : cq.ref_q_indices_ = []) (j : Int) :
    j ∈ (cq.GetRefQIndices config ref).ref_q_indices_ ↔
      if ref.cmd_type = CommandType.REFRESH then
        if cq.queue_structure_ = QueueStructure.PER_BANK then
          ∃ k : Nat, k < cq.num_queues_.toNat ∧ Int.ofNat (k / config.banks) = ref.Rank ∧
            j = Int.ofNat k
        else j = ref.Rank
      else j = cq.GetQueueIndex config ref.Rank ref.Bankgroup ref.Bank := by
  unfold CommandQueue.GetRefQIndices
  split
  · split
    · dsimp only
      rw [CommandQueue.mem_foldl_insertRefIndex
        (fun i => Int.ofNat (i / config.banks) = ref.Rank), hempty]
      simp only [List.not_mem_nil, false_or, List.mem_range]
    · dsimp only
      rw [CommandQueue.mem_insertRefIndex, hempty]
      simp
  · dsimp only
    rw [CommandQueue.mem_insertRefIndex, hempty]
    simp

theorem rank_queues_nat (banks bankgroups bpg ranks r k : Nat)
    (hb : banks = bankgroups * bpg) (hg : 0 < bankgroups) (hp : 0 < bpg) (hr : r < ranks) :
    (k < banks * ranks ∧ k / banks = r) ↔
      ∃ g b, g < bankgroups ∧ b < bpg ∧ k = r * banks + g * bpg + b := by
  have hbanks : 0 < banks := by rw [hb]; exact Nat.mul_pos hg hp
  constructor
  · rintro ⟨_, hk⟩
    refine ⟨k % banks / bpg, k % banks % bpg, ?_, Nat.mod_lt _ hp, ?_⟩
    · rw [Nat.div_lt_iff_lt_mul hp, ← hb]
      exact Nat.mod_lt _ hbanks
    · have h1 := Nat.div_add_mod k banks
      have h2 := Nat.div_add_mod (k % banks) bpg
      rw [hk] at h1
      rw [Nat.mul_comm] at h1 h2
      omega
  · rintro ⟨g, b, hg1, hb1, rfl⟩
    have h1 : g * bpg + b < banks := by
      rw [hb]
      calc g * bpg + b < g * bpg + bpg := by omega
        _ = (g + 1) * bpg := by ring
        _ ≤ bankgroups * bpg := Nat.mul_le_mul_right bpg hg1
    constructor
    · calc r * banks + g * bpg + b < r * banks + banks := by omega
        _ = banks * (r + 1) := by ring
        _ ≤ banks * ranks := Nat.mul_le_mul_left banks hr
    · rw [Nat.add_assoc, Nat.add_comm, Nat.add_mul_div_right _ _ hbanks,
        Nat.div_eq_of_lt h1, Nat.zero_add]

theorem CommandQueue.covers_iff (cq : CommandQueue) (config : Config) (ref : Command)
    (hst : (cq.queue_structure_ = QueueStructure.PER_BANK ∧
        cq.num_queues_ = (config.banks : Int) * (config.ranks : Int)) ∨
      (cq.queue_structure_ = QueueStructure.PER_RANK ∧ cq.num_queues_ = (config.ranks : Int)))
    (hb : config.banks = config.bankgroups * config.banks_per_group)
    (hg : 0 < config.bankgroups) (hp : 0 < config.banks_per_group)
    (hr : 0 ≤ ref.Rank ∧ ref.Rank < config.ranks) (j : Int) :
    (if ref.cmd_type = CommandType.REFRESH then
        if cq.queue_structure_ = QueueStructure.PER_BANK then
          ∃ k : Nat, k < cq.num_queues_.toNat ∧ Int.ofNat (k / config.banks) = ref.Rank ∧
            j = Int.ofNat k
        else j = ref.Rank
      else j = cq.GetQueueIndex config ref.Rank ref.Bankgroup ref.Bank) ↔
      cq.covers config ref j := by
  unfold CommandQueue.covers
  by_cases hk : ref.cmd_type = CommandType.REFRESH
  · rw [if_pos hk, if_pos hk]
    obtain ⟨hr0, hr1⟩ := hr
    generalize ref.Rank = rank at hr0 hr1 ⊢
    lift rank to ℕ using hr0
    have hr1n : rank < config.ranks := by exact_mod_cast hr1
    rcases hst with ⟨hs, hn⟩ | ⟨hs, hn⟩
    · rw [if_pos hs]
      have hf : ∀ x y z : Int, cq.GetQueueIndex config x y z =
          x * config.banks + y * config.banks_per_group + z := by
        intro x y z
        simp [CommandQueue.GetQueueIndex, hs]
      have hnn : cq.num_queues_.toNat = config.banks * config.ranks := by
        rw [hn]
        exact_mod_cast Int.toNat_natCast (config.banks * config.ranks)
      rw [hnn]
      constructor
      · rintro ⟨k, hk1, hk2, rfl⟩
        have hk3 : k / config.banks = rank := by
          rw [Int.ofNat_eq_coe] at hk2
          exact_mod_cast hk2
        obtain ⟨g, b, h1, h2, h3⟩ := (rank_queues_nat config.banks config.bankgroups
          config.banks_per_group config.ranks rank k hb hg hp hr1n).mp ⟨hk1, hk3⟩
        refine ⟨(g : Int), (b : Int), by positivity, by exact_mod_cast h1, by positivity,
          by exact_mod_cast h2, ?_⟩
        rw [hf, h3]
        rfl
      · rintro ⟨bg, bank, h1, h2, h3, h4, rfl⟩
        lift bg to ℕ using h1
        lift bank to ℕ using h3
        obtain ⟨e1, e2⟩ := (rank_queues_nat config.banks config.bankgroups
          config.banks_per_group config.ranks rank
          (rank * config.banks + bg * config.banks_per_group + bank) hb hg hp hr1n).mpr
          ⟨bg, bank, by exact_mod_cast h2, by exact_mod_cast h4, rfl⟩
        refine ⟨rank * config.banks + bg * config.banks_per_group + bank, e1, ?_, ?_⟩
        · rw [Int.ofNat_eq_coe]
          exact_mod_cast e2
        · rw [hf]
          rfl
    · have hs2 : ¬ cq.queue_structure_ = QueueStructure.PER_BANK := by
        rw [hs]; decide
      rw [if_neg hs2]
      have hf : ∀ x y z : Int, cq.GetQueueIndex config x y z = x := by
        intro x y z
        simp [CommandQueue.GetQueueIndex, hs]
      constructor
      · rintro rfl
        exact ⟨0, 0, le_refl _, by exact_mod_cast hg, le_refl _, by exact_mod_cast hp,
          (hf _ _ _).symm⟩
      · rintro ⟨bg, bank, _, _, _, _, e⟩
        rw [e, hf]
  · rw [if_neg hk, if_neg hk]

theorem CommandQueue.GetCommandToIssue_frame {ρ : Type} (env : Collaborators ρ)
    (config : Config) (cq cq1 : CommandQueue) (cs cs1 : ChannelState) (cmd : Command)
    (h : cq.GetCommandToIssue env config cs = some (cmd, cq1, cs1)) :
    cq1.queue_structure_ = cq.queue_structure_ ∧ cq1.num_queues_ = cq.num_queues_ ∧
      cq1.is_in_ref_ = cq.is_in_ref_ ∧ cq1.ref_q_indices_ = cq.ref_q_indices_ := by
  obtain ⟨cqm, e, hh⟩ := CommandQueue.GetCommandToIssue_shape env config cq cq1 cs cs1 cmd h
  have em : cqm.queue_structure_ = cq.queue_structure_ ∧ cqm.num_queues_ = cq.num_queues_ ∧
      cqm.is_in_ref_ = cq.is_in_ref_ ∧ cqm.ref_q_indices_ = cq.ref_q_indices_ := by
    rw [e]
    exact ⟨rfl, rfl, rfl, rfl⟩
  rcases hh with ⟨_, he⟩ | ⟨_, rfl⟩
  · obtain ⟨_, _, _, _, _, _, _, _, e6, _⟩ :=
      CommandQueue.EraseRWCommand_shape cqm cq1 config cmd he
    rw [e6]
    exact em
  · exact em

theorem CommandQueue.AddCommand_frame (cq : CommandQueue) (config : Config) (cmd : Command) :
    (cq.AddCommand config cmd).2.queue_structure_ = cq.queue_structure_ ∧
      (cq.AddCommand config cmd).2.num_queues_ = cq.num_queues_ ∧
      (cq.AddCommand config cmd).2.is_in_ref_ = cq.is_in_ref_ ∧
      (cq.AddCommand config cmd).2.ref_q_indices_ = cq.ref_q_indices_ := by
  unfold CommandQueue.AddCommand
  dsimp only
  split <;> exact ⟨rfl, rfl, rfl, rfl⟩

theorem CommandQueue.FinishRefresh_mask {ρ : Type} (env : Collaborators ρ)
    (config : Config) (cq cq1 : CommandQueue) (cs cs1 : ChannelState) (cmd : Command)
    (h : cq.FinishRefresh env config cs = some (cmd, cq1, cs1)) :
    ∃ ref, cs.PendingRefCommand = some ref ∧
      (cmd.IsRefresh = true → cq1.is_in_ref_ = false ∧ cq1.ref_q_indices_ = []) ∧
      (cmd.IsRefresh = false → cq1.is_in_ref_ = true ∧
        (cq.is_in_ref_ = true → cq1.ref_q_indices_ = cq.ref_q_indices_) ∧
        (cq.is_in_ref_ = false →
          cq1.ref_q_indices_ = (cq.GetRefQIndices config ref).ref_q_indices_)) := by
  unfold CommandQueue.FinishRefresh at h
  split at h
  · simp at h
  · rename_i ref href
    refine ⟨ref, href, ?_⟩
    dsimp only at h
    split at h
    · simp at h
    · rename_i out cs2 hg
      split at h
      · rename_i hr
        simp only [Option.some.injEq, Prod.mk.injEq] at h
        obtain ⟨rfl, rfl, _⟩ := h
        refine ⟨fun _ => ⟨rfl, rfl⟩, ?_⟩
        intro hf
        rw [hr] at hf
        exact absurd hf (by decide)
      · rename_i hr
        simp only [Option.some.injEq, Prod.mk.injEq] at h
        obtain ⟨rfl, rfl, _⟩ := h
        refine ⟨fun ht => absurd ht hr, ?_⟩
        intro _
        cases hin : cq.is_in_ref_
        · simp
        · simp [hin]

theorem CommandQueue.Reachable_structure {ρ : Type} (env : Collaborators ρ) (config : Config)
    (cq : CommandQueue) (h : CommandQueue.Reachable env config cq) :
    ((cq.queue_structure_ = QueueStructure.PER_BANK ∧
        cq.num_queues_ = (config.banks : Int) * (config.ranks : Int)) ∨
      (cq.queue_structure_ = QueueStructure.PER_RANK ∧
        cq.num_queues_ = (config.ranks : Int))) ∧
    (cq.is_in_ref_ = false → cq.ref_q_indices_ = []) := by
  induction h with
  | init cq hi =>
    unfold CommandQueue.init at hi
    split at hi
    · simp only [Option.some.injEq] at hi
      subst hi
      exact ⟨Or.inl ⟨rfl, rfl⟩, fun _ => rfl⟩
    · split at hi
      · simp only [Option.some.injEq] at hi
        subst hi
        exact ⟨Or.inr ⟨rfl, rfl⟩, fun _ => rfl⟩
      · simp at hi
  | addCommand cq cmd _ ih =>
    obtain ⟨e1, e2, e3, e4⟩ := CommandQueue.AddCommand_frame cq config cmd
    rw [e1, e2, e3, e4]
    exact ih
  | getCommandToIssue cq cq1 cs cs1 cmd _ hg ih =>
    obtain ⟨e1, e2, e3, e4⟩ := CommandQueue.GetCommandToIssue_frame env config cq cq1 cs cs1 cmd hg
    rw [e1, e2, e3, e4]
    exact ih
  | finishRefresh cq cq1 cs cs1 cmd _ hf ih =>
    have e := CommandQueue.FinishRefresh_shape env config cq cq1 cs cs1 cmd hf
    have e1 : cq1.queue_structure_ = cq.queue_structure_ := by rw [e]
    have e2 : cq1.num_queues_ = cq.num_queues_ := by rw [e]
    rw [e1, e2]
    refine ⟨ih.1, ?_⟩
    intro hin
    obtain ⟨ref, _, m1, m2⟩ := CommandQueue.FinishRefresh_mask env config cq cq1 cs cs1 cmd hf
    cases hr : cmd.IsRefresh
    · rw [(m2 hr).1] at hin
      exact absurd hin (by decide)
    · exact (m1 hr).2
  | clockTick cq _ ih => exact ih

theorem CommandQueue.issueLoop_source {ρ : Type} (env : Collaborators ρ) (config : Config)
    (n : Nat) : ∀ (cq cq1 : CommandQueue) (cs cs1 : ChannelState) (cmd : Command),
      CommandQueue.issueLoop env config n cq cs = some (cmd, cq1, cs1) →
      cmd.IsValid = true →
      (cq.is_in_ref_ && cq.ref_q_indices_.contains cq1.queue_idx_) = false ∧
        ∃ csb, cq.GetFirstReadyInQueue env csb (cq.queues_.getD cq1.queue_idx_.toNat []) =
          some (cmd, cs1) := by
  induction n with
  | zero =>
    intro cq cq1 cs cs1 cmd h hv
    simp only [CommandQueue.issueLoop, Option.some.injEq, Prod.mk.injEq] at h
    obtain ⟨rfl, _, _⟩ := h
    exact absurd hv (by decide)
  | succ n ih =>
    intro cq cq1 cs cs1 cmd h hv
    unfold CommandQueue.issueLoop at h
    dsimp only at h
    split at h
    · exact ih cq.GetNextQueue cq1 cs cs1 cmd h hv
    · rename_i hm
      split at h
      · simp at h
      · rename_i out cs2 hg
        split at h
        · split at h
          · split at h
            · simp at h
            · rename_i cq2 he
              simp only [Option.some.injEq, Prod.mk.injEq] at h
              obtain ⟨rfl, rfl, rfl⟩ := h
              rw [(CommandQueue.EraseRWCommand_cursor _ _ config _ he).1]
              exact ⟨by simpa using hm, cs, hg⟩
          · simp only [Option.some.injEq, Prod.mk.injEq] at h
            obtain ⟨rfl, rfl, rfl⟩ := h
            exact ⟨by simpa using hm, cs, hg⟩
        · exact ih cq.GetNextQueue cq1 cs2 cs1 cmd h hv

theorem CommandQueue.covers_congr (cq cq1 : CommandQueue) (config : Config) (ref : Command)
    (j : Int) (h : cq1.queue_structure_ = cq.queue_structure_) :
    cq1.covers config ref j ↔ cq.covers config ref j := by
  unfold CommandQueue.covers CommandQueue.GetQueueIndex
  rw [h]

theorem CommandQueue.InRefresh_inv {ρ : Type} (env : Collaborators ρ) (config : Config)
    (ref : Command) (cq : CommandQueue)
    (hb : config.banks = config.bankgroups * config.banks_per_group)
    (hg : 0 < config.bankgroups) (hp : 0 < config.banks_per_group)
    (hr : 0 ≤ ref.Rank ∧ ref.Rank < config.ranks)
    (h : CommandQueue.InRefresh env config ref cq) :
    cq.is_in_ref_ = true ∧ ∀ j, j ∈ cq.ref_q_indices_ ↔ cq.covers config ref j := by
  induction h with
  | start cq cq1 cs cs1 cmd hreach hin href hf hnr =>
    obtain ⟨hst, hem⟩ := CommandQueue.Reachable_structure env config cq hreach
    obtain ⟨ref1, href1, _, m2⟩ := CommandQueue.FinishRefresh_mask env config cq cq1 cs cs1 cmd hf
    rw [href] at href1
    simp only [Option.some.injEq] at href1
    subst href1
    obtain ⟨m3, _, m5⟩ := m2 hnr
    refine ⟨m3, ?_⟩
    intro j
    have e := CommandQueue.FinishRefresh_shape env config cq cq1 cs cs1 cmd hf
    have e1 : cq1.queue_structure_ = cq.queue_structure_ := by rw [e]
    rw [CommandQueue.covers_congr cq cq1 config ref j e1, m5 hin,
      CommandQueue.mem_GetRefQIndices cq config ref (hem hin) j,
      CommandQueue.covers_iff cq config ref hst hb hg hp hr j]
  | addCommand cq cmd _ ih =>
    obtain ⟨e1, _, e3, e4⟩ := CommandQueue.AddCommand_frame cq config cmd
    rw [e3, e4]
    refine ⟨ih.1, ?_⟩
    intro j
    rw [CommandQueue.covers_congr cq _ config ref j e1]
    exact ih.2 j
  | getCommandToIssue cq cq1 cs cs1 cmd _ hg2 ih =>
    obtain ⟨e1, _, e3, e4⟩ :=
      CommandQueue.GetCommandToIssue_frame env config cq cq1 cs cs1 cmd hg2
    rw [e3, e4]
    refine ⟨ih.1, ?_⟩
    intro j
    rw [CommandQueue.covers_congr cq _ config ref j e1]
    exact ih.2 j
  | finishRefresh cq cq1 cs cs1 cmd _ hf hnr ih =>
    obtain ⟨ref1, _, _, m2⟩ := CommandQueue.FinishRefresh_mask env config cq cq1 cs cs1 cmd hf
    obtain ⟨m3, m4, _⟩ := m2 hnr
    have e := CommandQueue.FinishRefresh_shape env config cq cq1 cs cs1 cmd hf
    have e1 : cq1.queue_structure_ = cq.queue_structure_ := by rw [e]
    refine ⟨m3, ?_⟩
    intro j
    rw [CommandQueue.covers_congr cq _ config ref j e1, m4 ih.1]
    exact ih.2 j
  | clockTick cq _ ih => exact ih

/-- Claim C28: between the first `FinishRefresh` call for a pending refresh
and the `FinishRefresh` call that returns the REFRESH or REFRESH_BANK command,
the queue is in a refresh and the masked queue indices are exactly those the
refresh covers (every queue of its rank for REFRESH, the queue
`GetQueueIndex(rank, bankgroup, bank)` otherwise); a valid command returned by
`GetCommandToIssue` then is the result of `GetFirstReadyInQueue` on a queue the
refresh does not cover, on which the cursor is left; and after a
`FinishRefresh` that returns a refresh command no queue index is masked. -/
theorem CommandQueue.refresh_masks_covered_queues {ρ : Type} (env : Collaborators ρ)
    (config : Config) (ref : Command) (cq : CommandQueue)
    (hb : config.banks = config.bankgroups * config.banks_per_group)
    (hg : 0 < config.bankgroups) (hp : 0 < config.banks_per_group)
    (hr : 0 ≤ ref.Rank ∧ ref.Rank < config.ranks)
    (h : CommandQueue.InRefresh env config ref cq) :
    cq.is_in_ref_ = true ∧ (∀ j, j ∈ cq.ref_q_indices_ ↔ cq.covers config ref j) ∧
    (∀ cs cmd cq1 cs1, cq.GetCommandToIssue env config cs = some (cmd, cq1, cs1) →
      cmd.IsValid = true →
      ¬ cq.covers config ref cq1.queue_idx_ ∧
      ∃ csb, cq.GetFirstReadyInQueue env csb (cq.queues_.getD cq1.queue_idx_.toNat []) =
        some (cmd, cs1)) ∧
    (∀ cs cmd cq1 cs1, cq.FinishRefresh env config cs = some (cmd, cq1, cs1) →
      cmd.IsRefresh = true →
      cq1.is_in_ref_ = false ∧ cq1.ref_q_indices_ = [] ∧
      ∀ j, (cq1.is_in_ref_ && cq1.ref_q_indices_.contains j) = false) := by
  obtain ⟨i1, i2⟩ := CommandQueue.InRefresh_inv env config ref cq hb hg hp hr h
  refine ⟨i1, i2, ?_, ?_⟩
  · intro cs cmd cq1 cs1 hg2 hv
    obtain ⟨s1, s2⟩ := CommandQueue.issueLoop_source env config _ cq cq1 cs cs1 cmd hg2 hv
    refine ⟨?_, s2⟩
    intro hc
    have hmem := (i2 _).mpr hc
    rw [i1, Bool.true_and] at s1
    have : cq.ref_q_indices_.contains cq1.queue_idx_ = true := by
      simpa using hmem
    rw [this] at s1
    exact absurd s1 (by decide)
  · intro cs cmd cq1 cs1 hf hrf
    obtain ⟨_, _, m1, _⟩ := CommandQueue.FinishRefresh_mask env config cq cq1 cs cs1 cmd hf
    obtain ⟨m2, m3⟩ := m1 hrf
    refine ⟨m2, m3, ?_⟩
    intro j
    rw [m2, Bool.false_and]

/-- Witness for C28: on the constructed sample command queue, with bank
(0, 0, 0) open and a REFRESH of rank 0 pending, the first `FinishRefresh`
returns the PRECHARGE that must precede the refresh; the state after it is in
the refresh and masks the queues of rank 0. -/
theorem CommandQueue.refresh_masks_covered_queues_witness :
    ∃ cq1, CommandQueue.InRefresh sampleCollaborators sampleConfig sampleRefresh cq1 ∧
      cq1.is_in_ref_ = true ∧
      ∀ j, j ∈ cq1.ref_q_indices_ ↔ cq1.covers sampleConfig sampleRefresh j := by
  have hs : ((sampleInitial.cmd_queue_.FinishRefresh sampleCollaborators sampleConfig
      sampleRefreshState).map (fun r => r.1.IsRefresh)) = some false := by
    decide
  cases hf : sampleInitial.cmd_queue_.FinishRefresh sampleCollaborators sampleConfig
      sampleRefreshState with
  | none => rw [hf] at hs; simp at hs
  | some r =>
    obtain ⟨cmd, cq1, cs1⟩ := r
    rw [hf] at hs
    simp only [Option.map_some', Option.some.injEq] at hs
    have hin : CommandQueue.InRefresh sampleCollaborators sampleConfig sampleRefresh cq1 :=
      CommandQueue.InRefresh.start sampleInitial.cmd_queue_ cq1 sampleRefreshState cs1 cmd
        (CommandQueue.Reachable.init sampleInitial.cmd_queue_ (by decide)) rfl rfl hf hs
    have hw := CommandQueue.refresh_masks_covered_queues sampleCollaborators sampleConfig
      sampleRefresh cq1 rfl (by decide) (by decide) (by decide) hin
    exact ⟨cq1, hin, hw.1, hw.2.1⟩


/-! ## Theorems: the fatal exits of `IssueCommand` -/

theorem Command.not_IsWrite_of_IsRead (cmd : Command) (h : cmd.IsRead = true) :
    cmd.IsWrite = false := by
  rcases cmd with ⟨k, a, hx⟩
  cases k <;> simp [Command.IsRead] at h <;> rfl

theorem Controller.issuePending_none_iff {ρ : Type} (c : Controller ρ) (cmd : Command) :
    c.issuePending cmd = none ↔
      (cmd.IsRead = true ∧ mmCount c.pending_rd_q_ cmd.hex_addr = 0) ∨
      (cmd.IsWrite = true ∧ mmFind c.pending_wr_q_ cmd.hex_addr = none) := by
  by_cases hr : cmd.IsRead = true
  · have hw := Command.not_IsWrite_of_IsRead cmd hr
    by_cases hn : mmCount c.pending_rd_q_ cmd.hex_addr = 0
    · simp [Controller.issuePending, hr, hn]
    · rw [Controller.issuePending_read c cmd hr (by omega)]
      simp [hr, hn, hw]
  · have hr2 : cmd.IsRead = false := by simpa using hr
    by_cases hw : cmd.IsWrite = true
    · cases hf : mmFind c.pending_wr_q_ cmd.hex_addr with
      | none => simp [Controller.issuePending, hr2, hw, hf]
      | some it => simp [Controller.issuePending, hr2, hw, hf]
    · have hw2 : cmd.IsWrite = false := by simpa using hw
      simp [Controller.issuePending, hr2, hw2]

theorem Controller.UpdateCommandStats_none_iff {ρ : Type} (c : Controller ρ) (cmd : Command)
    (count : Nat) :
    c.UpdateCommandStats cmd count = none ↔ cmd.cmd_type = CommandType.SIZE := by
  rcases cmd with ⟨k, a, hx⟩
  cases k <;> simp only [Controller.UpdateCommandStats] <;>
    first
    | (split <;> simp)
    | simp

theorem Controller.issuePending_write {ρ : Type} (c c1 : Controller ρ) (cmd : Command)
    (n : Nat) (hw : cmd.IsWrite = true) (h : c.issuePending cmd = some (c1, n)) :
    c1.pending_wr_q_ = mmErase c.pending_wr_q_ cmd.hex_addr ∧
      c1.pending_wr_q_.length + 1 = c.pending_wr_q_.length ∧
      c1.return_queue_ = c.return_queue_ ∧ c1.pending_rd_q_ = c.pending_rd_q_ := by
  have hr : cmd.IsRead = false := by
    rcases cmd with ⟨k, a, hx⟩
    cases k <;> simp [Command.IsWrite] at hw <;> rfl
  unfold Controller.issuePending at h
  rw [if_neg (by simp [hr]), if_pos hw] at h
  split at h
  · simp at h
  · rename_i it hf
    simp only [Option.some.injEq, Prod.mk.injEq] at h
    obtain ⟨rfl, _⟩ := h
    refine ⟨rfl, ?_, rfl, rfl⟩
    dsimp only
    unfold mmFind at hf
    have hmem := List.mem_of_find?_eq_some hf
    have hp := List.find?_some hf
    unfold mmErase
    rw [List.length_eraseP_of_mem hmem hp]
    have : 0 < c.pending_wr_q_.length := List.length_pos_of_mem hmem
    omega

theorem Controller.issuePending_other {ρ : Type} (c c1 : Controller ρ) (cmd : Command)
    (n : Nat) (hrw : cmd.IsReadWrite = false) (h : c.issuePending cmd = some (c1, n)) :
    c1 = c := by
  simp only [Command.IsReadWrite, Bool.or_eq_false_iff] at hrw
  unfold Controller.issuePending at h
  rw [if_neg (by simp [hrw.1]), if_neg (by simp [hrw.2])] at h
  simp only [Option.some.injEq, Prod.mk.injEq] at h
  exact h.1.symm

/-- Claim C22 (amended): `IssueCommand` exits fatally exactly when the
command is of the READ family and `pending_rd_q_` has no entry for its
address, or it is of the WRITE family and `pending_wr_q_` has no entry for its
address, or its kind is the invalid kind, or the call of
`ChannelState::UpdateTimingAndStates` for it exits.  When it returns for a
WRITE-family command, the single pending write found for the address has been
erased and the return queue and the pending reads are as before; when it
returns for a command that is not of the READ/WRITE family, both pending queues
and the return queue are as before. -/
theorem Controller.IssueCommand_exits_iff {ρ : Type} (env : Collaborators ρ)
    (c : Controller ρ) (cmd : Command) :
    (c.IssueCommand env cmd = none ↔
      (cmd.IsRead = true ∧ mmCount c.pending_rd_q_ cmd.hex_addr = 0) ∨
      (cmd.IsWrite = true ∧ mmFind c.pending_wr_q_ cmd.hex_addr = none) ∨
      cmd.cmd_type = CommandType.SIZE ∨
      env.UpdateTimingAndStates c.channel_state_ cmd c.clk_ = none) ∧
    (∀ c1, c.IssueCommand env cmd = some c1 → cmd.IsWrite = true →
      c1.pending_wr_q_ = mmErase c.pending_wr_q_ cmd.hex_addr ∧
      c1.pending_wr_q_.length + 1 = c.pending_wr_q_.length ∧
      c1.return_queue_ = c.return_queue_ ∧ c1.pending_rd_q_ = c.pending_rd_q_) ∧
    (∀ c1, c.IssueCommand env cmd = some c1 → cmd.IsReadWrite = false →
      c1.pending_rd_q_ = c.pending_rd_q_ ∧ c1.pending_wr_q_ = c.pending_wr_q_ ∧
      c1.return_queue_ = c.return_queue_) := by
  refine ⟨?_, ?_, ?_⟩
  · cases hp : c.issuePending cmd with
    | none =>
      have hl : c.IssueCommand env cmd = none := by
        unfold Controller.IssueCommand
        rw [hp]
      rcases (Controller.issuePending_none_iff c cmd).mp hp with h | h
      · exact ⟨fun _ => Or.inl h, fun _ => hl⟩
      · exact ⟨fun _ => Or.inr (Or.inl h), fun _ => hl⟩
    | some r =>
      obtain ⟨c1, n⟩ := r
      have hnp : ¬ ((cmd.IsRead = true ∧ mmCount c.pending_rd_q_ cmd.hex_addr = 0) ∨
          (cmd.IsWrite = true ∧ mmFind c.pending_wr_q_ cmd.hex_addr = none)) := by
        intro hx
        rw [(Controller.issuePending_none_iff c cmd).mpr hx] at hp
        exact absurd hp (by simp)
      obtain ⟨f1, f2, _, _⟩ := Controller.issuePending_front c c1 cmd n hp
      have f3 := (Controller.front_eq c c1 f1).1
      cases hs : c1.UpdateCommandStats cmd n with
      | none =>
        have hl : c.IssueCommand env cmd = none := by
          unfold Controller.IssueCommand
          rw [hp]
          dsimp only
          rw [hs]
        exact ⟨fun _ => Or.inr (Or.inr (Or.inl
          ((Controller.UpdateCommandStats_none_iff c1 cmd n).mp hs))), fun _ => hl⟩
      | some c2 =>
        have hns : ¬ cmd.cmd_type = CommandType.SIZE := by
          intro hx
          rw [(Controller.UpdateCommandStats_none_iff c1 cmd n).mpr hx] at hs
          exact absurd hs (by simp)
        obtain ⟨g1, _, g2, _, _⟩ := Controller.UpdateCommandStats_same c1 c2 cmd n hs
        have g3 := (Controller.front_eq c1 c2 g1).1
        have hiss : c.IssueCommand env cmd = none ↔
            env.UpdateTimingAndStates c.channel_state_ cmd c.clk_ = none := by
          unfold Controller.IssueCommand
          rw [hp]
          dsimp only
          rw [hs]
          dsimp only
          rw [g2, f2, g3, f3]
          cases env.UpdateTimingAndStates c.channel_state_ cmd c.clk_ <;> simp
        constructor
        · intro hx
          exact Or.inr (Or.inr (Or.inr (hiss.mp hx)))
        · rintro (hx | hx | hx | hx)
          · exact absurd (Or.inl hx) hnp
          · exact absurd (Or.inr hx) hnp
          · exact absurd hx hns
          · exact hiss.mpr hx
  · intro c1 h hw
    obtain ⟨c2, n, hp, _, hl, _⟩ := Controller.IssueCommand_parts env c c1 cmd h
    obtain ⟨l1, l2, l3⟩ := Controller.ledger_eq c2 c1 hl
    obtain ⟨w1, w2, w3, w4⟩ := Controller.issuePending_write c c2 cmd n hw hp
    rw [l1, l2, l3]
    exact ⟨w1, w2, w3, w4⟩
  · intro c1 h hrw
    obtain ⟨c2, n, hp, _, hl, _⟩ := Controller.IssueCommand_parts env c c1 cmd h
    obtain ⟨l1, l2, l3⟩ := Controller.ledger_eq c2 c1 hl
    have e := Controller.issuePending_other c c2 cmd n hrw hp
    subst e
    exact ⟨l1, l2, l3⟩

/-- Witness for C22: on the sample controller, whose bank (0, 0, 0) is open on
row 8 and which has a write pending for address 2748, a WRITE to that address
and row is issued; the pending write is erased and the return queue is as
before. -/
theorem Controller.IssueCommand_exits_iff_witness :
    ∃ c1, sampleController.IssueCommand sampleCollaborators
        ⟨CommandType.WRITE, ⟨0, 0, 0, 0, 8, 60⟩, 2748⟩ = some c1 ∧
      c1.pending_wr_q_ = mmErase sampleController.pending_wr_q_ 2748 ∧
      c1.pending_wr_q_.length + 1 = sampleController.pending_wr_q_.length ∧
      c1.return_queue_ = sampleController.return_queue_ ∧
      c1.pending_rd_q_ = sampleController.pending_rd_q_ :=
  have hs : (sampleController.IssueCommand sampleCollaborators
      ⟨CommandType.WRITE, ⟨0, 0, 0, 0, 8, 60⟩, 2748⟩).isSome = true := rfl
  match hc : sampleController.IssueCommand sampleCollaborators
      ⟨CommandType.WRITE, ⟨0, 0, 0, 0, 8, 60⟩, 2748⟩, hs with
  | some c1, _ =>
    ⟨c1, rfl,
      (Controller.IssueCommand_exits_iff sampleCollaborators sampleController
        ⟨CommandType.WRITE, ⟨0, 0, 0, 0, 8, 60⟩, 2748⟩).2.1 c1 hc rfl⟩

/-- Counterexample for C22: the sample controller has a read pending for
address 64, whose bank (0, 1, 0) is closed.  `IssueCommand` of a READ for that
address exits fatally (in `BankState::UpdateState`, reached through
`UpdateTimingAndStates`), although the command is of the READ family with a
pending entry, is not of the WRITE family and has a valid kind. -/
theorem Controller.IssueCommand_exits_with_pending_entry :
    (sampleController.IssueCommand sampleCollaborators
        ⟨CommandType.READ, sampleConfig.AddressMapping 64, 64⟩).isNone = true ∧
      mmCount sampleController.pending_rd_q_ 64 = 1 ∧
      (⟨CommandType.READ, sampleConfig.AddressMapping 64, 64⟩ : Command).IsRead = true ∧
      (⟨CommandType.READ, sampleConfig.AddressMapping 64, 64⟩ : Command).IsWrite = false ∧
      (⟨CommandType.READ, sampleConfig.AddressMapping 64, 64⟩ : Command).IsValid = true ∧
      (sampleController.channel_state_.bank 0 1 0).UpdateState
        ⟨CommandType.READ, sampleConfig.AddressMapping 64, 64⟩ = none := by
  refine ⟨rfl, ?_, rfl, rfl, rfl, rfl⟩
  decide


/-! ## Theorems: the flag `rank_q_empty` -/

set_option maxRecDepth 100000 in
/-- Claim C23 (evaluation of the code on a failing input): a READ for the open
row of bank (0, 0, 0) is added to the command queue of the sample controller
and `GetCommandToIssue` returns and erases it; every queue is empty again, yet
`rank_q_empty[0]` is still false, since nothing sets the flag back to true.
In a controller with self-refresh after three idle cycles, a rank that never
had a command enters self-refresh in the third cycle, while a rank that has
served one read stays out of it: seven cycles after the read was added the
queues are empty and the rank has been idle for five cycles, but the flag is
false and no SREF_ENTER has been issued. -/
theorem CommandQueue.rank_q_empty_is_not_set_back :
    ((sampleController.cmd_queue_.AddCommand sampleConfig
        ⟨CommandType.READ, ⟨0, 0, 0, 0, 8, 0⟩, 4096⟩).2.GetCommandToIssue sampleCollaborators
          sampleConfig sampleController.channel_state_).map
        (fun r => (r.1.cmd_type, r.2.1.queues_, r.2.1.rank_q_empty)) =
      some (CommandType.READ, List.replicate 8 [], [false]) ∧
    ((Controller.init 0 sampleSelfRefreshConfig sampleChannelState ()).bind fun c =>
        Controller.runTrace sampleCollaborators 3 c).map observeSelfRefresh =
      some ([[], [], [CommandType.SREF_ENTER]], [true], List.replicate 8 0, [3]) ∧
    ((Controller.init 0 sampleSelfRefreshConfig sampleChannelState ()).bind fun c =>
        Controller.runTrace sampleCollaborators 7 (c.addReads [0])).map observeSelfRefresh =
      some ([[], [CommandType.ACTIVATE], [CommandType.READ_PRECHARGE], [], [], [], []],
        [false], List.replicate 8 0, [5]) := by
  refine ⟨?_, ?_, ?_⟩ <;> rfl


/-! ## Theorems: the write-draining decision -/

theorem Controller.scheduleFrom_unified {ρ : Type} (c : Controller ρ)
    (hu : c.is_unified_queue_ = true) :
    c.scheduleFrom.write_draining_ = c.write_draining_ := by
  unfold Controller.scheduleFrom
  dsimp only
  split
  · rfl
  · rw [if_neg (by simp [hu])]
    unfold Controller.scheduleQueue
    rw [if_pos hu]
    rfl

/-- Claim C30: `ScheduleTransaction` is the write-draining decision followed
by the scheduling from the chosen queue.  With split queues and
`write_draining_ = 0` on entry, the decision sets `write_draining_` to the
size of the write buffer when the buffer has reached its capacity, or holds
more than 8 entries while every command queue is empty, and else changes
nothing and the scheduling works on the read queue; with a write buffer of
non-zero capacity the scheduling works on the write buffer exactly when that
condition holds.  With a unified queue the decision changes nothing, the scheduling
works on the unified queue and `write_draining_` is left as it was. -/
theorem Controller.ScheduleTransaction_enters_write_draining_iff {ρ : Type}
    (c : Controller ρ) :
    c.ScheduleTransaction = c.updateWriteDraining.scheduleFrom ∧
    (c.is_unified_queue_ = false → c.write_draining_ = 0 →
      (c.write_buffer_.length ≥ c.write_buffer_capacity ∨
          (c.write_buffer_.length > 8 ∧ c.cmd_queue_.QueueEmpty = true) →
        c.updateWriteDraining =
          { c with write_draining_ := Int.ofNat c.write_buffer_.length }) ∧
      (¬ (c.write_buffer_.length ≥ c.write_buffer_capacity ∨
          (c.write_buffer_.length > 8 ∧ c.cmd_queue_.QueueEmpty = true)) →
        c.updateWriteDraining = c ∧
        c.updateWriteDraining.scheduleQueue = Controller.TransQueue.readQueue) ∧
      (0 < c.write_buffer_capacity →
        (c.updateWriteDraining.scheduleQueue = Controller.TransQueue.writeBuffer ↔
          c.write_buffer_.length ≥ c.write_buffer_capacity ∨
            (c.write_buffer_.length > 8 ∧ c.cmd_queue_.QueueEmpty = true)))) ∧
    (c.is_unified_queue_ = true →
      c.updateWriteDraining = c ∧
      c.updateWriteDraining.scheduleQueue = Controller.TransQueue.unified ∧
      c.ScheduleTransaction.write_draining_ = c.write_draining_) := by
  have hfac : c.ScheduleTransaction = c.updateWriteDraining.scheduleFrom := rfl
  refine ⟨hfac, ?_, ?_⟩
  · intro hu hw
    have hnot : ¬ (c.write_buffer_.length ≥ c.write_buffer_capacity ∨
        (c.write_buffer_.length > 8 ∧ c.cmd_queue_.QueueEmpty = true)) →
        c.updateWriteDraining = c := by
      intro hc
      unfold Controller.updateWriteDraining
      rw [if_pos ⟨hw, hu⟩, if_neg hc]
    have hyes : (c.write_buffer_.length ≥ c.write_buffer_capacity ∨
        (c.write_buffer_.length > 8 ∧ c.cmd_queue_.QueueEmpty = true)) →
        c.updateWriteDraining =
          { c with write_draining_ := Int.ofNat c.write_buffer_.length } := by
      intro hc
      unfold Controller.updateWriteDraining
      rw [if_pos ⟨hw, hu⟩, if_pos hc]
    refine ⟨hyes, ?_, ?_⟩
    · intro hc
      rw [hnot hc]
      refine ⟨rfl, ?_⟩
      unfold Controller.scheduleQueue
      rw [if_neg (by simp [hu]), if_neg (by rw [hw]; decide)]
    · intro hcap
      constructor
      · intro hq
        by_contra hc
        rw [hnot hc] at hq
        unfold Controller.scheduleQueue at hq
        rw [if_neg (by simp [hu]), if_neg (by rw [hw]; decide)] at hq
        exact absurd hq (by decide)
      · intro hc
        rw [hyes hc]
        unfold Controller.scheduleQueue
        dsimp only
        rw [if_neg (by simp [hu])]
        have hpos : 0 < c.write_buffer_.length := by
          rcases hc with h | h
          · omega
          · omega
        rw [if_pos (by simp; omega)]
  · intro hu
    have he : c.updateWriteDraining = c := by
      unfold Controller.updateWriteDraining
      rw [if_neg (by simp [hu])]
    rw [hfac, he]
    refine ⟨rfl, ?_, Controller.scheduleFrom_unified c hu⟩
    unfold Controller.scheduleQueue
    rw [if_pos hu]

/-- Witness for C30: the sample controller with nine writes in its write
buffer has split queues, `write_draining_ = 0` and empty command queues, so the
decision sets `write_draining_` to 9 and the scheduling works on the write
buffer. -/
theorem Controller.ScheduleTransaction_enters_write_draining_iff_witness :
    ({ sampleController with write_buffer_ := List.replicate 9 ⟨2748, 0, 0, true⟩ }
        : Controller Unit).updateWriteDraining.write_draining_ = 9 ∧
      ({ sampleController with write_buffer_ := List.replicate 9 ⟨2748, 0, 0, true⟩ }
        : Controller Unit).updateWriteDraining.scheduleQueue =
          Controller.TransQueue.writeBuffer :=
  have h := (Controller.ScheduleTransaction_enters_write_draining_iff
    ({ sampleController with write_buffer_ := List.replicate 9 ⟨2748, 0, 0, true⟩ }
      : Controller Unit)).2.1 rfl rfl
  ⟨by rw [h.1 (Or.inr ⟨by decide, rfl⟩)]; rfl,
    (h.2.2 (by decide)).mpr (Or.inr ⟨by decide, rfl⟩)⟩

/-! ## Theorems: the bank as a query and as a served request -/

/-- C40: `GetReadyCommand` is a query with respect to the timing-relevant
state: whenever it returns, the bank afterwards is the bank before except for
the two statistics flags `activate_by_who` and `precharge_by_refresh`; in
particular the state, the open row, the row-hit count and every `cmd_timing`
entry are unchanged. -/
theorem BankState.GetReadyCommand_is_a_query (b b1 : BankState) (cmd out : Command)
    (clk : Nat) (h : b.GetReadyCommand cmd clk = some (out, b1)) :
    b1 = { b with activate_by_who := b1.activate_by_who,
                  precharge_by_refresh := b1.precharge_by_refresh } ∧
      b1.state_ = b.state_ ∧ b1.open_row_ = b.open_row_ ∧
      b1.row_hit_count_ = b.row_hit_count_ ∧ ∀ k, b1.timing k = b.timing k := by
  obtain ⟨h1, h2, h3, h4, h5, h6⟩ := BankState.GetReadyCommand_frame b b1 cmd out clk h
  refine ⟨?_, h1, h3, h4, fun k => by simp [BankState.timing, h2]⟩
  rcases b with ⟨s, tm, orow, rh, sv, se, pr, aw⟩
  rcases b1 with ⟨s1, tm1, orow1, rh1, sv1, se1, pr1, aw1⟩
  simp only at h1 h2 h3 h4 h5 h6
  subst h1 h2 h3 h4 h5 h6
  rfl

theorem BankState.GetReadyCommand_is_a_query_witness :
    ∃ b1 : BankState,
      b1.precharge_by_refresh = true ∧ BankState.init.precharge_by_refresh = false ∧
      b1.state_ = State.OPEN ∧ b1.open_row_ = 5 ∧ b1.row_hit_count_ = 0 ∧
      ∀ k, b1.timing k =
        ({ BankState.init with state_ := State.OPEN, open_row_ := 5 } : BankState).timing k :=
  have h : ({ BankState.init with state_ := State.OPEN, open_row_ := 5 } :
      BankState).GetReadyCommand ⟨CommandType.READ, ⟨0, 0, 0, 0, 9, 4⟩, 77⟩ 12 =
        some (⟨CommandType.PRECHARGE, ⟨0, 0, 0, 0, 9, 4⟩, 77⟩,
          { BankState.init with state_ := State.OPEN, open_row_ := 5,
                                precharge_by_refresh := true }) := by decide
  ⟨_, rfl, rfl,
    (BankState.GetReadyCommand_is_a_query _ _ _ _ _ h).2.1,
    (BankState.GetReadyCommand_is_a_query _ _ _ _ _ h).2.2.1,
    (BankState.GetReadyCommand_is_a_query _ _ _ _ _ h).2.2.2.1,
    (BankState.GetReadyCommand_is_a_query _ _ _ _ _ h).2.2.2.2⟩

theorem BankState.UpdateState_of_requiredType (b b1 : BankState) (cmd : Command)
    (k : CommandType) (a : Address) (hx : Nat) (h : b.requiredType cmd = some (k, b1)) :
    (∃ b2, b.UpdateState ⟨k, a, hx⟩ = some b2) ∧ ∃ b3, b1.UpdateState ⟨k, a, hx⟩ = some b3 := by
  rcases b with ⟨s, tm, orow, rh, sv, se, pr, aw⟩
  rcases cmd with ⟨c, a1, hx1⟩
  by_cases hrow : a1.row = orow <;>
    cases s <;> cases c <;>
      simp [BankState.requiredType, Command.Row, hrow] at h <;>
      (obtain ⟨rfl, rfl⟩ := h; simp [BankState.UpdateState])

/-- C35: whenever `GetReadyCommand` returns a valid command, `UpdateState`
accepts that command, both in the bank the query was made on and in the bank
the query leaves behind: the fatal branches of `UpdateState` are not reached
by a command `GetReadyCommand` produced. -/
theorem BankState.UpdateState_accepts_ready_command (b b1 : BankState) (cmd out : Command)
    (clk : Nat) (h : b.GetReadyCommand cmd clk = some (out, b1))
    (hv : out.IsValid = true) :
    (∃ b2, b.UpdateState out = some b2) ∧ ∃ b3, b1.UpdateState out = some b3 := by
  cases hr : b.requiredType cmd with
  | none => simp [BankState.GetReadyCommand, hr] at h
  | some p =>
    obtain ⟨k, b2⟩ := p
    rw [BankState.GetReadyCommand_of_requiredType b b2 cmd clk k hr] at h
    simp only [Option.some.injEq, Prod.mk.injEq] at h
    obtain ⟨h1, rfl⟩ := h
    split_ifs at h1
    · subst h1
      exact BankState.UpdateState_of_requiredType b b2 cmd k cmd.addr cmd.hex_addr hr
    · subst h1
      simp [Command.IsValid, Command.invalid] at hv

theorem BankState.UpdateState_accepts_ready_command_witness :
    (∃ b2, ({ BankState.init with state_ := State.OPEN, open_row_ := 5 } :
        BankState).UpdateState ⟨CommandType.PRECHARGE, ⟨0, 0, 0, 0, 9, 4⟩, 77⟩ = some b2) ∧
      ∃ b3, ({ BankState.init with state_ := State.OPEN, open_row_ := 5,
                                   precharge_by_refresh := true } :
        BankState).UpdateState ⟨CommandType.PRECHARGE, ⟨0, 0, 0, 0, 9, 4⟩, 77⟩ = some b3 :=
  BankState.UpdateState_accepts_ready_command
    { BankState.init with state_ := State.OPEN, open_row_ := 5 } _
    ⟨CommandType.READ, ⟨0, 0, 0, 0, 9, 4⟩, 77⟩ _ 12 (by decide) (by decide)

theorem BankState.GetReadyCommand_hit (b : BankState) (cmd : Command) (clk : Nat)
    (hs : b.state_ = State.OPEN) (hrow : b.open_row_ = cmd.Row)
    (hk : cmd.IsReadWrite = true) (ht : ∀ k, b.timing k ≤ clk) :
    b.GetReadyCommand cmd clk = some (cmd, b) := by
  have e : b.requiredType cmd = some (cmd.cmd_type, b) := by
    rcases b with ⟨s, tm, orow, rh, sv, se, pr, aw⟩
    rcases cmd with ⟨k, a, hx⟩
    simp only at hs hrow
    subst hs hrow
    cases k <;> simp [Command.IsReadWrite, Command.IsRead, Command.IsWrite] at hk <;>
      simp [BankState.requiredType]
  rw [BankState.GetReadyCommand_of_requiredType b b cmd clk _ e, if_pos (ht _)]

theorem BankState.GetReadyCommand_prerequisite (b : BankState) (cmd : Command) (clk : Nat)
    (hk : cmd.IsReadWrite = true) (ht : ∀ k, b.timing k ≤ clk)
    (hs : b.state_ = State.CLOSED ∨ (b.state_ = State.OPEN ∧ b.open_row_ ≠ cmd.Row) ∨
      b.state_ = State.SREF) :
    ∃ b1, b.GetReadyCommand cmd clk =
        some (⟨if b.state_ = State.CLOSED then CommandType.ACTIVATE
          else if b.state_ = State.OPEN then CommandType.PRECHARGE
          else CommandType.SREF_EXIT, cmd.addr, cmd.hex_addr⟩, b1) ∧
      (∀ k, b1.timing k ≤ clk) ∧
      b1.UpdateState ⟨if b.state_ = State.CLOSED then CommandType.ACTIVATE
          else if b.state_ = State.OPEN then CommandType.PRECHARGE
          else CommandType.SREF_EXIT, cmd.addr, cmd.hex_addr⟩ =
        some (if b.state_ = State.CLOSED then
            { b1 with state_ := State.OPEN, open_row_ := cmd.Row }
          else if b.state_ = State.OPEN then
            { b1 with state_ := State.CLOSED, open_row_ := -1, row_hit_count_ := 0 }
          else { b1 with state_ := State.CLOSED }) := by
  have e : ∃ b1, b.requiredType cmd =
      some (if b.state_ = State.CLOSED then CommandType.ACTIVATE
          else if b.state_ = State.OPEN then CommandType.PRECHARGE
          else CommandType.SREF_EXIT, b1) := by
    rcases b with ⟨s, tm, orow, rh, sv, se, pr, aw⟩
    rcases cmd with ⟨k, a, hx⟩
    simp only [Command.Row] at hs
    by_cases hrow : a.row = orow <;>
      rcases hs with rfl | ⟨rfl, hne⟩ | rfl <;>
        cases k <;> simp [Command.IsReadWrite, Command.IsRead, Command.IsWrite] at hk <;>
          simp [BankState.requiredType, Command.Row, hrow] <;>
          exact absurd hrow.symm hne
  obtain ⟨b1, e⟩ := e
  obtain ⟨f1, f2, f3, f4, f5, f6⟩ := BankState.requiredType_frame b b1 cmd _ e
  refine ⟨b1, ?_, fun k => by simpa [BankState.timing, f2] using ht k, ?_⟩
  · rw [BankState.GetReadyCommand_of_requiredType b b1 cmd clk _ e, if_pos (ht _)]
  · rcases hs with h | ⟨h, _⟩ | h <;> simp [h, BankState.UpdateState, f1, Command.Row]

/-- C36: for a bank that is CLOSED, OPEN on any row or in SREF, and a
READ/WRITE-family request for a row `r` (non-negative or not), if `clk` is at least every
`cmd_timing` entry of the bank, then asking `GetReadyCommand` for the request
and applying `UpdateState` to each answer returns the request itself after at
most two prerequisite commands, which are none, ACTIVATE, PRECHARGE then
ACTIVATE, or SREF_EXIT then ACTIVATE; every prerequisite carries the address
of the request, and the bank is then OPEN on row `r`.  Three rounds of fuel
are enough, and more fuel gives the same result. -/
theorem BankState.serve_reaches_request (b : BankState) (cmd : Command) (clk n : Nat)
    (hs : b.state_ = State.CLOSED ∨ b.state_ = State.OPEN ∨ b.state_ = State.SREF)
    (hk : cmd.IsReadWrite = true) (ht : ∀ k, b.timing k ≤ clk) :
    ∃ pre bf, b.serve cmd clk (n + 3) = some (pre, bf) ∧
      (pre.map Command.cmd_type = [] ∨
        pre.map Command.cmd_type = [CommandType.ACTIVATE] ∨
        pre.map Command.cmd_type = [CommandType.PRECHARGE, CommandType.ACTIVATE] ∨
        pre.map Command.cmd_type = [CommandType.SREF_EXIT, CommandType.ACTIVATE]) ∧
      pre.length ≤ 2 ∧
      (∀ p ∈ pre, p.addr = cmd.addr ∧ p.hex_addr = cmd.hex_addr) ∧
      bf.state_ = State.OPEN ∧ bf.open_row_ = cmd.Row ∧
      ∃ bg, bf.GetReadyCommand cmd clk = some (cmd, bg) := by
  rcases hs with h | h | h
  · obtain ⟨b1, g1, g2, g3⟩ := BankState.GetReadyCommand_prerequisite b cmd clk hk ht (Or.inl h)
    simp only [h, if_true] at g1 g3
    have hne : (⟨CommandType.ACTIVATE, cmd.addr, cmd.hex_addr⟩ : Command) ≠ cmd := by
      intro e
      rw [← e] at hk
      simp [Command.IsReadWrite, Command.IsRead, Command.IsWrite] at hk
    have g4 := BankState.GetReadyCommand_hit
      { b1 with state_ := State.OPEN, open_row_ := cmd.Row } cmd clk rfl rfl hk g2
    refine ⟨[⟨CommandType.ACTIVATE, cmd.addr, cmd.hex_addr⟩], _, ?_, by simp, by simp,
      by simp, rfl, rfl, _, g4⟩
    rw [BankState.serve, g1]
    simp only [if_neg hne, g3]
    rw [BankState.serve, g4]
    simp
  · by_cases hrow : b.open_row_ = cmd.Row
    · have g4 := BankState.GetReadyCommand_hit b cmd clk h hrow hk ht
      refine ⟨[], b, ?_, by simp, by simp, by simp, h, hrow, _, g4⟩
      rw [BankState.serve, g4]
      simp
    · obtain ⟨b1, g1, g2, g3⟩ :=
        BankState.GetReadyCommand_prerequisite b cmd clk hk ht (Or.inr (Or.inl ⟨h, hrow⟩))
      simp only [h, if_true, reduceCtorEq, if_false] at g1 g3
      have hne : (⟨CommandType.PRECHARGE, cmd.addr, cmd.hex_addr⟩ : Command) ≠ cmd := by
        intro e
        rw [← e] at hk
        simp [Command.IsReadWrite, Command.IsRead, Command.IsWrite] at hk
      have hne2 : (⟨CommandType.ACTIVATE, cmd.addr, cmd.hex_addr⟩ : Command) ≠ cmd := by
        intro e
        rw [← e] at hk
        simp [Command.IsReadWrite, Command.IsRead, Command.IsWrite] at hk
      obtain ⟨b2, k1, k2, k3⟩ := BankState.GetReadyCommand_prerequisite
        { b1 with state_ := State.CLOSED, open_row_ := -1, row_hit_count_ := 0 } cmd clk hk g2
        (Or.inl rfl)
      simp only [if_true] at k1 k3
      have g4 := BankState.GetReadyCommand_hit
        { b2 with state_ := State.OPEN, open_row_ := cmd.Row } cmd clk rfl rfl hk k2
      refine ⟨[⟨CommandType.PRECHARGE, cmd.addr, cmd.hex_addr⟩,
        ⟨CommandType.ACTIVATE, cmd.addr, cmd.hex_addr⟩], _, ?_, by simp, by simp,
        by simp, rfl, rfl, _, g4⟩
      rw [BankState.serve, g1]
      simp only [if_neg hne, g3]
      rw [BankState.serve, k1]
      simp only [if_neg hne2, k3]
      rw [BankState.serve, g4]
      simp
  · obtain ⟨b1, g1, g2, g3⟩ :=
      BankState.GetReadyCommand_prerequisite b cmd clk hk ht (Or.inr (Or.inr h))
    simp only [h, if_true, reduceCtorEq, if_false] at g1 g3
    have hne : (⟨CommandType.SREF_EXIT, cmd.addr, cmd.hex_addr⟩ : Command) ≠ cmd := by
      intro e
      rw [← e] at hk
      simp [Command.IsReadWrite, Command.IsRead, Command.IsWrite] at hk
    have hne2 : (⟨CommandType.ACTIVATE, cmd.addr, cmd.hex_addr⟩ : Command) ≠ cmd := by
      intro e
      rw [← e] at hk
      simp [Command.IsReadWrite, Command.IsRead, Command.IsWrite] at hk
    obtain ⟨b2, k1, k2, k3⟩ := BankState.GetReadyCommand_prerequisite
      { b1 with state_ := State.CLOSED } cmd clk hk g2 (Or.inl rfl)
    simp only [if_true] at k1 k3
    have g4 := BankState.GetReadyCommand_hit
      { b2 with state_ := State.OPEN, open_row_ := cmd.Row } cmd clk rfl rfl hk k2
    refine ⟨[⟨CommandType.SREF_EXIT, cmd.addr, cmd.hex_addr⟩,
      ⟨CommandType.ACTIVATE, cmd.addr, cmd.hex_addr⟩], _, ?_, by simp, by simp,
      by simp, rfl, rfl, _, g4⟩
    rw [BankState.serve, g1]
    simp only [if_neg hne, g3]
    rw [BankState.serve, k1]
    simp only [if_neg hne2, k3]
    rw [BankState.serve, g4]
    simp

theorem BankState.serve_reaches_request_witness :
    (({ BankState.init with state_ := State.OPEN, open_row_ := 5 } : BankState).serve
        ⟨CommandType.READ, ⟨0, 0, 0, 0, 9, 4⟩, 77⟩ 12 3).map (fun r => r.1.map Command.cmd_type) =
        some [CommandType.PRECHARGE, CommandType.ACTIVATE] ∧
      ∃ pre bf, ({ BankState.init with state_ := State.OPEN, open_row_ := 5 } : BankState).serve
          ⟨CommandType.READ, ⟨0, 0, 0, 0, 9, 4⟩, 77⟩ 12 (0 + 3) = some (pre, bf) ∧
        (pre.map Command.cmd_type = [] ∨
          pre.map Command.cmd_type = [CommandType.ACTIVATE] ∨
          pre.map Command.cmd_type = [CommandType.PRECHARGE, CommandType.ACTIVATE] ∨
          pre.map Command.cmd_type = [CommandType.SREF_EXIT, CommandType.ACTIVATE]) ∧
        pre.length ≤ 2 ∧
        (∀ p ∈ pre, p.addr = (⟨0, 0, 0, 0, 9, 4⟩ : Address) ∧ p.hex_addr = 77) ∧
        bf.state_ = State.OPEN ∧ bf.open_row_ = 9 ∧
        ∃ bg, bf.GetReadyCommand ⟨CommandType.READ, ⟨0, 0, 0, 0, 9, 4⟩, 77⟩ 12 =
          some (⟨CommandType.READ, ⟨0, 0, 0, 0, 9, 4⟩, 77⟩, bg) :=
  ⟨by decide,
    BankState.serve_reaches_request
      { BankState.init with state_ := State.OPEN, open_row_ := 5 }
      ⟨CommandType.READ, ⟨0, 0, 0, 0, 9, 4⟩, 77⟩ 12 0 (by decide) (by decide)
      (fun k => by cases k <;> decide)⟩

/-! ## Theorems: the statistics of the system clock tick -/

theorem JedecDRAMSystem.tickAll_counts {ρ : Type} (env : Collaborators ρ) :
    ∀ (cs cs1 : List (Controller ρ)) (serve active serve1 active1 : Nat),
      JedecDRAMSystem.tickAll env cs serve active = some (cs1, serve1, active1) →
      active1 = active + cs1.countP (fun c => c.is_active_cycles) ∧
        serve1 = serve +
          ((cs1.filter (fun c => c.is_active_cycles)).map (fun c => c.concurrent_serve)).sum := by
  intro cs
  induction cs with
  | nil =>
    intro cs1 serve active serve1 active1 h
    simp only [JedecDRAMSystem.tickAll, Option.some.injEq, Prod.mk.injEq] at h
    obtain ⟨rfl, rfl, rfl⟩ := h
    simp
  | cons c rest ih =>
    intro cs1 serve active serve1 active1 h
    unfold JedecDRAMSystem.tickAll at h
    split at h
    · simp at h
    · rename_i c1 hc1
      dsimp only at h
      split at h
      · simp at h
      · rename_i cs2 serve2 active2 hrest
        simp only [Option.some.injEq, Prod.mk.injEq] at h
        obtain ⟨rfl, rfl, rfl⟩ := h
        have := ih _ _ _ _ _ hrest
        by_cases ha : c1.is_active_cycles = true
        · simp only [ha, if_true] at this
          simp [ha, this]
          omega
        · simp only [ha] at this
          simp [ha, this]

theorem JedecDRAMSystem.ClockTick_counts {ρ : Type} (env : Collaborators ρ)
    (s s1 : JedecDRAMSystem ρ) (events : List (List CallbackEvent))
    (h : s.ClockTick env = some (events, s1)) :
    s1.active_cycles = s.active_cycles + s1.ctrls_.countP (fun c => c.is_active_cycles) ∧
      s1.concurrent_serve = s.concurrent_serve +
        ((s1.ctrls_.filter (fun c => c.is_active_cycles)).map
          (fun c => c.concurrent_serve)).sum := by
  unfold JedecDRAMSystem.ClockTick at h
  split at h
  · simp at h
  · split at h
    · simp at h
    · rename_i cs1 serve active ht
      split_ifs at h
      simp only [Option.some.injEq, Prod.mk.injEq] at h
      obtain ⟨_, rfl⟩ := h
      exact JedecDRAMSystem.tickAll_counts env _ _ _ _ _ _ ht

set_option maxRecDepth 100000 in
/-- C34: in the two-channel sample system a read is admitted to each channel at
cycle 0.  After two clock ticks no controller has reported an active cycle and
`active_cycles` is 0.  In the third clock tick both controllers report an
active cycle with a concurrent-serve value of 1 each, and that one global cycle
raises `active_cycles` from 0 to 2, one for each active controller, and
`concurrent_serve` from 0 to 2. -/
theorem JedecDRAMSystem.active_cycles_counts_each_active_controller :
    (JedecDRAMSystem.run sampleCollaborators
        [HostCall.add 0 false, HostCall.add 64 false, HostCall.tick, HostCall.tick]
        sampleTwoChannelSystem).map (fun r => r.2.observeActive) =
      some (0, 0, [(false, 0), (false, 0)]) ∧
    (JedecDRAMSystem.run sampleCollaborators
        [HostCall.add 0 false, HostCall.add 64 false, HostCall.tick, HostCall.tick,
          HostCall.tick]
        sampleTwoChannelSystem).map (fun r => r.2.observeActive) =
      some (2, 2, [(true, 1), (true, 1)]) := by
  refine ⟨?_, ?_⟩ <;> rfl

theorem sampleTwoChannelSystem_eq :
    JedecDRAMSystem.init sampleTwoChannelConfig sampleChannelState () =
      some sampleTwoChannelSystem := rfl

/-! ## Theorems: what `ScheduleTransaction` moves -/

theorem Controller.firstAcceptable_none {ρ : Type} (c : Controller ρ)
    (l : List Transaction) : ∀ pre : List Transaction,
      c.firstAcceptable pre l = none →
      ∀ x ∈ l, c.cmd_queue_.WillAcceptCommand c.config_ (c.TransToCommand x).Rank
        (c.TransToCommand x).Bankgroup (c.TransToCommand x).Bank = false := by
  induction l with
  | nil => intro pre _ x hx; simp at hx
  | cons y ys ih =>
    intro pre h x hx
    unfold Controller.firstAcceptable at h
    dsimp only at h
    split at h
    · simp at h
    · rename_i hacc
      rcases List.mem_cons.mp hx with rfl | hx
      · simpa using hacc
      · exact ih _ h x hx

theorem Controller.TransToCommand_kind {ρ : Type} (c : Controller ρ) (t : Transaction) :
    (c.TransToCommand t).hex_addr = t.addr ∧
      (c.TransToCommand t).addr = c.config_.AddressMapping t.addr ∧
      (c.TransToCommand t).IsWrite = t.is_write ∧
      (c.TransToCommand t).IsRead = !t.is_write := by
  unfold Controller.TransToCommand
  refine ⟨rfl, rfl, ?_, ?_⟩ <;>
    (dsimp only [Command.IsWrite, Command.IsRead]
     split_ifs <;> simp_all)

/-- The case analysis of the second part of `ScheduleTransaction`: nothing is
acceptable and nothing changes; or the first acceptable transaction is a write
of the split queues with a pending read of its address and only
`write_draining_` is reset; or the first acceptable transaction is moved. -/
theorem Controller.scheduleFrom_cases {ρ : Type} (c1 : Controller ρ) :
    (c1.firstAcceptable [] (c1.getTransQueue c1.scheduleQueue) = none ∧
        c1.scheduleFrom = c1) ∨
      ∃ pre t post,
        c1.firstAcceptable [] (c1.getTransQueue c1.scheduleQueue) = some (pre, t, post) ∧
        c1.getTransQueue c1.scheduleQueue = pre ++ t :: post ∧
        ((c1.is_unified_queue_ = false ∧ t.is_write = true ∧
            0 < mmCount c1.pending_rd_q_ t.addr ∧
            c1.scheduleFrom = { c1 with write_draining_ := 0 }) ∨
          ((c1.is_unified_queue_ = false ∧ t.is_write = true →
              mmCount c1.pending_rd_q_ t.addr = 0) ∧
            c1.scheduleFrom =
              ({ c1 with
                  write_draining_ :=
                    if c1.is_unified_queue_ = false ∧ t.is_write = true then
                      c1.write_draining_ - 1
                    else c1.write_draining_
                  cmd_queue_ :=
                    (c1.cmd_queue_.AddCommand c1.config_ (c1.TransToCommand t)).2 }
                : Controller ρ).setTransQueue c1.scheduleQueue (pre ++ post))) := by
  cases hfa : c1.firstAcceptable [] (c1.getTransQueue c1.scheduleQueue) with
  | none =>
    left
    refine ⟨rfl, ?_⟩
    unfold Controller.scheduleFrom
    simp only [hfa]
  | some r =>
    obtain ⟨pre, t, post⟩ := r
    right
    obtain ⟨mid, h1, h2, _, _⟩ := Controller.firstAcceptable_decomp _ _ _ _ _ _ hfa
    simp only [List.nil_append] at h1
    subst h1
    refine ⟨pre, t, post, rfl, h2, ?_⟩
    have hw := (Controller.TransToCommand_kind c1 t).2.2.1
    unfold Controller.scheduleFrom
    simp only [hfa, hw]
    by_cases hc : c1.is_unified_queue_ = false ∧ t.is_write = true
    · rw [if_pos hc]
      by_cases hp : mmCount c1.pending_rd_q_ t.addr > 0
      · rw [if_pos hp]
        exact Or.inl ⟨hc.1, hc.2, hp, rfl⟩
      · rw [if_neg hp]
        right
        refine ⟨fun _ => by omega, ?_⟩
        rw [if_pos hc]
    · rw [if_neg hc]
      right
      refine ⟨fun h => absurd h hc, ?_⟩
      rw [if_neg hc]

theorem Controller.updateWriteDraining_frame {ρ : Type} (c : Controller ρ) :
    c.updateWriteDraining = { c with write_draining_ := c.updateWriteDraining.write_draining_ } := by
  unfold Controller.updateWriteDraining
  split_ifs <;> rfl

theorem Controller.setTransQueue_get {ρ : Type} (c : Controller ρ)
    (q : Controller.TransQueue) (l : List Transaction) :
    (c.setTransQueue q l).getTransQueue q = l ∧
      (∀ q2, q2 ≠ q → (c.setTransQueue q l).getTransQueue q2 = c.getTransQueue q2) ∧
      (c.setTransQueue q l).cmd_queue_ = c.cmd_queue_ ∧
      (c.setTransQueue q l).write_draining_ = c.write_draining_ ∧
      (c.setTransQueue q l).pending_rd_q_ = c.pending_rd_q_ ∧
      (c.setTransQueue q l).pending_wr_q_ = c.pending_wr_q_ ∧
      (c.setTransQueue q l).channel_state_ = c.channel_state_ ∧
      (c.setTransQueue q l).is_unified_queue_ = c.is_unified_queue_ := by
  refine ⟨by cases q <;> rfl, ?_, by cases q <;> rfl, by cases q <;> rfl, by cases q <;> rfl,
    by cases q <;> rfl, by cases q <;> rfl, by cases q <;> rfl⟩
  intro q2 h
  cases q <;> cases q2 <;> first | rfl | exact absurd rfl h

/-- C32: with split queues, when the first transaction of the selected queue
that the command queue would accept is a write and `pending_rd_q_` holds a read
of its address, `ScheduleTransaction` only sets `write_draining_` to 0: the
write buffer, the read queue, the command queue and the pending queues are as
before, so nothing is scheduled in that cycle.  Hence a call that changes the
command queue or the write buffer found no pending read for the address of that
write. -/
theorem Controller.ScheduleTransaction_holds_write_behind_pending_read {ρ : Type}
    (c : Controller ρ) (pre post : List Transaction) (t : Transaction)
    (hu : c.is_unified_queue_ = false)
    (hfa : c.updateWriteDraining.firstAcceptable []
      (c.updateWriteDraining.getTransQueue c.updateWriteDraining.scheduleQueue) =
        some (pre, t, post))
    (hw : t.is_write = true) :
    (0 < mmCount c.pending_rd_q_ t.addr →
      c.ScheduleTransaction = { c with write_draining_ := 0 } ∧
      c.ScheduleTransaction.write_draining_ = 0 ∧
      c.ScheduleTransaction.write_buffer_ = c.write_buffer_ ∧
      c.ScheduleTransaction.read_queue_ = c.read_queue_ ∧
      c.ScheduleTransaction.cmd_queue_ = c.cmd_queue_) ∧
    (c.ScheduleTransaction.cmd_queue_ ≠ c.cmd_queue_ ∨
        c.ScheduleTransaction.write_buffer_ ≠ c.write_buffer_ →
      mmCount c.pending_rd_q_ t.addr = 0) := by
  have hfr := Controller.updateWriteDraining_frame c
  have key : 0 < mmCount c.pending_rd_q_ t.addr →
      c.ScheduleTransaction = { c with write_draining_ := 0 } := by
    intro hp
    have e : c.ScheduleTransaction = c.updateWriteDraining.scheduleFrom := rfl
    rw [e]
    rcases Controller.scheduleFrom_cases c.updateWriteDraining with ⟨h1, _⟩ | h
    · rw [hfa] at h1
      simp at h1
    · obtain ⟨pre1, t1, post1, h1, _, h3⟩ := h
      rw [hfa] at h1
      simp only [Option.some.injEq, Prod.mk.injEq] at h1
      obtain ⟨rfl, rfl, rfl⟩ := h1
      have hpr : c.updateWriteDraining.pending_rd_q_ = c.pending_rd_q_ := by rw [hfr]
      have hun : c.updateWriteDraining.is_unified_queue_ = false := by rw [hfr]; exact hu
      rcases h3 with ⟨_, _, _, h4⟩ | ⟨h4, _⟩
      · rw [h4, hfr]
      · have := h4 ⟨hun, hw⟩
        rw [hpr] at this
        omega
  refine ⟨fun hp => ?_, fun hch => ?_⟩
  · have e := key hp
    rw [e]
    exact ⟨rfl, rfl, rfl, rfl, rfl⟩
  · by_contra hne
    have e := key (by omega)
    rw [e] at hch
    rcases hch with h | h <;> exact h rfl

theorem Controller.ScheduleTransaction_holds_write_behind_pending_read_witness :
    (({ sampleController with
          write_draining_ := 1, pending_rd_q_ := [(2748, ⟨2748, 1, 0, false⟩)] }
        : Controller Unit).ScheduleTransaction.write_draining_ = 0 ∧
      ({ sampleController with
          write_draining_ := 1, pending_rd_q_ := [(2748, ⟨2748, 1, 0, false⟩)] }
        : Controller Unit).ScheduleTransaction.write_buffer_ = [⟨2748, 0, 0, true⟩] ∧
      ({ sampleController with
          write_draining_ := 1, pending_rd_q_ := [(2748, ⟨2748, 1, 0, false⟩)] }
        : Controller Unit).ScheduleTransaction.cmd_queue_ = sampleController.cmd_queue_) ∧
      (({ sampleController with write_draining_ := 1 }
          : Controller Unit).ScheduleTransaction.write_buffer_ ≠ [⟨2748, 0, 0, true⟩] ∧
        mmCount ({ sampleController with write_draining_ := 1 }
          : Controller Unit).pending_rd_q_ 2748 = 0) :=
  have h := (Controller.ScheduleTransaction_holds_write_behind_pending_read
    ({ sampleController with
        write_draining_ := 1, pending_rd_q_ := [(2748, ⟨2748, 1, 0, false⟩)] }
      : Controller Unit) [] [] ⟨2748, 0, 0, true⟩ rfl (by decide) rfl).1 (by decide)
  ⟨⟨h.2.1, h.2.2.1, h.2.2.2.2⟩, by decide, by decide⟩

theorem CommandQueue.AddCommand_of_accept (cq : CommandQueue) (config : Config)
    (cmd : Command)
    (h : cq.WillAcceptCommand config cmd.Rank cmd.Bankgroup cmd.Bank = true) :
    (cq.AddCommand config cmd).2 =
      { cq with
          queues_ := cq.queues_.set (cq.GetQueueIndex config cmd.Rank cmd.Bankgroup cmd.Bank).toNat
            (cq.queues_.getD (cq.GetQueueIndex config cmd.Rank cmd.Bankgroup cmd.Bank).toNat []
              ++ [cmd])
          rank_q_empty := cq.rank_q_empty.set cmd.Rank.toNat false } := by
  unfold CommandQueue.WillAcceptCommand CommandQueue.GetQueue at h
  unfold CommandQueue.AddCommand
  dsimp only
  rw [if_pos (by simpa using h)]

/-- C33: a call of `ScheduleTransaction` either leaves the three transaction
queues and the command queue as they were, or moves exactly one transaction:
the selected queue is `pre ++ t :: post` where the command queue accepts the
command of `t` and of no entry of `pre`; afterwards the selected queue is
`pre ++ post`, the other transaction queues are unchanged, and the command
queues differ only in the queue selected by the address of `t`, which has the
command of `t` appended.  That command carries the mapped address and the hex
address of `t`, and is of the WRITE family exactly when `t` is a write and of
the READ family otherwise. -/
theorem Controller.ScheduleTransaction_moves_first_acceptable {ρ : Type}
    (c : Controller ρ) :
    (c.ScheduleTransaction.cmd_queue_ = c.cmd_queue_ ∧
        c.ScheduleTransaction.unified_queue_ = c.unified_queue_ ∧
        c.ScheduleTransaction.read_queue_ = c.read_queue_ ∧
        c.ScheduleTransaction.write_buffer_ = c.write_buffer_) ∨
      ∃ pre t post,
        c.getTransQueue c.updateWriteDraining.scheduleQueue = pre ++ t :: post ∧
        (∀ x ∈ pre, c.cmd_queue_.WillAcceptCommand c.config_ (c.TransToCommand x).Rank
          (c.TransToCommand x).Bankgroup (c.TransToCommand x).Bank = false) ∧
        c.cmd_queue_.WillAcceptCommand c.config_ (c.TransToCommand t).Rank
          (c.TransToCommand t).Bankgroup (c.TransToCommand t).Bank = true ∧
        c.ScheduleTransaction.getTransQueue c.updateWriteDraining.scheduleQueue =
          pre ++ post ∧
        (∀ q2, q2 ≠ c.updateWriteDraining.scheduleQueue →
          c.ScheduleTransaction.getTransQueue q2 = c.getTransQueue q2) ∧
        c.ScheduleTransaction.cmd_queue_.queues_ =
          c.cmd_queue_.queues_.set
            (c.cmd_queue_.GetQueueIndex c.config_ (c.TransToCommand t).Rank
              (c.TransToCommand t).Bankgroup (c.TransToCommand t).Bank).toNat
            (c.cmd_queue_.GetQueue c.config_ (c.TransToCommand t).Rank
              (c.TransToCommand t).Bankgroup (c.TransToCommand t).Bank ++
                [c.TransToCommand t]) ∧
        (c.TransToCommand t).hex_addr = t.addr ∧
        (c.TransToCommand t).addr = c.config_.AddressMapping t.addr ∧
        (c.TransToCommand t).IsWrite = t.is_write ∧
        (c.TransToCommand t).IsRead = !t.is_write := by
  have hfr := Controller.updateWriteDraining_frame c
  have e : c.ScheduleTransaction = c.updateWriteDraining.scheduleFrom := rfl
  have hq : ∀ q, c.updateWriteDraining.getTransQueue q = c.getTransQueue q := by
    intro q
    rw [hfr]
    cases q <;> rfl
  have hcq : c.updateWriteDraining.cmd_queue_ = c.cmd_queue_ := by rw [hfr]
  have hcf : c.updateWriteDraining.config_ = c.config_ := by rw [hfr]
  have htc : ∀ x, c.updateWriteDraining.TransToCommand x = c.TransToCommand x := by
    intro x
    rw [hfr]
    rfl
  rcases Controller.scheduleFrom_cases c.updateWriteDraining with ⟨_, h1⟩ | h
  · left
    rw [e, h1, hfr]
    exact ⟨rfl, rfl, rfl, rfl⟩
  · obtain ⟨pre, t, post, h1, h2, h3⟩ := h
    rcases h3 with ⟨_, _, _, h4⟩ | ⟨_, h4⟩
    · left
      rw [e, h4, hfr]
      exact ⟨rfl, rfl, rfl, rfl⟩
    · right
      obtain ⟨mid, g1, _, g3, g4⟩ := Controller.firstAcceptable_decomp _ _ _ _ _ _ h1
      simp only [List.nil_append] at g1
      subst g1
      simp only [htc, hcq, hcf] at g3 g4
      rw [hq] at h2
      obtain ⟨s1, s2, s3, _⟩ := Controller.setTransQueue_get
        ({ c.updateWriteDraining with
            write_draining_ :=
              if c.updateWriteDraining.is_unified_queue_ = false ∧ t.is_write = true then
                c.updateWriteDraining.write_draining_ - 1
              else c.updateWriteDraining.write_draining_
            cmd_queue_ :=
              (c.updateWriteDraining.cmd_queue_.AddCommand c.updateWriteDraining.config_
                (c.updateWriteDraining.TransToCommand t)).2 } : Controller ρ)
        c.updateWriteDraining.scheduleQueue (pre ++ post)
      rw [← h4, ← e] at s1 s2 s3
      refine ⟨pre, t, post, h2, g3, g4, s1, ?_, ?_, Controller.TransToCommand_kind c t⟩
      · intro q2 hq2
        rw [s2 q2 hq2, ← hq q2]
        cases q2 <;> rfl
      · rw [s3]
        simp only [htc, hcq, hcf]
        rw [CommandQueue.AddCommand_of_accept _ _ _ g4]
        rfl

theorem Controller.ScheduleTransaction_moves_first_acceptable_witness :
    sampleController.ScheduleTransaction.read_queue_ = [] ∧
      sampleController.ScheduleTransaction.write_buffer_ = [⟨2748, 0, 0, true⟩] ∧
      sampleController.ScheduleTransaction.cmd_queue_.queues_ =
        [[], [], [], [], [⟨CommandType.READ, ⟨0, 0, 1, 0, 0, 0⟩, 64⟩], [], [], []] ∧
      ∃ pre t post,
        sampleController.getTransQueue sampleController.updateWriteDraining.scheduleQueue =
          pre ++ t :: post ∧
        sampleController.ScheduleTransaction.getTransQueue
          sampleController.updateWriteDraining.scheduleQueue = pre ++ post :=
  ⟨by decide, by decide, by decide,
    (Controller.ScheduleTransaction_moves_first_acceptable sampleController).elim
      (fun h => absurd h.2.2.1 (by decide))
      (fun ⟨pre, t, post, h1, _, _, h4, _⟩ => ⟨pre, t, post, h1, h4⟩)⟩

/-! ## Theorems: the write-draining counter -/

theorem Controller.DrainBounded_of_front {ρ : Type} (c c1 : Controller ρ)
    (h : c1.front = c.front) (hb : c.DrainBounded) : c1.DrainBounded := by
  obtain ⟨_, _, h3, _, _, h6, _, h8, _, h10⟩ := Controller.front_eq c c1 h
  unfold Controller.DrainBounded
  rw [h3, h6, h8, h10]
  exact hb

theorem Controller.AddTransaction_queues {ρ : Type} (c : Controller ρ) (trans : Transaction) :
    (c.AddTransaction trans).2.write_draining_ = c.write_draining_ ∧
      (c.AddTransaction trans).2.is_unified_queue_ = c.is_unified_queue_ ∧
      ((c.AddTransaction trans).2.read_queue_ = c.read_queue_ ∨
        ∃ t, t.is_write = false ∧ (c.AddTransaction trans).2.read_queue_ = c.read_queue_ ++ [t]) ∧
      ((c.AddTransaction trans).2.write_buffer_ = c.write_buffer_ ∨
        ∃ t, t.is_write = true ∧
          (c.AddTransaction trans).2.write_buffer_ = c.write_buffer_ ++ [t]) := by
  unfold Controller.AddTransaction
  dsimp only
  by_cases hw : trans.is_write = true
  · rw [if_pos hw]
    split_ifs <;>
      first
        | exact ⟨rfl, rfl, Or.inl rfl, Or.inl rfl⟩
        | exact ⟨rfl, rfl, Or.inl rfl, Or.inr ⟨{ trans with added_cycle := c.clk_ }, hw, rfl⟩⟩
  · rw [if_neg hw]
    have hw2 : trans.is_write = false := by simpa using hw
    split_ifs <;>
      first
        | exact ⟨rfl, rfl, Or.inl rfl, Or.inl rfl⟩
        | exact ⟨rfl, rfl, Or.inr ⟨{ trans with added_cycle := c.clk_ }, hw2, rfl⟩, Or.inl rfl⟩

theorem Controller.AddTransaction_bounded {ρ : Type} (c : Controller ρ) (trans : Transaction)
    (hb : c.DrainBounded) : (c.AddTransaction trans).2.DrainBounded := by
  obtain ⟨h1, h2, h3, h4⟩ := Controller.AddTransaction_queues c trans
  obtain ⟨b1, b2, b3, b4, b5⟩ := hb
  unfold Controller.DrainBounded
  rw [h1, h2]
  refine ⟨?_, ?_, b3, ?_, b5⟩
  · rcases h3 with e | ⟨t, ht, e⟩ <;> rw [e]
    · exact b1
    · intro x hx
      rcases List.mem_append.mp hx with hx | hx
      · exact b1 x hx
      · simp only [List.mem_singleton] at hx
        rw [hx]
        exact ht
  · rcases h4 with e | ⟨t, ht, e⟩ <;> rw [e]
    · exact b2
    · intro x hx
      rcases List.mem_append.mp hx with hx | hx
      · exact b2 x hx
      · simp only [List.mem_singleton] at hx
        rw [hx]
        exact ht
  · rcases h4 with e | ⟨t, ht, e⟩ <;> rw [e]
    · exact b4
    · simp only [List.length_append, List.length_singleton, Nat.cast_add, Nat.cast_one]
      omega

theorem Controller.init_bounded {ρ : Type} (channel : Int) (config : Config)
    (channel_state : ChannelState) (refresh : ρ) (c : Controller ρ)
    (h : Controller.init channel config channel_state refresh = some c) :
    c.DrainBounded ∧ c.write_draining_ = 0 := by
  unfold Controller.init at h
  split at h
  · simp at h
  · simp only [Option.some.injEq] at h
    subst h
    refine ⟨⟨?_, ?_, ?_, ?_, ?_⟩, rfl⟩ <;> simp

theorem Controller.ReturnDoneTrans_front {ρ : Type} (c : Controller ρ) (clk : Nat) :
    (c.ReturnDoneTrans clk).2.front = c.front := by
  rcases Controller.ReturnDoneTrans_cases c clk with ⟨h, _⟩ | ⟨pre, t, post, _, _, _, h⟩
  · rw [h]
  · rw [h]
    rfl

theorem Controller.updateWriteDraining_value {ρ : Type} (c : Controller ρ) :
    (c.updateWriteDraining.write_draining_ = c.write_draining_ ∨
      (c.write_draining_ = 0 ∧ c.is_unified_queue_ = false ∧
        c.updateWriteDraining.write_draining_ = (c.write_buffer_.length : Int))) ∧
      (c.write_draining_ ≠ 0 → c.updateWriteDraining.write_draining_ = c.write_draining_) := by
  unfold Controller.updateWriteDraining
  split_ifs with h1 h2
  · exact ⟨Or.inr ⟨h1.1, h1.2, rfl⟩, fun h => absurd h1.1 h⟩
  · exact ⟨Or.inl rfl, fun _ => rfl⟩
  · exact ⟨Or.inl rfl, fun _ => rfl⟩

/-- The outcomes of `ScheduleTransaction` on a controller within the bounds,
with `w` the value of `write_draining_` after the draining decision: nothing is
moved and the counter is `w` or 0; or draining is on, a write leaves the write
buffer and the counter drops by one; or draining is off and a read leaves the
read queue (split queues), or both queues are untouched (unified queue). -/
theorem Controller.ScheduleTransaction_drain {ρ : Type} (c : Controller ρ)
    (hb : c.DrainBounded) :
    (c.ScheduleTransaction.write_buffer_ = c.write_buffer_ ∧
        c.ScheduleTransaction.read_queue_ = c.read_queue_ ∧
        (c.ScheduleTransaction.write_draining_ = c.updateWriteDraining.write_draining_ ∨
          (c.is_unified_queue_ = false ∧ c.ScheduleTransaction.write_draining_ = 0))) ∨
      (c.is_unified_queue_ = false ∧ 0 < c.updateWriteDraining.write_draining_ ∧
        c.ScheduleTransaction.write_draining_ = c.updateWriteDraining.write_draining_ - 1 ∧
        c.ScheduleTransaction.read_queue_ = c.read_queue_ ∧
        ∃ pre t post, c.write_buffer_ = pre ++ t :: post ∧
          c.ScheduleTransaction.write_buffer_ = pre ++ post) ∨
      (c.is_unified_queue_ = false ∧ c.updateWriteDraining.write_draining_ = 0 ∧
        c.ScheduleTransaction.write_draining_ = 0 ∧
        c.ScheduleTransaction.write_buffer_ = c.write_buffer_ ∧
        ∃ pre t post, c.read_queue_ = pre ++ t :: post ∧
          c.ScheduleTransaction.read_queue_ = pre ++ post) := by
  obtain ⟨b1, b2, b3, b4, b5⟩ := hb
  have hfr := Controller.updateWriteDraining_frame c
  have e : c.ScheduleTransaction = c.updateWriteDraining.scheduleFrom := rfl
  have hq : ∀ q, c.updateWriteDraining.getTransQueue q = c.getTransQueue q := by
    intro q
    rw [hfr]
    cases q <;> rfl
  have hun : c.updateWriteDraining.is_unified_queue_ = c.is_unified_queue_ := by rw [hfr]
  have hrq : c.updateWriteDraining.read_queue_ = c.read_queue_ := by rw [hfr]
  have hwb : c.updateWriteDraining.write_buffer_ = c.write_buffer_ := by rw [hfr]
  have hw0 : 0 ≤ c.updateWriteDraining.write_draining_ := by
    rcases (Controller.updateWriteDraining_value c).1 with h | ⟨_, _, h⟩ <;> rw [h]
    · exact b3
    · exact Int.ofNat_nonneg _
  rcases Controller.scheduleFrom_cases c.updateWriteDraining with ⟨_, h1⟩ | h
  · left
    rw [e, h1]
    exact ⟨hwb, hrq, Or.inl rfl⟩
  · obtain ⟨pre, t, post, _, h2, h3⟩ := h
    rcases h3 with ⟨g1, _, _, h4⟩ | ⟨_, h4⟩
    · left
      rw [e, h4]
      exact ⟨hwb, hrq, Or.inr ⟨hun ▸ g1, rfl⟩⟩
    · obtain ⟨s1, s2, _, s4, _⟩ := Controller.setTransQueue_get
        ({ c.updateWriteDraining with
            write_draining_ :=
              if c.updateWriteDraining.is_unified_queue_ = false ∧ t.is_write = true then
                c.updateWriteDraining.write_draining_ - 1
              else c.updateWriteDraining.write_draining_
            cmd_queue_ :=
              (c.updateWriteDraining.cmd_queue_.AddCommand c.updateWriteDraining.config_
                (c.updateWriteDraining.TransToCommand t)).2 } : Controller ρ)
        c.updateWriteDraining.scheduleQueue (pre ++ post)
      rw [← h4, ← e] at s1 s2 s4
      dsimp only at s4
      rw [hq] at h2
      by_cases hu : c.is_unified_queue_ = true
      · left
        have hsq : c.updateWriteDraining.scheduleQueue = Controller.TransQueue.unified := by
          unfold Controller.scheduleQueue
          rw [if_pos (hun ▸ hu)]
        have r1 := s2 Controller.TransQueue.writeBuffer (by rw [hsq]; decide)
        have r2 := s2 Controller.TransQueue.readQueue (by rw [hsq]; decide)
        refine ⟨by simpa [Controller.getTransQueue, hwb] using r1,
          by simpa [Controller.getTransQueue, hrq] using r2, Or.inl ?_⟩
        rw [s4, if_neg (by rw [hun, hu]; simp)]
      · have hu2 : c.is_unified_queue_ = false := by simpa using hu
        right
        by_cases hd : c.updateWriteDraining.write_draining_ > 0
        · left
          have hsq : c.updateWriteDraining.scheduleQueue =
              Controller.TransQueue.writeBuffer := by
            unfold Controller.scheduleQueue
            rw [if_neg (by rw [hun, hu2]; simp), if_pos hd]
          rw [hsq] at h2 s1 s2
          have r2 := s2 Controller.TransQueue.readQueue (by decide)
          have ht : t.is_write = true := b2 t (by
            have : c.write_buffer_ = pre ++ t :: post := h2
            rw [this]
            simp)
          refine ⟨hu2, hd, ?_, by simpa [Controller.getTransQueue, hrq] using r2,
            pre, t, post, h2, s1⟩
          rw [s4, if_pos ⟨by rw [hun, hu2], ht⟩]
        · right
          have hd0 : c.updateWriteDraining.write_draining_ = 0 := by omega
          have hsq : c.updateWriteDraining.scheduleQueue =
              Controller.TransQueue.readQueue := by
            unfold Controller.scheduleQueue
            rw [if_neg (by rw [hun, hu2]; simp), if_neg hd]
          rw [hsq] at h2 s1 s2
          have r1 := s2 Controller.TransQueue.writeBuffer (by decide)
          have ht : t.is_write = false := b1 t (by
            have : c.read_queue_ = pre ++ t :: post := h2
            rw [this]
            simp)
          refine ⟨hu2, hd0, ?_, by simpa [Controller.getTransQueue, hwb] using r1,
            pre, t, post, h2, s1⟩
          rw [s4, if_neg (by rw [ht]; simp), hd0]

theorem Controller.ScheduleTransaction_bounded {ρ : Type} (c : Controller ρ)
    (hb : c.DrainBounded) : c.ScheduleTransaction.DrainBounded := by
  have hv := Controller.updateWriteDraining_value c
  have hun : c.ScheduleTransaction.is_unified_queue_ = c.is_unified_queue_ :=
    (Controller.ScheduleTransaction_shape c).2.2.2.1
  obtain ⟨b1, b2, b3, b4, b5⟩ := hb
  unfold Controller.DrainBounded
  rw [hun]
  rcases Controller.ScheduleTransaction_drain c ⟨b1, b2, b3, b4, b5⟩ with
    ⟨h1, h2, h3⟩ | ⟨hu, h1, h2, h3, pre, t, post, h4, h5⟩ |
    ⟨hu, h1, h2, h3, pre, t, post, h4, h5⟩
  · rw [h1, h2]
    refine ⟨b1, b2, ?_, ?_, ?_⟩
    · rcases h3 with h | ⟨_, h⟩
      · rcases hv.1 with g | ⟨_, _, g⟩
        · omega
        · omega
      · omega
    · rcases h3 with h | ⟨_, h⟩
      · rcases hv.1 with g | ⟨_, _, g⟩
        · omega
        · omega
      · omega
    · intro hu
      rcases h3 with h | ⟨h, _⟩
      · rw [h]
        rcases hv.1 with g | ⟨_, g, _⟩
        · rw [g]
          exact b5 hu
        · rw [hu] at g
          exact absurd g (by decide)
      · rw [hu] at h
        exact absurd h (by decide)
  · rw [h2, h3, h5]
    have hlen : c.write_buffer_.length = (pre ++ post).length + 1 := by
      rw [h4]
      simp only [List.length_append, List.length_cons]
      omega
    have hle : c.updateWriteDraining.write_draining_ ≤ (c.write_buffer_.length : Int) := by
      rcases hv.1 with g | ⟨_, _, g⟩ <;> rw [g]
      exact b4
    refine ⟨b1, ?_, by omega, ?_, ?_⟩
    · intro x hx
      apply b2
      rw [h4]
      rcases List.mem_append.mp hx with hx | hx
      · exact List.mem_append.mpr (Or.inl hx)
      · exact List.mem_append.mpr (Or.inr (List.mem_cons_of_mem _ hx))
    · rw [hlen] at hle
      push_cast at hle
      omega
    · intro h
      rw [hu] at h
      exact absurd h (by decide)
  · rw [h2, h3, h5]
    refine ⟨?_, b2, le_refl _, Int.ofNat_nonneg _, fun _ => rfl⟩
    intro x hx
    apply b1
    rw [h4]
    rcases List.mem_append.mp hx with hx | hx
    · exact List.mem_append.mpr (Or.inl hx)
    · exact List.mem_append.mpr (Or.inr (List.mem_cons_of_mem _ hx))

theorem Controller.ClockTick_schedule {ρ : Type} (env : Collaborators ρ)
    (c c1 : Controller ρ) (h : c.ClockTick env = some c1) :
    ∃ c6 : Controller ρ, c6.front = c.front ∧
      c1.write_draining_ = c6.ScheduleTransaction.write_draining_ ∧
      c1.write_buffer_ = c6.ScheduleTransaction.write_buffer_ ∧
      c1.read_queue_ = c6.ScheduleTransaction.read_queue_ ∧
      c1.is_unified_queue_ = c6.ScheduleTransaction.is_unified_queue_ := by
  obtain ⟨c6, h1, h2, _, _⟩ := Controller.ClockTick_decomp env c c1 h
  obtain ⟨_, _, g3, _, _, g6, _, g8, _, g10⟩ := Controller.front_eq _ _ h2
  exact ⟨c6, Controller.Issued_front c c6 h1, g10, g8, g6, g3⟩

theorem Controller.ClockTick_bounded {ρ : Type} (env : Collaborators ρ)
    (c c1 : Controller ρ) (h : c.ClockTick env = some c1) (hb : c.DrainBounded) :
    c1.DrainBounded := by
  obtain ⟨c6, h1, h2, h3, h4, h5⟩ := Controller.ClockTick_schedule env c c1 h
  have := Controller.ScheduleTransaction_bounded c6 (Controller.DrainBounded_of_front c c6 h1 hb)
  unfold Controller.DrainBounded at this ⊢
  rw [h2, h3, h4, h5]
  exact this

/-- C39: in every controller state reachable from the constructed controller
by `AddTransaction`, `ClockTick` and `ReturnDoneTrans` calls, `write_draining_`
is at least 0 and at most the number of entries of the write buffer, and it is
0 with a unified queue; hence the write buffer is not empty whenever
`write_draining_` is positive. -/
theorem Controller.write_draining_within_write_buffer {ρ : Type} (env : Collaborators ρ)
    (c : Controller ρ) (h : Controller.Reachable env c) :
    0 ≤ c.write_draining_ ∧ c.write_draining_ ≤ (c.write_buffer_.length : Int) ∧
      (c.is_unified_queue_ = true → c.write_draining_ = 0) ∧
      (0 < c.write_draining_ → c.write_buffer_ ≠ []) := by
  have hb : c.DrainBounded := by
    induction h with
    | init channel config channel_state refresh c hc =>
      exact (Controller.init_bounded channel config channel_state refresh c hc).1
    | addTransaction c trans _ ih => exact Controller.AddTransaction_bounded c trans ih
    | clockTick c c1 _ ht ih => exact Controller.ClockTick_bounded env c c1 ht ih
    | returnDoneTrans c clk _ ih =>
      exact Controller.DrainBounded_of_front c _ (Controller.ReturnDoneTrans_front c clk) ih
  obtain ⟨_, _, b3, b4, b5⟩ := hb
  refine ⟨b3, b4, b5, ?_⟩
  intro hpos hnil
  rw [hnil] at b4
  simp only [List.length_nil, Nat.cast_zero] at b4
  omega

theorem sampleSmallInitial_eq :
    Controller.init 0 sampleSmallQueueConfig sampleChannelState () = some sampleSmallInitial :=
  rfl

set_option maxRecDepth 100000 in
theorem sampleDrainEngaged_eq :
    sampleDrainStart.ClockTick sampleCollaborators = some sampleDrainEngaged := rfl

set_option maxRecDepth 100000 in
theorem sampleDrainAfter_eq :
    sampleDrainBefore.ClockTick sampleCollaborators = some sampleDrainAfter := rfl

theorem sampleDrainEngaged_reachable :
    Controller.Reachable sampleCollaborators sampleDrainEngaged :=
  Controller.Reachable.clockTick _ _
    (Controller.Reachable.addTransaction _ _
      (Controller.Reachable.addTransaction _ _
        (Controller.Reachable.init 0 sampleSmallQueueConfig sampleChannelState ()
          sampleSmallInitial sampleSmallInitial_eq))) sampleDrainEngaged_eq

set_option maxRecDepth 100000 in
theorem Controller.write_draining_within_write_buffer_witness :
    (sampleDrainEngaged.write_draining_ = 1 ∧ sampleDrainEngaged.write_buffer_.length = 1) ∧
      0 ≤ sampleDrainEngaged.write_draining_ ∧
      sampleDrainEngaged.write_draining_ ≤ (sampleDrainEngaged.write_buffer_.length : Int) ∧
      (sampleDrainEngaged.is_unified_queue_ = true → sampleDrainEngaged.write_draining_ = 0) ∧
      (0 < sampleDrainEngaged.write_draining_ → sampleDrainEngaged.write_buffer_ ≠ []) :=
  ⟨⟨rfl, rfl⟩,
    Controller.write_draining_within_write_buffer sampleCollaborators sampleDrainEngaged
      sampleDrainEngaged_reachable⟩

theorem Controller.ScheduleTransaction_count {ρ : Type} (d : Controller ρ) (n : Nat)
    (hb : d.DrainBounded)
    (hn : 0 < d.write_draining_ → (d.write_buffer_.length : Int) = d.write_draining_ + n) :
    (0 < d.ScheduleTransaction.write_draining_ →
        (d.ScheduleTransaction.write_buffer_.length : Int) =
          d.ScheduleTransaction.write_draining_ + (if d.write_draining_ = 0 then 0 else n : Nat)) ∧
      (0 < d.write_draining_ → d.ScheduleTransaction.read_queue_ = d.read_queue_) ∧
      (d.ScheduleTransaction.write_buffer_.length < d.write_buffer_.length →
        d.ScheduleTransaction.read_queue_ = d.read_queue_) ∧
      (d.ScheduleTransaction.write_draining_ = 0 →
        d.ScheduleTransaction.write_buffer_.length < d.write_buffer_.length →
        d.ScheduleTransaction.write_buffer_.length = if d.write_draining_ = 0 then 0 else n) := by
  have hv := Controller.updateWriteDraining_value d
  have hb' := hb
  obtain ⟨_, _, b3, b4, b5⟩ := hb
  rcases Controller.ScheduleTransaction_drain d hb' with
    ⟨h1, h2, h3⟩ | ⟨hu, h1, h2, h3, pre, t, post, h4, h5⟩ |
    ⟨hu, h1, h2, h3, pre, t, post, h4, h5⟩
  · rw [h1]
    refine ⟨?_, fun _ => h2, fun _ => h2, fun _ hlt => absurd hlt (lt_irrefl _)⟩
    intro hpos
    by_cases h0 : d.write_draining_ = 0
    · rw [if_pos h0]
      rcases h3 with h | ⟨_, h⟩
      · rcases hv.1 with g | ⟨_, _, g⟩
        · omega
        · rw [h, g]
          simp
      · omega
    · rw [if_neg h0]
      have g := hv.2 h0
      rcases h3 with h | ⟨_, h⟩
      · have := hn (by omega)
        omega
      · omega
  · have hlen : d.write_buffer_.length = d.ScheduleTransaction.write_buffer_.length + 1 := by
      rw [h4, h5]
      simp only [List.length_append, List.length_cons]
      omega
    refine ⟨?_, fun _ => h3, fun _ => h3, ?_⟩
    · intro hpos
      by_cases h0 : d.write_draining_ = 0
      · rw [if_pos h0]
        rcases hv.1 with g | ⟨_, _, g⟩
        · omega
        · push_cast
          omega
      · rw [if_neg h0]
        have g := hv.2 h0
        have := hn (by omega)
        omega
    · intro hz _
      by_cases h0 : d.write_draining_ = 0
      · rw [if_pos h0]
        rcases hv.1 with g | ⟨_, _, g⟩
        · omega
        · omega
      · rw [if_neg h0]
        have g := hv.2 h0
        have := hn (by omega)
        omega
  · rw [h3]
    refine ⟨fun hpos => by omega, fun hpos => ?_, fun hlt => absurd hlt (lt_irrefl _),
      fun _ hlt => absurd hlt (lt_irrefl _)⟩
    have g := hv.2 (by omega)
    omega

theorem Controller.DrainHistory_inv {ρ : Type} (env : Collaborators ρ) (c : Controller ρ)
    (n : Nat) (h : Controller.DrainHistory env c n) :
    c.DrainBounded ∧
      (0 < c.write_draining_ → (c.write_buffer_.length : Int) = c.write_draining_ + n) := by
  induction h with
  | init channel config channel_state refresh c hc =>
    obtain ⟨h1, h2⟩ := Controller.init_bounded channel config channel_state refresh c hc
    exact ⟨h1, fun hp => by omega⟩
  | addTransaction c trans n _ ih =>
    refine ⟨Controller.AddTransaction_bounded c trans ih.1, ?_⟩
    obtain ⟨h1, _, _, h4⟩ := Controller.AddTransaction_queues c trans
    rw [h1]
    intro hp
    have := ih.2 hp
    rcases h4 with e | ⟨t, _, e⟩ <;> rw [e]
    · simp only [Nat.sub_self, Nat.add_zero]
      exact this
    · simp only [List.length_append, List.length_singleton]
      push_cast
      omega
  | clockTick c c1 n _ ht ih =>
    refine ⟨Controller.ClockTick_bounded env c c1 ht ih.1, ?_⟩
    obtain ⟨c6, h1, h2, h3, _, _⟩ := Controller.ClockTick_schedule env c c1 ht
    obtain ⟨_, _, _, _, _, _, _, g8, _, g10⟩ := Controller.front_eq c c6 h1
    have hb6 := Controller.DrainBounded_of_front c c6 h1 ih.1
    have := (Controller.ScheduleTransaction_count c6 n hb6 (by rw [g8, g10]; exact ih.2)).1
    rw [h2, h3, ← g10]
    exact this
  | returnDoneTrans c clk n _ ih =>
    have hf := Controller.ReturnDoneTrans_front c clk
    obtain ⟨_, _, _, _, _, _, _, g8, _, g10⟩ := Controller.front_eq c _ hf
    refine ⟨Controller.DrainBounded_of_front c _ hf ih.1, ?_⟩
    rw [g8, g10]
    exact ih.2

set_option maxRecDepth 100000 in
/-- C31, counterexample: in the sample controller with two-entry transaction
queues the writes 0 and 512 are admitted at cycle 0 and draining engages with
`write_draining_ = 2` in the clock tick of cycle 0, which schedules the write
0.  The write 1024 is admitted at cycle 1 (every admission was allowed by
`WillAcceptTransaction`), so before the clock tick of cycle 1
`write_draining_` is 1 and the write buffer holds 512 and 1024.  No read is
pending, that clock tick moves the write 512 into the command queue and
`write_draining_` returns to 0, and the write buffer still holds the write
1024. -/
theorem Controller.write_buffer_not_empty_after_drain :
    [sampleSmallInitial.WillAcceptTransaction 0 true,
        (sampleSmallInitial.AddTransaction (Transaction.mk2 0 true)).2.WillAcceptTransaction
          512 true,
        sampleDrainEngaged.WillAcceptTransaction 1024 true] = [true, true, true] ∧
      sampleDrainBefore.ClockTick sampleCollaborators = some sampleDrainAfter ∧
      sampleDrainBefore.observeDrain =
        (1, [512, 1024], 0, [[0], [], [], [], [], [], [], []]) ∧
      sampleDrainAfter.observeDrain =
        (0, [1024], 0, [[0, 512], [], [], [], [], [], [], []]) ∧
      sampleDrainAfter.write_buffer_ ≠ [] := by
  refine ⟨?_, ?_, ?_, ?_, ?_⟩
  · rfl
  · rfl
  · rfl
  · rfl
  · decide

/-- C31, amended: along a run from the constructed controller, with `n` the
number of writes that entered the write buffer since write-draining last
engaged, the write buffer holds `write_draining_ + n` entries while
`write_draining_` is positive.  A clock tick that starts with
`write_draining_` positive, or that takes a write out of the write buffer,
leaves the read queue as it was.  When a clock tick takes a write out of the
write buffer and ends with `write_draining_ = 0`, the write buffer holds
exactly the writes that entered it since the engagement: `n` entries when the
tick started with draining on, none when draining engaged in that tick. -/
theorem Controller.drain_ends_with_later_writes {ρ : Type} (env : Collaborators ρ)
    (c c1 : Controller ρ) (n : Nat) (h : Controller.DrainHistory env c n)
    (ht : c.ClockTick env = some c1) :
    (0 < c.write_draining_ → (c.write_buffer_.length : Int) = c.write_draining_ + n) ∧
      (0 < c.write_draining_ → c1.read_queue_ = c.read_queue_) ∧
      (c1.write_buffer_.length < c.write_buffer_.length → c1.read_queue_ = c.read_queue_) ∧
      (c1.write_draining_ = 0 → c1.write_buffer_.length < c.write_buffer_.length →
        c1.write_buffer_.length = if c.write_draining_ = 0 then 0 else n) := by
  obtain ⟨hb, hn⟩ := Controller.DrainHistory_inv env c n h
  obtain ⟨c6, h1, h2, h3, h4, _⟩ := Controller.ClockTick_schedule env c c1 ht
  obtain ⟨_, _, _, _, _, g6, _, g8, _, g10⟩ := Controller.front_eq c c6 h1
  have hb6 := Controller.DrainBounded_of_front c c6 h1 hb
  have := Controller.ScheduleTransaction_count c6 n hb6 (by rw [g8, g10]; exact hn)
  rw [← h2, ← h3, ← h4, g6, g8, g10] at this
  exact ⟨hn, this.2.1, this.2.2.1, this.2.2.2⟩

set_option maxRecDepth 100000 in
theorem sampleDrainBefore_history :
    Controller.DrainHistory sampleCollaborators sampleDrainBefore 1 :=
  Controller.DrainHistory.addTransaction sampleDrainEngaged (Transaction.mk2 1024 true) 0
    (Controller.DrainHistory.clockTick sampleDrainStart sampleDrainEngaged 2
      (Controller.DrainHistory.addTransaction _ (Transaction.mk2 512 true) 1
        (Controller.DrainHistory.addTransaction _ (Transaction.mk2 0 true) 0
          (Controller.DrainHistory.init 0 sampleSmallQueueConfig sampleChannelState ()
            sampleSmallInitial sampleSmallInitial_eq)))
      sampleDrainEngaged_eq)

set_option maxRecDepth 100000 in
theorem Controller.drain_ends_with_later_writes_witness :
    (sampleDrainBefore.write_draining_ = 1 ∧ sampleDrainAfter.write_draining_ = 0 ∧
        sampleDrainAfter.write_buffer_.length = 1) ∧
      (0 < sampleDrainBefore.write_draining_ →
        (sampleDrainBefore.write_buffer_.length : Int) =
          sampleDrainBefore.write_draining_ + (1 : Nat)) ∧
      (0 < sampleDrainBefore.write_draining_ →
        sampleDrainAfter.read_queue_ = sampleDrainBefore.read_queue_) ∧
      (sampleDrainAfter.write_buffer_.length < sampleDrainBefore.write_buffer_.length →
        sampleDrainAfter.read_queue_ = sampleDrainBefore.read_queue_) ∧
      (sampleDrainAfter.write_draining_ = 0 →
        sampleDrainAfter.write_buffer_.length < sampleDrainBefore.write_buffer_.length →
        sampleDrainAfter.write_buffer_.length =
          if sampleDrainBefore.write_draining_ = 0 then 0 else 1) :=
  ⟨by refine ⟨?_, ?_, ?_⟩ <;> rfl,
    Controller.drain_ends_with_later_writes sampleCollaborators sampleDrainBefore
      sampleDrainAfter 1 sampleDrainBefore_history sampleDrainAfter_eq⟩

/-! ## Theorems: the erase of a returned data command -/

theorem CommandQueue.firstReadyFrom_none {ρ : Type} (env : Collaborators ρ) (clk : Nat)
    (q : List Command) : ∀ (pre : List Command) (cs : ChannelState),
      CommandQueue.firstReadyFrom env clk pre q cs = none →
      ∃ e ∈ q, ∃ csb, env.GetReadyCommand csb e clk = none := by
  induction q with
  | nil => intro pre cs h; simp [CommandQueue.firstReadyFrom] at h
  | cons x xs ih =>
    intro pre cs h
    unfold CommandQueue.firstReadyFrom at h
    split at h
    · rename_i hg
      exact ⟨x, List.mem_cons_self _ _, cs, hg⟩
    · have next : ∀ cs1, CommandQueue.firstReadyFrom env clk (pre ++ [x]) xs cs1 = none →
          ∃ e ∈ x :: xs, ∃ csb, env.GetReadyCommand csb e clk = none := by
        intro cs1 h1
        obtain ⟨e, he, r⟩ := ih _ _ h1
        exact ⟨e, List.mem_cons_of_mem _ he, r⟩
      split_ifs at h <;> exact next _ h

theorem CommandQueue.firstReadyFrom_source {ρ : Type} (env : Collaborators ρ) (clk : Nat)
    (q pre : List Command) (cs cs1 : ChannelState) (cmd : Command)
    (h : CommandQueue.firstReadyFrom env clk pre q cs = some (cmd, cs1))
    (hv : cmd.IsValid = true) :
    ∃ e ∈ q, ∃ csb, env.GetReadyCommand csb e clk = some (cmd, cs1) := by
  obtain ⟨mid, e, post, csb, h1, _, h3, _⟩ :=
    (CommandQueue.firstReadyFrom_decomp env clk q pre cs cs1 cmd h).1 hv
  exact ⟨e, by rw [h1]; simp, csb, h3⟩

theorem CommandQueue.EraseRWCommand_of_mem (cq : CommandQueue) (config : Config)
    (cmd e : Command)
    (he : e ∈ cq.queues_.getD (cq.GetQueueIndex config cmd.Rank cmd.Bankgroup cmd.Bank).toNat [])
    (hx : e.hex_addr = cmd.hex_addr) (ht : e.cmd_type = cmd.cmd_type) :
    ∃ cq1, cq.EraseRWCommand config cmd = some cq1 := by
  unfold CommandQueue.EraseRWCommand
  dsimp only
  rw [if_pos]
  · exact ⟨_, rfl⟩
  · rw [List.any_eq_true]
    exact ⟨e, he, by simp [hx, ht]⟩

theorem CommandQueue.mem_enum_of_mem_getD (qs : List (List Command)) (i : Nat) (e : Command)
    (he : e ∈ qs.getD i []) : (i, qs.getD i []) ∈ qs.enum ∧ qs.getD i [] ∈ qs := by
  have hi : i < qs.length := by
    by_contra hc
    rw [List.getD_eq_getElem?_getD, List.getElem?_eq_none (Nat.le_of_not_lt hc)] at he
    simp at he
  have e1 : qs.getD i [] = qs[i] := by
    rw [List.getD_eq_getElem?_getD, List.getElem?_eq_getElem hi]
    rfl
  rw [e1]
  refine ⟨?_, List.getElem_mem _⟩
  rw [List.mk_mem_enum_iff_getElem?]
  exact List.getElem?_eq_getElem hi

/-- The erase of a data command that the scan of the queue under the cursor
returned: with every entry in the queue its address selects, and every data
answer of `GetReadyCommand` equal to the request, `EraseRWCommand` finds it. -/
theorem CommandQueue.EraseRWCommand_of_first_ready {ρ : Type} (env : Collaborators ρ)
    (config : Config) (cq : CommandQueue) (cs cs1 : ChannelState) (cmd : Command)
    (hplace : ∀ p ∈ cq.queues_.enum, ∀ e ∈ p.2,
      (cq.GetQueueIndex config e.Rank e.Bankgroup e.Bank).toNat = p.1)
    (hans : ∀ q ∈ cq.queues_, ∀ e ∈ q, ∀ cs clk out cs1,
      env.GetReadyCommand cs e clk = some (out, cs1) → out.IsReadWrite = true → out = e)
    (h : cq.GetFirstReadyInQueue env cs (cq.queues_.getD cq.queue_idx_.toNat []) =
      some (cmd, cs1))
    (hrw : cmd.IsReadWrite = true) :
    ∃ cq2, cq.EraseRWCommand config cmd = some cq2 := by
  have hv : cmd.IsValid = true := by
    rcases cmd with ⟨k, a, hx⟩
    cases k <;> first | rfl | simp [Command.IsReadWrite, Command.IsRead, Command.IsWrite] at hrw
  unfold CommandQueue.GetFirstReadyInQueue at h
  obtain ⟨e, he, csb, hg⟩ := CommandQueue.firstReadyFrom_source env _ _ _ _ _ _ h hv
  obtain ⟨m1, m2⟩ := CommandQueue.mem_enum_of_mem_getD _ _ _ he
  have heq : cmd = e := hans _ m2 e he _ _ _ _ hg hrw
  have hidx := hplace _ m1 e he
  dsimp only at hidx
  subst heq
  exact CommandQueue.EraseRWCommand_of_mem cq config cmd cmd (by rw [hidx]; exact he) rfl rfl

theorem CommandQueue.issueLoop_returns {ρ : Type} (env : Collaborators ρ) (config : Config)
    (n : Nat) : ∀ (cq : CommandQueue) (cs : ChannelState),
      (∀ p ∈ cq.queues_.enum, ∀ e ∈ p.2,
        (cq.GetQueueIndex config e.Rank e.Bankgroup e.Bank).toNat = p.1) →
      (∀ q ∈ cq.queues_, ∀ e ∈ q, ∀ cs clk out cs1,
        env.GetReadyCommand cs e clk = some (out, cs1) → out.IsReadWrite = true → out = e) →
      (∀ q ∈ cq.queues_, ∀ e ∈ q, ∀ csb, env.GetReadyCommand csb e cq.clk_ ≠ none) →
      ∃ r, CommandQueue.issueLoop env config n cq cs = some r := by
  induction n with
  | zero => intro cq cs _ _ _; exact ⟨_, rfl⟩
  | succ n ih =>
    intro cq cs hplace hans htot
    have hq : cq.GetNextQueue.queues_ = cq.queues_ := rfl
    have hplace1 : ∀ p ∈ cq.GetNextQueue.queues_.enum, ∀ e ∈ p.2,
        (cq.GetNextQueue.GetQueueIndex config e.Rank e.Bankgroup e.Bank).toNat = p.1 := hplace
    unfold CommandQueue.issueLoop
    dsimp only
    split
    · exact ih cq.GetNextQueue cs hplace1 hans htot
    · cases hg : cq.GetNextQueue.GetFirstReadyInQueue env cs
          (cq.GetNextQueue.queues_.getD cq.GetNextQueue.queue_idx_.toNat []) with
      | none =>
        exfalso
        unfold CommandQueue.GetFirstReadyInQueue at hg
        obtain ⟨e, he, csb, hn⟩ := CommandQueue.firstReadyFrom_none env _ _ _ _ hg
        exact htot _ (CommandQueue.mem_enum_of_mem_getD _ _ _ he).2 e he csb hn
      | some r =>
        obtain ⟨cmd, cs1⟩ := r
        dsimp only
        split
        · split
          · rename_i hrw
            obtain ⟨cq2, h2⟩ := CommandQueue.EraseRWCommand_of_first_ready env config
              cq.GetNextQueue cs cs1 cmd hplace1 hans hg hrw
            rw [h2]
            exact ⟨_, rfl⟩
          · exact ⟨_, rfl⟩
        · exact ih cq.GetNextQueue cs1 hplace1 hans htot

theorem BankState.requiredType_data (b b1 : BankState) (cmd : Command) (k : CommandType)
    (h : b.requiredType cmd = some (k, b1)) (hk : isDataKind k = true) :
    k = cmd.cmd_type := by
  rcases b with ⟨s, tm, orow, rh, sv, se, pr, aw⟩
  rcases cmd with ⟨c, a, hx⟩
  by_cases hrow : a.row = orow <;>
    cases s <;> cases c <;>
      simp [BankState.requiredType, Command.Row, hrow] at h <;>
      (obtain ⟨rfl, _⟩ := h
       first
         | rfl
         | (simp [isDataKind] at hk))

theorem BankState.GetReadyCommand_data (b b1 : BankState) (cmd out : Command) (clk : Nat)
    (h : b.GetReadyCommand cmd clk = some (out, b1)) (hrw : out.IsReadWrite = true) :
    out = cmd := by
  cases hr : b.requiredType cmd with
  | none => simp [BankState.GetReadyCommand, hr] at h
  | some p =>
    obtain ⟨k, b2⟩ := p
    rw [BankState.GetReadyCommand_of_requiredType b b2 cmd clk k hr] at h
    simp only [Option.some.injEq, Prod.mk.injEq] at h
    obtain ⟨h1, _⟩ := h
    split_ifs at h1
    · subst h1
      have hk : isDataKind k = true := by
        cases k <;> first | rfl | simp [Command.IsReadWrite, Command.IsRead, Command.IsWrite] at hrw
      rw [BankState.requiredType_data b b2 cmd k hr hk]
    · subst h1
      simp [Command.IsReadWrite, Command.IsRead, Command.IsWrite, Command.invalid] at hrw

theorem sampleCollaborators_answers (cs cs1 : ChannelState) (req out : Command) (clk : Nat)
    (h : sampleCollaborators.GetReadyCommand cs req clk = some (out, cs1))
    (hrw : out.IsReadWrite = true) : out = req := by
  simp only [sampleCollaborators] at h
  split at h
  · simp at h
  · rename_i o b hg
    simp only [Option.some.injEq, Prod.mk.injEq] at h
    obtain ⟨rfl, _⟩ := h
    exact BankState.GetReadyCommand_data _ _ _ _ _ hg hrw

/-- C38: suppose every entry of the command queues sits in the queue that
`GetQueueIndex` selects for its address, as after `AddCommand`, and
`GetReadyCommand` answers every queue entry either with a command that is not
a data command or with the entry itself.  Then every call of `EraseRWCommand`
in `GetCommandToIssue`, which is made for a data command that the scan of the
queue under the cursor returned, wherever the cursor stands, finds the command
and does not exit; and `GetCommandToIssue` returns whenever no call of
`GetReadyCommand` for a queue entry exits. -/
theorem CommandQueue.GetCommandToIssue_finds_command_to_erase {ρ : Type}
    (env : Collaborators ρ) (config : Config) (cq : CommandQueue)
    (hplace : ∀ p ∈ cq.queues_.enum, ∀ e ∈ p.2,
      (cq.GetQueueIndex config e.Rank e.Bankgroup e.Bank).toNat = p.1)
    (hans : ∀ q ∈ cq.queues_, ∀ e ∈ q, ∀ cs clk out cs1,
      env.GetReadyCommand cs e clk = some (out, cs1) → out.IsReadWrite = true → out = e) :
    (∀ (cq1 : CommandQueue) (cs cs1 : ChannelState) (cmd : Command),
      cq1 = { cq with queue_idx_ := cq1.queue_idx_ } →
      cq1.GetFirstReadyInQueue env cs (cq1.queues_.getD cq1.queue_idx_.toNat []) =
        some (cmd, cs1) →
      cmd.IsReadWrite = true → ∃ cq2, cq1.EraseRWCommand config cmd = some cq2) ∧
    ((∀ q ∈ cq.queues_, ∀ e ∈ q, ∀ csb, env.GetReadyCommand csb e cq.clk_ ≠ none) →
      ∀ cs, ∃ r, cq.GetCommandToIssue env config cs = some r) := by
  refine ⟨?_, ?_⟩
  · intro cq1 cs cs1 cmd e1 hg hrw
    have hq : cq1.queues_ = cq.queues_ := by rw [e1]
    have hi : ∀ r g b, cq1.GetQueueIndex config r g b = cq.GetQueueIndex config r g b := by
      intro r g b
      rw [e1]
      rfl
    refine CommandQueue.EraseRWCommand_of_first_ready env config cq1 cs cs1 cmd ?_ ?_ hg hrw
    · intro p hp e he
      rw [hi]
      exact hplace p (hq ▸ hp) e he
    · intro q hq1 e he
      exact hans q (hq ▸ hq1) e he
  · intro htot cs
    exact CommandQueue.issueLoop_returns env config _ cq cs hplace hans htot

set_option maxRecDepth 100000 in
theorem CommandQueue.GetCommandToIssue_finds_command_to_erase_witness :
    sampleQueueWithRead.queues_ =
        [[⟨CommandType.READ, sampleConfig.AddressMapping 4096, 4096⟩], [], [], [], [], [],
          [], []] ∧
      (sampleQueueWithRead.GetCommandToIssue sampleCollaborators sampleConfig
          sampleController.channel_state_).map (fun r => (r.1, r.2.1.queues_)) =
        some (⟨CommandType.READ, sampleConfig.AddressMapping 4096, 4096⟩,
          [[], [], [], [], [], [], [], []]) ∧
      ∃ cq2, sampleQueueWithRead.EraseRWCommand sampleConfig
        ⟨CommandType.READ, sampleConfig.AddressMapping 4096, 4096⟩ = some cq2 :=
  ⟨by decide, by decide,
    (CommandQueue.GetCommandToIssue_finds_command_to_erase sampleCollaborators sampleConfig
      sampleQueueWithRead (by decide)
      (fun _ _ e _ cs clk out cs1 h hrw => sampleCollaborators_answers cs cs1 e out clk h hrw)).1
      sampleQueueWithRead sampleController.channel_state_ sampleController.channel_state_
      ⟨CommandType.READ, sampleConfig.AddressMapping 4096, 4096⟩ rfl (by decide) rfl⟩

/-! ## Theorems: waiting data requests are covered by pending entries -/

theorem Command.adds_of_not_data (e : Command) (h : e.IsReadWrite = false) (w : Bool)
    (a : Nat) : e.adds w a = 0 := by
  simp only [Command.IsReadWrite, Bool.or_eq_false_iff] at h
  unfold Command.adds Command.hasDirection
  cases w <;> simp [h.1, h.2]

theorem Command.adds_congr (e cmd : Command) (hx : e.hex_addr = cmd.hex_addr)
    (ht : e.cmd_type = cmd.cmd_type) (w : Bool) (a : Nat) : e.adds w a = cmd.adds w a := by
  unfold Command.adds Command.hasDirection Command.IsWrite Command.IsRead
  rw [hx, ht]

theorem Command.adds_read (cmd : Command) (h : cmd.IsRead = true) (a : Nat) :
    cmd.adds false a = (if cmd.hex_addr = a then 1 else 0) ∧ cmd.adds true a = 0 := by
  have hw := Command.not_IsWrite_of_IsRead cmd h
  unfold Command.adds Command.hasDirection
  simp [h, hw]

theorem Command.adds_write (cmd : Command) (h : cmd.IsWrite = true) (a : Nat) :
    cmd.adds true a = (if cmd.hex_addr = a then 1 else 0) ∧ cmd.adds false a = 0 := by
  have hr : cmd.IsRead = false := by
    rcases cmd with ⟨k, ad, hx⟩
    cases k <;> simp [Command.IsWrite] at h <;> rfl
  unfold Command.adds Command.hasDirection
  simp [h, hr]

theorem sum_map_set {α : Type} (f : α → Nat) (qs : List α) :
    ∀ (i : Nat) (x : α) (hi : i < qs.length),
      ((qs.set i x).map f).sum + f (qs.get ⟨i, hi⟩) = (qs.map f).sum + f x := by
  induction qs with
  | nil => intro i x hi; simp at hi
  | cons q rest ih =>
    intro i x hi
    cases i with
    | zero =>
      simp only [List.set_cons_zero, List.map_cons, List.sum_cons, List.get_eq_getElem,
        List.getElem_cons_zero]
      omega
    | succ j =>
      have hj : j < rest.length := by simpa using hi
      have := ih j x hj
      simp only [List.set_cons_succ, List.map_cons, List.sum_cons, List.get_eq_getElem,
        List.getElem_cons_succ] at this ⊢
      omega

theorem cmdCount_erase (w : Bool) (a : Nat) (qs : List (List Command)) (i : Nat)
    (pre post : List Command) (e : Command) (hi : i < qs.length)
    (hq : qs.getD i [] = pre ++ e :: post) :
    cmdCount w a (qs.set i (pre ++ post)) + e.adds w a = cmdCount w a qs := by
  have e1 : qs.get ⟨i, hi⟩ = pre ++ e :: post := by
    rw [← hq, List.getD_eq_getElem?_getD, List.getElem?_eq_getElem hi]
    rfl
  have := sum_map_set (fun q => q.countP (fun e => e.hasDirection w && e.hex_addr == a))
    qs i (pre ++ post) hi
  rw [e1] at this
  unfold cmdCount Command.adds
  simp only [List.countP_append, List.countP_cons] at this ⊢
  omega

theorem cmdCount_append (w : Bool) (a : Nat) (qs : List (List Command)) (i : Nat)
    (e : Command) :
    cmdCount w a (qs.set i (qs.getD i [] ++ [e])) ≤ cmdCount w a qs + e.adds w a := by
  by_cases hi : i < qs.length
  · have e1 : qs.getD i [] = qs.get ⟨i, hi⟩ := by
      rw [List.getD_eq_getElem?_getD, List.getElem?_eq_getElem hi]
      rfl
    have := sum_map_set (fun q => q.countP (fun e => e.hasDirection w && e.hex_addr == a))
      qs i (qs.getD i [] ++ [e]) hi
    rw [← e1] at this
    unfold cmdCount Command.adds
    simp only [List.countP_append, List.countP_cons, List.countP_nil] at this ⊢
    omega
  · rw [List.set_eq_of_length_le (Nat.le_of_not_lt hi)]
    omega

theorem mmCount_insert (m : List (Nat × Transaction)) (k a : Nat) (t : Transaction) :
    mmCount (mmInsert m k t) a = mmCount m a + (if k = a then 1 else 0) := by
  unfold mmCount mmInsert
  simp [List.countP_append, List.countP_cons]

theorem mmCount_filter_ne (m : List (Nat × Transaction)) (k a : Nat) :
    mmCount (m.filter (fun p => !(p.1 == k))) a = if k = a then 0 else mmCount m a := by
  unfold mmCount
  rw [List.countP_filter]
  split_ifs with h
  · subst h
    rw [List.countP_eq_zero]
    intro p _
    simp
  · apply List.countP_congr
    intro p _
    by_cases hp : p.1 = a
    · have : ¬ a = k := fun e => h e.symm
      simp [hp, this]
    · simp [hp]

theorem mmCount_erase (m : List (Nat × Transaction)) (k a : Nat) (it : Nat × Transaction)
    (h : mmFind m k = some it) :
    mmCount (mmErase m k) a + (if k = a then 1 else 0) = mmCount m a := by
  unfold mmFind at h
  have hmem := List.mem_of_find?_eq_some h
  have hp := List.find?_some h
  obtain ⟨x, l1, l2, _, h2, h3, h4⟩ :=
    List.exists_of_eraseP (p := fun p : Nat × Transaction => p.1 == k) hmem hp
  unfold mmErase mmCount
  rw [h4, h3]
  simp only [beq_iff_eq] at h2
  simp only [List.countP_append, List.countP_cons, h2, beq_iff_eq]
  omega

theorem Command.adds_invalid (w : Bool) (a : Nat) : Command.invalid.adds w a = 0 :=
  Command.adds_of_not_data Command.invalid rfl w a

theorem Controller.Covers_of_core {ρ : Type} (c c1 : Controller ρ) (cmd : Command)
    (hc : c1.core = c.core) (hr : c1.channel_state_.RefreshOnly) (h : c.Covers cmd) :
    c1.Covers cmd := by
  simp only [Controller.core, Prod.mk.injEq] at hc
  obtain ⟨e1, e2, e3, e4, e5, e6⟩ := hc
  have hq : ∀ w a, c1.queued w a = c.queued w a := by
    intro w a
    unfold Controller.queued
    rw [e1, e2, e3, e4]
  have hp : ∀ w, c1.pending w = c.pending w := by
    intro w
    unfold Controller.pending
    rw [e5, e6]
  obtain ⟨h1, h2, _⟩ := h
  refine ⟨fun a => ?_, fun w a => ?_, hr⟩
  · rw [hq]
    exact h1 a
  · rw [hq, hp]
    exact h2 w a

theorem Controller.Covers_drop {ρ : Type} (c : Controller ρ) (cmd : Command)
    (h : c.Covers cmd) : c.Covers Command.invalid := by
  obtain ⟨h1, h2, h3⟩ := h
  refine ⟨fun a => ?_, fun w a => ?_, h3⟩
  · have := h1 a
    rw [Command.adds_invalid]
    omega
  · have := h2 w a
    rw [Command.adds_invalid]
    omega

theorem Controller.Covers_of_not_data {ρ : Type} (c : Controller ρ) (cmd : Command)
    (hn : cmd.IsReadWrite = false) (h : c.Covers Command.invalid) : c.Covers cmd := by
  obtain ⟨h1, h2, h3⟩ := h
  refine ⟨fun a => ?_, fun w a => ?_, h3⟩
  · have := h1 a
    rw [Command.adds_invalid] at this
    rw [Command.adds_of_not_data cmd hn]
    exact this
  · have := h2 w a
    rw [Command.adds_invalid] at this
    rw [Command.adds_of_not_data cmd hn]
    exact this

theorem cmdCount_replicate (w : Bool) (a n : Nat) : cmdCount w a (List.replicate n []) = 0 := by
  unfold cmdCount
  induction n with
  | zero => rfl
  | succ n ih => simp [List.replicate_succ]

theorem Controller.init_covers {ρ : Type} (channel : Int) (config : Config)
    (channel_state : ChannelState) (refresh : ρ) (c : Controller ρ)
    (hr : channel_state.RefreshOnly)
    (h : Controller.init channel config channel_state refresh = some c) :
    c.Covers Command.invalid := by
  unfold Controller.init at h
  split at h
  · simp at h
  · rename_i cq hcq
    simp only [Option.some.injEq] at h
    subst h
    have hq : ∀ w a, cmdCount w a cq.queues_ = 0 := by
      intro w a
      unfold CommandQueue.init at hcq
      split_ifs at hcq <;>
        (simp only [Option.some.injEq] at hcq
         subst hcq
         exact cmdCount_replicate w a _)
    refine ⟨fun a => ?_, fun w a => ?_, hr⟩
    · simp [Controller.queued, transCount, hq, Command.adds_invalid]
    · simp [Controller.queued, transCount, hq, Command.adds_invalid]

theorem Controller.ReturnDoneTrans_core {ρ : Type} (c : Controller ρ) (clk : Nat) :
    (c.ReturnDoneTrans clk).2.core = c.core ∧
      (c.ReturnDoneTrans clk).2.channel_state_ = c.channel_state_ := by
  rcases Controller.ReturnDoneTrans_cases c clk with ⟨h, _⟩ | ⟨pre, t, post, _, _, _, h⟩
  · rw [h]
    exact ⟨rfl, rfl⟩
  · rw [h]
    exact ⟨rfl, rfl⟩

theorem transCount_push (w : Bool) (a : Nat) (l : List Transaction) (t : Transaction) :
    transCount w a (l ++ [t]) =
      transCount w a l + (if t.is_write = w ∧ t.addr = a then 1 else 0) := by
  unfold transCount
  simp [List.countP_append, List.countP_cons]

theorem transCount_single (w : Bool) (a : Nat) (t : Transaction) :
    transCount w a [t] = (if t.is_write = w ∧ t.addr = a then 1 else 0) := by
  unfold transCount
  simp [List.countP_cons]

theorem transCount_append (w : Bool) (a : Nat) (l1 l2 : List Transaction) :
    transCount w a (l1 ++ l2) = transCount w a l1 + transCount w a l2 := by
  unfold transCount
  simp [List.countP_append]

/-- The effect of `AddTransaction` on what `Covers` reads: nothing but the
return queue changes; or a pending entry for the address is added and the
transaction is pushed, which happens only when no entry of its direction was
pending for the address; or a pending read is added to an address that has
one already and nothing is pushed. -/
theorem Controller.AddTransaction_queued {ρ : Type} (c : Controller ρ) (trans : Transaction) :
    (c.AddTransaction trans).2.cmd_queue_ = c.cmd_queue_ ∧
      (c.AddTransaction trans).2.channel_state_ = c.channel_state_ ∧
      (((c.AddTransaction trans).2.core = c.core) ∨
        (mmCount (c.pending trans.is_write) trans.addr = 0 ∧
          (∀ w a, (c.AddTransaction trans).2.queued w a =
            c.queued w a + (if trans.is_write = w ∧ trans.addr = a then 1 else 0)) ∧
          (∀ w a, mmCount ((c.AddTransaction trans).2.pending w) a =
            mmCount (c.pending w) a +
              (if trans.is_write = w ∧ trans.addr = a then 1 else 0))) ∨
        ((∀ w a, (c.AddTransaction trans).2.queued w a = c.queued w a) ∧
          (∀ w a, mmCount (c.pending w) a ≤ mmCount ((c.AddTransaction trans).2.pending w) a))) := by
  unfold Controller.AddTransaction
  dsimp only
  by_cases hu : c.is_unified_queue_ = true
  · by_cases hw : trans.is_write = true
    · rw [if_pos hw]
      by_cases hcnt : mmCount c.pending_wr_q_ trans.addr = 0
      · rw [if_pos hcnt, if_pos hu]
        refine ⟨rfl, rfl, Or.inr (Or.inl ⟨?_, ?_, ?_⟩)⟩
        · simp only [Controller.pending, hw, if_true]
          exact hcnt
        · intro w a
          simp only [Controller.queued, Controller.pushUnified,
            transCount_append, transCount_single]
          omega
        · intro w a
          cases w <;> simp [Controller.pending, Controller.pushUnified, mmCount_insert, hw]
      · rw [if_neg hcnt]
        exact ⟨rfl, rfl, Or.inl rfl⟩
    · rw [if_neg hw]
      have hw2 : trans.is_write = false := by simpa using hw
      by_cases hby : mmCount c.pending_wr_q_ trans.addr > 0
      · rw [if_pos hby]
        exact ⟨rfl, rfl, Or.inl rfl⟩
      · rw [if_neg hby]
        by_cases hone : mmCount (mmInsert c.pending_rd_q_ trans.addr
            { trans with added_cycle := c.clk_ }) trans.addr = 1
        · rw [if_pos hone, if_pos hu]
          refine ⟨rfl, rfl, Or.inr (Or.inl ⟨?_, ?_, ?_⟩)⟩
          · rw [mmCount_insert] at hone
            simp only [Controller.pending, hw2]
            simpa using hone
          · intro w a
            simp only [Controller.queued, Controller.pushUnified,
              transCount_append, transCount_single]
            omega
          · intro w a
            cases w <;> simp [Controller.pending, Controller.pushUnified, mmCount_insert, hw2]
        · rw [if_neg hone]
          refine ⟨rfl, rfl, Or.inr (Or.inr ⟨fun _ _ => rfl, ?_⟩)⟩
          intro w a
          cases w <;> simp [Controller.pending, mmCount_insert]
  · by_cases hw : trans.is_write = true
    · rw [if_pos hw]
      by_cases hcnt : mmCount c.pending_wr_q_ trans.addr = 0
      · rw [if_pos hcnt, if_neg hu]
        refine ⟨rfl, rfl, Or.inr (Or.inl ⟨?_, ?_, ?_⟩)⟩
        · simp only [Controller.pending, hw, if_true]
          exact hcnt
        · intro w a
          simp only [Controller.queued, Controller.pushWrite,
            transCount_append, transCount_single]
          omega
        · intro w a
          cases w <;> simp [Controller.pending, Controller.pushWrite, mmCount_insert, hw]
      · rw [if_neg hcnt]
        exact ⟨rfl, rfl, Or.inl rfl⟩
    · rw [if_neg hw]
      have hw2 : trans.is_write = false := by simpa using hw
      by_cases hby : mmCount c.pending_wr_q_ trans.addr > 0
      · rw [if_pos hby]
        exact ⟨rfl, rfl, Or.inl rfl⟩
      · rw [if_neg hby]
        by_cases hone : mmCount (mmInsert c.pending_rd_q_ trans.addr
            { trans with added_cycle := c.clk_ }) trans.addr = 1
        · rw [if_pos hone, if_neg hu]
          refine ⟨rfl, rfl, Or.inr (Or.inl ⟨?_, ?_, ?_⟩)⟩
          · rw [mmCount_insert] at hone
            simp only [Controller.pending, hw2]
            simpa using hone
          · intro w a
            simp only [Controller.queued, Controller.pushRead,
              transCount_append, transCount_single]
            omega
          · intro w a
            cases w <;> simp [Controller.pending, Controller.pushRead, mmCount_insert, hw2]
        · rw [if_neg hone]
          refine ⟨rfl, rfl, Or.inr (Or.inr ⟨fun _ _ => rfl, ?_⟩)⟩
          intro w a
          cases w <;> simp [Controller.pending, mmCount_insert]

theorem Controller.AddTransaction_covers {ρ : Type} (c : Controller ρ) (trans : Transaction)
    (h : c.Covers Command.invalid) : (c.AddTransaction trans).2.Covers Command.invalid := by
  obtain ⟨_, hcs, hcase⟩ := Controller.AddTransaction_queued c trans
  have hr : (c.AddTransaction trans).2.channel_state_.RefreshOnly := by
    rw [hcs]
    exact h.2.2
  rcases hcase with hcore | ⟨h0, hq, hp⟩ | ⟨hq, hp⟩
  · exact Controller.Covers_of_core c _ _ hcore hr h
  · obtain ⟨h1, h2, _⟩ := h
    refine ⟨fun a => ?_, fun w a => ?_, hr⟩
    · have := h1 a
      have g := h2 trans.is_write trans.addr
      rw [h0] at g
      rw [Command.adds_invalid] at this g ⊢
      rw [hq]
      split_ifs with hc
      · obtain ⟨hc1, hc2⟩ := hc
        rw [← hc1, ← hc2]
        omega
      · omega
    · have := h2 w a
      rw [Command.adds_invalid] at this ⊢
      rw [hq, hp]
      omega
  · obtain ⟨h1, h2, _⟩ := h
    refine ⟨fun a => ?_, fun w a => ?_, hr⟩
    · rw [hq]
      exact h1 a
    · have := h2 w a
      have := hp w a
      rw [hq]
      omega

theorem Controller.queued_of_core {ρ : Type} (c c1 : Controller ρ)
    (e1 : c1.unified_queue_ = c.unified_queue_) (e2 : c1.read_queue_ = c.read_queue_)
    (e3 : c1.write_buffer_ = c.write_buffer_)
    (e4 : c1.cmd_queue_.queues_ = c.cmd_queue_.queues_) (w : Bool) (a : Nat) :
    c1.queued w a = c.queued w a := by
  unfold Controller.queued
  rw [e1, e2, e3, e4]

theorem Controller.core_of_front {ρ : Type} (c c1 : Controller ρ)
    (hf : c1.front = c.front) (hl : c1.ledger = c.ledger)
    (hq : c1.cmd_queue_.queues_ = c.cmd_queue_.queues_) : c1.core = c.core := by
  obtain ⟨_, _, _, g4, _, g6, _, g8, _, _⟩ := Controller.front_eq c c1 hf
  simp only [Controller.ledger, Prod.mk.injEq] at hl
  obtain ⟨l1, l2, _⟩ := hl
  simp only [Controller.core, g4, g6, g8, hq, l1, l2]

theorem Controller.markInServe_refresh_q {ρ : Type} (c : Controller ρ) (cmd : Command) :
    (c.markInServe cmd).channel_state_.refresh_q_ = c.channel_state_.refresh_q_ := by
  unfold Controller.markInServe
  split_ifs <;> rfl

theorem Controller.IssueCommand_channel {ρ : Type} (env : Collaborators ρ)
    (c c1 : Controller ρ) (cmd : Command) (h : c.IssueCommand env cmd = some c1) :
    ∃ cs clk, env.UpdateTimingAndStates c.channel_state_ cmd clk = some cs ∧
      c1.channel_state_.refresh_q_ = cs.refresh_q_ := by
  unfold Controller.IssueCommand at h
  split at h
  · simp at h
  · rename_i c2 n hp
    split at h
    · simp at h
    · rename_i c3 hs
      split at h
      · simp at h
      · rename_i cs hu
        simp only [Option.some.injEq] at h
        subst h
        obtain ⟨_, _, s3, _⟩ := Controller.UpdateCommandStats_same c2 c3 cmd n hs
        obtain ⟨_, p2, _⟩ := Controller.issuePending_front c c2 cmd n hp
        rw [s3, p2] at hu
        exact ⟨cs, _, hu, Controller.markInServe_refresh_q _ cmd⟩

theorem Controller.Covers_issuePending {ρ : Type} (c : Controller ρ) (cmd : Command)
    (h : c.Covers cmd) : ∃ p, c.issuePending cmd = some p := by
  cases hp : c.issuePending cmd with
  | some p => exact ⟨p, rfl⟩
  | none =>
    exfalso
    obtain ⟨_, h2, _⟩ := h
    rcases (Controller.issuePending_none_iff c cmd).mp hp with ⟨hr, h0⟩ | ⟨hw, h0⟩
    · have := h2 false cmd.hex_addr
      rw [(Command.adds_read cmd hr cmd.hex_addr).1] at this
      simp only [Controller.pending, if_true] at this
      simp only [Bool.false_eq_true, if_false] at this
      omega
    · have := h2 true cmd.hex_addr
      rw [(Command.adds_write cmd hw cmd.hex_addr).1] at this
      simp only [Controller.pending, if_true] at this
      have hc : mmCount c.pending_wr_q_ cmd.hex_addr = 0 := by
        unfold mmFind at h0
        unfold mmCount
        rw [List.countP_eq_zero]
        intro x hx
        exact List.find?_eq_none.mp h0 x hx
      omega

theorem Controller.IssueCommand_covers {ρ : Type} (env : Collaborators ρ)
    (henv : env.Orderly) (c c1 : Controller ρ) (cmd : Command)
    (hi : c.IssueCommand env cmd = some c1) (h : c.Covers cmd) :
    c1.Covers Command.invalid := by
  obtain ⟨c2, n, hp, hf, hl, hq, _, _⟩ := Controller.IssueCommand_parts env c c1 cmd hi
  obtain ⟨cs, clk, hu, hrq⟩ := Controller.IssueCommand_channel env c c1 cmd hi
  obtain ⟨pf, _, _, _⟩ := Controller.issuePending_front c c2 cmd n hp
  obtain ⟨h1, h2, h3⟩ := h
  have hr : c1.channel_state_.RefreshOnly := by
    intro x hx
    rw [hrq] at hx
    exact henv.2.1 _ _ _ _ hu h3 x hx
  obtain ⟨_, _, _, g4, _, g6, _, g8, _, _⟩ := Controller.front_eq c c1 (hf.trans pf)
  have hqd : ∀ w a, c1.queued w a = c.queued w a :=
    Controller.queued_of_core c c1 g4 g6 g8 (by rw [hq])
  simp only [Controller.ledger, Prod.mk.injEq] at hl
  obtain ⟨l1, l2, _⟩ := hl
  have hpd : ∀ w, c1.pending w = c2.pending w := by
    intro w
    unfold Controller.pending
    rw [l1, l2]
  refine ⟨fun a => ?_, fun w a => ?_, hr⟩
  · have := h1 a
    rw [hqd, Command.adds_invalid]
    omega
  · rw [hqd, hpd, Command.adds_invalid]
    have g := h2 w a
    have g1 := h1 a
    by_cases hrd : cmd.IsRead = true
    · rcases Controller.issuePending_cases c c2 cmd n hp with ⟨_, _, e1, _, e2⟩ | ⟨hn, _⟩
      · obtain ⟨a1, a2⟩ := Command.adds_read cmd hrd a
        cases w
        · simp only [Controller.pending, Bool.false_eq_true, if_false] at g ⊢
          rw [e1, mmCount_filter_ne]
          rw [a1] at g g1
          split_ifs with hx
          · rw [if_pos hx] at g1
            omega
          · rw [if_neg hx] at g
            omega
        · simp only [Controller.pending, if_true] at g ⊢
          rw [e2]
          omega
      · rw [hrd] at hn
        exact absurd hn (by decide)
    · by_cases hwr : cmd.IsWrite = true
      · obtain ⟨e1, _, _, e2⟩ := Controller.issuePending_write c c2 cmd n hwr hp
        obtain ⟨a1, a2⟩ := Command.adds_write cmd hwr a
        cases w
        · simp only [Controller.pending, Bool.false_eq_true, if_false] at g ⊢
          rw [e2]
          omega
        · simp only [Controller.pending, if_true] at g ⊢
          rw [e1]
          cases hfd : mmFind c.pending_wr_q_ cmd.hex_addr with
          | none =>
            have := (Controller.issuePending_none_iff c cmd).mpr (Or.inr ⟨hwr, hfd⟩)
            rw [this] at hp
            simp at hp
          | some it =>
            have := mmCount_erase c.pending_wr_q_ cmd.hex_addr a it hfd
            rw [a1] at g
            omega
      · have hn : cmd.IsReadWrite = false := by
          simp only [Command.IsReadWrite, Bool.or_eq_false_iff]
          exact ⟨by simpa using hrd, by simpa using hwr⟩
        have := Controller.issuePending_other c c2 cmd n hn hp
        rw [this]
        omega

theorem CommandQueue.firstReadyFrom_refreshOnly {ρ : Type} (env : Collaborators ρ)
    (henv : env.Orderly) (clk : Nat) (q : List Command) :
    ∀ (pre : List Command) (cs cs1 : ChannelState) (cmd : Command),
      CommandQueue.firstReadyFrom env clk pre q cs = some (cmd, cs1) →
      cs.RefreshOnly → cs1.RefreshOnly := by
  induction q with
  | nil =>
    intro pre cs cs1 cmd h hr
    simp only [CommandQueue.firstReadyFrom, Option.some.injEq, Prod.mk.injEq] at h
    obtain ⟨_, rfl⟩ := h
    exact hr
  | cons x xs ih =>
    intro pre cs cs1 cmd h hr
    unfold CommandQueue.firstReadyFrom at h
    split at h
    · simp at h
    · rename_i out cs2 hg
      have hr2 : cs2.RefreshOnly := (henv.1 _ _ _ _ _ hg).2 hr
      have stop : some (out, cs2) = some (cmd, cs1) → cs1.RefreshOnly := by
        intro e
        simp only [Option.some.injEq, Prod.mk.injEq] at e
        obtain ⟨_, rfl⟩ := e
        exact hr2
      split_ifs at h <;> first | exact stop h | exact ih _ _ _ _ h hr2

theorem CommandQueue.issueLoop_refreshOnly {ρ : Type} (env : Collaborators ρ)
    (henv : env.Orderly) (config : Config) (n : Nat) :
    ∀ (cq cq1 : CommandQueue) (cs cs1 : ChannelState) (cmd : Command),
      CommandQueue.issueLoop env config n cq cs = some (cmd, cq1, cs1) →
      cs.RefreshOnly → cs1.RefreshOnly := by
  induction n with
  | zero =>
    intro cq cq1 cs cs1 cmd h hr
    simp only [CommandQueue.issueLoop, Option.some.injEq, Prod.mk.injEq] at h
    obtain ⟨_, _, rfl⟩ := h
    exact hr
  | succ n ih =>
    intro cq cq1 cs cs1 cmd h hr
    unfold CommandQueue.issueLoop at h
    dsimp only at h
    split at h
    · exact ih _ _ _ _ _ h hr
    · split at h
      · simp at h
      · rename_i cmd0 cs0 hg
        have hr0 : cs0.RefreshOnly :=
          CommandQueue.firstReadyFrom_refreshOnly env henv _ _ _ _ _ _ hg hr
        split at h
        · split at h
          · split at h
            · simp at h
            · simp only [Option.some.injEq, Prod.mk.injEq] at h
              obtain ⟨_, _, rfl⟩ := h
              exact hr0
          · simp only [Option.some.injEq, Prod.mk.injEq] at h
            obtain ⟨_, _, rfl⟩ := h
            exact hr0
        · exact ih _ _ _ _ _ h hr0

/-- After `GetCommandToIssue` the returned command counts as taken out of the
command queue: a data command was erased from the queue of its address. -/
theorem Controller.GetCommandToIssue_covers {ρ : Type} (env : Collaborators ρ)
    (henv : env.Orderly) (c : Controller ρ) (cmd : Command) (cq : CommandQueue)
    (cs : ChannelState)
    (hg : c.cmd_queue_.GetCommandToIssue env c.config_ c.channel_state_ = some (cmd, cq, cs))
    (h : c.Covers Command.invalid) :
    ({ c with cmd_queue_ := cq, channel_state_ := cs } : Controller ρ).Covers cmd := by
  obtain ⟨h1, h2, h3⟩ := h
  have hr : cs.RefreshOnly :=
    CommandQueue.issueLoop_refreshOnly env henv _ _ _ _ _ _ _ hg h3
  obtain ⟨cqm, em, hcase⟩ :=
    CommandQueue.GetCommandToIssue_shape env c.config_ c.cmd_queue_ cq _ cs cmd hg
  have hqm : cqm.queues_ = c.cmd_queue_.queues_ := by rw [em]
  have key : ∀ w a, cmdCount w a cq.queues_ + cmd.adds w a = cmdCount w a c.cmd_queue_.queues_ := by
    intro w a
    rcases hcase with ⟨_, he⟩ | ⟨hn, rfl⟩
    · obtain ⟨pre, e, post, g1, g2, g3, g4, _, _, g7⟩ :=
        CommandQueue.EraseRWCommand_shape cqm cq c.config_ cmd he
      rw [g7, ← Command.adds_congr e cmd g3 g4, ← hqm]
      exact cmdCount_erase w a _ _ pre post e g2 g1
    · rw [Command.adds_of_not_data cmd hn, hqm]
      rfl
  have hq : ∀ w a, ({ c with cmd_queue_ := cq, channel_state_ := cs } : Controller ρ).queued w a
      + cmd.adds w a = c.queued w a := by
    intro w a
    have := key w a
    simp only [Controller.queued]
    omega
  refine ⟨fun a => ?_, fun w a => ?_, hr⟩
  · have := h1 a
    rw [Command.adds_invalid] at this
    rw [hq]
    omega
  · have := h2 w a
    rw [Command.adds_invalid] at this
    rw [hq]
    exact this

theorem Controller.fetchRefresh_covers {ρ : Type} (env : Collaborators ρ)
    (henv : env.Orderly) (c c1 : Controller ρ) (cmd : Command)
    (hf : c.fetchRefresh env = some (cmd, c1)) (h : c.Covers Command.invalid) :
    c1.Covers Command.invalid ∧ cmd.IsReadWrite = false := by
  unfold Controller.fetchRefresh at hf
  split at hf
  · split at hf
    · simp at hf
    · rename_i out cq cs hfin
      simp only [Option.some.injEq, Prod.mk.injEq] at hf
      obtain ⟨rfl, rfl⟩ := hf
      have hshape := CommandQueue.FinishRefresh_shape env c.config_ c.cmd_queue_ cq
        c.channel_state_ cs out hfin
      have hq : cq.queues_ = c.cmd_queue_.queues_ := by rw [hshape]
      unfold CommandQueue.FinishRefresh at hfin
      split at hfin
      · simp at hfin
      · rename_i ref href
        dsimp only at hfin
        split at hfin
        · simp at hfin
        · rename_i out2 cs2 hg
          have hmem : ref ∈ c.channel_state_.refresh_q_ := by
            unfold ChannelState.PendingRefCommand at href
            exact List.mem_of_mem_head? href
          obtain ⟨a1, a2⟩ := henv.1 _ _ _ _ _ hg
          have hout : out2.IsReadWrite = false := a1 (h.2.2 ref hmem)
          have hcs : cs2.RefreshOnly := a2 h.2.2
          have hres : out = out2 ∧ cs = cs2 := by
            split_ifs at hfin <;>
              (simp only [Option.some.injEq, Prod.mk.injEq] at hfin
               exact ⟨hfin.1.symm, hfin.2.2.symm⟩)
          obtain ⟨rfl, rfl⟩ := hres
          refine ⟨?_, hout⟩
          apply Controller.Covers_of_core c _ _ _ hcs h
          simp only [Controller.core, hq]
  · simp only [Option.some.injEq, Prod.mk.injEq] at hf
    obtain ⟨rfl, rfl⟩ := hf
    exact ⟨h, rfl⟩

theorem Controller.fetchCommand_covers {ρ : Type} (env : Collaborators ρ)
    (henv : env.Orderly) (c c2 : Controller ρ) (cmd : Command)
    (hf : c.fetchCommand env = some (cmd, c2)) (h : c.Covers Command.invalid) :
    c2.Covers cmd := by
  unfold Controller.fetchCommand at hf
  split at hf
  · simp at hf
  · rename_i cmd0 c1 hfr
    obtain ⟨g1, g2⟩ := Controller.fetchRefresh_covers env henv c c1 cmd0 hfr h
    split at hf
    · split at hf
      · simp at hf
      · rename_i cmd2 cq cs hg
        simp only [Option.some.injEq, Prod.mk.injEq] at hf
        obtain ⟨rfl, rfl⟩ := hf
        exact Controller.GetCommandToIssue_covers env henv c1 _ cq cs hg g1
    · simp only [Option.some.injEq, Prod.mk.injEq] at hf
      obtain ⟨rfl, rfl⟩ := hf
      exact Controller.Covers_of_not_data _ _ g2 g1

theorem Controller.issueFetched_covers {ρ : Type} (env : Collaborators ρ)
    (henv : env.Orderly) (c c3 : Controller ρ) (cmd : Command) (issued : Bool)
    (hi : c.issueFetched env cmd = some (c3, issued)) (h : c.Covers cmd) :
    c3.Covers Command.invalid := by
  unfold Controller.issueFetched at hi
  split at hi
  · split at hi
    · simp at hi
    · rename_i c1 h1
      have g1 := Controller.IssueCommand_covers env henv c c1 cmd h1 h
      split at hi
      · split at hi
        · simp at hi
        · rename_i second cq cs hg
          have g2 := Controller.GetCommandToIssue_covers env henv c1 second cq cs hg g1
          dsimp only at hi
          split at hi
          · split at hi
            · simp at hi
            · rename_i c4 h4
              simp only [Option.some.injEq, Prod.mk.injEq] at hi
              obtain ⟨rfl, _⟩ := hi
              exact Controller.IssueCommand_covers env henv _ _ second h4 g2
          · simp only [Option.some.injEq, Prod.mk.injEq] at hi
            obtain ⟨rfl, _⟩ := hi
            exact Controller.Covers_drop _ _ g2
      · simp only [Option.some.injEq, Prod.mk.injEq] at hi
        obtain ⟨rfl, _⟩ := hi
        exact g1
  · simp only [Option.some.injEq, Prod.mk.injEq] at hi
    obtain ⟨rfl, _⟩ := hi
    exact Controller.Covers_drop _ _ h

theorem Controller.powerUpdate_covers {ρ : Type} (env : Collaborators ρ) (c : Controller ρ)
    (h : c.Covers Command.invalid) : (c.powerUpdate env).Covers Command.invalid := by
  have key : (c.powerUpdate env).core = c.core ∧
      (c.powerUpdate env).channel_state_.refresh_q_ = c.channel_state_.refresh_q_ := by
    unfold Controller.powerUpdate
    apply foldl_preserves
      (fun x : Controller ρ => x.core = c.core ∧
        x.channel_state_.refresh_q_ = c.channel_state_.refresh_q_)
    · intro a i ha
      dsimp only
      split
      · exact ha
      · split <;> exact ha
    · exact ⟨rfl, rfl⟩
  apply Controller.Covers_of_core c _ _ key.1 _ h
  intro x hx
  rw [key.2] at hx
  exact h.2.2 x hx

theorem clearServed_refresh_q (clk : Nat) (cs : ChannelState) (i j k : Int) :
    (Controller.clearServed clk cs i j k).refresh_q_ = cs.refresh_q_ := by
  unfold Controller.clearServed
  dsimp only
  split_ifs <;> rfl

theorem Controller.Calculate_stats_covers {ρ : Type} (env : Collaborators ρ)
    (c : Controller ρ) (h : c.Covers Command.invalid) :
    (c.Calculate_stats env).Covers Command.invalid := by
  have key : (c.Calculate_stats env).core = c.core ∧
      (c.Calculate_stats env).channel_state_.refresh_q_ = c.channel_state_.refresh_q_ := by
    unfold Controller.Calculate_stats
    apply foldl_preserves
      (fun x : Controller ρ => x.core = c.core ∧
        x.channel_state_.refresh_q_ = c.channel_state_.refresh_q_)
    · intro a i ha
      dsimp only
      have hcs : ((List.range a.config_.bankgroups).foldl
          (fun cs j => (List.range a.config_.banks_per_group).foldl
            (fun cs k => Controller.clearServed a.clk_ cs (Int.ofNat i) (Int.ofNat j)
              (Int.ofNat k)) cs)
          a.channel_state_).refresh_q_ = a.channel_state_.refresh_q_ := by
        apply foldl_preserves
          (fun x : ChannelState => x.refresh_q_ = a.channel_state_.refresh_q_)
        · intro cs j hcs
          apply foldl_preserves
            (fun x : ChannelState => x.refresh_q_ = a.channel_state_.refresh_q_)
          · intro cs2 k hcs2
            rw [clearServed_refresh_q]
            exact hcs2
          · exact hcs
        · rfl
      split
      · exact ⟨ha.1, hcs.trans ha.2⟩
      · exact ⟨ha.1, hcs.trans ha.2⟩
    · exact ⟨rfl, rfl⟩
  apply Controller.Covers_of_core c _ _ key.1 _ h
  intro x hx
  rw [key.2] at hx
  exact h.2.2 x hx

theorem Controller.selfRefreshLoop_covers {ρ : Type} (env : Collaborators ρ)
    (henv : env.Orderly) (l : List Nat) :
    ∀ (c c1 : Controller ρ), Controller.selfRefreshLoop env l c = some c1 →
      c.Covers Command.invalid → c1.Covers Command.invalid := by
  have ask : ∀ (c : Controller ρ) (req out : Command) (cs : ChannelState),
      env.GetReadyCommand c.channel_state_ req c.clk_ = some (out, cs) →
      c.Covers Command.invalid → req.IsReadWrite = false →
      out.IsReadWrite = false ∧
        ({ c with channel_state_ := cs } : Controller ρ).Covers Command.invalid := by
    intro c req out cs hg hc hreq
    obtain ⟨a1, a2⟩ := henv.1 _ _ _ _ _ hg
    exact ⟨a1 hreq, Controller.Covers_of_core c _ _ rfl (a2 hc.2.2) hc⟩
  induction l with
  | nil =>
    intro c c1 h hc
    simp only [Controller.selfRefreshLoop, Option.some.injEq] at h
    subst h
    exact hc
  | cons i rest ih =>
    intro c c1 h hc
    unfold Controller.selfRefreshLoop at h
    split at h
    · split at h
      · split at h
        · simp at h
        · rename_i out cs hg
          obtain ⟨b1, b2⟩ := ask c _ out cs hg hc rfl
          split at h
          · exact Controller.IssueCommand_covers env henv _ c1 out h
              (Controller.Covers_of_not_data _ _ b1 b2)
          · exact ih _ c1 h b2
      · exact ih _ c1 h hc
    · split at h
      · split at h
        · simp at h
        · rename_i out cs hg
          obtain ⟨b1, b2⟩ := ask c _ out cs hg hc rfl
          split at h
          · exact Controller.IssueCommand_covers env henv _ c1 out h
              (Controller.Covers_of_not_data _ _ b1 b2)
          · exact ih _ c1 h b2
      · exact ih _ c1 h hc

theorem Controller.selfRefresh_covers {ρ : Type} (env : Collaborators ρ)
    (henv : env.Orderly) (c c1 : Controller ρ) (b : Bool)
    (h : c.selfRefresh env b = some c1) (hc : c.Covers Command.invalid) :
    c1.Covers Command.invalid := by
  unfold Controller.selfRefresh at h
  split at h
  · exact Controller.selfRefreshLoop_covers env henv _ c c1 h hc
  · simp only [Option.some.injEq] at h
    subst h
    exact hc

theorem transCount_remove (w : Bool) (a : Nat) (pre post : List Transaction)
    (t : Transaction) :
    transCount w a (pre ++ post) + (if t.is_write = w ∧ t.addr = a then 1 else 0) =
      transCount w a (pre ++ t :: post) := by
  have : pre ++ t :: post = pre ++ ([t] ++ post) := rfl
  rw [this]
  simp only [transCount_append, transCount_single]
  omega

theorem Controller.TransToCommand_adds {ρ : Type} (c : Controller ρ) (t : Transaction)
    (w : Bool) (a : Nat) :
    (c.TransToCommand t).adds w a = (if t.is_write = w ∧ t.addr = a then 1 else 0) := by
  obtain ⟨h1, _, h3, h4⟩ := Controller.TransToCommand_kind c t
  unfold Command.adds Command.hasDirection
  rw [h1, h3, h4]
  cases w <;> cases t.is_write <;> simp

theorem Controller.ScheduleTransaction_covers {ρ : Type} (c : Controller ρ)
    (h : c.Covers Command.invalid) : c.ScheduleTransaction.Covers Command.invalid := by
  have hfr := Controller.updateWriteDraining_frame c
  have e : c.ScheduleTransaction = c.updateWriteDraining.scheduleFrom := rfl
  have hcore : c.updateWriteDraining.core = c.core := by rw [hfr]; rfl
  have hcs : c.updateWriteDraining.channel_state_ = c.channel_state_ := by rw [hfr]
  have h0 : c.updateWriteDraining.Covers Command.invalid :=
    Controller.Covers_of_core c _ _ hcore (by rw [hcs]; exact h.2.2) h
  generalize c.updateWriteDraining = d at e h0
  rw [e]
  rcases Controller.scheduleFrom_cases d with ⟨_, h1⟩ | ⟨pre, t, post, hfa, h2, h3⟩
  · rw [h1]
    exact h0
  · rcases h3 with ⟨_, _, _, h4⟩ | ⟨_, h4⟩
    · rw [h4]
      exact Controller.Covers_of_core d _ _ rfl h0.2.2 h0
    · obtain ⟨mid, g1, _, _, g4⟩ := Controller.firstAcceptable_decomp _ _ _ _ _ _ hfa
      have hadd := CommandQueue.AddCommand_of_accept d.cmd_queue_ d.config_
        (d.TransToCommand t) g4
      obtain ⟨s1, s2, s3, _, s5, s6, s7, _⟩ := Controller.setTransQueue_get
        ({ d with
            write_draining_ :=
              if d.is_unified_queue_ = false ∧ t.is_write = true then d.write_draining_ - 1
              else d.write_draining_
            cmd_queue_ := (d.cmd_queue_.AddCommand d.config_ (d.TransToCommand t)).2 }
          : Controller ρ)
        d.scheduleQueue (pre ++ post)
      rw [← h4] at s1 s2 s3 s5 s6 s7
      dsimp only at s3 s5 s6 s7
      have hq : ∀ w a, d.scheduleFrom.queued w a ≤ d.queued w a := by
        intro w a
        have hc : cmdCount w a d.scheduleFrom.cmd_queue_.queues_ ≤
            cmdCount w a d.cmd_queue_.queues_ + (d.TransToCommand t).adds w a := by
          rw [s3, hadd]
          exact cmdCount_append w a _ _ _
        rw [Controller.TransToCommand_adds] at hc
        have hrem := transCount_remove w a pre post t
        have ht : transCount w a (d.scheduleFrom.unified_queue_ ++
            d.scheduleFrom.read_queue_ ++ d.scheduleFrom.write_buffer_) +
            (if t.is_write = w ∧ t.addr = a then 1 else 0) =
            transCount w a (d.unified_queue_ ++ d.read_queue_ ++ d.write_buffer_) := by
          cases hsq : d.scheduleQueue with
          | unified =>
            rw [hsq] at s1 s2 h2
            have r1 := s2 Controller.TransQueue.readQueue (by decide)
            have r2 := s2 Controller.TransQueue.writeBuffer (by decide)
            simp only [Controller.getTransQueue] at s1 r1 r2 h2
            rw [s1, r1, r2, h2]
            simp only [transCount_append] at hrem ⊢
            omega
          | writeBuffer =>
            rw [hsq] at s1 s2 h2
            have r1 := s2 Controller.TransQueue.readQueue (by decide)
            have r2 := s2 Controller.TransQueue.unified (by decide)
            simp only [Controller.getTransQueue] at s1 r1 r2 h2
            rw [s1, r1, r2, h2]
            simp only [transCount_append] at hrem ⊢
            omega
          | readQueue =>
            rw [hsq] at s1 s2 h2
            have r1 := s2 Controller.TransQueue.unified (by decide)
            have r2 := s2 Controller.TransQueue.writeBuffer (by decide)
            simp only [Controller.getTransQueue] at s1 r1 r2 h2
            rw [s1, r1, r2, h2]
            simp only [transCount_append] at hrem ⊢
            omega
        unfold Controller.queued
        omega
      have hp : ∀ w, d.scheduleFrom.pending w = d.pending w := by
        intro w
        unfold Controller.pending
        rw [s5, s6]
      obtain ⟨k1, k2, k3⟩ := h0
      refine ⟨fun a => ?_, fun w a => ?_, by rw [s7]; exact k3⟩
      · have := k1 a
        have := hq false a
        omega
      · have := k2 w a
        have := hq w a
        rw [hp]
        omega

theorem Controller.ClockTick_covers {ρ : Type} (env : Collaborators ρ) (henv : env.Orderly)
    (c c1 : Controller ρ) (h : c.ClockTick env = some c1) (hc : c.Covers Command.invalid) :
    c1.Covers Command.invalid := by
  unfold Controller.ClockTick at h
  split at h
  · simp at h
  · rename_i r cs hr
    dsimp only at h
    have g1 : ({ c with refresh_ := r, channel_state_ := cs } : Controller ρ).Covers
        Command.invalid :=
      Controller.Covers_of_core c _ _ rfl (henv.2.2 _ _ _ _ hr hc.2.2) hc
    split at h
    · simp at h
    · rename_i cmd c2 hf
      have g2 := Controller.fetchCommand_covers env henv _ c2 cmd hf g1
      split at h
      · simp at h
      · rename_i c3 issued hi
        have g3 := Controller.issueFetched_covers env henv c2 c3 cmd issued hi g2
        split at h
        · simp at h
        · rename_i c5 hs
          have g5 := Controller.selfRefresh_covers env henv _ c5 issued hs
            (Controller.powerUpdate_covers env c3 g3)
          have g6 := Controller.ScheduleTransaction_covers _
            (Controller.Calculate_stats_covers env c5 g5)
          simp only [Option.some.injEq] at h
          subst h
          exact Controller.Covers_of_core _ _ _ rfl g6.2.2 g6

theorem Controller.OrderlyReachable_covers {ρ : Type} (env : Collaborators ρ)
    (henv : env.Orderly) (c : Controller ρ) (h : Controller.OrderlyReachable env c) :
    c.Covers Command.invalid := by
  induction h with
  | init channel config channel_state refresh c hr hc =>
    exact Controller.init_covers channel config channel_state refresh c hr hc
  | addTransaction c trans _ ih => exact Controller.AddTransaction_covers c trans ih
  | clockTick c c1 _ ht ih => exact Controller.ClockTick_covers env henv c c1 ht ih
  | returnDoneTrans c clk _ ih =>
    obtain ⟨h1, h2⟩ := Controller.ReturnDoneTrans_core c clk
    exact Controller.Covers_of_core c _ _ h1 (by rw [h2]; exact ih.2.2) ih

theorem countP_le_cmdCount (w : Bool) (a : Nat) (qs : List (List Command)) (q : List Command)
    (hq : q ∈ qs) :
    q.countP (fun e => e.hasDirection w && e.hex_addr == a) ≤ cmdCount w a qs := by
  unfold cmdCount
  induction qs with
  | nil => simp at hq
  | cons x xs ih =>
    rcases List.mem_cons.mp hq with rfl | hm
    · simp only [List.map_cons, List.sum_cons]
      omega
    · have := ih hm
      simp only [List.map_cons, List.sum_cons]
      omega

theorem sampleCollaborators_orderly : sampleCollaborators.Orderly := by
  refine ⟨?_, ?_, ?_⟩
  · intro cs req clk out cs1 h
    refine ⟨fun hreq => ?_, fun hr => ?_⟩
    · by_contra hc
      have hrw : out.IsReadWrite = true := by simpa using hc
      have := sampleCollaborators_answers cs cs1 req out clk h hrw
      rw [this, hreq] at hrw
      exact absurd hrw (by decide)
    · simp only [sampleCollaborators] at h
      split at h
      · simp at h
      · simp only [Option.some.injEq, Prod.mk.injEq] at h
        obtain ⟨_, rfl⟩ := h
        exact hr
  · intro cs cmd clk cs1 h hr
    simp only [sampleCollaborators] at h
    split at h
    · simp at h
    · simp only [Option.some.injEq] at h
      subst h
      exact hr
  · intro r cs r1 cs1 h hr
    simp only [sampleCollaborators, Option.some.injEq, Prod.mk.injEq] at h
    obtain ⟨_, rfl⟩ := h
    exact hr

/-- C37: let the collaborators be orderly (`GetReadyCommand` answers a request
that is not a data command with a command that is not a data command, and the
refresh queue never holds a data command).  In every controller state reachable
from the constructed controller by `AddTransaction`, `ClockTick` and
`ReturnDoneTrans` calls, every read transaction in a transaction queue and
every READ-family command in a command queue has a `pending_rd_q_` entry for
its address, and every write transaction and WRITE-family command has a
`pending_wr_q_` entry for its address.  Hence the pending-queue step of
`IssueCommand`, which holds the exits "not in read queue" and "not in write
queue", returns at every call `ClockTick` makes from such a state: for the
command `fetchCommand` returns, in the state it leaves; for the second command
of the HBM dual-command path, in the state after the first `IssueCommand` and
the second `GetCommandToIssue`; and, in any state, for the answer to a request
that is not a data command, as the self-refresh loop issues it. -/
theorem Controller.waiting_requests_have_pending_entries {ρ : Type}
    (env : Collaborators ρ) (henv : env.Orderly) (c : Controller ρ)
    (h : Controller.OrderlyReachable env c) :
    (∀ t ∈ c.unified_queue_ ++ c.read_queue_ ++ c.write_buffer_,
      (t.is_write = false → 1 ≤ mmCount c.pending_rd_q_ t.addr) ∧
      (t.is_write = true → 1 ≤ mmCount c.pending_wr_q_ t.addr)) ∧
    (∀ q ∈ c.cmd_queue_.queues_, ∀ e ∈ q,
      (e.IsRead = true → 1 ≤ mmCount c.pending_rd_q_ e.hex_addr) ∧
      (e.IsWrite = true → 1 ≤ mmCount c.pending_wr_q_ e.hex_addr)) ∧
    (∀ r cs cmd c2, env.RefreshClockTick c.refresh_ c.channel_state_ = some (r, cs) →
      ({ c with refresh_ := r, channel_state_ := cs } : Controller ρ).fetchCommand env =
        some (cmd, c2) →
      (∃ p, c2.issuePending cmd = some p) ∧
      ∀ c3 second cq cs2, c2.IssueCommand env cmd = some c3 →
        c3.cmd_queue_.GetCommandToIssue env c3.config_ c3.channel_state_ =
          some (second, cq, cs2) →
        ∃ p, ({ c3 with cmd_queue_ := cq, channel_state_ := cs2 } :
          Controller ρ).issuePending second = some p) ∧
    (∀ cs req clk out cs1, env.GetReadyCommand cs req clk = some (out, cs1) →
      req.IsReadWrite = false → ∀ d : Controller ρ, ∃ p, d.issuePending out = some p) := by
  have hc := Controller.OrderlyReachable_covers env henv c h
  obtain ⟨_, h2, h3⟩ := hc
  refine ⟨?_, ?_, ?_, ?_⟩
  · intro t ht
    have key : ∀ w, t.is_write = w → 1 ≤ mmCount (c.pending w) t.addr := by
      intro w hw
      have := h2 w t.addr
      have hpos : 0 < transCount w t.addr
          (c.unified_queue_ ++ c.read_queue_ ++ c.write_buffer_) := by
        unfold transCount
        rw [List.countP_pos_iff]
        exact ⟨t, ht, by simp [hw]⟩
      unfold Controller.queued at this
      omega
    exact ⟨fun hw => key false hw, fun hw => key true hw⟩
  · intro q hq e he
    have key : ∀ w, e.hasDirection w = true → 1 ≤ mmCount (c.pending w) e.hex_addr := by
      intro w hw
      have := h2 w e.hex_addr
      have hle := countP_le_cmdCount w e.hex_addr _ q hq
      have hpos : 0 < q.countP (fun x => x.hasDirection w && x.hex_addr == e.hex_addr) := by
        rw [List.countP_pos_iff]
        exact ⟨e, he, by simp [hw]⟩
      unfold Controller.queued at this
      omega
    exact ⟨fun hr => key false (by simpa [Command.hasDirection] using hr),
      fun hw => key true (by simpa [Command.hasDirection] using hw)⟩
  · intro r cs cmd c2 hr hf
    have g1 : ({ c with refresh_ := r, channel_state_ := cs } : Controller ρ).Covers
        Command.invalid :=
      Controller.Covers_of_core c _ _ rfl (henv.2.2 _ _ _ _ hr h3)
        (Controller.OrderlyReachable_covers env henv c h)
    have g2 := Controller.fetchCommand_covers env henv _ c2 cmd hf g1
    refine ⟨Controller.Covers_issuePending c2 cmd g2, ?_⟩
    intro c3 second cq cs2 hi hg
    have g3 := Controller.IssueCommand_covers env henv c2 c3 cmd hi g2
    exact Controller.Covers_issuePending _ second
      (Controller.GetCommandToIssue_covers env henv c3 second cq cs2 hg g3)
  · intro cs req clk out cs1 hg hreq d
    have hout := (henv.1 _ _ _ _ _ hg).1 hreq
    simp only [Command.IsReadWrite, Bool.or_eq_false_iff] at hout
    exact ⟨(d, 0), by simp [Controller.issuePending, hout.1, hout.2]⟩

theorem sampleDrainEngaged_orderly :
    Controller.OrderlyReachable sampleCollaborators sampleDrainEngaged :=
  Controller.OrderlyReachable.clockTick _ _
    (Controller.OrderlyReachable.addTransaction _ _
      (Controller.OrderlyReachable.addTransaction _ _
        (Controller.OrderlyReachable.init 0 sampleSmallQueueConfig sampleChannelState ()
          sampleSmallInitial (fun x hx => by simp [sampleChannelState] at hx)
          sampleSmallInitial_eq))) sampleDrainEngaged_eq

set_option maxRecDepth 100000 in
theorem Controller.waiting_requests_have_pending_entries_witness :
    (sampleDrainEngaged.write_buffer_.map (fun t => (t.addr, t.is_write)) = [(512, true)] ∧
      sampleDrainEngaged.cmd_queue_.queues_.map
          (fun q => q.map (fun e => (e.cmd_type, e.hex_addr))) =
        [[(CommandType.WRITE, 0)], [], [], [], [], [], [], []] ∧
      sampleDrainEngaged.pending_wr_q_.map Prod.fst = [0, 512]) ∧
    (∀ t ∈ sampleDrainEngaged.unified_queue_ ++ sampleDrainEngaged.read_queue_ ++
        sampleDrainEngaged.write_buffer_,
      (t.is_write = false → 1 ≤ mmCount sampleDrainEngaged.pending_rd_q_ t.addr) ∧
      (t.is_write = true → 1 ≤ mmCount sampleDrainEngaged.pending_wr_q_ t.addr)) ∧
    (∀ q ∈ sampleDrainEngaged.cmd_queue_.queues_, ∀ e ∈ q,
      (e.IsRead = true → 1 ≤ mmCount sampleDrainEngaged.pending_rd_q_ e.hex_addr) ∧
      (e.IsWrite = true → 1 ≤ mmCount sampleDrainEngaged.pending_wr_q_ e.hex_addr)) :=
  ⟨by refine ⟨?_, ?_, ?_⟩ <;> rfl,
    (Controller.waiting_requests_have_pending_entries sampleCollaborators
      sampleCollaborators_orderly sampleDrainEngaged sampleDrainEngaged_orderly).1,
    (Controller.waiting_requests_have_pending_entries sampleCollaborators
      sampleCollaborators_orderly sampleDrainEngaged sampleDrainEngaged_orderly).2.1⟩

/-! ## Theorems: the round-robin on queues that hold commands -/

set_option maxRecDepth 100000 in
theorem sampleTwoQueuesIssued_eq :
    sampleTwoQueues.GetCommandToIssue sampleCollaborators sampleConfig
      sampleController.channel_state_ = some sampleTwoQueuesIssued := rfl

set_option maxRecDepth 100000 in
/-- Witness for C27: the command queue holds a READ of 4096 in queue 0 (a row
hit, ready) and a READ of 64 in queue 4 (its bank is closed), and the cursor
is at queue 0 of 8.  The cyclic order is 1, 2, ..., 7, 0; queues 1 to 3 are
empty, so `GetCommandToIssue` returns the ACTIVATE that queue 4 yields, before
the ready READ of queue 0 is looked at, and leaves the cursor at 4. -/
theorem CommandQueue.GetCommandToIssue_is_round_robin_witness :
    (0 ≤ sampleTwoQueues.queue_idx_ ∧ sampleTwoQueues.queue_idx_ < sampleTwoQueues.num_queues_) ∧
    sampleTwoQueues.queues_.map (fun q => q.map (fun e => (e.cmd_type, e.hex_addr))) =
      [[(CommandType.READ, 4096)], [], [], [], [(CommandType.READ, 64)], [], [], []] ∧
    sampleTwoQueues.queue_idx_ = 0 ∧
    CommandQueue.cyclicOrder sampleTwoQueues.queue_idx_ sampleTwoQueues.num_queues_ 8 =
      [1, 2, 3, 4, 5, 6, 7, 0] ∧
    sampleTwoQueues.GetCommandToIssue sampleCollaborators sampleConfig
      sampleController.channel_state_ = some sampleTwoQueuesIssued ∧
    sampleTwoQueuesIssued.1 = ⟨CommandType.ACTIVATE, sampleConfig.AddressMapping 64, 64⟩ ∧
    sampleTwoQueuesIssued.2.1.queue_idx_ = 4 ∧
    (0 ≤ sampleTwoQueuesIssued.2.1.queue_idx_ ∧
      sampleTwoQueuesIssued.2.1.queue_idx_ < sampleTwoQueuesIssued.2.1.num_queues_ ∧
      (sampleTwoQueuesIssued.1.IsValid = true →
        CommandQueue.firstReadyAmong sampleCollaborators sampleTwoQueues
          (CommandQueue.cyclicOrder sampleTwoQueues.queue_idx_ sampleTwoQueues.num_queues_
            sampleTwoQueues.num_queues_.toNat) sampleController.channel_state_ =
          some (some (sampleTwoQueuesIssued.2.1.queue_idx_, sampleTwoQueuesIssued.1),
            sampleTwoQueuesIssued.2.2)) ∧
      (sampleTwoQueuesIssued.1.IsValid = false →
        sampleTwoQueuesIssued.2.1.queue_idx_ = sampleTwoQueues.queue_idx_)) ∧
    sampleTwoQueuesIssued.1.IsValid = true :=
  ⟨by decide, rfl, rfl, by decide, sampleTwoQueuesIssued_eq, rfl, rfl,
    (CommandQueue.GetCommandToIssue_is_round_robin sampleCollaborators sampleConfig
      sampleTwoQueues sampleController.channel_state_ (by decide)).2.1
        sampleTwoQueuesIssued.1 sampleTwoQueuesIssued.2.1 sampleTwoQueuesIssued.2.2
        sampleTwoQueuesIssued_eq,
    rfl⟩

/-! ## Theorems: the order of the callbacks of one cycle -/

theorem JedecDRAMSystem.run_reachable {ρ : Type} (env : Collaborators ρ) :
    ∀ (calls : List HostCall) (s s1 : JedecDRAMSystem ρ)
      (log : List (Nat × List (List CallbackEvent))),
      JedecDRAMSystem.Reachable env s → JedecDRAMSystem.run env calls s = some (log, s1) →
      JedecDRAMSystem.Reachable env s1 := by
  intro calls
  induction calls with
  | nil =>
    intro s s1 log hr h
    simp only [JedecDRAMSystem.run, Option.some.injEq, Prod.mk.injEq] at h
    obtain ⟨_, rfl⟩ := h
    exact hr
  | cons call rest ih =>
    intro s s1 log hr h
    cases call with
    | add hex_addr is_write =>
      simp only [JedecDRAMSystem.run] at h
      split at h
      · simp at h
      · rename_i ok s2 ha
        exact ih s2 s1 log (JedecDRAMSystem.Reachable.addTransaction s s2 hex_addr is_write ok
          hr ha) h
    | tick =>
      simp only [JedecDRAMSystem.run] at h
      split at h
      · simp at h
      · rename_i events s2 ht
        split at h
        · simp at h
        · rename_i log2 s3 hrun
          simp only [Option.some.injEq, Prod.mk.injEq] at h
          obtain ⟨_, rfl⟩ := h
          exact ih s2 s3 log2 (JedecDRAMSystem.Reachable.clockTick s s2 events hr ht) hrun

set_option maxRecDepth 1000000 in
theorem sampleDueSystem_eq :
    (JedecDRAMSystem.run sampleCollaborators sampleDueCalls sampleSystem).map Prod.snd =
      some sampleDueSystem := rfl

set_option maxRecDepth 1000000 in
theorem sampleDueTick_eq :
    sampleDueSystem.ClockTick sampleCollaborators = some sampleDueTick := rfl

theorem sampleDueSystem_reachable :
    JedecDRAMSystem.Reachable sampleCollaborators sampleDueSystem := by
  have h := sampleDueSystem_eq
  cases hrun : JedecDRAMSystem.run sampleCollaborators sampleDueCalls sampleSystem with
  | none =>
    rw [hrun] at h
    simp at h
  | some r =>
    obtain ⟨log, s1⟩ := r
    have hreach := JedecDRAMSystem.run_reachable sampleCollaborators _ _ _ log
      (JedecDRAMSystem.Reachable.init sampleSystemConfig sampleChannelState () sampleSystem
        sampleSystem_eq) hrun
    rw [hrun] at h
    have e : s1 = sampleDueSystem := Option.some.inj h
    rw [e] at hreach
    exact hreach

/-- Claim C13: in a system reached from construction by `AddTransaction` and
`ClockTick` calls, with a `read_delay` of at least one cycle, when
`JedecDRAMSystem::ClockTick` returns the callbacks invoked for each channel in
that cycle are those of the entries of the controller's return queue with
`complete_cycle` at most `clk_`, taken in the order in which the entries stand
in the return queue, which is the order of their insertion; these entries are
in non-decreasing order of `complete_cycle` (each of them has `complete_cycle`
equal to `clk_`). -/
theorem JedecDRAMSystem.ClockTick_delivers_due_in_insertion_order {ρ : Type}
    (env : Collaborators ρ) (s s1 : JedecDRAMSystem ρ) (events : List (List CallbackEvent))
    (hr : JedecDRAMSystem.Reachable env s) (hd : 1 ≤ s.config_.read_delay)
    (h : s.ClockTick env = some (events, s1)) :
    events = s.ctrls_.map (fun c =>
        (c.return_queue_.filter (fun t => decide (t.complete_cycle ≤ s.clk_))).map
          Transaction.callback) ∧
      ∀ c ∈ s.ctrls_,
        (c.return_queue_.filter (fun t => decide (t.complete_cycle ≤ s.clk_))).Pairwise
            (fun a b => a.complete_cycle ≤ b.complete_cycle) ∧
          (c.return_queue_.filter (fun t => decide (t.complete_cycle ≤ s.clk_))).Sublist
            c.return_queue_ ∧
          ∀ t ∈ c.return_queue_, t.complete_cycle ≤ s.clk_ → t.complete_cycle = s.clk_ := by
  have hall : ∀ c ∈ s.ctrls_, ∀ t ∈ c.return_queue_, t.complete_cycle ≤ s.clk_ →
      t.complete_cycle = s.clk_ := by
    intro c hc t ht hle
    have := (JedecDRAMSystem.Reachable_inv env s hr c hc).2.2 hd t ht
    omega
  constructor
  · unfold JedecDRAMSystem.ClockTick at h
    rw [JedecDRAMSystem.drainAll_eq] at h
    dsimp only at h
    split at h
    · simp at h
    · split at h
      · simp at h
      · simp only [Option.some.injEq, Prod.mk.injEq] at h
        exact h.1.symm
  · intro c hc
    refine ⟨?_, List.filter_sublist _, hall c hc⟩
    rw [List.pairwise_iff_forall_sublist]
    intro a b hab
    have ha : a ∈ c.return_queue_.filter (fun t => decide (t.complete_cycle ≤ s.clk_)) :=
      hab.subset (by simp)
    have hb : b ∈ c.return_queue_.filter (fun t => decide (t.complete_cycle ≤ s.clk_)) :=
      hab.subset (by simp)
    obtain ⟨a1, a2⟩ := List.mem_filter.mp ha
    obtain ⟨b1, b2⟩ := List.mem_filter.mp hb
    simp only [decide_eq_true_eq] at a2 b2
    rw [hall c hc a a1 a2, hall c hc b b1 b2]

set_option maxRecDepth 1000000 in
/-- Witness for C13: the sample system (read delay 20) at cycle 22, reached by
a read of 0 at cycle 0, a write of 64 at cycle 21 and a write of 128 at cycle
22.  The return queue of its controller holds the read of 0 and the write of
64, both complete at cycle 22, and the write of 128, complete at cycle 23.
The `ClockTick` of cycle 22 invokes the read callback of 0 and then the write
callback of 64, the order in which they entered the return queue, and leaves
the write of 128. -/
theorem JedecDRAMSystem.ClockTick_delivers_due_in_insertion_order_witness :
    JedecDRAMSystem.Reachable sampleCollaborators sampleDueSystem ∧
      1 ≤ sampleDueSystem.config_.read_delay ∧
      sampleDueSystem.ClockTick sampleCollaborators = some sampleDueTick ∧
      sampleDueSystem.observe = (22, [[(0, false, 22), (64, true, 22), (128, true, 23)]]) ∧
      sampleDueTick.1 = [[CallbackEvent.read 0, CallbackEvent.write 64]] ∧
      sampleDueTick.2.observe = (23, [[(128, true, 23)]]) ∧
      (sampleDueTick.1 = sampleDueSystem.ctrls_.map (fun c =>
          (c.return_queue_.filter (fun t => decide (t.complete_cycle ≤ sampleDueSystem.clk_))).map
            Transaction.callback) ∧
        ∀ c ∈ sampleDueSystem.ctrls_,
          (c.return_queue_.filter
              (fun t => decide (t.complete_cycle ≤ sampleDueSystem.clk_))).Pairwise
              (fun a b => a.complete_cycle ≤ b.complete_cycle) ∧
            (c.return_queue_.filter
              (fun t => decide (t.complete_cycle ≤ sampleDueSystem.clk_))).Sublist
              c.return_queue_ ∧
            ∀ t ∈ c.return_queue_, t.complete_cycle ≤ sampleDueSystem.clk_ →
              t.complete_cycle = sampleDueSystem.clk_) :=
  ⟨sampleDueSystem_reachable, by decide, sampleDueTick_eq, rfl, rfl, rfl,
    JedecDRAMSystem.ClockTick_delivers_due_in_insertion_order sampleCollaborators
      sampleDueSystem sampleDueTick.2 sampleDueTick.1 sampleDueSystem_reachable (by decide)
      sampleDueTick_eq⟩

/-! ## Theorems: `WillAcceptTransaction` after an unguarded `AddTransaction` -/

/-- Counterexample for C18: the controller constructed with `trans_queue_size`
2 takes reads of 0 and 64; its read queue then holds 2 entries of capacity 2
and `WillAcceptTransaction` answers false for a read.  `AddTransaction` is
called for a read of 128 all the same: `push_back` grows the vector to
capacity 4, and with 3 entries in the read queue, more than
`trans_queue_size`, `WillAcceptTransaction` answers true for a read, because
it compares `size()` with `capacity()`. -/
theorem Controller.WillAcceptTransaction_true_beyond_trans_queue_size :
    Controller.Reachable sampleCollaborators sampleOverfullReads ∧
      sampleFullReads.WillAcceptTransaction 128 false = false ∧
      sampleOverfullReads = (sampleFullReads.AddTransaction ⟨128, 0, 0, false⟩).2 ∧
      sampleOverfullReads.is_unified_queue_ = false ∧
      sampleOverfullReads.config_.trans_queue_size = 2 ∧
      sampleOverfullReads.read_queue_.length = 3 ∧
      sampleOverfullReads.read_queue_capacity = 4 ∧
      sampleOverfullReads.WillAcceptTransaction 192 false = true ∧
      ¬ (sampleOverfullReads.WillAcceptTransaction 192 false = true ↔
        (if sampleOverfullReads.is_unified_queue_ = true then sampleOverfullReads.unified_queue_
          else if false = true then sampleOverfullReads.write_buffer_
          else sampleOverfullReads.read_queue_).length <
          sampleOverfullReads.config_.trans_queue_size) :=
  ⟨Controller.Reachable.addTransaction _ ⟨128, 0, 0, false⟩
      (Controller.Reachable.addTransaction _ ⟨64, 0, 0, false⟩
        (Controller.Reachable.addTransaction _ ⟨0, 0, 0, false⟩
          (Controller.Reachable.init 0 sampleSmallQueueConfig sampleChannelState ()
            sampleSmallInitial sampleSmallInitial_eq))),
    rfl, rfl, rfl, rfl, rfl, rfl, rfl, by decide⟩

/-! ## Theorems: data commands erased and issued in one cycle -/

set_option maxRecDepth 1000000 in
theorem sampleDualAfter_eq :
    sampleDualBefore.ClockTickTrace sampleTimedCollaborators = some sampleDualAfter := rfl

set_option maxRecDepth 1000000 in
theorem sampleSingleAfter_eq :
    sampleSingleBefore.ClockTickTrace sampleTimedCollaborators = some sampleSingleAfter := rfl

theorem sampleDualAfter_tick :
    sampleDualBefore.ClockTick sampleTimedCollaborators = some sampleDualAfter.1 := by
  rw [← Controller.ClockTickTrace_fst, sampleDualAfter_eq]
  rfl

theorem sampleSingleAfter_tick :
    sampleSingleBefore.ClockTick sampleTimedCollaborators = some sampleSingleAfter.1 := by
  rw [← Controller.ClockTickTrace_fst, sampleSingleAfter_eq]
  rfl

set_option maxRecDepth 1000000 in
/-- Witness for C17: two cycles in which commands are issued, with the
collaborators that apply a timing matrix.  With dual-command issue off the
second `ClockTick` after a read of 0 issues one command, the ACTIVATE of its
bank.  With dual-command issue on and reads of 0, 64 and 128 added at cycle 0
the fourth `ClockTick` issues two commands, the READ of 0 and the ACTIVATE for
128: one of them is of the READ/WRITE family.  In both the clock goes up by
one. -/
theorem Controller.ClockTick_issues_at_most_two_of_opposite_class_witness :
    (sampleSingleBefore.config_.enable_hbm_dual_cmd = false ∧
      sampleSingleBefore.ClockTick sampleTimedCollaborators = some sampleSingleAfter.1 ∧
      sampleSingleBefore.ClockTickTrace sampleTimedCollaborators = some sampleSingleAfter ∧
      sampleSingleAfter.2 = [⟨CommandType.ACTIVATE, sampleConfig.AddressMapping 0, 0⟩] ∧
      ∃ issued : List Command,
        sampleSingleBefore.ClockTickTrace sampleTimedCollaborators =
          some (sampleSingleAfter.1, issued) ∧
        (sampleSingleBefore.config_.enable_hbm_dual_cmd = false → issued.length ≤ 1) ∧
        issued.length ≤ 2 ∧
        (issued.length = 2 → issued.countP (fun x => x.IsReadWrite) = 1) ∧
        sampleSingleAfter.1.clk_ = sampleSingleBefore.clk_ + 1) ∧
    (sampleDualBefore.config_.enable_hbm_dual_cmd = true ∧
      sampleDualBefore.ClockTick sampleTimedCollaborators = some sampleDualAfter.1 ∧
      sampleDualBefore.ClockTickTrace sampleTimedCollaborators = some sampleDualAfter ∧
      sampleDualAfter.2 = [⟨CommandType.READ, sampleConfig.AddressMapping 0, 0⟩,
        ⟨CommandType.ACTIVATE, sampleConfig.AddressMapping 128, 128⟩] ∧
      ∃ issued : List Command,
        sampleDualBefore.ClockTickTrace sampleTimedCollaborators =
          some (sampleDualAfter.1, issued) ∧
        (sampleDualBefore.config_.enable_hbm_dual_cmd = false → issued.length ≤ 1) ∧
        issued.length ≤ 2 ∧
        (issued.length = 2 → issued.countP (fun x => x.IsReadWrite) = 1) ∧
        sampleDualAfter.1.clk_ = sampleDualBefore.clk_ + 1) :=
  ⟨⟨rfl, sampleSingleAfter_tick, sampleSingleAfter_eq, rfl,
      Controller.ClockTick_issues_at_most_two_of_opposite_class sampleTimedCollaborators
        sampleSingleBefore sampleSingleAfter.1 sampleSingleAfter_tick⟩,
    ⟨rfl, sampleDualAfter_tick, sampleDualAfter_eq, rfl,
      Controller.ClockTick_issues_at_most_two_of_opposite_class sampleTimedCollaborators
        sampleDualBefore sampleDualAfter.1 sampleDualAfter_tick⟩⟩

end dramsim3
